import Mathlib

/-!
SUNTANS semi-implicit core (`src/main/phys.c`, and the sigma-coordinate set-up of
`src/examples/lockexchange/uservertcoordinate.c`): shallow embedding.

The C type `REAL` is modelled by exact rational arithmetic, C arrays by
total functions from indices, array writes by `setAt`, and counted `for`
loops by `forLoop`.
-/

namespace Suntans

/-- The floating type `REAL` of the source, read as exact rationals. -/
abbrev REAL := ℚ

/-- Array write `a[i] = v`. -/
def setAt {α : Type} (a : Nat → α) (i : Nat) (v : α) : Nat → α :=
  fun j => if j = i then v else a j

/-- Counted loop `for(k=lo; k<lo+n; k++) s = body k s`. -/
def forLoop {σ : Type} (body : Nat → σ → σ) (lo : Nat) : Nat → σ → σ
  | 0, s => s
  | n + 1, s => body (lo + n) (forLoop body lo n s)

/-! ## Column layering: `UpdateDZ` (phys.c 1100-1241) -/

/-- The fields of `gridT`, `physT` and `propT` that `UpdateDZ` reads or writes. -/
structure DZState where
  Nc : Nat
  Ne : Nat
  Nkmax : Nat
  Nk : Nat → Nat
  Nke : Nat → Nat
  dz : Nat → REAL
  dv : Nat → REAL
  grad : Nat → Int
  h : Nat → REAL
  dzz : Nat → Nat → REAL
  dzzold : Nat → Nat → REAL
  ctop : Nat → Nat
  ctopold : Nat → Nat
  etop : Nat → Nat
  etopold : Nat → Nat
  dzbot : Nat → REAL
  dzfB : Nat → REAL
  stairstep : Bool
  fixdzz : Bool
  dzsmall : REAL
  linearFS : Bool

/-- Locals `z`, `flag` of the layering loop together with row `dzz[i]` and `ctop[i]`. -/
structure ColState where
  z : REAL
  flag : Bool
  dzz : Nat → REAL
  ctop : Nat

/-- Body of the inner loop over `k` at lines 1145-1178 for one column
with `Nk[i] = Nk`, `dv[i] = dv`, `h[i] = h`. -/
def layerStep (Nk : Nat) (dz : Nat → REAL) (dv h : REAL) (k : Nat) (s : ColState) : ColState :=
  let z := s.z - dz k
  if h ≥ z then
    if s.flag = false then
      if k = Nk - 1 then
        { z := z, flag := true, dzz := setAt s.dzz k (h + dv), ctop := k }
      else if h = z then
        { z := z, flag := true, dzz := setAt s.dzz k 0, ctop := k + 1 }
      else
        { z := z, flag := true, dzz := setAt s.dzz k (h - z), ctop := k }
    else
      if k = Nk - 1 then
        { z := z, flag := s.flag, dzz := setAt s.dzz k (dz k + dv + z), ctop := s.ctop }
      else if z < -dv then
        { z := z, flag := s.flag, dzz := setAt s.dzz k 0, ctop := s.ctop }
      else
        { z := z, flag := s.flag, dzz := setAt s.dzz k (dz k), ctop := s.ctop }
  else
    if s.flag = false ∧ k = Nk - 1 then
      { z := z, flag := s.flag, dzz := setAt s.dzz k (dv + h), ctop := k }
    else
      { z := z, flag := s.flag, dzz := setAt s.dzz k 0, ctop := s.ctop }

/-- The inner loop of lines 1143-1178 run on column data: `z = 0; flag = 0;`
then `layerStep` for `k = 0 .. Nk-1`. -/
def layerColumn (Nk : Nat) (dz : Nat → REAL) (dv h : REAL) (row : Nat → REAL) (ctop : Nat) :
    ColState :=
  forLoop (layerStep Nk dz dv h) 0 Nk { z := 0, flag := false, dzz := row, ctop := ctop }

/-- Lines 1113-1123: snapshot of the old layering when `option == 0`. -/
def snapshotOld (g : DZState) : DZState :=
  let g1 := forLoop (fun j (s : DZState) => { s with etopold := setAt s.etopold j (s.etop j) })
    0 g.Ne g
  forLoop (fun i (s : DZState) =>
      let s1 := { s with ctopold := setAt s.ctopold i (s.ctop i) }
      let s2 := forLoop (fun k (t : DZState) =>
          { t with dzzold := setAt t.dzzold i (setAt (t.dzzold i) k 0) }) 0 (s1.ctop i) s1
      forLoop (fun k (t : DZState) =>
          { t with dzzold := setAt t.dzzold i (setAt (t.dzzold i) k (t.dzz i k)) })
        (s2.ctop i) (s2.Nk i - s2.ctop i) s2)
    0 g.Nc g1

/-- Lines 1132-1137: thickness of the bottom layer from the bathymetry. -/
def bottomLayer (g : DZState) : DZState :=
  forLoop (fun i (s : DZState) =>
      let z := forLoop (fun k (z : REAL) => z - s.dz k) 0 (s.Nk i) 0
      let bot := s.dz (s.Nk i - 1) + s.dv i + z
      { s with dzz := setAt s.dzz i (setAt (s.dzz i) (s.Nk i - 1) bot) })
    0 g.Nc g

/-- Lines 1141-1182: thicknesses and `ctop` where the free surface cuts the column. -/
def cutLayers (g : DZState) : DZState :=
  if g.Nkmax > 1 then
    forLoop (fun i (s : DZState) =>
        let c := layerColumn (s.Nk i) s.dz (s.dv i) (s.h i) (s.dzz i) (s.ctop i)
        { s with dzz := setAt s.dzz i c.dzz, ctop := setAt s.ctop i c.ctop })
      0 g.Nc g
  else
    forLoop (fun i (s : DZState) =>
        { s with dzz := setAt s.dzz i (setAt (s.dzz i) 0 (s.dv i + s.h i)) })
      0 g.Nc g

/-- The value stored in `etop[j]` by the body of the loop at lines 1185-1196. -/
def edgeTop (ctop : Nat → Nat) (grad : Nat → Int) (j : Nat) : Nat :=
  let ne1 := grad (2 * j)
  let ne2 := grad (2 * j + 1)
  if ne1 = -1 then ctop ne2.toNat
  else if ne2 = -1 then ctop ne1.toNat
  else if ctop ne1.toNat < ctop ne2.toNat then ctop ne1.toNat
  else ctop ne2.toNat

/-- Body of the loop at lines 1185-1196 that sets `etop[j]`. -/
def etopStep (j : Nat) (s : DZState) : DZState :=
  { s with etop := setAt s.etop j (edgeTop s.ctop s.grad j) }

/-- Lines 1185-1196. -/
def setEtop (g : DZState) : DZState :=
  forLoop etopStep 0 g.Ne g

/-- Lines 1201-1212: `option == -1`, bottom flux-face height and minimum thickness. -/
def fixBottom (g : DZState) : DZState :=
  forLoop (fun i (s : DZState) =>
      let k := s.Nk i - 1
      let s1 := { s with dzbot := setAt s.dzbot i (s.dzz i k) }
      if s1.stairstep = false ∧ s1.fixdzz = true then
        if s1.dzz i k < s1.dz k * s1.dzsmall then
          let s2 := { s1 with dv := setAt s1.dv i (s1.dv i + (s1.dz k * s1.dzsmall - s1.dzz i k)) }
          { s2 with dzz := setAt s2.dzz i (setAt (s2.dzz i) k (s2.dz k * s2.dzsmall)) }
        else s1
      else s1)
    0 g.Nc g

/-- Lines 1214-1240: `option == 1`, first call: old values and `dzfB`. -/
def firstCall (g : DZState) : DZState :=
  let g1 := forLoop (fun j (s : DZState) => { s with etopold := setAt s.etopold j (s.etop j) })
    0 g.Ne g
  let g2 := forLoop (fun i (s : DZState) =>
      let s1 := { s with ctopold := setAt s.ctopold i (s.ctop i) }
      forLoop (fun k (t : DZState) =>
          { t with dzzold := setAt t.dzzold i (setAt (t.dzzold i) k (t.dzz i k)) })
        0 (s1.Nk i) s1)
    0 g1.Nc g1
  forLoop (fun j (s : DZState) =>
      let nc1 := if s.grad (2 * j) = -1 then s.grad (2 * j + 1) else s.grad (2 * j)
      let nc2 := if s.grad (2 * j + 1) = -1 then nc1 else s.grad (2 * j + 1)
      let dzz1 := s.dzz nc1.toNat (s.Nk nc1.toNat - 1)
      let dzz2 := s.dzz nc2.toNat (s.Nk nc2.toNat - 1)
      let z := forLoop (fun k (z : REAL) => z - s.dz k) 0 (s.Nke j - 1) 0
      let dzz1 := if s.h nc1.toNat < z then dzz1 - z + s.h nc1.toNat else dzz1
      let dzz2 := if s.h nc2.toNat < z then dzz2 - z + s.h nc2.toNat else dzz2
      { s with dzfB := setAt s.dzfB j (min dzz1 dzz2) })
    0 g2.Ne g2

/-- The function `UpdateDZ(grid,phys,prop,option)`. -/
def UpdateDZ (g : DZState) (option : Int) : DZState :=
  if g.linearFS then g
  else
    let g1 := if option = 0 then snapshotOld g else g
    let g2 := if option = -1 then
        forLoop (fun i (s : DZState) => { s with h := setAt s.h i 0 }) 0 g1.Nc g1
      else g1
    let g3 := setEtop (cutLayers (bottomLayer g2))
    let g4 := if option = -1 then fixBottom g3 else g3
    if option = 1 then firstCall g4 else g4

/-! ## Predicates used to state the layering results -/

/-- Depth of the nominal interface below the first `m` layers: `dz[0]+...+dz[m-1]`. -/
def depthTo (dz : Nat → REAL) (m : Nat) : REAL := ∑ j in Finset.range m, dz j

/-- State of the layering loop of one column after the layers `0 .. m-1`. -/
structure LayerInv (dz : Nat → REAL) (h : REAL) (row : Nat → REAL) (ctop0 : Nat)
    (m : Nat) (s : ColState) : Prop where
  z_eq : s.z = - depthTo dz m
  frame : ∀ k, m ≤ k → s.dzz k = row k
  dry : s.flag = false →
    (∀ k, k < m → h < - depthTo dz (k + 1)) ∧ (∀ k, k < m → s.dzz k = 0) ∧ s.ctop = ctop0
  wet : s.flag = true →
    s.ctop ≤ m ∧ (∀ k, k < s.ctop → s.dzz k = 0 ∧ h ≤ - depthTo dz (k + 1)) ∧
    - depthTo dz (s.ctop + 1) < h ∧
    (s.ctop < m → s.dzz s.ctop = h + depthTo dz (s.ctop + 1)) ∧
    (∀ k, s.ctop < k → k < m → s.dzz k = dz k) ∧
    (s.ctop = m → h = - depthTo dz m)
  psum_dry : s.flag = false → ∑ k in Finset.range m, s.dzz k = 0
  psum_wet : s.flag = true → ∑ k in Finset.range m, s.dzz k = h + depthTo dz m

/-- What the layering loop leaves in one column with `Nk` layers. -/
structure ColumnSpec (Nk : Nat) (dz : Nat → REAL) (dv h : REAL) (row : Nat → REAL)
    (c : ColState) : Prop where
  ctop_le : c.ctop ≤ Nk - 1
  above : ∀ k, k < c.ctop → c.dzz k = 0 ∧ h ≤ - depthTo dz (k + 1)
  cross : c.ctop < Nk - 1 → - depthTo dz (c.ctop + 1) < h
  top : c.ctop < Nk - 1 → c.dzz c.ctop = h + depthTo dz (c.ctop + 1)
  mid : ∀ k, c.ctop < k → k < Nk - 1 → c.dzz k = dz k
  bot : c.ctop < Nk - 1 → c.dzz (Nk - 1) = dv - depthTo dz (Nk - 1)
  botdry : c.ctop = Nk - 1 → c.dzz (Nk - 1) = h + dv
  total : ∑ k in Finset.range Nk, c.dzz k = dv + h
  frame : ∀ k, Nk ≤ k → c.dzz k = row k

/-- The inputs of the layering that no stage of `UpdateDZ` changes when `option` is 0 or 1. -/
def SameInputs (g t : DZState) : Prop :=
  t.Nc = g.Nc ∧ t.Ne = g.Ne ∧ t.Nkmax = g.Nkmax ∧ t.Nk = g.Nk ∧ t.Nke = g.Nke ∧
  t.dz = g.dz ∧ t.dv = g.dv ∧ t.grad = g.grad ∧ t.h = g.h

/-- Unchanged inputs and unchanged current layering `dzz`, `ctop`, `etop`. -/
def SameLayering (g t : DZState) : Prop :=
  SameInputs g t ∧ t.dzz = g.dzz ∧ t.ctop = g.ctop ∧ t.etop = g.etop

/-- A two-cell, three-edge grid with two layers: edge 0 joins cells 0 and 1, edges 1 and 2
are boundary edges of cell 0 and cell 1. -/
def exampleGrid : DZState where
  Nc := 2
  Ne := 3
  Nkmax := 2
  Nk := fun _ => 2
  Nke := fun _ => 2
  dz := fun _ => 1
  dv := fun i => if i = 0 then 3 / 2 else 2
  grad := fun n => if n = 0 then 0 else if n = 1 then 1 else if n = 2 then 0
    else if n = 3 then -1 else if n = 4 then -1 else 1
  h := fun i => if i = 0 then -1 / 2 else -5 / 4
  dzz := fun _ _ => 1
  dzzold := fun _ _ => 1
  ctop := fun _ => 0
  ctopold := fun _ => 0
  etop := fun _ => 0
  etopold := fun _ => 0
  dzbot := fun _ => 0
  dzfB := fun _ => 0
  stairstep := false
  fixdzz := false
  dzsmall := 0
  linearFS := false

/-! ## Dry-cell clipping (phys.c 608-615 and 4374-4406) -/

/-- The data read and written by the clipping loop at the end of the free-surface update in
`UPredictor`. `DRYCELLHEIGHT` is a macro of `suntans.h` and enters as a field. -/
structure ClipState where
  Nc : Nat
  maxfaces : Nat
  nfaces : Nat → Nat
  face : Nat → Nat
  etop : Nat → Nat
  Nke : Nat → Nat
  dzf : Nat → Nat → REAL
  dv : Nat → REAL
  DRYCELLHEIGHT : REAL
  subgrid : Bool
  wetdry : Bool
  h : Nat → REAL
  h_old : Nat → REAL
  hcorr : Nat → REAL
  active : Nat → Int

/-- Body of the loop over cells at lines 4374-4406. -/
def clipStep (i : Nat) (s : ClipState) : ClipState :=
  let s1 :=
    if s.subgrid = true ∧ s.wetdry = true then
      let flag := forLoop (fun nf (flag : Bool) =>
          let ne := s.face (i * s.maxfaces + nf)
          if s.etop ne < s.Nke ne - 1 ∨ s.dzf ne (s.Nke ne - 1) > 0 then true else flag)
        0 (s.nfaces i) false
      if flag = false then { s with h := setAt s.h i (s.h_old i) } else s
    else s
  if s1.h i ≤ -s1.dv i + s1.DRYCELLHEIGHT then
    { s1 with
      hcorr := setAt s1.hcorr i (-s1.dv i + s1.DRYCELLHEIGHT - s1.h i)
      h := setAt s1.h i (-s1.dv i + s1.DRYCELLHEIGHT)
      active := setAt s1.active i 0 }
  else
    { s1 with hcorr := setAt s1.hcorr i 0, active := setAt s1.active i 1 }

/-- The loop `for(i=0;i<grid->Nc;i++)` at lines 4374-4406 of `UPredictor`. -/
def clipDryCells (s : ClipState) : ClipState :=
  forLoop clipStep 0 s.Nc s

/-- The initial free surface of `InitializePhysicalVariables`, lines 608-615, where
`surface i` stands for `ReturnFreeSurface(xv[i],yv[i],dv[i])`; returns `h` and `active`. -/
def initFreeSurface (Nc : Nat) (dv : Nat → REAL) (DRYCELLHEIGHT : REAL) (surface : Nat → REAL)
    (h : Nat → REAL) (active : Nat → Int) : (Nat → REAL) × (Nat → Int) :=
  forLoop (fun i (s : (Nat → REAL) × (Nat → Int)) =>
      let h1 := setAt s.1 i (surface i)
      if h1 i < -dv i + DRYCELLHEIGHT then
        (setAt h1 i (-dv i + DRYCELLHEIGHT), setAt s.2 i 0)
      else (h1, s.2))
    0 Nc (h, active)

/-- Three cells over a bed of depth 1 with elevations above, at and below the dry threshold. -/
def exampleClip : ClipState where
  Nc := 3
  maxfaces := 3
  nfaces := fun _ => 3
  face := fun n => n
  etop := fun _ => 0
  Nke := fun _ => 1
  dzf := fun _ _ => 0
  dv := fun _ => 1
  DRYCELLHEIGHT := 1 / 1000
  subgrid := false
  wetdry := true
  h := fun i => if i = 0 then 1 / 2 else if i = 1 then -999 / 1000 else -2
  h_old := fun _ => 0
  hcorr := fun _ => 0
  active := fun _ => 1

/-! ## Mesh, state and run parameters of the free-surface solve and of continuity -/

/-- Counted loop running downwards: `for(k=hi-1; k>=hi-n; k--) s = body k s`. -/
def forLoopDown {σ : Type} (body : Nat → σ → σ) (hi : Nat) : Nat → σ → σ
  | 0, s => s
  | n + 1, s => body (hi - (n + 1)) (forLoopDown body hi n s)

/-- The fields of `gridT` read by `Continuity`, by the right-hand side of the free-surface
equation in `UPredictor`, and by `CGSolve` and its operators. `normal` holds the integers
-1 and 1 in the source and is read in `REAL` arithmetic. -/
structure Grid where
  Nc : Nat
  Ne : Nat
  maxfaces : Nat
  celldist : Nat → Nat
  cellp : Nat → Nat
  nfaces : Nat → Nat
  face : Nat → Nat
  neigh : Nat → Int
  normal : Nat → REAL
  grad : Nat → Int
  Ac : Nat → REAL
  df : Nat → REAL
  dg : Nat → REAL
  dv : Nat → REAL
  Nk : Nat → Nat
  ctop : Nat → Nat
  Nke : Nat → Nat
  etop : Nat → Nat
  dzf : Nat → Nat → REAL

/-- The fields of `propT` read by the modelled routines. -/
structure Props where
  dt : REAL
  grav : REAL
  theta : REAL
  imfac1 : REAL
  imfac2 : REAL
  imfac3 : REAL
  epsilon : REAL
  maxiters : Nat
  hprecond : Int
  resnorm : Int

/-- The fields of `physT` read or written by the modelled routines. -/
structure Phys where
  h : Nat → REAL
  h_old : Nat → REAL
  dhdt : Nat → REAL
  htmp : Nat → REAL
  hold : Nat → REAL
  htmp2 : Nat → REAL
  htmp3 : Nat → REAL
  hcoef : Nat → REAL
  hfcoef : Nat → REAL
  D : Nat → REAL
  u : Nat → Nat → REAL
  utmp : Nat → Nat → REAL
  u_old : Nat → Nat → REAL
  u_old2 : Nat → Nat → REAL
  w_old : Nat → Nat → REAL
  w_old2 : Nat → Nat → REAL
  w_im : Nat → Nat → REAL

/-! ## `Continuity` (phys.c 5312-5369), subgrid off -/

/-- The amount subtracted from `w[i][k]` for face `nf` at lines 5352-5353. -/
def faceFluxTerm (g : Grid) (pr : Props) (ph : Phys) (i k nf : Nat) : REAL :=
  let ne := g.face (i * g.maxfaces + nf)
  (pr.imfac1 * ph.u ne k + pr.imfac2 * ph.u_old ne k + pr.imfac3 * ph.u_old2 ne k) *
    g.df ne * g.normal (i * g.maxfaces + nf) / g.Ac i / pr.imfac1 * g.dzf ne k

/-- Body of the downward loop over `k` at lines 5333-5355 acting on the row `w[i]`. -/
def contLayer (g : Grid) (pr : Props) (ph : Phys) (i k : Nat) (row : Nat → REAL) : Nat → REAL :=
  let row1 := setAt row k
    (row (k + 1) - pr.imfac2 / pr.imfac1 * (ph.w_old i k - ph.w_old i (k + 1))
      - pr.imfac3 / pr.imfac1 * (ph.w_old2 i k - ph.w_old2 i (k + 1)))
  forLoop (fun nf (r : Nat → REAL) =>
      if k < g.Nke (g.face (i * g.maxfaces + nf)) then
        setAt r k (r k - faceFluxTerm g pr ph i k nf)
      else r)
    0 (g.nfaces i) row1

/-- Body of the loop over computational cells at lines 5322-5356 for the cell `i`. -/
def contColumn (g : Grid) (pr : Props) (ph : Phys) (i : Nat) (w : Nat → Nat → REAL) :
    Nat → Nat → REAL :=
  let row0 := forLoop (fun k (r : Nat → REAL) => setAt r k 0) 0 (g.Nk i + 1) (w i)
  let row1 := setAt row0 (g.Nk i) 0
  setAt w i (forLoopDown (contLayer g pr ph i) (g.Nk i) (g.Nk i - g.ctop i) row1)

/-- The function `Continuity(w,grid,phys,prop)` with subgrid off: returns the new `w` and
`phys` with `w_im` updated. -/
def Continuity (g : Grid) (pr : Props) (ph : Phys) (w : Nat → Nat → REAL) :
    (Nat → Nat → REAL) × Phys :=
  let w1 := forLoop (fun iptr (w : Nat → Nat → REAL) => contColumn g pr ph (g.cellp iptr) w)
    (g.celldist 0) (g.celldist 1 - g.celldist 0) w
  let wim := forLoop (fun i (wim : Nat → Nat → REAL) =>
      let r := forLoop (fun k (r : Nat → REAL) =>
          setAt r k (pr.imfac2 * ph.w_old i k + pr.imfac3 * ph.w_old2 i k
            + pr.imfac1 * w1 i k))
        0 (g.Nk i) (wim i)
      setAt wim i (setAt r (g.Nk i) 0))
    0 g.Nc ph.w_im
  (w1, { ph with w_im := wim })

/-- The recurrence that the downward loop establishes in the row `w[i]`. -/
def ContRel (g : Grid) (pr : Props) (ph : Phys) (i : Nat) (row : Nat → REAL) : Prop :=
  ∀ k, g.ctop i ≤ k → k < g.Nk i →
    row k = row (k + 1) - pr.imfac2 / pr.imfac1 * (ph.w_old i k - ph.w_old i (k + 1))
      - pr.imfac3 / pr.imfac1 * (ph.w_old2 i k - ph.w_old2 i (k + 1))
      - ∑ nf in Finset.range (g.nfaces i),
          if k < g.Nke (g.face (i * g.maxfaces + nf)) then faceFluxTerm g pr ph i k nf else 0

/-- The discrete divergence of claim C3 at layer `k` of column `i` for a row `wi = w[i]`:
`Ac[i]*(fac1*(w[k]-w[k+1]) + fac2*(w_old[k]-w_old[k+1]) + fac3*(w_old2[k]-w_old2[k+1]))`
plus the sum over the faces with `k < Nke[ne]` of
`(fac1*u+fac2*u_old+fac3*u_old2)[ne][k]*df[ne]*normal[i,nf]*dzf[ne][k]`. -/
def layerDivergence (g : Grid) (pr : Props) (ph : Phys) (wi : Nat → REAL) (i k : Nat) : REAL :=
  g.Ac i *
      (pr.imfac1 * (wi k - wi (k + 1))
        + pr.imfac2 * (ph.w_old i k - ph.w_old i (k + 1))
        + pr.imfac3 * (ph.w_old2 i k - ph.w_old2 i (k + 1)))
    + ∑ nf in Finset.range (g.nfaces i),
        (if k < g.Nke (g.face (i * g.maxfaces + nf)) then
          (pr.imfac1 * ph.u (g.face (i * g.maxfaces + nf)) k
            + pr.imfac2 * ph.u_old (g.face (i * g.maxfaces + nf)) k
            + pr.imfac3 * ph.u_old2 (g.face (i * g.maxfaces + nf)) k)
          * g.df (g.face (i * g.maxfaces + nf))
          * g.normal (i * g.maxfaces + nf)
          * g.dzf (g.face (i * g.maxfaces + nf)) k
        else 0)

/-- Two triangular cells sharing edge 0; edges 1, 2 close cell 0 and edges 3, 4 close
cell 1. Two layers everywhere. -/
def exampleMesh : Grid where
  Nc := 2
  Ne := 5
  maxfaces := 3
  celldist := fun n => if n = 0 then 0 else 2
  cellp := fun n => n
  nfaces := fun _ => 3
  face := fun n => [0, 1, 2, 0, 3, 4].getD n 0
  neigh := fun n => [1, -1, -1, 0, -1, -1].getD n (-1)
  normal := fun n => [1, 1, 1, -1, 1, 1].getD n 0
  grad := fun n => [0, 1, 0, -1, 0, -1, 1, -1, 1, -1].getD n (-1)
  Ac := fun _ => 2
  df := fun _ => 1
  dg := fun _ => 1
  dv := fun _ => 2
  Nk := fun _ => 2
  ctop := fun _ => 0
  Nke := fun _ => 2
  etop := fun _ => 0
  dzf := fun _ _ => 1

/-- Run parameters with the blending weights 3/4, 0, 1/4. -/
def exampleProps : Props where
  dt := 1
  grav := 1
  theta := 1 / 2
  imfac1 := 3 / 4
  imfac2 := 0
  imfac3 := 1 / 4
  epsilon := 1 / 100
  maxiters := 10
  hprecond := 0
  resnorm := 1

/-- A state with flow through the interior edge 0 only. -/
def examplePhys : Phys where
  h := fun i => if i = 0 then 1 else 0
  h_old := fun _ => 0
  dhdt := fun _ => 0
  htmp := fun _ => 0
  hold := fun _ => 0
  htmp2 := fun _ => 0
  htmp3 := fun _ => 0
  hcoef := fun _ => 0
  hfcoef := fun _ => 0
  D := fun j => if j = 0 then 2 else 0
  u := fun j _ => if j = 0 then 1 else 0
  utmp := fun j _ => if j = 0 then 1 / 2 else 0
  u_old := fun j _ => if j = 0 then 1 else 0
  u_old2 := fun j _ => if j = 0 then 2 else 0
  w_old := fun _ _ => 0
  w_old2 := fun _ _ => 0
  w_im := fun _ _ => 0

/-! ## `HCoefficients` and `OperatorH` (phys.c 4732-4767, 4832-4846), subgrid off -/

/-- The arrays written by `HCoefficients`, `coef`, `fcoef` and `phys->htmp`, and its local
variable `check`. -/
structure HCoefState where
  coef : Nat → REAL
  fcoef : Nat → REAL
  htmp : Nat → REAL
  check : Bool

/-- Body of the loop over faces at lines 4749-4757, with `tmp = grav*(fac*dt)^2`. -/
def hcoefFace (g : Grid) (tmp : REAL) (D : Nat → REAL) (i nf : Nat) (s : HCoefState) :
    HCoefState :=
  if g.neigh (i * g.maxfaces + nf) ≠ -1 then
    let ne := g.face (i * g.maxfaces + nf)
    let fc := setAt s.fcoef (i * g.maxfaces + nf) (tmp * D ne * g.df ne / g.dg ne)
    { coef := setAt s.coef i (s.coef i + fc (i * g.maxfaces + nf))
      fcoef := fc
      htmp := s.htmp
      check := if fc (i * g.maxfaces + nf) > 0 then false else s.check }
  else s

/-- Body of the loop over computational cells at lines 4741-4765 for the cell `i`. -/
def hcoefCell (g : Grid) (tmp : REAL) (D h : Nat → REAL) (i : Nat) (s : HCoefState) :
    HCoefState :=
  let s0 : HCoefState :=
    { coef := setAt s.coef i (g.Ac i), fcoef := s.fcoef, htmp := s.htmp, check := true }
  let s1 := forLoop (hcoefFace g tmp D i) 0 (g.nfaces i) s0
  if s1.check = true then
    { coef := setAt s1.coef i 1, fcoef := s1.fcoef, htmp := setAt s1.htmp i (h i),
      check := s1.check }
  else s1

/-- The function `HCoefficients(coef,fcoef,grid,phys,prop)` with subgrid off; `D` and `h`
are `phys->D` and `phys->h`. -/
def HCoefficients (g : Grid) (pr : Props) (D h : Nat → REAL) (s : HCoefState) : HCoefState :=
  let tmp := pr.grav * (pr.imfac1 * pr.dt) ^ 2
  forLoop (fun iptr (s : HCoefState) => hcoefCell g tmp D h (g.cellp iptr) s)
    (g.celldist 0) (g.celldist 1 - g.celldist 0) s

/-- The function `OperatorH(x,y,coef,fcoef,grid,phys,prop)`: returns the array `y`. -/
def OperatorH (g : Grid) (x y coef fcoef : Nat → REAL) : Nat → REAL :=
  forLoop (fun iptr (y : Nat → REAL) =>
      let i := g.cellp iptr
      let y1 := setAt y i (coef i * x i)
      forLoop (fun nf (y : Nat → REAL) =>
          if g.neigh (i * g.maxfaces + nf) ≠ -1 then
            setAt y i (y i - fcoef (i * g.maxfaces + nf) * x (g.neigh (i * g.maxfaces + nf)).toNat)
          else y)
        0 (g.nfaces i) y1)
    (g.celldist 0) (g.celldist 1 - g.celldist 0) y

/-- The face coefficient `grav*(imfac1*dt)^2*D[ne]*df[ne]/dg[ne]` of face `nf` of cell `i`. -/
def faceCoef (g : Grid) (pr : Props) (D : Nat → REAL) (i nf : Nat) : REAL :=
  pr.grav * (pr.imfac1 * pr.dt) ^ 2 * D (g.face (i * g.maxfaces + nf))
    * g.df (g.face (i * g.maxfaces + nf)) / g.dg (g.face (i * g.maxfaces + nf))

/-- Cell `i` has a neighbouring face with a positive coefficient, so the `check` branch of
`HCoefficients` is not taken for it. -/
def Coupled (g : Grid) (pr : Props) (D : Nat → REAL) (i : Nat) : Prop :=
  ∃ nf, nf < g.nfaces i ∧ g.neigh (i * g.maxfaces + nf) ≠ -1 ∧ faceCoef g pr D i nf > 0

/-- What `HCoefficients` leaves for a computational cell `c`. -/
def CellCoefs (g : Grid) (pr : Props) (D h : Nat → REAL) (c : Nat) (s : HCoefState) : Prop :=
  (Coupled g pr D c →
    s.coef c = g.Ac c + ∑ nf in Finset.range (g.nfaces c),
      (if g.neigh (c * g.maxfaces + nf) ≠ -1 then faceCoef g pr D c nf else 0)) ∧
  (¬ Coupled g pr D c → s.coef c = 1 ∧ s.htmp c = h c) ∧
  (∀ nf, nf < g.nfaces c → g.neigh (c * g.maxfaces + nf) ≠ -1 →
    s.fcoef (c * g.maxfaces + nf) = faceCoef g pr D c nf)

/-- The stencil of claim C5 at cell `i`: `Ac[i]*x[i]` plus the sum over the faces with
`neigh != -1` of `grav*(imfac1*dt)^2*D[ne]*df[ne]/dg[ne]*(x[i]-x[neigh])`. -/
def operatorStencil (g : Grid) (pr : Props) (D x : Nat → REAL) (i : Nat) : REAL :=
  g.Ac i * x i
    + ∑ nf in Finset.range (g.nfaces i),
        (if g.neigh (i * g.maxfaces + nf) ≠ -1 then
          faceCoef g pr D i nf * (x i - x (g.neigh (i * g.maxfaces + nf)).toNat)
        else 0)

/-- Coefficient arrays before the first call of `HCoefficients`. -/
def zeroCoefs : HCoefState where
  coef := fun _ => 0
  fcoef := fun _ => 0
  htmp := fun _ => 0
  check := false

/-! ## Right-hand side of the free-surface equation (phys.c 4034-4073), subgrid off -/

/-- The local `sum` of lines 4037-4053 for the cell `i`: the blended flux through its faces. -/
def rhsSum (g : Grid) (pr : Props) (ph : Phys) (i : Nat) : REAL :=
  forLoop (fun nf (sum : REAL) =>
      let ne := g.face (i * g.maxfaces + nf)
      let normal := g.normal (i * g.maxfaces + nf)
      forLoop (fun k (sum : REAL) =>
          sum + (pr.imfac2 * ph.u_old ne k + pr.imfac1 * ph.utmp ne k
                  + pr.imfac3 * ph.u_old2 ne k) * g.df ne * normal * g.dzf ne k)
        (g.etop ne) (g.Nke ne - g.etop ne) sum)
    0 (g.nfaces i) 0

/-- Lines 4034-4066 of `UPredictor`: the source term `htmp` of the free-surface solve on
the computational cells. -/
def sourceTerm (g : Grid) (pr : Props) (ph : Phys) : Phys :=
  forLoop (fun iptr (p : Phys) =>
      let i := g.cellp iptr
      { p with htmp := setAt p.htmp i (g.Ac i * p.h i - pr.dt * rhsSum g pr p i) })
    (g.celldist 0) (g.celldist 1 - g.celldist 0) ph

/-- Lines 4034-4073 of `UPredictor`: the source term, then `h_old = h` and `dhdt = h` on
all cells. -/
def assembleRHS (g : Grid) (pr : Props) (ph : Phys) : Phys :=
  forLoop (fun i (p : Phys) =>
      { p with h_old := setAt p.h_old i (p.h i), dhdt := setAt p.dhdt i (p.h i) })
    0 g.Nc (sourceTerm g pr ph)

/-- The call `HCoefficients(phys->hcoef,phys->hfcoef,grid,phys,prop)` of `CGSolve`. -/
def hcoefOf (g : Grid) (pr : Props) (ph : Phys) : HCoefState :=
  HCoefficients g pr ph.D ph.h
    { coef := ph.hcoef, fcoef := ph.hfcoef, htmp := ph.htmp, check := false }

/-- Mesh consistency: a cell does not list an edge twice, and across every face with a
neighbour the neighbour lists the same edge, points back, and has the opposite normal. -/
structure MutualAdjacency (g : Grid) : Prop where
  face_inj : ∀ i nf nf', i < g.Nc → nf < g.nfaces i → nf' < g.nfaces i →
    g.face (i * g.maxfaces + nf) = g.face (i * g.maxfaces + nf') → nf = nf'
  twin : ∀ i nf, i < g.Nc → nf < g.nfaces i → g.neigh (i * g.maxfaces + nf) ≠ -1 →
    ∃ j nf', j < g.Nc ∧ g.neigh (i * g.maxfaces + nf) = (j : Int) ∧ nf' < g.nfaces j ∧
      g.face (j * g.maxfaces + nf') = g.face (i * g.maxfaces + nf) ∧
      g.neigh (j * g.maxfaces + nf') = (i : Int) ∧
      g.normal (j * g.maxfaces + nf') = - g.normal (i * g.maxfaces + nf)

/-- Every face without a neighbour carries zero velocity at the three time levels on its
active layers. -/
def ClosedBoundary (g : Grid) (ph : Phys) : Prop :=
  ∀ i nf, i < g.Nc → nf < g.nfaces i → g.neigh (i * g.maxfaces + nf) = -1 →
    ∀ k, g.etop (g.face (i * g.maxfaces + nf)) ≤ k → k < g.Nke (g.face (i * g.maxfaces + nf)) →
      ph.u_old (g.face (i * g.maxfaces + nf)) k = 0 ∧
      ph.utmp (g.face (i * g.maxfaces + nf)) k = 0 ∧
      ph.u_old2 (g.face (i * g.maxfaces + nf)) k = 0

/-- Every cell is in the computational range of `cellp`. -/
def AllComputational (g : Grid) : Prop :=
  ∀ i, i < g.Nc → ∃ iptr, g.celldist 0 ≤ iptr ∧ iptr < g.celldist 1 ∧ g.cellp iptr = i

/-- Total volume: the area-weighted sum of the layer thicknesses. -/
def totalVolume (Nc : Nat) (Ac : Nat → REAL) (Nk : Nat → Nat) (dzz : Nat → Nat → REAL) : REAL :=
  ∑ i in Finset.range Nc, Ac i * ∑ k in Finset.range (Nk i), dzz i k

/-- The blended flux through face `nf` of cell `i` summed over the active layers of the
edge, as accumulated into `sum` at lines 4048-4052. -/
def faceFlux (g : Grid) (pr : Props) (ph : Phys) (i nf : Nat) : REAL :=
  ∑ j in Finset.range (g.Nke (g.face (i * g.maxfaces + nf)) - g.etop (g.face (i * g.maxfaces + nf))),
    (pr.imfac2 * ph.u_old (g.face (i * g.maxfaces + nf))
          (g.etop (g.face (i * g.maxfaces + nf)) + j)
        + pr.imfac1 * ph.utmp (g.face (i * g.maxfaces + nf))
          (g.etop (g.face (i * g.maxfaces + nf)) + j)
        + pr.imfac3 * ph.u_old2 (g.face (i * g.maxfaces + nf))
          (g.etop (g.face (i * g.maxfaces + nf)) + j))
      * g.df (g.face (i * g.maxfaces + nf)) * g.normal (i * g.maxfaces + nf)
      * g.dzf (g.face (i * g.maxfaces + nf)) (g.etop (g.face (i * g.maxfaces + nf)) + j)

/-! ## `CGSolve` (phys.c 4564-4697), single rank, culvert model off

`ISendRecvCellData2D` is the identity on a single rank and the reduction of
`InnerProduct` is the local sum. The test `sqrt(eps/eps0) < epsilon` is read in exact
arithmetic by `sqrtLt`. -/

/-- The function `InnerProduct(x,y,...)` on a single rank. -/
def InnerProduct (g : Grid) (x y : Nat → REAL) : REAL :=
  forLoop (fun iptr (mysum : REAL) => mysum + x (g.cellp iptr) * y (g.cellp iptr))
    (g.celldist 0) (g.celldist 1 - g.celldist 0) 0

/-- The function `HPreconditioner(x,y,...)`: returns the array `y`. -/
def HPreconditioner (g : Grid) (hcoef x y : Nat → REAL) : Nat → REAL :=
  forLoop (fun iptr (y : Nat → REAL) =>
      setAt y (g.cellp iptr) (x (g.cellp iptr) / hcoef (g.cellp iptr)))
    (g.celldist 0) (g.celldist 1 - g.celldist 0) y

/-- The comparison `sqrt(q) < e` for exact `q`: false for negative `q` (not a number). -/
def sqrtLt (q e : REAL) : Bool :=
  decide (0 ≤ q ∧ 0 < e ∧ q < e * e)

/-- The arrays and scalars of `CGSolve`: `x = phys->h`, `r = phys->hold`,
`rtmp = phys->htmp2`, `z = phys->htmp3`, `p = phys->htmp`, the operator coefficients
`phys->hcoef`, `phys->hfcoef`, the loop counter `n`, and the count `iters` of executed
loop bodies. -/
structure CGState where
  x : Nat → REAL
  r : Nat → REAL
  rtmp : Nat → REAL
  z : Nat → REAL
  p : Nat → REAL
  coef : Nat → REAL
  fcoef : Nat → REAL
  mu : REAL
  nu : REAL
  eps : REAL
  eps0 : REAL
  alpha : REAL
  alpha0 : REAL
  n : Nat
  iters : Nat

/-- Lines 4577-4616 of `CGSolve`: coefficients and the treatment of the boundary cells.
The scalars not yet assigned are held at 0. -/
def cgBoundary (g : Grid) (pr : Props) (ph : Phys) : CGState :=
  let hc := hcoefOf g pr ph
  let x1 := forLoop (fun iptr (x : Nat → REAL) => setAt x (g.cellp iptr) 0)
    (g.celldist 0) (g.celldist 1 - g.celldist 0) ph.h
  let z1 := OperatorH g x1 ph.htmp3 hc.coef hc.fcoef
  let s1 : CGState :=
    { x := x1, r := ph.hold, rtmp := ph.htmp2, z := z1, p := hc.htmp, coef := hc.coef,
      fcoef := hc.fcoef, mu := 0, nu := 0, eps := 0, eps0 := 0, alpha := 0, alpha0 := 0,
      n := 0, iters := 0 }
  let s2 := forLoop (fun iptr (s : CGState) =>
      let i := g.cellp iptr
      let p := setAt s.p i (s.p i - s.z i)
      { s with p := p, r := setAt s.r i (p i), x := setAt s.x i 0 })
    (g.celldist 0) (g.celldist 1 - g.celldist 0) s1
  let p3 := forLoop (fun iptr (p : Nat → REAL) => setAt p (g.cellp iptr) 0)
    (g.celldist 1) (g.celldist 2 - g.celldist 1) s2.p
  { s2 with p := p3 }

/-- Lines 4618-4640 of `CGSolve`: the first search direction and the initial norms. -/
def cgDirection (g : Grid) (pr : Props) (s3 : CGState) : CGState :=
  let s4 : CGState :=
    if pr.hprecond = 1 then
      let rtmp := HPreconditioner g s3.coef s3.r s3.rtmp
      let p := forLoop (fun iptr (p : Nat → REAL) => setAt p (g.cellp iptr) (rtmp (g.cellp iptr)))
        (g.celldist 0) (g.celldist 1 - g.celldist 0) s3.p
      let a := InnerProduct g s3.r rtmp
      { s3 with rtmp := rtmp, p := p, alpha := a, alpha0 := a }
    else
      let p := forLoop (fun iptr (p : Nat → REAL) => setAt p (g.cellp iptr) (s3.r (g.cellp iptr)))
        (g.celldist 0) (g.celldist 1 - g.celldist 0) s3.p
      let a := InnerProduct g s3.r s3.r
      { s3 with p := p, alpha := a, alpha0 := a }
  let s5 : CGState := if pr.resnorm = 0 then { s4 with alpha0 := 1 } else s4
  if pr.hprecond = 1 then
    let e := InnerProduct g s5.r s5.r
    { s5 with eps := e, eps0 := e }
  else
    { s5 with eps := s5.alpha0, eps0 := s5.alpha0 }

/-- Lines 4577-4640 of `CGSolve`: everything before the iteration. -/
def cgStart (g : Grid) (pr : Props) (ph : Phys) : CGState :=
  cgDirection g pr (cgBoundary g pr ph)

/-- Body of the iteration at lines 4645-4679, up to the convergence test. -/
def cgBody (g : Grid) (pr : Props) (s : CGState) : CGState :=
  let z := OperatorH g s.p s.z s.coef s.fcoef
  let mu := 1 / s.alpha
  let nu := s.alpha / InnerProduct g s.p z
  let s1 := forLoop (fun iptr (t : CGState) =>
      let i := g.cellp iptr
      { t with x := setAt t.x i (t.x i + nu * t.p i), r := setAt t.r i (t.r i - nu * z i) })
    (g.celldist 0) (g.celldist 1 - g.celldist 0) { s with z := z, mu := mu, nu := nu }
  if pr.hprecond = 1 then
    let rtmp := HPreconditioner g s1.coef s1.r s1.rtmp
    let alpha := InnerProduct g s1.r rtmp
    let mu2 := s1.mu * alpha
    let p := forLoop (fun iptr (p : Nat → REAL) =>
        setAt p (g.cellp iptr) (rtmp (g.cellp iptr) + mu2 * p (g.cellp iptr)))
      (g.celldist 0) (g.celldist 1 - g.celldist 0) s1.p
    let e := InnerProduct g s1.r s1.r
    { s1 with rtmp := rtmp, alpha := alpha, mu := mu2, p := p, eps := e }
  else
    let alpha := InnerProduct g s1.r s1.r
    let mu2 := s1.mu * alpha
    let p := forLoop (fun iptr (p : Nat → REAL) =>
        setAt p (g.cellp iptr) (s1.r (g.cellp iptr) + mu2 * p (g.cellp iptr)))
      (g.celldist 0) (g.celldist 1 - g.celldist 0) s1.p
    { s1 with alpha := alpha, mu := mu2, p := p, eps := alpha }

/-- The loop `for(n=0;n<niters && eps!=0 && alpha!=0;n++)` of lines 4643-4684 with
`fuel = niters - n` passes left; the `break` leaves `n` as it is. -/
def cgLoop (g : Grid) (pr : Props) : Nat → CGState → CGState
  | 0, s => s
  | fuel + 1, s =>
    if s.eps ≠ 0 ∧ s.alpha ≠ 0 then
      let s1 := cgBody g pr s
      let s2 : CGState := { s1 with iters := s1.iters + 1 }
      if sqrtLt (s2.eps / s2.eps0) pr.epsilon = true then s2
      else cgLoop g pr fuel { s2 with n := s2.n + 1 }
    else s

/-- The final state of the arrays of `CGSolve(grid,phys,prop,...)`. -/
def cgRun (g : Grid) (pr : Props) (ph : Phys) : CGState :=
  cgLoop g pr pr.maxiters (cgStart g pr ph)

/-- The function `CGSolve`: `phys` on return. -/
def CGSolve (g : Grid) (pr : Props) (ph : Phys) : Phys :=
  let s := cgRun g pr ph
  { ph with
    h := s.x
    hold := s.r
    htmp2 := s.rtmp
    htmp3 := s.z
    htmp := s.p
    hcoef := s.coef
    hfcoef := s.fcoef }

/-- One computational cell (0) between three specified-elevation cells (1, 2, 3). -/
def islandMesh : Grid where
  Nc := 4
  Ne := 3
  maxfaces := 3
  celldist := fun n => if n = 0 then 0 else if n = 1 then 1 else 4
  cellp := fun n => n
  nfaces := fun _ => 3
  face := fun n => n
  neigh := fun n => [1, 2, 3].getD n (-1)
  normal := fun _ => 1
  grad := fun n => [0, 1, 0, 2, 0, 3].getD n (-1)
  Ac := fun _ => 2
  df := fun _ => 1
  dg := fun _ => 1
  dv := fun _ => 10
  Nk := fun _ => 1
  ctop := fun _ => 0
  Nke := fun _ => 1
  etop := fun _ => 0
  dzf := fun _ _ => 1

/-- Run parameters with fully implicit blending. -/
def implicitProps : Props where
  dt := 1
  grav := 1
  theta := 1
  imfac1 := 1
  imfac2 := 0
  imfac3 := 0
  epsilon := 1 / 100
  maxiters := 10
  hprecond := 0
  resnorm := 1

/-- Elevation 1 in the island cell, 3 in the boundary cells, forcing 5, no flux-conductance. -/
def islandPhys : Phys where
  h := fun i => if i = 0 then 1 else 3
  h_old := fun _ => 0
  dhdt := fun _ => 0
  htmp := fun i => if i = 0 then 5 else 0
  hold := fun _ => 0
  htmp2 := fun _ => 0
  htmp3 := fun _ => 0
  hcoef := fun _ => 0
  hfcoef := fun _ => 0
  D := fun _ => 0
  u := fun _ _ => 0
  utmp := fun _ _ => 0
  u_old := fun _ _ => 0
  u_old2 := fun _ _ => 0
  w_old := fun _ _ => 0
  w_old2 := fun _ _ => 0
  w_im := fun _ _ => 0

/-- A one-cell, one-layer domain: edge 0 is the open boundary, edges 1 and 2 are closed. -/
def pondMesh : Grid where
  Nc := 1
  Ne := 3
  maxfaces := 3
  celldist := fun n => if n = 0 then 0 else 1
  cellp := fun n => n
  nfaces := fun _ => 3
  face := fun n => n
  neigh := fun _ => -1
  normal := fun _ => 1
  grad := fun n => if n % 2 = 0 then 0 else -1
  Ac := fun _ => 1
  df := fun _ => 1
  dg := fun _ => 1
  dv := fun _ => 10
  Nk := fun _ => 1
  ctop := fun _ => 0
  Nke := fun _ => 1
  etop := fun _ => 0
  dzf := fun _ _ => 1

/-- Elevation 1/2 and inflow of speed 1 through edge 0 (velocity -1 along the outward
normal). -/
def pondPhys : Phys where
  h := fun _ => 1 / 2
  h_old := fun _ => 0
  dhdt := fun _ => 0
  htmp := fun _ => 0
  hold := fun _ => 0
  htmp2 := fun _ => 0
  htmp3 := fun _ => 0
  hcoef := fun _ => 0
  hfcoef := fun _ => 0
  D := fun j => if j = 0 then 0 else 0
  u := fun _ _ => 0
  utmp := fun j _ => if j = 0 then -1 else 0
  u_old := fun _ _ => 0
  u_old2 := fun _ _ => 0
  w_old := fun _ _ => 0
  w_old2 := fun _ _ => 0
  w_im := fun _ _ => 0

/-! ## Vertical implicit system of `UPredictor` (phys.c 3510-3539, 3764-3877)

Assembly of the tridiagonal rows of one computational edge for z-level coordinates
(`vertcoord == 1`), without implicit momentum advection and with the marsh and subgrid
models off. `UPredictor` runs it with its local `theta` set to 1. -/

/-- The data of one edge `j`: its active range, the columns `nc1`, `nc2` on its two sides
(`dzz`, `nu_tv`, `nu_lax`), the velocities `u[j]` and `utmp[j]` as they stand at line
3764, and the drag coefficients. -/
structure EdgeIn where
  etop : Nat
  Nke : Nat
  dzz1 : Nat → REAL
  dzz2 : Nat → REAL
  nu_tv1 : Nat → REAL
  nu_tv2 : Nat → REAL
  nu_lax1 : Nat → REAL
  nu_lax2 : Nat → REAL
  u : Nat → REAL
  utmp : Nat → REAL
  CdT : REAL
  CdB : REAL

/-- The scratch arrays `phys->a`, `phys->b`, `phys->c`, `phys->d`, shared by all edges. -/
structure Tri where
  a : Nat → REAL
  b : Nat → REAL
  c : Nat → REAL
  d : Nat → REAL

/-- Lines 3512-3539: the rows are zeroed on the active layers, `c` receives the face
viscosities and `a`, `b` the viscous coefficients. -/
def viscousCoefficients (nu lax : REAL) (e : EdgeIn) (s : Tri) : Tri :=
  let s1 := forLoop (fun k (t : Tri) =>
      { a := setAt t.a k 0, b := setAt t.b k 0, c := setAt t.c k 0, d := setAt t.d k 0 })
    e.etop (e.Nke - e.etop) s
  let s2 := forLoop (fun k (t : Tri) =>
      let v := 0.25 * (e.nu_tv1 (k - 1) + e.nu_tv2 (k - 1) + e.nu_tv1 k + e.nu_tv2 k
        + lax * (e.nu_lax1 (k - 1) + e.nu_lax2 (k - 1) + e.nu_lax1 k + e.nu_lax2 k))
      { t with c := setAt t.c k v })
    (e.etop + 1) (e.Nke - (e.etop + 1)) s1
  let s3 := forLoop (fun k (t : Tri) =>
      let v := 2.0 * (nu + t.c k) / (0.25 * (e.dzz1 k + e.dzz2 k)
        * (e.dzz1 (k - 1) + e.dzz2 (k - 1) + e.dzz1 k + e.dzz2 k))
      { t with a := setAt t.a k v })
    (e.etop + 1) (e.Nke - (e.etop + 1)) s2
  forLoop (fun k (t : Tri) =>
      let v := 2.0 * (nu + t.c (k + 1)) / (0.25 * (e.dzz1 k + e.dzz2 k)
        * (e.dzz1 k + e.dzz2 k + e.dzz1 (k + 1) + e.dzz2 (k + 1)))
      { t with b := setAt t.b k v })
    e.etop (e.Nke - 1 - e.etop) s3

/-- Lines 3770-3823 for more than one layer, `vertcoord == 1`, subgrid off: the rows of the
top and of the bottom layer. -/
def implicitEndRows (theta dt : REAL) (e : EdgeIn) (s : Tri) : Tri :=
  let s1 : Tri := { s with c := setAt s.c e.etop (-theta * dt * s.b e.etop) }
  let bTop :=
    if e.CdT = -1 then
      1.0 + theta * dt * (s1.a e.etop + s1.a (e.etop + 1) + s1.b e.etop)
    else
      1.0 + theta * dt * (s1.b e.etop
        + 2.0 * e.CdT * |e.u e.etop| / (e.dzz1 e.etop + e.dzz2 e.etop))
  let s2 : Tri := { s1 with b := setAt s1.b e.etop bTop }
  let s3 : Tri := { s2 with a := setAt s2.a e.etop 0 }
  let s4 : Tri := { s3 with c := setAt s3.c (e.Nke - 1) 0 }
  let bBot :=
    if e.CdB = -1 then
      1.0 + theta * dt * (s4.a (e.Nke - 1) + s4.b (e.Nke - 1) + s4.b (e.Nke - 2))
    else
      1.0 + theta * dt * (s4.a (e.Nke - 1)
        + 2.0 * e.CdB * |e.u (e.Nke - 1)| / (e.dzz1 (e.Nke - 1) + e.dzz2 (e.Nke - 1)))
  let s5 : Tri := { s4 with b := setAt s4.b (e.Nke - 1) bBot }
  { s5 with a := setAt s5.a (e.Nke - 1) (-theta * dt * s5.a (e.Nke - 1)) }

/-- Lines 3770-3829 for more than one layer, `vertcoord == 1`, subgrid off: the end rows,
then the rows of the interior layers. -/
def implicitRowsMulti (theta dt : REAL) (e : EdgeIn) (s : Tri) : Tri :=
  forLoop (fun k (t : Tri) =>
      let t1 : Tri := { t with c := setAt t.c k (-theta * dt * t.b k) }
      let t2 : Tri := { t1 with b := setAt t1.b k (1.0 + theta * dt * (t1.a k + t1.b k)) }
      { t2 with a := setAt t2.a k (-theta * dt * t2.a k) })
    (e.etop + 1) (e.Nke - 1 - (e.etop + 1)) (implicitEndRows theta dt e s)

/-- Lines 3841-3877 for a single layer, subgrid off. The index `k` of `c[k]` is the loop
variable left at `Nke[j]` by the loop of lines 3764-3767. -/
def implicitRowsSingle (nu theta dt : REAL) (e : EdgeIn) (s : Tri) : Tri :=
  let k := e.Nke
  let s1 : Tri := { s with b := setAt s.b e.etop 1.0 }
  let addB :=
    if e.CdB = -1 then
      4.0 * theta * dt * 2.0 * (nu + s1.c k)
        / ((e.dzz1 e.etop + e.dzz2 e.etop) * (e.dzz1 e.etop + e.dzz2 e.etop))
    else
      2.0 * theta * dt * |e.utmp e.etop| / (e.dzz1 e.etop + e.dzz2 e.etop) * e.CdB
  let s2 : Tri := { s1 with b := setAt s1.b e.etop (s1.b e.etop + addB) }
  let addT :=
    if e.CdT = -1 then
      4.0 * theta * dt * 2.0 * (nu + s2.c k)
        / ((e.dzz1 e.etop + e.dzz2 e.etop) * (e.dzz1 e.etop + e.dzz2 e.etop))
    else
      2.0 * theta * dt * |e.utmp e.etop| / (e.dzz1 e.etop + e.dzz2 e.etop) * e.CdT
  { s2 with b := setAt s2.b e.etop (s2.b e.etop + addT) }

/-- The rows `a`, `b`, `c` and the right-hand side `d` of edge `j` as they stand before
the checks of line 3949; nothing is done for a zero-depth top cell (line 3510). -/
def assembleTridiag (nu lax theta dt : REAL) (e : EdgeIn) (s : Tri) : Tri :=
  if ¬ (e.dzz1 e.etop = 0 ∧ e.dzz2 e.etop = 0) then
    let s1 := viscousCoefficients nu lax e s
    let s2 := forLoop (fun k (t : Tri) => { t with d := setAt t.d k (e.utmp k) })
      e.etop (e.Nke - e.etop) s1
    if e.Nke - e.etop > 1 then implicitRowsMulti theta dt e s2
    else implicitRowsSingle nu theta dt e s2
  else s

/-- Rows `a`, `b`, `c` dominate on the active layers: `b[k] >= 1 + |a[k]| + |c[k]|`. -/
def DiagDominant (e : EdgeIn) (s : Tri) : Prop :=
  ∀ k, e.etop ≤ k → k < e.Nke → s.b k ≥ 1 + |s.a k| + |s.c k|

/-- The provisos of claim C6 on the data of an edge and the run parameters. -/
def TridiagInputsOk (nu lax dt : REAL) (e : EdgeIn) : Prop :=
  0 < dt ∧ 0 ≤ nu ∧
  (∀ k, 0 ≤ e.nu_tv1 k ∧ 0 ≤ e.nu_tv2 k ∧ 0 ≤ lax * e.nu_lax1 k ∧ 0 ≤ lax * e.nu_lax2 k) ∧
  (∀ k, 0 ≤ e.dzz1 k ∧ 0 ≤ e.dzz2 k) ∧
  (∀ k, e.etop ≤ k → k < e.Nke → 0 < e.dzz1 k + e.dzz2 k) ∧
  (0 ≤ e.CdT ∨ e.CdT = -1) ∧ (0 ≤ e.CdB ∨ e.CdB = -1)

/-- An edge with three layers of thickness 1 on both sides and no drag. -/
def deepEdge : EdgeIn where
  etop := 0
  Nke := 3
  dzz1 := fun _ => 1
  dzz2 := fun _ => 1
  nu_tv1 := fun _ => 0
  nu_tv2 := fun _ => 0
  nu_lax1 := fun _ => 0
  nu_lax2 := fun _ => 0
  u := fun _ => 0
  utmp := fun _ => 0
  CdT := 0
  CdB := 0

/-- An edge with a single layer of thickness 1 on both sides and a no-slip bed. -/
def shallowEdge : EdgeIn where
  etop := 0
  Nke := 1
  dzz1 := fun _ => 1
  dzz2 := fun _ => 1
  nu_tv1 := fun _ => 0
  nu_tv2 := fun _ => 0
  nu_lax1 := fun _ => 0
  nu_lax2 := fun _ => 0
  u := fun _ => 0
  utmp := fun _ => 0
  CdT := 0
  CdB := -1

/-- Scratch arrays holding zeros, as at the first edge of a run. -/
def zeroTri : Tri where
  a := fun _ => 0
  b := fun _ => 0
  c := fun _ => 0
  d := fun _ => 0

/-! ## The old-layering arrays of `UpdateDZ` (phys.c 1074-1082, 1110-1123, 1214-1221) -/

/-- The arrays of the previous layering are the same in `t` as in `g`. -/
def SameOld (g t : DZState) : Prop :=
  t.dzzold = g.dzzold ∧ t.ctopold = g.ctopold ∧ t.etopold = g.etopold

/-- Lines 1074-1082 of `InitializeVerticalGrid`: `dzz[i][k]` and `dzzold[i][k]` are set to
`dz[k]` for every cell `i < Nc` and layer `k < Nk[i]`. The settings read from the data file
(`stairstep`, `fixdzz`, `dzsmall`) are the fields of the state; the top indices `ctop`,
`etop`, `ctopold`, `etopold` are not assigned. -/
def InitializeVerticalGrid (g : DZState) : DZState :=
  forLoop (fun i (s : DZState) =>
      forLoop (fun k (t : DZState) =>
          { t with
            dzz := setAt t.dzz i (setAt (t.dzz i) k (t.dz k))
            dzzold := setAt t.dzzold i (setAt (t.dzzold i) k (t.dz k)) })
        0 (s.Nk i) s)
    0 g.Nc g

/-- The grid `exampleGrid` with top indices of the old layering that differ from those of
the current layering: `ctop = etop = 0`, `ctopold = etopold = 1`. -/
def freshGrid : DZState :=
  { exampleGrid with ctopold := fun _ => 1, etopold := fun _ => 1 }

/-! ## `DepthFromDZ` (phys.c 1250-1266) -/

/-- The value found at `row[k]` for a C `int` index `k`: a negative index lies before the
row, and `before` stands for whatever the memory holds there. -/
def readRow (row : Nat → REAL) (before : REAL) (k : Int) : REAL :=
  if k < 0 then before else row k.toNat

/-- The function `DepthFromDZ(grid,phys,i,kind)`; `h`, `dzz`, `ctop` are the arrays
`phys->h`, `grid->dzz`, `grid->ctop`. -/
def DepthFromDZ (h : Nat → REAL) (dzz : Nat → Nat → REAL) (ctop : Nat → Nat) (before : REAL)
    (i kind : Int) : REAL :=
  if i = -1 then -1
  else
    let z := h i.toNat - 1 / 2 * dzz i.toNat (ctop i.toNat)
    forLoop (fun k (z : REAL) =>
        z - 1 / 2 * readRow (dzz i.toNat) before ((k : Int) - 1) - 1 / 2 * dzz i.toNat k)
      (ctop i.toNat) (kind - (ctop i.toNat : Int)).toNat z

/-- Layer thicknesses 0, 1, 2 from the top in every column: the top layer is dry. -/
def depthDzz : Nat → Nat → REAL := fun _ k => if k = 0 then 0 else if k = 1 then 1 else 2

/-! ## `InitializeSigmaCoordinate` (uservertcoordinate.c 89-105) -/

/-- The fields of `gridT`, `physT` and `vert` that `InitializeSigmaCoordinate` reads or
writes. -/
structure SigmaState where
  Nc : Nat
  Nkmax : Nat
  Nk : Nat → Nat
  ctop : Nat → Nat
  dv : Nat → REAL
  h : Nat → REAL
  dsigma : Nat → REAL
  dzz : Nat → Nat → REAL
  dzzold : Nat → Nat → REAL

/-- Body of the loop over `k` at lines 99-103 for column `i`. -/
def sigmaLayer (i k : Nat) (u : SigmaState) : SigmaState :=
  let u1 := { u with dzz := setAt u.dzz i (setAt (u.dzz i) k (u.dsigma k * (u.dv i + u.h i))) }
  { u1 with dzzold := setAt u1.dzzold i (setAt (u1.dzzold i) k (u1.dzz i k)) }

/-- The function `InitializeSigmaCoordinate(grid,prop,phys,myproc)`. -/
def InitializeSigmaCoordinate (s : SigmaState) : SigmaState :=
  let s1 := forLoop (fun k (t : SigmaState) =>
      { t with dsigma := setAt t.dsigma k (1 / (t.Nkmax : REAL)) }) 0 s.Nkmax s
  forLoop (fun i (t : SigmaState) =>
      forLoop (sigmaLayer i) (t.ctop i) (t.Nk i - t.ctop i) t)
    0 s1.Nc s1

/-- Two columns with four layers; the second has a dry top layer. -/
def sigmaExample : SigmaState where
  Nc := 2
  Nkmax := 4
  Nk := fun _ => 4
  ctop := fun i => if i = 0 then 0 else 1
  dv := fun _ => 10
  h := fun i => if i = 0 then 2 else -1
  dsigma := fun _ => 0
  dzz := fun _ _ => 0
  dzzold := fun _ _ => 5

/-! ## Multistep weights of `HorizontalSource` (phys.c 1932-1948) -/

/-- The locals `fab1`, `fab2`, `fab3` and the arrays `Cn_U`, `Cn_U2` after lines 1932-1948. -/
structure HSState where
  fab1 : REAL
  fab2 : REAL
  fab3 : REAL
  Cn_U : Nat → Nat → REAL
  Cn_U2 : Nat → Nat → REAL

/-- Lines 1937-1939: `Cn_U[j][k]=Cn_U2[j][k]=0` for `j < Ne`, `k < Nke[j]`. -/
def zeroTendencies (Ne : Nat) (Nke : Nat → Nat) (s : HSState) : HSState :=
  forLoop (fun j (t : HSState) =>
      forLoop (fun k (u : HSState) =>
          { u with
            Cn_U2 := setAt u.Cn_U2 j (setAt (u.Cn_U2 j) k 0)
            Cn_U := setAt u.Cn_U j (setAt (u.Cn_U j) k 0) })
        0 (Nke j) t)
    0 Ne s

/-- Lines 1932-1948 of `HorizontalSource`: choice of the Adams-Bashforth weights from
`prop->n`, `prop->wetdry` and `prop->exfac1..3`. -/
def multistepStart (n : Int) (wetdry : Bool) (exfac1 exfac2 exfac3 : REAL) (Ne : Nat)
    (Nke : Nat → Nat) (Cn_U Cn_U2 : Nat → Nat → REAL) : HSState :=
  if n = 1 ∨ wetdry = true then
    zeroTendencies Ne Nke { fab1 := 1, fab2 := 0, fab3 := 0, Cn_U := Cn_U, Cn_U2 := Cn_U2 }
  else if n = 2 then
    { fab1 := 3 / 2, fab2 := -1 / 2, fab3 := 0, Cn_U := Cn_U, Cn_U2 := Cn_U2 }
  else
    { fab1 := exfac1, fab2 := exfac2, fab3 := exfac3, Cn_U := Cn_U, Cn_U2 := Cn_U2 }

/-! ## `OperatorQ` (phys.c 4992-5042) -/

/-- The work of `OperatorQ` on the row `y[i]` of one computational cell `i`
(lines 4999-5040); `x` is a different array from `y`. -/
def qColumn (g : Grid) (D : Nat → REAL) (coef x : Nat → Nat → REAL) (i : Nat)
    (row : Nat → REAL) : Nat → REAL :=
  let r0 := forLoop (fun k (r : Nat → REAL) => setAt r k 0) (g.ctop i) (g.Nk i - g.ctop i) row
  let r1 := forLoop (fun nf (r : Nat → REAL) =>
      if g.neigh (i * g.maxfaces + nf) ≠ -1 then
        let nc := (g.neigh (i * g.maxfaces + nf)).toNat
        let ne := g.face (i * g.maxfaces + nf)
        let kmin := if g.ctop nc > g.ctop i then g.ctop nc else g.ctop i
        forLoop (fun k (r : Nat → REAL) =>
            setAt r k (r k + (x nc k - x i k) * g.dzf ne k * D ne))
          kmin (g.Nke ne - kmin) r
      else r)
    0 (g.nfaces i) r0
  let r2 := forLoop (fun k (r : Nat → REAL) =>
      setAt r k (r k + (coef i k * x i (k - 1) - (coef i k + coef i (k + 1)) * x i k
        + coef i (k + 1) * x i (k + 1))))
    (g.ctop i + 1) (g.Nk i - 1 - (g.ctop i + 1)) r1
  if g.ctop i + 1 < g.Nk i then
    let kt := g.ctop i
    let r3 := setAt r2 kt
      (r2 kt + ((-2 * coef i kt - coef i (kt + 1)) * x i kt + coef i (kt + 1) * x i (kt + 1)))
    let kb := g.Nk i - 1
    setAt r3 kb (r3 kb + (coef i kb * x i (kb - 1) - coef i kb * x i kb))
  else
    setAt r2 (g.ctop i) (r2 (g.ctop i) - 2 * coef i (g.ctop i) * x i (g.ctop i))

/-- The function `OperatorQ(coef,x,y,c,grid,phys,prop)`; the preconditioner array `c` is
not read and is left out. -/
def OperatorQ (g : Grid) (D : Nat → REAL) (coef x y : Nat → Nat → REAL) : Nat → Nat → REAL :=
  forLoop (fun iptr (y : Nat → Nat → REAL) =>
      let i := g.cellp iptr
      setAt y i (qColumn g D coef x i (y i)))
    (g.celldist 0) (g.celldist 1 - g.celldist 0) y

/-- Column values extended by the ghost values of the claim: `xg[ctop-1] = -x[ctop]`
above the top layer and `xg[Nk] = x[Nk-1]` below the bottom layer. -/
def ghostX (g : Grid) (x : Nat → Nat → REAL) (i : Nat) (k : Int) : REAL :=
  if k = (g.ctop i : Int) - 1 then - x i (g.ctop i)
  else if k = (g.Nk i : Int) then x i (g.Nk i - 1)
  else x i k.toNat

/-- The three-point stencil of the claim at layer `k` of column `i`. -/
def ghostStencil (g : Grid) (coef x : Nat → Nat → REAL) (i k : Nat) : REAL :=
  coef i k * ghostX g x i ((k : Int) - 1) - (coef i k + coef i (k + 1)) * x i k
    + coef i (k + 1) * ghostX g x i ((k : Int) + 1)

/-- The horizontal part accumulated at lines 5004-5021 in `y[i][k]`: one term for each face
with a neighbour `nc` whose edge is active at `k`, that is
`max(ctop[nc], ctop[i]) ≤ k < Nke[ne]`. -/
def horizontalQ (g : Grid) (D : Nat → REAL) (x : Nat → Nat → REAL) (i k : Nat) : REAL :=
  ∑ nf in Finset.range (g.nfaces i),
    if g.neigh (i * g.maxfaces + nf) ≠ -1 ∧
        (if g.ctop (g.neigh (i * g.maxfaces + nf)).toNat > g.ctop i
          then g.ctop (g.neigh (i * g.maxfaces + nf)).toNat else g.ctop i) ≤ k ∧
        k < g.Nke (g.face (i * g.maxfaces + nf)) then
      (x (g.neigh (i * g.maxfaces + nf)).toNat k - x i k)
        * g.dzf (g.face (i * g.maxfaces + nf)) k * D (g.face (i * g.maxfaces + nf))
    else 0

/-- Vertical coefficients `coef[i][k] = k+1` used to exercise `OperatorQ`. -/
def qCoefExample : Nat → Nat → REAL := fun _ k => k + 1

/-- A field `x[i][k] = 3*i+k` used to exercise `OperatorQ`. -/
def qFieldExample : Nat → Nat → REAL := fun i k => 3 * i + k

/-! ## Cells outside the computational range of `CGSolve` -/

/-- Cell `j` is not listed in the computational range `cellp[celldist[0] .. celldist[1])`. -/
def NotComputational (g : Grid) (j : Nat) : Prop :=
  ∀ iptr, g.celldist 0 ≤ iptr → iptr < g.celldist 1 → g.cellp iptr ≠ j

/-! ## `TriSolve`, the tridiagonal elimination called at phys.c 3984-3987

The body of `TriSolve` is not part of the sources at hand; the call sites pass the three
diagonals, the right-hand side, the output array and the length, and copy the diagonals
first because the routine alters them (comment at lines 3975-3976). -/

/-- Modelled from the spec: the arrays `TriSolve` works on, the diagonal `b` and the
right-hand side `d`, which the elimination alters, and the solution `u`. -/
structure TriOut where
  b : Nat → REAL
  d : Nat → REAL
  u : Nat → REAL

/-- Modelled from the spec: `TriSolve(a,b,c,d,u,N)` is the direct tridiagonal elimination
in one downward and one upward pass: row `k` is reduced with the pivot of row `k-1`, then
`u[N-1] = d[N-1]/b[N-1]` and `u[k] = (d[k] - c[k]*u[k+1])/b[k]` upwards. -/
def TriSolve (a b c d u : Nat → REAL) (N : Nat) : TriOut :=
  let s1 := forLoop (fun k (s : TriOut) =>
      let bk := s.b k - a k * c (k - 1) / s.b (k - 1)
      let dk := s.d k - a k * s.d (k - 1) / s.b (k - 1)
      { s with b := setAt s.b k bk, d := setAt s.d k dk })
    1 (N - 1) { b := b, d := d, u := u }
  let s2 : TriOut := { s1 with u := setAt s1.u (N - 1) (s1.d (N - 1) / s1.b (N - 1)) }
  forLoopDown (fun k (s : TriOut) =>
      { s with u := setAt s.u k ((s.d k - c k * s.u (k + 1)) / s.b k) })
    (N - 1) (N - 1) s2

/-! ## Checks, solve and flux-conductance in `UPredictor`
(phys.c 3437-3441, 3484-3510, 3949-4003)

Same configuration as the assembly above: z-level coordinates, no implicit momentum
advection, marsh and subgrid off. Numbers are exact, so the tests `x != x` of lines
3957-3970 are never true and are left out. -/

/-- Outcome of the checks of lines 3949-3971: whether `exit(0)` was reached, and the layers
for which the message `b[k] problems` was printed. -/
structure CheckOut where
  exited : Bool
  reported : List Nat

/-- Lines 3949-3971 for one edge: `exit(0)` when both columns have zero thickness at an
active layer; a message, and nothing else, when `b[k] == 0`. -/
def rowChecks (e : EdgeIn) (s : Tri) : CheckOut :=
  forLoop (fun k (o : CheckOut) =>
      if o.exited = true then o
      else if e.dzz1 k = 0 ∧ e.dzz2 k = 0 then { o with exited := true }
      else if s.b k = 0 then { o with reported := o.reported ++ [k] }
      else o)
    e.etop (e.Nke - e.etop) { exited := false, reported := [] }

/-- The array seen through the pointer `&r[off]`. -/
def shiftRow (r : Nat → REAL) (off : Nat) : Nat → REAL := fun k => r (off + k)

/-- The array `r` after a callee has worked on `&r[off]` and left `out` there. -/
def unshiftRow (r : Nat → REAL) (off : Nat) (out : Nat → REAL) : Nat → REAL :=
  fun k => if off ≤ k then out (k - off) else r k

/-- The arrays of `UPredictor` that the loop over the computational edges carries from
edge to edge: the scratch rows, `phys->utmp`, `E = phys->ut`, `phys->D`, and whether the
run has been terminated. -/
structure VSolve where
  scratch : Tri
  utmp : Nat → Nat → REAL
  E : Nat → Nat → REAL
  D : Nat → REAL
  exited : Bool

/-- Lines 3983-3991 and 3997-4001 for edge `j` with assembled rows `t`: the two solves (the
second on the copies `a0`, `b0`, `c0` of the rows and the unit vector `e1`), or the two
divisions for a single layer, then `D[j]`. -/
def solveEdge (dzf : Nat → Nat → REAL) (e : EdgeIn) (j : Nat) (t : Tri) (s : VSolve) : VSolve :=
  let n := e.Nke - e.etop
  let s1 : VSolve :=
    if n > 1 then
      let o1 := TriSolve (shiftRow t.a e.etop) (shiftRow t.b e.etop) (shiftRow t.c e.etop)
        (shiftRow t.d e.etop) (shiftRow e.utmp e.etop) n
      let o2 := TriSolve (shiftRow t.a e.etop) (shiftRow t.b e.etop) (shiftRow t.c e.etop)
        (fun _ => 1) (shiftRow (s.E j) e.etop) n
      let t1 : Tri := { t with b := unshiftRow t.b e.etop o1.b, d := unshiftRow t.d e.etop o1.d }
      { s with
        scratch := t1
        utmp := setAt s.utmp j (unshiftRow e.utmp e.etop o1.u)
        E := setAt s.E j (unshiftRow (s.E j) e.etop o2.u) }
    else
      { s with
        scratch := t
        utmp := setAt s.utmp j (setAt e.utmp e.etop (e.utmp e.etop / t.b e.etop))
        E := setAt s.E j (setAt (s.E j) e.etop (1.0 / t.b e.etop)) }
  let D0 := setAt s1.D j 0
  let D1 := forLoop (fun k (D : Nat → REAL) => setAt D j (D j + s1.E j k * dzf j k))
    e.etop (e.Nke - e.etop) D0
  { s1 with D := D1 }

/-- Body of the loop over the computational edges (lines 3484-4003) for edge `j`, whose
data as they stand at line 3764 are `edge j`; `theta` is 1 (line 3468). Nothing runs once
the run has been terminated. -/
def edgeSolve (nu lax dt : REAL) (dzf : Nat → Nat → REAL) (edge : Nat → EdgeIn) (j : Nat)
    (s : VSolve) : VSolve :=
  if s.exited = true then s
  else
    let e := edge j
    if ¬ (e.dzz1 e.etop = 0 ∧ e.dzz2 e.etop = 0) then
      let t := assembleTridiag nu lax 1 dt e s.scratch
      if (rowChecks e t).exited = true then { s with scratch := t, exited := true }
      else solveEdge dzf e j t s
    else s

/-- Lines 3437-3441 and 3484-4003 of `UPredictor`: `D[j] = 0` for every edge, then the loop
over the computational edges `edgep[edgedist[0] .. edgedist[1])`. -/
def verticalSolve (nu lax dt : REAL) (Ne : Nat) (edgedist edgep : Nat → Nat)
    (dzf : Nat → Nat → REAL) (edge : Nat → EdgeIn) (s : VSolve) : VSolve :=
  let s1 : VSolve := { s with D := forLoop (fun j (D : Nat → REAL) => setAt D j 0) 0 Ne s.D }
  forLoop (fun jptr (t : VSolve) => edgeSolve nu lax dt dzf edge (edgep jptr) t)
    (edgedist 0) (edgedist 1 - edgedist 0) s1

/-- The guard of line 3510 for the data `e` of an edge. -/
def topHasWater (e : EdgeIn) : Prop := ¬ (e.dzz1 e.etop = 0 ∧ e.dzz2 e.etop = 0)

/-- Edge `j` is listed in the computational range `edgep[edgedist[0] .. edgedist[1])`. -/
def ComputationalEdge (edgedist edgep : Nat → Nat) (j : Nat) : Prop :=
  ∃ jptr, edgedist 0 ≤ jptr ∧ jptr < edgedist 1 ∧ edgep jptr = j

/-- A dry edge: zero thickness on both sides of its only layer. -/
def dryEdge : EdgeIn :=
  { shallowEdge with dzz1 := fun _ => 0, dzz2 := fun _ => 0 }

/-- Edge 0 is `deepEdge`, edge 1 is `dryEdge`, every other edge is `shallowEdge`. -/
def threeEdges : Nat → EdgeIn :=
  fun j => if j = 0 then deepEdge else if j = 1 then dryEdge else shallowEdge

/-- Zeroed arrays at the start of the loop over the edges. -/
def zeroSolve : VSolve where
  scratch := zeroTri
  utmp := fun _ _ => 0
  E := fun _ _ => 0
  D := fun _ => 7
  exited := false

/-- Edge ranges with two computational edges, `edgep[0]` and `edgep[1]`. -/
def edgeRanges : Nat → Nat := fun n => if n = 0 then 0 else 2

/-- Edge ranges with one computational edge, `edgep[0]`. -/
def oneEdgeRange : Nat → Nat := fun n => if n = 0 then 0 else 1

/-- The arrays that the core sequence carries: `phys` as above, `phys->w` and `phys->wnew`,
the stored tendencies `Cn_U`, `Cn_U2`, `E = phys->ut`, the scratch rows, `phys->hcorr`,
`phys->active`, and whether the run has been terminated. -/
structure CoreState where
  ph : Phys
  w : Nat → Nat → REAL
  wnew : Nat → Nat → REAL
  Cn_U : Nat → Nat → REAL
  Cn_U2 : Nat → Nat → REAL
  E : Nat → Nat → REAL
  scratch : Tri
  hcorr : Nat → REAL
  active : Nat → Int
  exited : Bool

/-- What lines 1996-2637 of `HorizontalSource` leave in the arrays they write: `Cn_U`,
`phys->ut` and the scratch rows (they write `stmp` and `stmp2` as well, which nothing
modelled here reads). -/
structure TendencyOut where
  Cn_U : Nat → Nat → REAL
  ut : Nat → Nat → REAL
  scratch : Tri

/-- Mesh, run parameters and surroundings of one time step. `edgedist`, `edgep`, `mark`
are the edge ranges and markers of `gridT`; `n`, `wetdry`, `exfac1..3`, `nu`,
`laxWendroff_Vertical` are fields of `propT`; `q` is the nonhydrostatic pressure, `dzz` the
layer thickness; `DRYCELLHEIGHT` is a macro of `suntans.h`. `MomentumSource` and
`OpenBoundaryFluxes` (with `BoundaryVelocities`) are routines of other files, acting on
`phys->utmp`; `tendency` stands for lines 1996-2637 of `HorizontalSource`; `edge` gives the
data of an edge at line 3764 of `UPredictor` from `phys->utmp` at line 3484; `relayer`
stands for the call `UpdateDZ(grid,phys,prop,0)` at line 4528, which rewrites the layering
of the grid from the new free surface. -/
structure CoreEnv where
  g : Grid
  pr : Props
  n : Int
  wetdry : Bool
  exfac1 : REAL
  exfac2 : REAL
  exfac3 : REAL
  edgedist : Nat → Nat
  edgep : Nat → Nat
  mark : Nat → Int
  q : Nat → Nat → REAL
  dzz : Nat → Nat → REAL
  nu : REAL
  laxWendroff_Vertical : REAL
  DRYCELLHEIGHT : REAL
  MomentumSource : (Nat → Nat → REAL) → Nat → Nat → REAL
  OpenBoundaryFluxes : (Nat → Nat → REAL) → Nat → Nat → REAL
  tendency : CoreState → TendencyOut
  edge : (Nat → Nat → REAL) → Nat → EdgeIn
  relayer : Grid → (Nat → REAL) → Grid

/-- The loops `a[j][k] = 0` over `j < Ne`, `k < Nke[j]` (lines 1954-1959). -/
def zeroRows (Ne : Nat) (Nke : Nat → Nat) (a : Nat → Nat → REAL) : Nat → Nat → REAL :=
  forLoop (fun j (a : Nat → Nat → REAL) =>
      setAt a j (forLoop (fun k (r : Nat → REAL) => setAt r k 0) 0 (Nke j) (a j)))
    0 Ne a

/-- The loops `dst[j][k] = src[j][k]` over `j < N`, `k < M[j]`. -/
def copyRows (N : Nat) (M : Nat → Nat) (src dst : Nat → Nat → REAL) : Nat → Nat → REAL :=
  forLoop (fun j (a : Nat → Nat → REAL) =>
      setAt a j (forLoop (fun k (r : Nat → REAL) => setAt r k (src j k)) 0 (M j) (a j)))
    0 N dst

/-- Lines 1964-1978 of `HorizontalSource` for the computational edge `j`: the old
tendencies and the old nonhydrostatic pressure gradient go into `utmp`, and the stored
tendencies are shifted. -/
def flushEdge (e : CoreEnv) (fab2 fab3 : REAL) (j : Nat) (s : CoreState) : CoreState :=
  let nc1 := (e.g.grad (2 * j)).toNat
  let nc2 := (e.g.grad (2 * j + 1)).toNat
  forLoop (fun k (t : CoreState) =>
      let v := fab2 * t.Cn_U j k + fab3 * t.Cn_U2 j k + t.ph.u j k
        - e.pr.dt / e.g.dg j * (e.q nc1 k - e.q nc2 k)
      let ph1 : Phys := { t.ph with utmp := setAt t.ph.utmp j (setAt (t.ph.utmp j) k v) }
      let c2 := setAt t.Cn_U2 j (setAt (t.Cn_U2 j) k (t.Cn_U j k))
      { t with ph := ph1, Cn_U2 := c2, Cn_U := setAt t.Cn_U j (setAt (t.Cn_U j) k 0) })
    (e.g.etop j) (e.g.Nke j - e.g.etop j) s

/-- Lines 1981-1989 of `HorizontalSource` for the type-4 boundary edge `j`. -/
def flushWallEdge (e : CoreEnv) (fab2 fab3 : REAL) (j : Nat) (s : CoreState) : CoreState :=
  forLoop (fun k (t : CoreState) =>
      let v := fab3 * t.Cn_U2 j k + fab2 * t.Cn_U j k + t.ph.u j k
      let ph1 : Phys := { t.ph with utmp := setAt t.ph.utmp j (setAt (t.ph.utmp j) k v) }
      let c2 := setAt t.Cn_U2 j (setAt (t.Cn_U2 j) k (t.Cn_U j k))
      { t with ph := ph1, Cn_U2 := c2, Cn_U := setAt t.Cn_U j (setAt (t.Cn_U j) k 0) })
    (e.g.etop j) (e.g.Nke j - e.g.etop j) s

/-- The function `HorizontalSource(grid,phys,prop,...)`: the multistep weights, the zeroing
of `utmp` and `ut`, the old terms on the computational and type-4 edges, `MomentumSource`,
the new tendencies, and their addition to `utmp` on the computational edges
(lines 2640-2646). -/
def HorizontalSource (e : CoreEnv) (s : CoreState) : CoreState :=
  let st := multistepStart e.n e.wetdry e.exfac1 e.exfac2 e.exfac3 e.g.Ne e.g.Nke s.Cn_U s.Cn_U2
  let ph0 : Phys := { s.ph with utmp := zeroRows e.g.Ne e.g.Nke s.ph.utmp }
  let s0 : CoreState :=
    { s with ph := ph0, Cn_U := st.Cn_U, Cn_U2 := st.Cn_U2, E := zeroRows e.g.Ne e.g.Nke s.E }
  let s1 := forLoop (fun jptr (t : CoreState) => flushEdge e st.fab2 st.fab3 (e.edgep jptr) t)
    (e.edgedist 0) (e.edgedist 1 - e.edgedist 0) s0
  let s2 := forLoop (fun jptr (t : CoreState) => flushWallEdge e st.fab2 st.fab3 (e.edgep jptr) t)
    (e.edgedist 4) (e.edgedist 5 - e.edgedist 4) s1
  let ph3 : Phys := { s2.ph with utmp := e.MomentumSource s2.ph.utmp }
  let s3 : CoreState := { s2 with ph := ph3 }
  let o := e.tendency s3
  let s4 : CoreState := { s3 with Cn_U := o.Cn_U, E := o.ut, scratch := o.scratch }
  forLoop (fun jptr (t : CoreState) =>
      let j := e.edgep jptr
      forLoop (fun k (t : CoreState) =>
          let v := t.ph.utmp j k + st.fab1 * t.Cn_U j k
          let ph1 : Phys := { t.ph with utmp := setAt t.ph.utmp j (setAt (t.ph.utmp j) k v) }
          { t with ph := ph1 })
        (e.g.etop j) (e.g.Nke j - e.g.etop j) t)
    (e.edgedist 0) (e.edgedist 1 - e.edgedist 0) s4

/-- Lines 3415-3441 of `UPredictor`: the stored copies of the velocities and of the free
surface (`D[j] = 0` is part of `verticalSolve`). -/
def storeOld (e : CoreEnv) (s : CoreState) : CoreState :=
  let ph1 : Phys :=
    if e.n = 1 then
      { s.ph with
        u_old2 := copyRows e.g.Ne e.g.Nke s.ph.u s.ph.u_old2
        w_old2 := copyRows e.g.Nc (fun i => e.g.Nk i + 1) s.w s.ph.w_old2
        w_im := zeroRows e.g.Nc (fun i => e.g.Nk i + 1) s.ph.w_im
        h_old := forLoop (fun i (a : Nat → REAL) => setAt a i (s.ph.h i)) 0 e.g.Nc s.ph.h_old }
    else s.ph
  let ph2 : Phys :=
    { ph1 with
      w_old := copyRows e.g.Nc (fun i => e.g.Nk i + 1) s.w ph1.w_old
      u_old := copyRows e.g.Ne e.g.Nke ph1.u ph1.u_old }
  { s with ph := ph2 }

/-- Lines 3449-3466 of `UPredictor`: `utmp = u` on the type-2 edges, and the explicit part
of the free-surface gradient on the computational edges. -/
def explicitSurface (e : CoreEnv) (ph : Phys) : Phys :=
  let p1 := forLoop (fun jptr (p : Phys) =>
      let j := e.edgep jptr
      forLoop (fun k (p : Phys) =>
          { p with utmp := setAt p.utmp j (setAt (p.utmp j) k (p.u j k)) })
        (e.g.etop j) (e.g.Nke j - e.g.etop j) p)
    (e.edgedist 2) (e.edgedist 3 - e.edgedist 2) ph
  forLoop (fun jptr (p : Phys) =>
      let j := e.edgep jptr
      let nc1 := (e.g.grad (2 * j)).toNat
      let nc2 := (e.g.grad (2 * j + 1)).toNat
      forLoop (fun k (p : Phys) =>
          let v := p.utmp j k - e.pr.grav * e.pr.dt * (e.pr.imfac2 * (p.h nc1 - p.h nc2)
            + e.pr.imfac3 * (p.h_old nc1 - p.h_old nc2)) / e.g.dg j
          { p with utmp := setAt p.utmp j (setAt (p.utmp j) k v) })
        (e.g.etop j) (e.g.Nke j - e.g.etop j) p)
    (e.edgedist 0) (e.edgedist 1 - e.edgedist 0) p1

/-- Lines 4353-4369 of `UPredictor`: the implicit barotropic term is added back on the
computational edges, and an edge whose single layer is dry on both sides gets velocity 0. -/
def correctVelocity (e : CoreEnv) (E : Nat → Nat → REAL) (ph : Phys) : Phys :=
  forLoop (fun jptr (p : Phys) =>
      let j := e.edgep jptr
      let nc1 := (e.g.grad (2 * j)).toNat
      let nc2 := (e.g.grad (2 * j + 1)).toNat
      let p1 := forLoop (fun k (p : Phys) =>
          let v := p.utmp j k - e.pr.grav * e.pr.imfac1 * e.pr.dt * E j k
            * (p.h nc1 - p.h nc2) / e.g.dg j
          { p with u := setAt p.u j (setAt (p.u j) k v) })
        (e.g.etop j) (e.g.Nke j - e.g.etop j) p
      if e.g.etop j + 1 = e.g.Nke j ∧ e.dzz nc1 (e.g.etop j) ≤ 1 * e.DRYCELLHEIGHT ∧
          e.dzz nc2 (e.g.etop j) ≤ 1 * e.DRYCELLHEIGHT then
        { p1 with u := setAt p1.u j (setAt (p1.u j) (e.g.etop j) 0) }
      else p1)
    (e.edgedist 0) (e.edgedist 1 - e.edgedist 0) ph

/-- Lines 4494-4518 of `UPredictor`: `u = utmp` on the type-2 edges, then the velocity on
the type-3 edges of the boundary cells from the other faces of the cell. -/
def boundaryVelocity (e : CoreEnv) (ph : Phys) : Phys :=
  let p1 := forLoop (fun jptr (p : Phys) =>
      let j := e.edgep jptr
      forLoop (fun k (p : Phys) =>
          { p with u := setAt p.u j (setAt (p.u j) k (p.utmp j k)) })
        (e.g.etop j) (e.g.Nke j - e.g.etop j) p)
    (e.edgedist 2) (e.edgedist 3 - e.edgedist 2) ph
  forLoop (fun iptr (p : Phys) =>
      let i := e.g.cellp iptr
      forLoop (fun nf (p : Phys) =>
          let ne := e.g.face (i * e.g.maxfaces + nf)
          if e.mark ne = 3 then
            forLoop (fun k (p : Phys) =>
                let p0 : Phys := { p with u := setAt p.u ne (setAt (p.u ne) k 0) }
                let sum := forLoop (fun nf1 (sum : REAL) =>
                    sum + p0.u (e.g.face (i * e.g.maxfaces + nf1)) k
                      * e.g.df (e.g.face (i * e.g.maxfaces + nf1))
                      * e.g.normal (i * e.g.maxfaces + nf1))
                  0 (e.g.nfaces i) 0
                let v := -sum / e.g.df ne / e.g.normal (i * e.g.maxfaces + nf)
                { p0 with u := setAt p0.u ne (setAt (p0.u ne) k v) })
              (e.g.etop ne) (e.g.Nke ne - e.g.etop ne) p
          else p)
        0 (e.g.nfaces i) p)
    (e.g.celldist 1) (e.g.celldist 2 - e.g.celldist 1) p1

/-- The function `UPredictor(grid,phys,prop,...)`: stored copies, explicit free-surface
gradient, vertical solve, source term, `CGSolve`, velocity correction, dry-cell clipping,
`dhdt`, boundary velocities. Nothing after the vertical solve runs once the run has been
terminated there. -/
def UPredictor (e : CoreEnv) (s : CoreState) : CoreState :=
  let s1 := storeOld e s
  let ph2 := explicitSurface e s1.ph
  let v := verticalSolve e.nu e.laxWendroff_Vertical e.pr.dt e.g.Ne e.edgedist e.edgep e.g.dzf
    (e.edge ph2.utmp)
    { scratch := s1.scratch, utmp := ph2.utmp, E := s1.E, D := ph2.D, exited := s1.exited }
  if v.exited = true then
    { s1 with ph := { ph2 with utmp := v.utmp, D := v.D }, E := v.E, scratch := v.scratch,
              exited := true }
  else
    let ph3 : Phys := { ph2 with utmp := e.OpenBoundaryFluxes v.utmp, D := v.D }
    let ph4 := CGSolve e.g e.pr (assembleRHS e.g e.pr ph3)
    let ph5 := correctVelocity e v.E ph4
    let c := clipDryCells
      { Nc := e.g.Nc, maxfaces := e.g.maxfaces, nfaces := e.g.nfaces, face := e.g.face,
        etop := e.g.etop, Nke := e.g.Nke, dzf := e.g.dzf, dv := e.g.dv,
        DRYCELLHEIGHT := e.DRYCELLHEIGHT, subgrid := false, wetdry := e.wetdry, h := ph5.h,
        h_old := ph5.h_old, hcorr := s1.hcorr, active := s1.active }
    let ph6 : Phys := { ph5 with h := c.h }
    let ph7 := forLoop (fun iptr (p : Phys) =>
        let i := e.g.cellp iptr
        { p with dhdt := setAt p.dhdt i ((p.h i - p.dhdt i) / e.pr.dt) })
      (e.g.celldist 0) (e.g.celldist 1 - e.g.celldist 0) ph6
    { s1 with ph := boundaryVelocity e ph7, E := v.E, scratch := v.scratch, hcorr := c.hcorr,
              active := c.active, exited := false }

/-- One time step of the core sequence: `HorizontalSource`, `UPredictor`, and
`Continuity(phys->wnew,grid,phys,prop)` on the grid as `UpdateDZ` has left it. -/
def coreStep (e : CoreEnv) (s : CoreState) : CoreState :=
  let s2 := UPredictor e (HorizontalSource e s)
  if s2.exited = true then s2
  else
    let r := Continuity (e.relayer e.g s2.ph.h) e.pr s2.ph s2.wnew
    { s2 with ph := r.2, wnew := r.1 }

/-- The core sequence run for `m` time steps, step `k` in the surroundings `envs k`. -/
def coreRun (envs : Nat → CoreEnv) : Nat → CoreState → CoreState
  | 0, s => s
  | m + 1, s => coreStep (envs m) (coreRun envs m s)

/-- The domain of the steady-state test: one computational cell with closed faces only, no
boundary cell, no computational, type-2 or type-4 edge, and a bed deeper than the dry
threshold. -/
def ClosedSingleCell (e : CoreEnv) : Prop :=
  e.g.celldist 0 = 0 ∧ e.g.celldist 1 = 1 ∧ e.g.celldist 2 = 1 ∧ e.g.cellp 0 < e.g.Nc ∧
  (∀ nf, nf < e.g.nfaces (e.g.cellp 0) → e.g.neigh (e.g.cellp 0 * e.g.maxfaces + nf) = -1) ∧
  e.edgedist 1 = e.edgedist 0 ∧ e.edgedist 3 = e.edgedist 2 ∧ e.edgedist 5 = e.edgedist 4 ∧
  e.DRYCELLHEIGHT < e.g.dv (e.g.cellp 0)

/-- Fully implicit blending: `imfac1 = theta = 1`, `imfac2 = 1 - theta = 0`, `imfac3 = 0`. -/
def FullyImplicit (pr : Props) : Prop :=
  pr.imfac1 = 1 ∧ pr.imfac2 = 0 ∧ pr.imfac3 = 0

/-- The rest state: zero elevation in cell `i`, zero velocities, run not terminated. -/
def AtRest (i : Nat) (s : CoreState) : Prop :=
  s.ph.h i = 0 ∧ (∀ j k, s.ph.u j k = 0) ∧ (∀ c k, s.w c k = 0) ∧ s.exited = false

/-- Surroundings of the pond `pondMesh` with all three edges closed (edge range 1), fully
implicit blending, a dry threshold of 1/1000, and no action of the surrounding routines. -/
def pondEnv : CoreEnv where
  g := pondMesh
  pr := implicitProps
  n := 1
  wetdry := false
  exfac1 := 3 / 2
  exfac2 := -1 / 2
  exfac3 := 0
  edgedist := fun n => if n ≤ 1 then 0 else 3
  edgep := fun n => n
  mark := fun _ => 1
  q := fun _ _ => 0
  dzz := fun _ _ => 10
  nu := 1
  laxWendroff_Vertical := 0
  DRYCELLHEIGHT := 1 / 1000
  MomentumSource := fun ut => ut
  OpenBoundaryFluxes := fun ut => ut
  tendency := fun s => { Cn_U := s.Cn_U, ut := s.E, scratch := s.scratch }
  edge := fun _ _ => shallowEdge
  relayer := fun g _ => g

/-- The pond at rest; the work arrays hold arbitrary values. -/
def pondRest : CoreState where
  ph := { pondPhys with h := fun _ => 0 }
  w := fun _ _ => 0
  wnew := fun _ _ => 4
  Cn_U := fun _ _ => 2
  Cn_U2 := fun _ _ => 3
  E := fun _ _ => 5
  scratch := zeroTri
  hcorr := fun _ => 0
  active := fun _ => 1
  exited := false

/-- The grid on which `Continuity` runs in the time step that starts from `s`: the grid of
the step with the layering that `UpdateDZ` has set at the end of `UPredictor`. -/
def continuityGrid (e : CoreEnv) (s : CoreState) : Grid :=
  e.relayer e.g (UPredictor e (HorizontalSource e s)).ph.h

/-! ## Time-stepping weights of `ReadProperties` (phys.c 5678-5710) -/

/-- The weights `exfac1..3` and `imfac1..3` of `propT`. -/
structure StepWeights where
  exfac1 : REAL
  exfac2 : REAL
  exfac3 : REAL
  imfac1 : REAL
  imfac2 : REAL
  imfac3 : REAL

/-- Lines 5682-5710 of `ReadProperties`: the weights chosen by the selectors `ex` and `im`,
with `theta` as read from the data file. -/
def ReadPropertiesWeights (ex im : Int) (theta : REAL) : StepWeights :=
  let e : REAL × REAL × REAL :=
    if ex = 1 then (7 / 4, -1, 1 / 4)
    else if ex = 2 then (3 / 2, -1 / 2, 0)
    else (23 / 12, -4 / 3, 5 / 12)
  let m : REAL × REAL × REAL :=
    if im = 0 then (theta, 1 - theta, 0)
    else if im = 1 then (3 / 4, 0, 1 / 4)
    else (5 / 4, -1, 3 / 4)
  { exfac1 := e.1, exfac2 := e.2.1, exfac3 := e.2.2,
    imfac1 := m.1, imfac2 := m.2.1, imfac3 := m.2.2 }

/-! ## Initial iterate of `CGSolve` -/

/-- Run parameters with the iteration cap `maxiters = 0`. -/
def noIterProps : Props := { implicitProps with maxiters := 0 }

/-! ## `NewCells` (phys.c 2672-2694) -/

/-- The function `NewCells(grid,phys,prop)`: returns `phys->u`. The tests
`etop[j] < Nke[j]-1` and `etop[j] == etopold[j]-1` of the source are over `int`; the loop
`for(k=etop[j]; k<=etopold[j]; k++)` runs `etopold[j]+1-etop[j]` times. -/
def NewCells (edgedist edgep : Nat → Nat) (etop etopold Nke : Nat → Nat)
    (u : Nat → Nat → REAL) : Nat → Nat → REAL :=
  forLoop (fun jptr (u : Nat → Nat → REAL) =>
      let j := edgep jptr
      if (etop j : Int) < (Nke j : Int) - 1 then
        if (etop j : Int) = (etopold j : Int) - 1 then
          setAt u j (setAt (u j) (etop j) (u j (etopold j)))
        else
          setAt u j (forLoop (fun k (row : Nat → REAL) => setAt row k (row (etopold j + 1)))
            (etop j) (etopold j + 1 - etop j) (u j))
      else u)
    (edgedist 0) (edgedist 1 - edgedist 0) u

/-- Velocities `1, 2, 3` in the layers 0, 1, 2 of every edge and `v` in layer 3. -/
def layeredU (v : REAL) : Nat → Nat → REAL :=
  fun _ k => if k = 0 then 1 else if k = 1 then 2 else if k = 2 then 3 else v

/-! ## `SetFluxHeight` (phys.c 5923-6033)

`UpWind` and `DRYCELLHEIGHT` are macros defined outside `phys.c` and are taken as given;
`Max` and `Min` are the larger and the smaller of two values. -/

/-- The fields of `gridT`, `physT` and `propT` read by `SetFluxHeight`. -/
structure FluxIn where
  Ne : Nat
  Nc : Nat
  Nk : Nat → Nat
  Nkc : Nat → Nat
  Nke : Nat → Nat
  etop : Nat → Nat
  grad : Nat → Int
  mark : Nat → Int
  dv : Nat → REAL
  dz : Nat → REAL
  dzbot : Nat → REAL
  smoothbot : REAL
  dzsmall : REAL
  vertcoord : Int
  u : Nat → Nat → REAL
  SfHp : Nat → Nat → REAL
  SfHm : Nat → Nat → REAL
  h : Nat → REAL
  UpWind : REAL → REAL → REAL → REAL
  DRYCELLHEIGHT : REAL

/-- The arrays written by `SetFluxHeight`: `grid->dzf`, `grid->hf` and `grid->dzz`. -/
structure FluxState where
  dzf : Nat → Nat → REAL
  hf : Nat → REAL
  dzz : Nat → Nat → REAL

/-- The cell on the first side of edge `j` after lines 5976-5979. -/
def fluxNc1 (e : FluxIn) (j : Nat) : Nat :=
  (if e.grad (2 * j) = -1 then e.grad (2 * j + 1) else e.grad (2 * j)).toNat

/-- The cell on the second side of edge `j` after lines 5976-5979. -/
def fluxNc2 (e : FluxIn) (j : Nat) : Nat :=
  (if e.grad (2 * j + 1) = -1 then
      (if e.grad (2 * j) = -1 then e.grad (2 * j + 1) else e.grad (2 * j))
    else e.grad (2 * j + 1)).toNat

/-- The value assigned to `dzf[j][k]` in the loop at lines 5984-5995. -/
def fluxUpwindValue (e : FluxIn) (dzz : Nat → Nat → REAL) (j k : Nat) : REAL :=
  if e.vertcoord ≠ 1 ∧ e.vertcoord ≠ 5 ∧ e.mark j = 0 then
    (if e.u j k > 0 then e.SfHp j k else e.SfHm j k)
  else e.UpWind (e.u j k) (dzz (fluxNc1 e j) k) (dzz (fluxNc2 e j) k)

/-- Lines 5996-6009: the bottom layer `k = Nke[j]-1` of the edge. For `Nke[j] = 0` the
source addresses `dzf[j][-1]`, outside the row, and the row is left as it is. -/
def fluxBottom (e : FluxIn) (dzz : Nat → Nat → REAL) (j : Nat) (row : Nat → REAL) :
    Nat → REAL :=
  let k : Int := (e.Nke j : Int) - 1
  if (e.etop j : Int) = k then
    let v := max 0 (e.UpWind (e.u j k.toNat) (e.h (fluxNc1 e j)) (e.h (fluxNc2 e j))
      + min (e.dv (fluxNc1 e j)) (e.dv (fluxNc2 e j)))
    setAt row k.toNat (if e.mark j = 2 ∧ v ≤ 1 / 100 then 1 / 100 else v)
  else if e.vertcoord = 1 ∨ e.vertcoord = 5 then
    (if 0 ≤ k then
      setAt row k.toNat (min (dzz (fluxNc1 e j) k.toNat) (dzz (fluxNc2 e j) k.toNat))
    else row)
  else row

/-- The row `dzf[j]` after lines 5981-6023 for the edge `j`. -/
def fluxRow (e : FluxIn) (dzz : Nat → Nat → REAL) (j : Nat) (row : Nat → REAL) : Nat → REAL :=
  let row0 := forLoop (fun k (r : Nat → REAL) => setAt r k 0) 0 (e.etop j) row
  let row1 := forLoop (fun k (r : Nat → REAL) => setAt r k (fluxUpwindValue e dzz j k))
    (e.etop j) (e.Nke j - e.etop j) row0
  let row2 := fluxBottom e dzz j row1
  forLoop (fun k (r : Nat → REAL) => if r k ≤ e.DRYCELLHEIGHT then setAt r k 0 else r)
    (e.etop j) (e.Nke j - e.etop j) row2

/-- Body of the loop over the edges at lines 5975-6027. -/
def fluxEdge (e : FluxIn) (j : Nat) (s : FluxState) : FluxState :=
  let row := fluxRow e s.dzz j (s.dzf j)
  let hfj := forLoop (fun k (acc : REAL) => acc + row k) (e.etop j) (e.Nke j - e.etop j)
    (s.hf j)
  { s with dzf := setAt s.dzf j row, hf := setAt s.hf j hfj }

/-- Lines 5963-5968: `hf[j] = 0` and `dzf[j][k] = 0` for `k < Nkc[j]`. -/
def fluxInit (e : FluxIn) (s : FluxState) : FluxState :=
  forLoop (fun j (s : FluxState) =>
      let row := forLoop (fun k (r : Nat → REAL) => setAt r k 0) 0 (e.Nkc j) (s.dzf j)
      { s with hf := setAt s.hf j 0, dzf := setAt s.dzf j row })
    0 e.Ne s

/-- The function `SetFluxHeight(grid,phys,prop)`. -/
def SetFluxHeight (e : FluxIn) (s : FluxState) : FluxState :=
  let s1 := fluxInit e s
  let s2 :=
    if e.smoothbot ≠ 0 ∧ e.vertcoord = 1 then
      forLoop (fun i (s : FluxState) =>
          let v := max (e.dzbot i) (e.smoothbot * e.dz (e.Nk i - 1))
          { s with dzz := setAt s.dzz i (setAt (s.dzz i) (e.Nk i - 1) v) })
        0 e.Nc s1
    else s1
  let s3 := forLoop (fluxEdge e) 0 e.Ne s2
  if e.smoothbot ≠ 0 ∧ e.vertcoord = 1 then
    forLoop (fun i (s : FluxState) =>
        let v := max (s.dzz i (e.Nk i - 1)) (e.dzsmall * e.dz (e.Nk i - 1))
        { s with dzz := setAt s.dzz i (setAt (s.dzz i) (e.Nk i - 1) v) })
      0 e.Nc s3
  else s3

/-- One edge between the cells 0 and 1 with three layers, top layer 1, a negative
velocity and a negative thickness in layer 1; `UpWind` picks its second argument for
positive speed and its third otherwise. -/
def fluxExample : FluxIn where
  Ne := 1
  Nc := 2
  Nk := fun _ => 3
  Nkc := fun _ => 4
  Nke := fun _ => 3
  etop := fun _ => 1
  grad := fun n => if n = 0 then 0 else 1
  mark := fun _ => 0
  dv := fun _ => 3
  dz := fun _ => 1
  dzbot := fun _ => 1
  smoothbot := 0
  dzsmall := 0
  vertcoord := 1
  u := fun _ _ => -1
  SfHp := fun _ _ => 0
  SfHm := fun _ _ => 0
  h := fun _ => 0
  UpWind := fun u a b => if u > 0 then a else b
  DRYCELLHEIGHT := 1 / 1000

/-- Arrays holding 5 everywhere in `dzf` and `hf`, and the thicknesses `-1` in layer 1 and
`2` elsewhere. -/
def fluxStart : FluxState where
  dzf := fun _ _ => 5
  hf := fun _ => 5
  dzz := fun _ k => if k = 1 then -1 else 2

/-! ## `ComputeUCPerot` (phys.c 5446-5502)

The arrays `uc` and `vc` are distinct from each other and from `u`; in each loop body the
statement for `vc` repeats the one for `uc` with `n2` in place of `n1`, so both rows are
given by `perotRow`. `DRYCELLHEIGHT` is a macro defined outside `phys.c`. -/

/-- The fields of `gridT` read by `ComputeUCPerot` that `Grid` does not hold; `def_` is
`grid->def`. -/
structure PerotGrid where
  n1 : Nat → REAL
  n2 : Nat → REAL
  def_ : Nat → REAL
  dzz : Nat → Nat → REAL
  smoothbot : REAL
  DRYCELLHEIGHT : REAL

/-- The cell-centred velocity arrays `uc` and `vc`. -/
structure UC where
  uc : Nat → Nat → REAL
  vc : Nat → Nat → REAL

/-- The layer of edge `ne` that is read for layer `k` of the cell: `k` itself when
`!(grid->smoothbot) || k<grid->Nke[ne]`, else `Nke[ne]-1`. -/
def perotLayer (g : Grid) (P : PerotGrid) (ne k : Nat) : Nat :=
  if P.smoothbot = 0 ∨ k < g.Nke ne then k else g.Nke ne - 1

/-- The term added for face `nf` to an interior layer `k` (lines 5468, 5471), with the
normal component `nrm = n1` for `uc` and `nrm = n2` for `vc`. -/
def perotTerm (g : Grid) (P : PerotGrid) (nrm : Nat → REAL) (u : Nat → Nat → REAL)
    (n k nf : Nat) : REAL :=
  let ne := g.face (n * g.maxfaces + nf)
  u ne (perotLayer g P ne k) * nrm ne * P.def_ (n * g.maxfaces + nf) * g.df ne
    * g.dzf ne (perotLayer g P ne k)

/-- The term added for face `nf` to the top layer `k = ctop[n]` (lines 5492, 5495). -/
def perotTopTerm (g : Grid) (P : PerotGrid) (nrm : Nat → REAL) (u : Nat → Nat → REAL)
    (n k nf : Nat) : REAL :=
  let ne := g.face (n * g.maxfaces + nf)
  u ne (perotLayer g P ne k) * nrm ne * P.def_ (n * g.maxfaces + nf) * g.df ne

/-- The work of lines 5457-5500 on one of the rows `uc[n]`, `vc[n]`. -/
def perotRow (g : Grid) (P : PerotGrid) (nrm : Nat → REAL) (u : Nat → Nat → REAL) (n : Nat)
    (row : Nat → REAL) : Nat → REAL :=
  let r0 := forLoop (fun k (r : Nat → REAL) => setAt r k 0) 0 (g.Nk n) row
  let r2 := forLoop (fun k (r : Nat → REAL) =>
      let r1 := forLoop (fun nf (r : Nat → REAL) => setAt r k (r k + perotTerm g P nrm u n k nf))
        0 (g.nfaces n) r
      if P.dzz n k > P.DRYCELLHEIGHT then setAt r1 k (r1 k / (g.Ac n * P.dzz n k))
      else setAt r1 k 0)
    (g.ctop n + 1) (g.Nk n - (g.ctop n + 1)) r0
  let k := g.ctop n
  let r3 := forLoop (fun nf (r : Nat → REAL) => setAt r k (r k + perotTopTerm g P nrm u n k nf))
    0 (g.nfaces n) r2
  setAt r3 k (r3 k / g.Ac n)

/-- The function `ComputeUCPerot(u,uc,vc,h,kinterp,subgridmodel,grid)`; `h`, `kinterp`
and `subgridmodel` are not read. -/
def ComputeUCPerot (g : Grid) (P : PerotGrid) (u : Nat → Nat → REAL) (s : UC) : UC :=
  forLoop (fun iptr (s : UC) =>
      let n := g.cellp iptr
      { uc := setAt s.uc n (perotRow g P P.n1 u n (s.uc n)),
        vc := setAt s.vc n (perotRow g P P.n2 u n (s.vc n)) })
    (g.celldist 0) (g.celldist 1 - g.celldist 0) s

/-- Unit normal components, unit distances `def`, cell thickness 2 in every layer,
`smoothbot` off. -/
def perotExample : PerotGrid where
  n1 := fun _ => 1
  n2 := fun _ => 1
  def_ := fun _ => 1
  dzz := fun _ _ => 2
  smoothbot := 0
  DRYCELLHEIGHT := 1 / 1000

/-- Arrays holding 7 everywhere. -/
def perotStart : UC where
  uc := fun _ _ => 7
  vc := fun _ _ => 7

/-! ## `QCoefficients` and `ConditionQ` (phys.c 4917-4977, 5127-5185), subgrid off

`sqrt` is the library square root and is taken as given. -/

/-- The function `QCoefficients(coef,fcoef,c,grid,phys,prop)` in its branch without
preconditioner (`qprecond != 1`, lines 4956-4975): the vertical coefficients `coef`. -/
def QCoefficients (g : Grid) (dzz : Nat → Nat → REAL) (coef : Nat → Nat → REAL) :
    Nat → Nat → REAL :=
  forLoop (fun i (coef : Nat → Nat → REAL) =>
      let r0 := setAt (coef i) (g.ctop i) (g.Ac i / dzz i (g.ctop i))
      let r1 := forLoop (fun k (r : Nat → REAL) =>
          setAt r k (2 * g.Ac i / (dzz i k + dzz i (k - 1))))
        (g.ctop i + 1) (g.Nk i - (g.ctop i + 1)) r0
      setAt coef i r1)
    0 g.Nc coef

/-- The array `x` written by `ConditionQ`, its scratch array `a = phys->a` and its local
flag `warn`. -/
structure CondState where
  x : Nat → Nat → REAL
  a : Nat → REAL
  warn : Bool

/-- Body of the first loop over the computational cells (lines 5133-5167) for the cell `i`. -/
def conditionCell (g : Grid) (dzz : Nat → Nat → REAL) (D : Nat → REAL) (i : Nat)
    (s : CondState) : CondState :=
  let r0 := forLoop (fun k (r : Nat → REAL) => setAt r k 0) (g.ctop i) (g.Nk i - g.ctop i)
    (s.x i)
  let r1 := forLoop (fun nf (r : Nat → REAL) =>
      if g.neigh (i * g.maxfaces + nf) ≠ -1 then
        let nc := (g.neigh (i * g.maxfaces + nf)).toNat
        let ne := g.face (i * g.maxfaces + nf)
        let kmin := if g.ctop nc > g.ctop i then g.ctop nc else g.ctop i
        forLoop (fun k (r : Nat → REAL) => setAt r k (r k + dzz i k * D ne))
          kmin (g.Nke ne - kmin) r
      else r)
    0 (g.nfaces i) r0
  let a0 := setAt s.a (g.ctop i) (g.Ac i / dzz i (g.ctop i))
  let a1 := forLoop (fun k (a : Nat → REAL) =>
      setAt a k (2 * g.Ac i / (dzz i k + dzz i (k - 1))))
    (g.ctop i + 1) (g.Nk i - (g.ctop i + 1)) a0
  let r2 := forLoop (fun k (r : Nat → REAL) => setAt r k (r k + (a1 k + a1 (k + 1))))
    (g.ctop i + 1) (g.Nk i - 1 - (g.ctop i + 1)) r1
  let r3 :=
    if g.ctop i + 1 < g.Nk i then
      let kt := g.ctop i
      let rt := setAt r2 kt (r2 kt + (2 * a1 kt + a1 (kt + 1)))
      let kb := g.Nk i - 1
      setAt rt kb (rt kb + a1 kb)
    else r2
  { s with x := setAt s.x i r3, a := a1 }

/-- Body of the second loop over the computational cells (lines 5171-5179) for the cell `i`. -/
def conditionRoot (sqrt : REAL → REAL) (g : Grid) (i : Nat) (s : CondState) : CondState :=
  forLoop (fun k (s : CondState) =>
      if s.x i k ≤ 0 then
        { s with x := setAt s.x i (setAt (s.x i) k (sqrt 1)), warn := true }
      else
        { s with x := setAt s.x i (setAt (s.x i) k (sqrt (s.x i k))) })
    (g.ctop i) (g.Nk i - g.ctop i) s

/-- The function `ConditionQ(x,grid,phys,prop,myproc,comm)` on a single rank. -/
def ConditionQ (sqrt : REAL → REAL) (g : Grid) (dzz : Nat → Nat → REAL) (D : Nat → REAL)
    (s : CondState) : CondState :=
  let s1 := forLoop (fun iptr (s : CondState) => conditionCell g dzz D (g.cellp iptr) s)
    (g.celldist 0) (g.celldist 1 - g.celldist 0) { s with warn := false }
  forLoop (fun iptr (s : CondState) => conditionRoot sqrt g (g.cellp iptr) s)
    (g.celldist 0) (g.celldist 1 - g.celldist 0) s1

/-- Arrays holding 0 everywhere. -/
def condStart : CondState where
  x := fun _ _ => 0
  a := fun _ => 0
  warn := false

/-- The unit vector of the unknown `(0, 0)`: applying `OperatorQ` to it gives the column of
the matrix that belongs to that unknown. -/
def unitField : Nat → Nat → REAL := fun i k => if i = 0 ∧ k = 0 then 1 else 0

/-! ## Bilinear form of the free-surface operator -/

/-- The computational range of `cellp` lists every cell of the mesh exactly once. -/
structure CellListing (g : Grid) : Prop where
  start : g.celldist 0 = 0
  stop : g.celldist 1 = g.Nc
  range : ∀ a, a < g.Nc → g.cellp a < g.Nc
  inj : ∀ a b, a < g.Nc → b < g.Nc → g.cellp a = g.cellp b → a = b

/-- The bilinear form of claim C27: `sum_i Ac[i]*x[i]*y[i]` plus the sum over the interior
edges `e = (a,b)` of `fcoef_e*(x[a]-x[b])*(y[a]-y[b])`. An interior edge is a face of both
of its cells, so the sum over the faces with a neighbour meets it twice; hence the
factor 1/2. -/
def energyForm (g : Grid) (pr : Props) (D x y : Nat → REAL) : REAL :=
  ∑ i in Finset.range g.Nc, g.Ac i * x i * y i
    + 1 / 2 * ∑ i in Finset.range g.Nc, ∑ nf in Finset.range (g.nfaces i),
        (if g.neigh (i * g.maxfaces + nf) ≠ -1 then
          faceCoef g pr D i nf * (x i - x (g.neigh (i * g.maxfaces + nf)).toNat)
            * (y i - y (g.neigh (i * g.maxfaces + nf)).toNat)
        else 0)

/-! ## Residual of `CGSolve` -/

/-- No cell is listed twice in the computational range of `cellp`. -/
def ComputationalOnce (g : Grid) : Prop :=
  ∀ a b, g.celldist 0 ≤ a → a < g.celldist 1 → g.celldist 0 ≤ b → b < g.celldist 1 →
    g.cellp a = g.cellp b → a = b

/-- Every neighbour of a computational cell is listed in `cellp`, among the computational
cells or among the boundary cells `cellp[celldist[1] .. celldist[2])`. -/
def NeighboursListed (g : Grid) : Prop :=
  ∀ iptr, g.celldist 0 ≤ iptr → iptr < g.celldist 1 →
    ∀ nf, nf < g.nfaces (g.cellp iptr) → g.neigh (g.cellp iptr * g.maxfaces + nf) ≠ -1 →
      ∃ a, g.celldist 0 ≤ a ∧ a < g.celldist 2 ∧
        g.cellp a = (g.neigh (g.cellp iptr * g.maxfaces + nf)).toNat

/-- The value that `OperatorH` writes for a computational cell `i`. -/
def operatorRow (g : Grid) (coef fcoef x : Nat → REAL) (i : Nat) : REAL :=
  coef i * x i
    - ∑ nf in Finset.range (g.nfaces i),
        (if g.neigh (i * g.maxfaces + nf) ≠ -1 then
          fcoef (i * g.maxfaces + nf) * x (g.neigh (i * g.maxfaces + nf)).toNat else 0)

/-- The update of `x` and `r` at lines 4651-4656 with the step `nu` and `z = OperatorH(p)`. -/
def cgUpdate (g : Grid) (nu : REAL) (z : Nat → REAL) (s : CGState) : CGState :=
  forLoop (fun iptr (t : CGState) =>
      let i := g.cellp iptr
      { t with x := setAt t.x i (t.x i + nu * t.p i), r := setAt t.r i (t.r i - nu * z i) })
    (g.celldist 0) (g.celldist 1 - g.celldist 0) s

/-- The relation between the arrays of `CGSolve` that holds after the initialisation and
after every pass of the loop: the coefficients are those of `HCoefficients`, the stored
residual of every computational cell is `b - OperatorH(x)`, and the search direction is
zero in the boundary cells. -/
def ResidualInv (g : Grid) (b coef fcoef : Nat → REAL) (s : CGState) : Prop :=
  s.coef = coef ∧ s.fcoef = fcoef ∧
  (∀ iptr, g.celldist 0 ≤ iptr → iptr < g.celldist 1 →
    s.r (g.cellp iptr) = b (g.cellp iptr) - operatorRow g coef fcoef s.x (g.cellp iptr)) ∧
  (∀ j, NotComputational g j →
    (∃ a, g.celldist 1 ≤ a ∧ a < g.celldist 2 ∧ g.cellp a = j) → s.p j = 0)

/-- The example state with the source `htmp = (4, 1)` handed to `CGSolve`. -/
def forcedPhys : Phys := { examplePhys with htmp := fun i => if i = 0 then 4 else 1 }

/-! ## `ComputeQSource` and `Corrector` (phys.c 3138-3212, 3095-3126)

The z-level coordinate (`vertcoord == 1`) with subgrid off. -/

/-- The work of `ComputeQSource` on the row `src[i]` of the computational cell `i`
(lines 3162-3203): the vertical contribution, the contribution of every face, and the
division by `dt`. -/
def qsourceRow (g : Grid) (pr : Props) (ph : Phys) (w : Nat → Nat → REAL) (i : Nat)
    (row : Nat → REAL) : Nat → REAL :=
  let r1 := forLoop (fun k (r : Nat → REAL) => setAt r k
      (g.Ac i * (w i k - w i (k + 1))
        + pr.imfac2 / pr.imfac1 * g.Ac i * (ph.w_old i k - ph.w_old i (k + 1))
        + pr.imfac3 / pr.imfac1 * g.Ac i * (ph.w_old2 i k - ph.w_old2 i (k + 1))))
    (g.ctop i) (g.Nk i - g.ctop i) row
  let r2 := forLoop (fun nf (r : Nat → REAL) =>
      let ne := g.face (i * g.maxfaces + nf)
      forLoop (fun k (r : Nat → REAL) => setAt r k
          (r k + (ph.u ne k + pr.imfac2 / pr.imfac1 * ph.u_old ne k
            + pr.imfac3 / pr.imfac1 * ph.u_old2 ne k)
            * g.dzf ne k * g.normal (i * g.maxfaces + nf) * g.df ne))
        (g.ctop i) (g.Nke ne - g.ctop i) r)
    0 (g.nfaces i) r1
  forLoop (fun k (r : Nat → REAL) => setAt r k (r k / pr.dt)) (g.ctop i) (g.Nk i - g.ctop i) r2

/-- The arrays written by `ComputeQSource`: `src` and `phys->D`. -/
structure QSource where
  src : Nat → Nat → REAL
  D : Nat → REAL

/-- The function `ComputeQSource(src,grid,phys,prop,myproc,numprocs)`; `w` is `phys->w`. -/
def ComputeQSource (g : Grid) (pr : Props) (ph : Phys) (w : Nat → Nat → REAL)
    (src : Nat → Nat → REAL) : QSource :=
  let s0 := forLoop (fun i (s : Nat → Nat → REAL) =>
      setAt s i (forLoop (fun k (r : Nat → REAL) => setAt r k 0) (g.ctop i)
        (g.Nk i - g.ctop i) (s i)))
    0 g.Nc src
  let s1 := forLoop (fun iptr (s : Nat → Nat → REAL) =>
      setAt s (g.cellp iptr) (qsourceRow g pr ph w (g.cellp iptr) (s (g.cellp iptr))))
    (g.celldist 0) (g.celldist 1 - g.celldist 0) s0
  { src := s1, D := forLoop (fun j (D : Nat → REAL) => setAt D j (g.df j / g.dg j)) 0 g.Ne ph.D }

/-- The arrays written by `Corrector`: `phys->u`, `phys->w` and `phys->q`. -/
structure FlowState where
  u : Nat → Nat → REAL
  w : Nat → Nat → REAL
  q : Nat → Nat → REAL

/-- Lines 3103-3106 of `Corrector` on the row `u[j]`. -/
def correctEdgeRow (g : Grid) (pr : Props) (D : Nat → REAL) (qc : Nat → Nat → REAL) (j : Nat)
    (row : Nat → REAL) : Nat → REAL :=
  if D j ≠ 0 ∧ (g.etop j : Int) < (g.Nke j : Int) - 1 then
    forLoop (fun k (r : Nat → REAL) => setAt r k
        (r k - pr.dt / g.dg j * (qc (g.grad (2 * j)).toNat k - qc (g.grad (2 * j + 1)).toNat k)))
      (g.etop j) (g.Nke j - g.etop j) row
  else row

/-- Lines 3112-3116 of `Corrector` on the row `w[i]`. -/
def correctColumn (g : Grid) (pr : Props) (dzz qc : Nat → Nat → REAL) (i : Nat)
    (row : Nat → REAL) : Nat → REAL :=
  let r1 := forLoop (fun k (r : Nat → REAL) => setAt r k
      (r k - 2 * pr.dt / (dzz i (k - 1) + dzz i k) * (qc i (k - 1) - qc i k)))
    (g.ctop i + 1) (g.Nk i - (g.ctop i + 1)) row
  setAt r1 (g.ctop i) (r1 (g.ctop i) + 2 * pr.dt / dzz i (g.ctop i) * qc i (g.ctop i))

/-- Lines 3122-3124 of `Corrector` on the row `q[i]`. -/
def correctPressure (g : Grid) (qc : Nat → Nat → REAL) (i : Nat) (row : Nat → REAL) :
    Nat → REAL :=
  if (g.ctop i : Int) < (g.Nk i : Int) - 1 then
    forLoop (fun k (r : Nat → REAL) => setAt r k (r k + qc i k)) (g.ctop i)
      (g.Nk i - g.ctop i) row
  else row

/-- The function `Corrector(qc,grid,phys,prop,myproc,numprocs,comm)`; `D` is `phys->D` and
`dzz` is `grid->dzz`. -/
def Corrector (g : Grid) (pr : Props) (edgedist edgep : Nat → Nat) (dzz : Nat → Nat → REAL)
    (D : Nat → REAL) (qc : Nat → Nat → REAL) (s : FlowState) : FlowState :=
  let u1 := forLoop (fun jptr (u : Nat → Nat → REAL) =>
      setAt u (edgep jptr) (correctEdgeRow g pr D qc (edgep jptr) (u (edgep jptr))))
    (edgedist 0) (edgedist 1 - edgedist 0) s.u
  let w1 := forLoop (fun iptr (w : Nat → Nat → REAL) =>
      setAt w (g.cellp iptr) (correctColumn g pr dzz qc (g.cellp iptr) (w (g.cellp iptr))))
    (g.celldist 0) (g.celldist 1 - g.celldist 0) s.w
  let q1 := forLoop (fun iptr (q : Nat → Nat → REAL) =>
      setAt q (g.cellp iptr) (correctPressure g qc (g.cellp iptr) (q (g.cellp iptr))))
    (g.celldist 0) (g.celldist 1 - g.celldist 0) s.q
  { u := u1, w := w1, q := q1 }

/-- The divergence of claim C21 at layer `k` of cell `i`:
`Ac[i]*(w[i][k]-w[i][k+1])` plus the sum over the faces of
`u[ne][k]*dzf[ne][k]*normal[i,nf]*df[ne]`. -/
def cellDivergence (g : Grid) (u w : Nat → Nat → REAL) (i k : Nat) : REAL :=
  g.Ac i * (w i k - w i (k + 1))
    + ∑ nf in Finset.range (g.nfaces i),
        u (g.face (i * g.maxfaces + nf)) k * g.dzf (g.face (i * g.maxfaces + nf)) k
          * g.normal (i * g.maxfaces + nf) * g.df (g.face (i * g.maxfaces + nf))

/-- No edge is listed twice in the computational range of `edgep`. -/
def EdgesOnce (edgedist edgep : Nat → Nat) : Prop :=
  ∀ a b, edgedist 0 ≤ a → a < edgedist 1 → edgedist 0 ≤ b → b < edgedist 1 →
    edgep a = edgep b → a = b

/-- The setting of claim C21 around the cell `i`: fully implicit weights, a time step that
is not zero, more than one layer, and for every face an interior computational edge whose
top layer is the common top layer of its two columns, with more than one active layer,
`Nke` equal to the `Nk` of the cell, and the normal `-1` seen from `grad[2*ne]` and `+1`
seen from `grad[2*ne+1]`. -/
structure PressureSetting (g : Grid) (pr : Props) (edgedist edgep : Nat → Nat) (i : Nat) :
    Prop where
  fac1 : pr.imfac1 = 1
  fac2 : pr.imfac2 = 0
  fac3 : pr.imfac3 = 0
  step : pr.dt ≠ 0
  layers : g.ctop i + 1 < g.Nk i
  interior : ∀ nf, nf < g.nfaces i → g.neigh (i * g.maxfaces + nf) ≠ -1
  inMesh : ∀ nf, nf < g.nfaces i → g.face (i * g.maxfaces + nf) < g.Ne
  listed : ∀ nf, nf < g.nfaces i →
    ∃ jptr, edgedist 0 ≤ jptr ∧ jptr < edgedist 1 ∧ edgep jptr = g.face (i * g.maxfaces + nf)
  sameTop : ∀ nf, nf < g.nfaces i →
    g.ctop (g.neigh (i * g.maxfaces + nf)).toNat = g.ctop i ∧
    g.etop (g.face (i * g.maxfaces + nf)) = g.ctop i
  sameBottom : ∀ nf, nf < g.nfaces i → g.Nke (g.face (i * g.maxfaces + nf)) = g.Nk i
  orient : ∀ nf, nf < g.nfaces i →
    (g.grad (2 * g.face (i * g.maxfaces + nf)) = (i : Int) ∧
      g.grad (2 * g.face (i * g.maxfaces + nf) + 1) = g.neigh (i * g.maxfaces + nf) ∧
      g.normal (i * g.maxfaces + nf) = -1) ∨
    (g.grad (2 * g.face (i * g.maxfaces + nf) + 1) = (i : Int) ∧
      g.grad (2 * g.face (i * g.maxfaces + nf)) = g.neigh (i * g.maxfaces + nf) ∧
      g.normal (i * g.maxfaces + nf) = 1)

/-- Two cells that share the edge 0, each with that edge as its only face; two layers. -/
def twinMesh : Grid where
  Nc := 2
  Ne := 1
  maxfaces := 1
  celldist := fun n => if n = 0 then 0 else 2
  cellp := fun n => n
  nfaces := fun _ => 1
  face := fun _ => 0
  neigh := fun n => if n = 0 then 1 else 0
  normal := fun n => if n = 0 then -1 else 1
  grad := fun n => if n = 0 then 0 else 1
  Ac := fun _ => 1
  df := fun _ => 1
  dg := fun _ => 1
  dv := fun _ => 2
  Nk := fun _ => 2
  ctop := fun _ => 0
  Nke := fun _ => 2
  etop := fun _ => 0
  dzf := fun _ _ => 1

/-- Predicted horizontal velocity 1 in both layers of the edge. -/
def twinPhys : Phys := { islandPhys with u := fun _ _ => 1 }

/-- Predicted vertical velocities `(-3, -2, 0)` in cell 0 and `(1, 1, 0)` in cell 1. -/
def twinW : Nat → Nat → REAL := fun i k =>
  if i = 0 then (if k = 0 then -3 else if k = 1 then -2 else 0)
  else (if k = 0 then 1 else if k = 1 then 1 else 0)

/-- The pressure correction `(1, 2)` in cell 0 and `(0, 0)` in cell 1. -/
def twinQ : Nat → Nat → REAL := fun i k =>
  if i = 0 then (if k = 0 then 1 else if k = 1 then 2 else 0) else 0

/-! # Theorems -/

/-! ## Proof support for `UpdateDZ` -/

theorem depthTo_succ (dz : Nat → REAL) (m : Nat) : depthTo dz (m + 1) = depthTo dz m + dz m := by
  simp [depthTo, Finset.sum_range_succ]

theorem depthTo_zero (dz : Nat → REAL) : depthTo dz 0 = 0 := by
  simp [depthTo]

theorem depthTo_mono (dz : Nat → REAL) (n : Nat) (hpos : ∀ k, k < n → 0 < dz k) :
    ∀ m, m ≤ n → depthTo dz m ≤ depthTo dz n := by
  induction n with
  | zero => intro m hm; simp [Nat.le_zero.mp hm]
  | succ n ih =>
    intro m hm
    rcases Nat.lt_or_ge m (n + 1) with h1 | h1
    · have h2 := ih (fun k hk => hpos k (by omega)) m (by omega)
      have h3 := hpos n (by omega)
      rw [depthTo_succ]; linarith
    · have : m = n + 1 := by omega
      subst this; exact le_refl _

theorem forLoop_zsum (dz : Nat → REAL) (n : Nat) :
    forLoop (fun k (z : REAL) => z - dz k) 0 n 0 = - depthTo dz n := by
  induction n with
  | zero => simp [forLoop, depthTo_zero]
  | succ n ih => simp only [forLoop, ih, depthTo_succ, Nat.zero_add]; ring

theorem setAt_same {α : Type} (a : Nat → α) (i : Nat) (v : α) : setAt a i v i = v := by
  simp [setAt]

theorem setAt_other {α : Type} (a : Nat → α) (i j : Nat) (v : α) (hne : j ≠ i) :
    setAt a i v j = a j := by
  simp [setAt, hne]

theorem sum_range_setAt (a : Nat → REAL) (m : Nat) (v : REAL) :
    ∑ k in Finset.range m, setAt a m v k = ∑ k in Finset.range m, a k := by
  apply Finset.sum_congr rfl
  intro k hk
  have : k ≠ m := by
    have := Finset.mem_range.mp hk
    omega
  exact setAt_other a m k v this

theorem sum_range_succ_setAt (a : Nat → REAL) (m : Nat) (v : REAL) :
    ∑ k in Finset.range (m + 1), setAt a m v k = (∑ k in Finset.range m, a k) + v := by
  rw [Finset.sum_range_succ, sum_range_setAt, setAt_same]

theorem layerInv_init (dz : Nat → REAL) (h : REAL) (row : Nat → REAL) (ctop0 : Nat) :
    LayerInv dz h row ctop0 0 { z := 0, flag := false, dzz := row, ctop := ctop0 } where
  z_eq := by simp [depthTo_zero]
  frame := by intro k _; rfl
  dry := by
    intro _
    exact ⟨fun k hk => absurd hk (Nat.not_lt_zero k), fun k hk => absurd hk (Nat.not_lt_zero k), rfl⟩
  wet := by intro hf; simp at hf
  psum_dry := by intro _; simp
  psum_wet := by intro hf; simp at hf

theorem layerInv_step (Nk : Nat) (dz : Nat → REAL) (dv h : REAL) (row : Nat → REAL)
    (ctop0 m : Nat) (s : ColState)
    (hpos : ∀ k, k < Nk → 0 < dz k) (hbed : depthTo dz (Nk - 1) ≤ dv) (hm : m + 1 < Nk)
    (inv : LayerInv dz h row ctop0 m s) :
    LayerInv dz h row ctop0 (m + 1) (layerStep Nk dz dv h m s) := by
  have hz : s.z - dz m = - depthTo dz (m + 1) := by rw [inv.z_eq, depthTo_succ]; ring
  have hne : m ≠ Nk - 1 := by omega
  have hfr : ∀ v k, m + 1 ≤ k → setAt s.dzz m v k = row k := by
    intro v k hk
    rw [setAt_other _ _ _ _ (by omega)]
    exact inv.frame k (by omega)
  by_cases hge : h ≥ s.z - dz m
  · cases hfl : s.flag with
    | false =>
      obtain ⟨d1, d2, _⟩ := inv.dry hfl
      have hs := inv.psum_dry hfl
      by_cases heq : h = s.z - dz m
      · have e : layerStep Nk dz dv h m s =
            { z := s.z - dz m, flag := true, dzz := setAt s.dzz m 0, ctop := m + 1 } := by
          simp [layerStep, hfl, hne, heq]
        rw [e]
        refine ⟨hz, hfr 0, by simp, ?_, by simp, ?_⟩
        · intro _
          refine ⟨le_refl _, ?_, ?_, ?_, ?_, ?_⟩
          · intro k hk
            rcases Nat.lt_or_ge k m with h1 | h1
            · exact ⟨by simp only [setAt_other _ _ _ _ (Nat.ne_of_lt h1)]; exact d2 k h1,
                le_of_lt (d1 k h1)⟩
            · have : k = m := by simp only at hk; omega
              subst this
              exact ⟨setAt_same _ _ _, by rw [heq, hz]⟩
          · have := hpos (m + 1) hm
            show - depthTo dz (m + 1 + 1) < h
            rw [depthTo_succ dz (m + 1), heq, hz]; linarith
          · intro hlt; simp only at hlt; omega
          · intro k h1 h2; simp only at h1; omega
          · intro _; rw [heq, hz]
        · intro _
          show ∑ k in Finset.range (m + 1), setAt s.dzz m 0 k = h + depthTo dz (m + 1)
          rw [sum_range_succ_setAt, hs, heq, hz]; ring
      · have hgt : s.z - dz m < h := lt_of_le_of_ne hge (Ne.symm heq)
        have e : layerStep Nk dz dv h m s =
            { z := s.z - dz m, flag := true, dzz := setAt s.dzz m (h - (s.z - dz m)),
              ctop := m } := by
          simp [layerStep, hfl, hne, heq, hge]
        rw [e]
        refine ⟨hz, hfr _, by simp, ?_, by simp, ?_⟩
        · intro _
          refine ⟨Nat.le_succ m, ?_, ?_, ?_, ?_, ?_⟩
          · intro k hk
            have h1 : k < m := hk
            exact ⟨by simp only [setAt_other _ _ _ _ (Nat.ne_of_lt h1)]; exact d2 k h1,
              le_of_lt (d1 k h1)⟩
          · show - depthTo dz (m + 1) < h
            rw [← hz]; exact hgt
          · intro _
            show setAt s.dzz m (h - (s.z - dz m)) m = h + depthTo dz (m + 1)
            rw [setAt_same, hz]; ring
          · intro k h1 h2; simp only at h1; omega
          · intro hc; simp only at hc; omega
        · intro _
          show ∑ k in Finset.range (m + 1), setAt s.dzz m (h - (s.z - dz m)) k
            = h + depthTo dz (m + 1)
          rw [sum_range_succ_setAt, hs, hz]; ring
    | true =>
      obtain ⟨w1, w2, w3, w4, w5, w6⟩ := inv.wet hfl
      have hs := inv.psum_wet hfl
      have hmono : depthTo dz (m + 1) ≤ depthTo dz (Nk - 1) :=
        depthTo_mono dz (Nk - 1) (fun k hk => hpos k (by omega)) (m + 1) (by omega)
      have hnlt : ¬ (s.z - dz m < -dv) := by rw [hz]; intro hc; linarith
      have e : layerStep Nk dz dv h m s =
          { z := s.z - dz m, flag := true, dzz := setAt s.dzz m (dz m), ctop := s.ctop } := by
        simp [layerStep, hfl, hne, hnlt, hge]
      rw [e]
      refine ⟨hz, hfr _, by simp, ?_, by simp, ?_⟩
      · intro _
        refine ⟨Nat.le_succ_of_le w1, ?_, w3, ?_, ?_, ?_⟩
        · intro k hk
          have h1 : k < s.ctop := hk
          have h2 : k ≠ m := by omega
          exact ⟨by simp only [setAt_other _ _ _ _ h2]; exact (w2 k h1).1, (w2 k h1).2⟩
        · intro _
          show setAt s.dzz m (dz m) s.ctop = h + depthTo dz (s.ctop + 1)
          rcases Nat.lt_or_ge s.ctop m with h1 | h1
          · rw [setAt_other _ _ _ _ (Nat.ne_of_lt h1)]; exact w4 h1
          · have hc : s.ctop = m := by omega
            rw [hc, setAt_same, w6 hc, depthTo_succ]; ring
        · intro k h1 h2
          show setAt s.dzz m (dz m) k = dz k
          have h1 : s.ctop < k := h1
          rcases Nat.lt_or_ge k m with h3 | h3
          · rw [setAt_other _ _ _ _ (Nat.ne_of_lt h3)]; exact w5 k h1 h3
          · have hk : k = m := by omega
            rw [hk, setAt_same]
        · intro hc; simp only at hc; omega
      · intro _
        show ∑ k in Finset.range (m + 1), setAt s.dzz m (dz m) k = h + depthTo dz (m + 1)
        rw [sum_range_succ_setAt, hs, depthTo_succ]; ring
  · have hlt : h < s.z - dz m := lt_of_not_ge hge
    cases hfl : s.flag with
    | false =>
      obtain ⟨d1, d2, d3⟩ := inv.dry hfl
      have hs := inv.psum_dry hfl
      have e : layerStep Nk dz dv h m s =
          { z := s.z - dz m, flag := false, dzz := setAt s.dzz m 0, ctop := s.ctop } := by
        simp [layerStep, hfl, hne, hge]
      rw [e]
      refine ⟨hz, hfr _, ?_, by simp, ?_, by simp⟩
      · intro _
        refine ⟨?_, ?_, d3⟩
        · intro k hk
          rcases Nat.lt_or_ge k m with h1 | h1
          · exact d1 k h1
          · have : k = m := by omega
            subst this; rw [← hz]; exact hlt
        · intro k hk
          show setAt s.dzz m 0 k = 0
          rcases Nat.lt_or_ge k m with h1 | h1
          · rw [setAt_other _ _ _ _ (Nat.ne_of_lt h1)]; exact d2 k h1
          · have : k = m := by omega
            subst this; exact setAt_same _ _ _
      · intro _
        show ∑ k in Finset.range (m + 1), setAt s.dzz m 0 k = 0
        rw [sum_range_succ_setAt, hs]; ring
    | true =>
      obtain ⟨w1, _, w3, _, _, _⟩ := inv.wet hfl
      have hmono : depthTo dz (s.ctop + 1) ≤ depthTo dz (m + 1) :=
        depthTo_mono dz (m + 1) (fun k hk => hpos k (by omega)) (s.ctop + 1) (by omega)
      rw [hz] at hlt
      exfalso; linarith

theorem layerInv_loop (Nk : Nat) (dz : Nat → REAL) (dv h : REAL) (row : Nat → REAL)
    (ctop0 : Nat) (hpos : ∀ k, k < Nk → 0 < dz k) (hbed : depthTo dz (Nk - 1) ≤ dv) :
    ∀ m, m < Nk → LayerInv dz h row ctop0 m
      (forLoop (layerStep Nk dz dv h) 0 m { z := 0, flag := false, dzz := row, ctop := ctop0 }) := by
  intro m
  induction m with
  | zero => intro _; exact layerInv_init dz h row ctop0
  | succ m ih =>
    intro hm
    have := layerInv_step Nk dz dv h row ctop0 m _ hpos hbed hm (ih (by omega))
    simpa [forLoop] using this

theorem layerColumn_spec (Nk : Nat) (dz : Nat → REAL) (dv h : REAL) (row : Nat → REAL)
    (ctop0 : Nat) (hNk : 1 ≤ Nk) (hpos : ∀ k, k < Nk → 0 < dz k)
    (hbed : depthTo dz (Nk - 1) ≤ dv) :
    ColumnSpec Nk dz dv h row (layerColumn Nk dz dv h row ctop0) := by
  obtain ⟨n, rfl⟩ : ∃ n, Nk = n + 1 := ⟨Nk - 1, by omega⟩
  have inv := layerInv_loop (n + 1) dz dv h row ctop0 hpos hbed n (by omega)
  simp only [Nat.add_sub_cancel] at hbed ⊢
  unfold layerColumn
  simp only [forLoop, Nat.zero_add]
  generalize forLoop (layerStep (n + 1) dz dv h) 0 n
    { z := 0, flag := false, dzz := row, ctop := ctop0 } = s at inv
  have hz : s.z - dz n = - depthTo dz (n + 1) := by rw [inv.z_eq, depthTo_succ]; ring
  have hfr : ∀ v k, n + 1 ≤ k → setAt s.dzz n v k = row k := by
    intro v k hk
    rw [setAt_other _ _ _ _ (by omega)]
    exact inv.frame k (by omega)
  cases hfl : s.flag with
  | false =>
    obtain ⟨d1, d2, _⟩ := inv.dry hfl
    have hs := inv.psum_dry hfl
    have e : layerStep (n + 1) dz dv h n s =
        { z := s.z - dz n, flag := (if h ≥ s.z - dz n then true else false),
          dzz := setAt s.dzz n (h + dv), ctop := n } := by
      by_cases hge : h ≥ s.z - dz n
      · simp [layerStep, hfl, hge]
      · simp [layerStep, hfl, hge, add_comm]
    rw [e]
    refine ⟨le_refl _, ?_, ?_, ?_, ?_, ?_, ?_, ?_, hfr _⟩
    · intro k hk
      have h1 : k < n := hk
      exact ⟨by simp only [setAt_other _ _ _ _ (Nat.ne_of_lt h1)]; exact d2 k h1,
        le_of_lt (d1 k h1)⟩
    · intro hc; simp only at hc; omega
    · intro hc; simp only at hc; omega
    · intro k h1 h2; simp only at h1; omega
    · intro hc; simp only at hc; omega
    · intro _; exact setAt_same _ _ _
    · show ∑ k in Finset.range (n + 1), setAt s.dzz n (h + dv) k = dv + h
      rw [sum_range_succ_setAt, hs]; ring
  | true =>
    obtain ⟨w1, w2, w3, w4, w5, w6⟩ := inv.wet hfl
    have hs := inv.psum_wet hfl
    have hmono : depthTo dz (s.ctop + 1) ≤ depthTo dz (n + 1) :=
      depthTo_mono dz (n + 1) hpos (s.ctop + 1) (by omega)
    have hge : h ≥ s.z - dz n := by rw [hz]; linarith
    have e : layerStep (n + 1) dz dv h n s =
        { z := s.z - dz n, flag := true, dzz := setAt s.dzz n (dz n + dv + (s.z - dz n)),
          ctop := s.ctop } := by
      simp [layerStep, hfl, hge]
    have hv : dz n + dv + (s.z - dz n) = dv - depthTo dz n := by rw [inv.z_eq]; ring
    rw [e, hv]
    refine ⟨w1, ?_, ?_, ?_, ?_, ?_, ?_, ?_, hfr _⟩
    · intro k hk
      have h1 : k < s.ctop := hk
      have h2 : k ≠ n := by omega
      exact ⟨by simp only [setAt_other _ _ _ _ h2]; exact (w2 k h1).1, (w2 k h1).2⟩
    · intro _; exact w3
    · intro hc
      have h1 : s.ctop < n := hc
      show setAt s.dzz n (dv - depthTo dz n) s.ctop = h + depthTo dz (s.ctop + 1)
      rw [setAt_other _ _ _ _ (Nat.ne_of_lt h1)]; exact w4 h1
    · intro k h1 h2
      have h1 : s.ctop < k := h1
      have h2 : k < n := by omega
      show setAt s.dzz n (dv - depthTo dz n) k = dz k
      rw [setAt_other _ _ _ _ (Nat.ne_of_lt h2)]; exact w5 k h1 h2
    · intro _; exact setAt_same _ _ _
    · intro hc
      have h1 : s.ctop = n := hc
      show setAt s.dzz n (dv - depthTo dz n) n = h + dv
      rw [setAt_same, w6 h1]; ring
    · show ∑ k in Finset.range (n + 1), setAt s.dzz n (dv - depthTo dz n) k = dv + h
      rw [sum_range_succ_setAt, hs]; ring

theorem forLoop_preserves {σ : Type} (P : σ → Prop) (body : Nat → σ → σ)
    (hb : ∀ k s, P s → P (body k s)) (lo n : Nat) (s : σ) (h0 : P s) :
    P (forLoop body lo n s) := by
  induction n with
  | zero => exact h0
  | succ n ih => exact hb _ _ ih

theorem forLoop_induct {σ : Type} (P : Nat → σ → Prop) (body : Nat → σ → σ) (lo n : Nat)
    (s : σ) (h0 : P 0 s) (hs : ∀ m t, m < n → P m t → P (m + 1) (body (lo + m) t)) :
    P n (forLoop body lo n s) := by
  have key : ∀ m, m ≤ n → P m (forLoop body lo m s) := by
    intro m
    induction m with
    | zero => intro _; exact h0
    | succ m ih => intro hm; exact hs m _ (by omega) (ih (by omega))
  exact key n (le_refl n)

theorem sameInputs_refl (g : DZState) : SameInputs g g :=
  ⟨rfl, rfl, rfl, rfl, rfl, rfl, rfl, rfl, rfl⟩

theorem sameInputs_trans {g t u : DZState} (h1 : SameInputs g t) (h2 : SameInputs t u) :
    SameInputs g u := by
  obtain ⟨a1, a2, a3, a4, a5, a6, a7, a8, a9⟩ := h1
  obtain ⟨b1, b2, b3, b4, b5, b6, b7, b8, b9⟩ := h2
  exact ⟨b1.trans a1, b2.trans a2, b3.trans a3, b4.trans a4, b5.trans a5, b6.trans a6,
    b7.trans a7, b8.trans a8, b9.trans a9⟩

theorem sameLayering_refl (g : DZState) : SameLayering g g :=
  ⟨sameInputs_refl g, rfl, rfl, rfl⟩

theorem sameLayering_trans {g t u : DZState} (h1 : SameLayering g t) (h2 : SameLayering t u) :
    SameLayering g u :=
  ⟨sameInputs_trans h1.1 h2.1, h2.2.1.trans h1.2.1, h2.2.2.1.trans h1.2.2.1, h2.2.2.2.trans h1.2.2.2⟩

theorem snapshotOld_keeps (g : DZState) : SameLayering g (snapshotOld g) := by
  unfold snapshotOld
  apply forLoop_preserves (SameLayering g)
  · intro i s hs
    apply forLoop_preserves (SameLayering g)
    · intro k t ht; exact ht
    · apply forLoop_preserves (SameLayering g)
      · intro k t ht; exact ht
      · exact hs
  · apply forLoop_preserves (SameLayering g)
    · intro j s hs; exact hs
    · exact sameLayering_refl g

theorem firstCall_keeps (g : DZState) : SameLayering g (firstCall g) := by
  unfold firstCall
  apply forLoop_preserves (SameLayering g)
  · intro j s hs; exact hs
  · apply forLoop_preserves (SameLayering g)
    · intro i s hs
      apply forLoop_preserves (SameLayering g)
      · intro k t ht; exact ht
      · exact hs
    · apply forLoop_preserves (SameLayering g)
      · intro j s hs; exact hs
      · exact sameLayering_refl g

theorem bottomLayer_keeps (g : DZState) :
    SameInputs g (bottomLayer g) ∧ (bottomLayer g).ctop = g.ctop := by
  unfold bottomLayer
  apply forLoop_preserves (fun t => SameInputs g t ∧ t.ctop = g.ctop)
  · intro i s hs; exact hs
  · exact ⟨sameInputs_refl g, rfl⟩

theorem cutLayers_deep (g : DZState) (hk : g.Nkmax > 1) :
    SameInputs g (cutLayers g) ∧ ∀ i, i < g.Nc →
      (cutLayers g).dzz i
        = (layerColumn (g.Nk i) g.dz (g.dv i) (g.h i) (g.dzz i) (g.ctop i)).dzz ∧
      (cutLayers g).ctop i
        = (layerColumn (g.Nk i) g.dz (g.dv i) (g.h i) (g.dzz i) (g.ctop i)).ctop := by
  unfold cutLayers
  rw [if_pos hk]
  have key := forLoop_induct
    (fun n (t : DZState) => SameInputs g t ∧
      (∀ i, i < n →
        t.dzz i = (layerColumn (g.Nk i) g.dz (g.dv i) (g.h i) (g.dzz i) (g.ctop i)).dzz ∧
        t.ctop i = (layerColumn (g.Nk i) g.dz (g.dv i) (g.h i) (g.dzz i) (g.ctop i)).ctop) ∧
      (∀ i, n ≤ i → t.dzz i = g.dzz i ∧ t.ctop i = g.ctop i))
    (fun i (s : DZState) =>
        let c := layerColumn (s.Nk i) s.dz (s.dv i) (s.h i) (s.dzz i) (s.ctop i)
        { s with dzz := setAt s.dzz i c.dzz, ctop := setAt s.ctop i c.ctop })
    0 g.Nc g
    ⟨sameInputs_refl g, fun i hi => absurd hi (Nat.not_lt_zero i), fun i _ => ⟨rfl, rfl⟩⟩
    (by
      intro m t _ ⟨hin, hlt, hge⟩
      obtain ⟨a1, a2, a3, a4, a5, a6, a7, a8, a9⟩ := hin
      refine ⟨⟨a1, a2, a3, a4, a5, a6, a7, a8, a9⟩, ?_, ?_⟩
      · intro i hi
        rcases Nat.lt_or_ge i m with h1 | h1
        · have hne : i ≠ 0 + m := by omega
          simp only [setAt_other _ _ _ _ hne]
          exact hlt i h1
        · have he : i = 0 + m := by omega
          subst he
          simp only [setAt_same, a4, a6, a7, a9, (hge (0 + m) (by omega)).1,
            (hge (0 + m) (by omega)).2]
          trivial
      · intro i hi
        have hne : i ≠ 0 + m := by omega
        simp only [setAt_other _ _ _ _ hne]
        exact hge i (by omega))
  exact ⟨key.1, key.2.1⟩

theorem cutLayers_shallow (g : DZState) (hk : ¬ g.Nkmax > 1) :
    SameInputs g (cutLayers g) ∧ ∀ i, i < g.Nc → (cutLayers g).dzz i 0 = g.dv i + g.h i := by
  unfold cutLayers
  rw [if_neg hk]
  have key := forLoop_induct
    (fun n (t : DZState) => SameInputs g t ∧ ∀ i, i < n → t.dzz i 0 = g.dv i + g.h i)
    (fun i (s : DZState) =>
        { s with dzz := setAt s.dzz i (setAt (s.dzz i) 0 (s.dv i + s.h i)) })
    0 g.Nc g
    ⟨sameInputs_refl g, fun i hi => absurd hi (Nat.not_lt_zero i)⟩
    (by
      intro m t _ ⟨hin, hlt⟩
      obtain ⟨a1, a2, a3, a4, a5, a6, a7, a8, a9⟩ := hin
      refine ⟨⟨a1, a2, a3, a4, a5, a6, a7, a8, a9⟩, ?_⟩
      intro i hi
      rcases Nat.lt_or_ge i m with h1 | h1
      · have hne : i ≠ 0 + m := by omega
        simp only [setAt_other _ _ _ _ hne]
        exact hlt i h1
      · have he : i = 0 + m := by omega
        subst he
        simp only [setAt_same, a7, a9])
  exact key

theorem setEtop_spec (g : DZState) :
    SameInputs g (setEtop g) ∧ (setEtop g).dzz = g.dzz ∧ (setEtop g).ctop = g.ctop ∧
    ∀ j, j < g.Ne → (setEtop g).etop j = edgeTop g.ctop g.grad j := by
  unfold setEtop
  have key := forLoop_induct
    (fun n (t : DZState) => SameInputs g t ∧ t.dzz = g.dzz ∧ t.ctop = g.ctop ∧
      ∀ j, j < n → t.etop j = edgeTop g.ctop g.grad j)
    etopStep 0 g.Ne g
    ⟨sameInputs_refl g, rfl, rfl, fun j hj => absurd hj (Nat.not_lt_zero j)⟩
    (by
      intro m t _ ⟨hin, hd, hc, hlt⟩
      obtain ⟨a1, a2, a3, a4, a5, a6, a7, a8, a9⟩ := hin
      refine ⟨⟨a1, a2, a3, a4, a5, a6, a7, a8, a9⟩, hd, hc, ?_⟩
      intro j hj
      unfold etopStep
      rcases Nat.lt_or_ge j m with h1 | h1
      · have hne : j ≠ 0 + m := by omega
        simp only [setAt_other _ _ _ _ hne]
        exact hlt j h1
      · have he : j = 0 + m := by omega
        subst he
        simp only [setAt_same, hc, a8])
  exact key

theorem cutLayers_keeps (g : DZState) : SameInputs g (cutLayers g) := by
  by_cases hk : g.Nkmax > 1
  · exact (cutLayers_deep g hk).1
  · exact (cutLayers_shallow g hk).1

/-- `UpdateDZ` with `option` 0 or 1 and a nonlinear free surface: the result carries the
layering computed by `cutLayers` on a state `gb` with the same inputs, and `etop` from it. -/
theorem UpdateDZ_facts (g : DZState) (option : Int) (hopt : option = 0 ∨ option = 1)
    (hlin : g.linearFS = false) :
    ∃ gb : DZState, SameInputs g gb ∧ SameInputs g (UpdateDZ g option) ∧
      (UpdateDZ g option).dzz = (cutLayers gb).dzz ∧
      (UpdateDZ g option).ctop = (cutLayers gb).ctop ∧
      ∀ j, j < g.Ne →
        (UpdateDZ g option).etop j = edgeTop (UpdateDZ g option).ctop g.grad j := by
  have core : ∀ gb : DZState, SameInputs g gb →
      SameInputs g (setEtop (cutLayers gb)) ∧
      (setEtop (cutLayers gb)).dzz = (cutLayers gb).dzz ∧
      (setEtop (cutLayers gb)).ctop = (cutLayers gb).ctop ∧
      ∀ j, j < g.Ne →
        (setEtop (cutLayers gb)).etop j = edgeTop (setEtop (cutLayers gb)).ctop g.grad j := by
    intro gb hgb
    have hc := cutLayers_keeps gb
    obtain ⟨e1, e2, e3, e4⟩ := setEtop_spec (cutLayers gb)
    have hall := sameInputs_trans (sameInputs_trans hgb hc) e1
    refine ⟨hall, e2, e3, ?_⟩
    intro j hj
    have hNe : (cutLayers gb).Ne = g.Ne := (sameInputs_trans hgb hc).2.1
    have hgr : (cutLayers gb).grad = g.grad := (sameInputs_trans hgb hc).2.2.2.2.2.2.2.1
    rw [e4 j (by omega), e3, hgr]
  rcases hopt with h0 | h1
  · subst h0
    have hsn := snapshotOld_keeps g
    have hb := bottomLayer_keeps (snapshotOld g)
    have hgb : SameInputs g (bottomLayer (snapshotOld g)) := sameInputs_trans hsn.1 hb.1
    have e : UpdateDZ g 0 = setEtop (cutLayers (bottomLayer (snapshotOld g))) := by
      simp [UpdateDZ, hlin]
    rw [e]
    obtain ⟨c1, c2, c3, c4⟩ := core _ hgb
    exact ⟨_, hgb, c1, c2, c3, c4⟩
  · subst h1
    have hb := bottomLayer_keeps g
    have e : UpdateDZ g 1 = firstCall (setEtop (cutLayers (bottomLayer g))) := by
      simp [UpdateDZ, hlin]
    rw [e]
    obtain ⟨c1, c2, c3, c4⟩ := core _ hb.1
    obtain ⟨f1, f2, f3, f4⟩ := firstCall_keeps (setEtop (cutLayers (bottomLayer g)))
    refine ⟨_, hb.1, sameInputs_trans c1 f1, f2.trans c2, f3.trans c3, ?_⟩
    intro j hj
    rw [f4, f3]
    exact c4 j hj

/-- The layering of column `i` after `UpdateDZ` when `Nkmax > 1`. -/
theorem UpdateDZ_column (g : DZState) (option : Int) (hopt : option = 0 ∨ option = 1)
    (hlin : g.linearFS = false) (hk : g.Nkmax > 1) (i : Nat) (hi : i < g.Nc)
    (hNk : 1 ≤ g.Nk i) (hpos : ∀ k, k < g.Nk i → 0 < g.dz k)
    (hbed : depthTo g.dz (g.Nk i - 1) ≤ g.dv i) :
    ∃ row : Nat → REAL, ColumnSpec (g.Nk i) g.dz (g.dv i) (g.h i) row
      { z := 0, flag := true, dzz := (UpdateDZ g option).dzz i,
        ctop := (UpdateDZ g option).ctop i } := by
  obtain ⟨gb, hgb, _, hd, hc, _⟩ := UpdateDZ_facts g option hopt hlin
  obtain ⟨b1, b2, b3, b4, b5, b6, b7, b8, b9⟩ := hgb
  have hk2 : gb.Nkmax > 1 := by rw [b3]; exact hk
  obtain ⟨_, hcol⟩ := cutLayers_deep gb hk2
  obtain ⟨hdz, hct⟩ := hcol i (by rw [b1]; exact hi)
  rw [b4, b6, b7, b9] at hdz hct
  have sp := layerColumn_spec (g.Nk i) g.dz (g.dv i) (g.h i) (gb.dzz i) (gb.ctop i)
    hNk hpos hbed
  refine ⟨gb.dzz i, ?_⟩
  rw [hd, hc, hdz, hct]
  exact ⟨sp.ctop_le, sp.above, sp.cross, sp.top, sp.mid, sp.bot, sp.botdry, sp.total, sp.frame⟩

/-! ## Column layering: the claims -/

/-- C1: after `UpdateDZ` (option 0 or 1, `linearFS` off) the thicknesses of the `Nk[i]`
layers of every column `i` add up to `dv[i]+h[i]` exactly, for every elevation, when the
nominal thicknesses are positive and the bed lies in the deepest layer; `dv` and `h` are
left as they were, and a column with one layer gets `dzz[i][0] = dv[i]+h[i]`. -/
theorem UpdateDZ_column_sum (g : DZState) (option : Int) (hopt : option = 0 ∨ option = 1)
    (hlin : g.linearFS = false) (i : Nat) (hi : i < g.Nc)
    (hNk : 1 ≤ g.Nk i) (hmax : g.Nk i ≤ g.Nkmax) (hpos : ∀ k, k < g.Nk i → 0 < g.dz k)
    (hbed : depthTo g.dz (g.Nk i - 1) ≤ g.dv i) :
    (∑ k in Finset.range ((UpdateDZ g option).Nk i), (UpdateDZ g option).dzz i k
      = (UpdateDZ g option).dv i + (UpdateDZ g option).h i) ∧
    (UpdateDZ g option).dv i = g.dv i ∧ (UpdateDZ g option).h i = g.h i ∧
    (g.Nk i = 1 → (UpdateDZ g option).dzz i 0 = g.dv i + g.h i) := by
  obtain ⟨gb, hgb, hin, hd, _, _⟩ := UpdateDZ_facts g option hopt hlin
  obtain ⟨_, _, _, a4, _, _, a7, _, a9⟩ := hin
  have hsum : ∑ k in Finset.range (g.Nk i), (UpdateDZ g option).dzz i k = g.dv i + g.h i := by
    by_cases hk : g.Nkmax > 1
    · obtain ⟨row, sp⟩ := UpdateDZ_column g option hopt hlin hk i hi hNk hpos hbed
      exact sp.total
    · obtain ⟨b1, _, b3, _, _, _, b7, _, b9⟩ := hgb
      have hk2 : ¬ gb.Nkmax > 1 := by rw [b3]; exact hk
      have h0 := (cutLayers_shallow gb hk2).2 i (by rw [b1]; exact hi)
      rw [b7, b9] at h0
      have h1 : g.Nk i = 1 := by omega
      rw [h1, hd]
      simpa using h0
  refine ⟨?_, by rw [a7], by rw [a9], ?_⟩
  · rw [a4, a7, a9]; exact hsum
  · intro h1
    rw [h1] at hsum
    simpa using hsum

/-- C1 at the example grid: column 0 with bed 3/2 and elevation -1/2. -/
theorem UpdateDZ_column_sum_witness :
    (∑ k in Finset.range ((UpdateDZ exampleGrid 0).Nk 0), (UpdateDZ exampleGrid 0).dzz 0 k
      = (UpdateDZ exampleGrid 0).dv 0 + (UpdateDZ exampleGrid 0).h 0) ∧
    (UpdateDZ exampleGrid 0).dv 0 = exampleGrid.dv 0 ∧
    (UpdateDZ exampleGrid 0).h 0 = exampleGrid.h 0 ∧
    (exampleGrid.Nk 0 = 1 → (UpdateDZ exampleGrid 0).dzz 0 0
      = exampleGrid.dv 0 + exampleGrid.h 0) :=
  UpdateDZ_column_sum exampleGrid 0 (Or.inl rfl) rfl 0 (by decide) (by decide) (by decide)
    (by intro k _; simp [exampleGrid]) (by simp [exampleGrid, depthTo]; norm_num)

theorem clipStep_subgrid_off (i : Nat) (s : ClipState) (hs : s.subgrid = false) :
    clipStep i s =
      if s.h i ≤ -s.dv i + s.DRYCELLHEIGHT then
        { s with
          hcorr := setAt s.hcorr i (-s.dv i + s.DRYCELLHEIGHT - s.h i)
          h := setAt s.h i (-s.dv i + s.DRYCELLHEIGHT)
          active := setAt s.active i 0 }
      else
        { s with hcorr := setAt s.hcorr i 0, active := setAt s.active i 1 } := by
  simp [clipStep, hs]

theorem clipDryCells_cell (s : ClipState) (hs : s.subgrid = false) :
    (clipDryCells s).dv = s.dv ∧ (clipDryCells s).DRYCELLHEIGHT = s.DRYCELLHEIGHT ∧
    ∀ i, i < s.Nc →
      (s.h i ≤ -s.dv i + s.DRYCELLHEIGHT →
        (clipDryCells s).h i = -s.dv i + s.DRYCELLHEIGHT ∧
        (clipDryCells s).hcorr i = -s.dv i + s.DRYCELLHEIGHT - s.h i ∧
        (clipDryCells s).active i = 0) ∧
      (¬ s.h i ≤ -s.dv i + s.DRYCELLHEIGHT →
        (clipDryCells s).h i = s.h i ∧ (clipDryCells s).hcorr i = 0 ∧
        (clipDryCells s).active i = 1) := by
  unfold clipDryCells
  have key := forLoop_induct
    (fun n (t : ClipState) => t.subgrid = false ∧ t.dv = s.dv ∧
      t.DRYCELLHEIGHT = s.DRYCELLHEIGHT ∧ (∀ i, n ≤ i → t.h i = s.h i) ∧
      ∀ i, i < n →
        (s.h i ≤ -s.dv i + s.DRYCELLHEIGHT →
          t.h i = -s.dv i + s.DRYCELLHEIGHT ∧
          t.hcorr i = -s.dv i + s.DRYCELLHEIGHT - s.h i ∧ t.active i = 0) ∧
        (¬ s.h i ≤ -s.dv i + s.DRYCELLHEIGHT →
          t.h i = s.h i ∧ t.hcorr i = 0 ∧ t.active i = 1))
    clipStep 0 s.Nc s
    ⟨hs, rfl, rfl, fun i _ => rfl, fun i hi => absurd hi (Nat.not_lt_zero i)⟩
    (by
      intro m t _ ⟨h1, h2, h3, h4, h5⟩
      rw [clipStep_subgrid_off _ _ h1]
      have hm : t.h (0 + m) = s.h (0 + m) := h4 (0 + m) (by omega)
      by_cases hc : s.h (0 + m) ≤ -s.dv (0 + m) + s.DRYCELLHEIGHT
      · have hc2 : t.h (0 + m) ≤ -t.dv (0 + m) + t.DRYCELLHEIGHT := by rw [hm, h2, h3]; exact hc
        rw [if_pos hc2]
        refine ⟨h1, h2, h3, ?_, ?_⟩
        · intro i hi
          have hne : i ≠ 0 + m := by omega
          simp only [setAt_other _ _ _ _ hne]
          exact h4 i (by omega)
        · intro i hi
          rcases Nat.lt_or_ge i m with h6 | h6
          · have hne : i ≠ 0 + m := by omega
            simp only [setAt_other _ _ _ _ hne]
            exact h5 i h6
          · have he : i = 0 + m := by omega
            subst he
            simp only [setAt_same, h2, h3, hm]
            exact ⟨fun _ => by simp, fun hn => absurd hc hn⟩
      · have hc2 : ¬ t.h (0 + m) ≤ -t.dv (0 + m) + t.DRYCELLHEIGHT := by
          rw [hm, h2, h3]; exact hc
        rw [if_neg hc2]
        refine ⟨h1, h2, h3, ?_, ?_⟩
        · intro i hi
          exact h4 i (by omega)
        · intro i hi
          rcases Nat.lt_or_ge i m with h6 | h6
          · have hne : i ≠ 0 + m := by omega
            simp only [setAt_other _ _ _ _ hne]
            exact h5 i h6
          · have he : i = 0 + m := by omega
            subst he
            simp only [setAt_same, hm]
            exact ⟨fun hn => absurd hn hc, fun _ => by simp⟩)
  exact ⟨key.2.1, key.2.2.1, key.2.2.2.2⟩

theorem initFreeSurface_cell (Nc : Nat) (dv : Nat → REAL) (dry : REAL) (surface : Nat → REAL)
    (h : Nat → REAL) (active : Nat → Int) :
    ∀ i, i < Nc →
      (surface i < -dv i + dry →
        (initFreeSurface Nc dv dry surface h active).1 i = -dv i + dry ∧
        (initFreeSurface Nc dv dry surface h active).2 i = 0) ∧
      (¬ surface i < -dv i + dry →
        (initFreeSurface Nc dv dry surface h active).1 i = surface i) := by
  unfold initFreeSurface
  exact forLoop_induct
    (fun n (t : (Nat → REAL) × (Nat → Int)) => ∀ i, i < n →
      (surface i < -dv i + dry → t.1 i = -dv i + dry ∧ t.2 i = 0) ∧
      (¬ surface i < -dv i + dry → t.1 i = surface i))
    _ 0 Nc (h, active) (fun i hi => absurd hi (Nat.not_lt_zero i))
    (by
      intro m t _ ih i hi
      by_cases hc : surface (0 + m) < -dv (0 + m) + dry
      · simp only [setAt_same, hc, if_true]
        rcases Nat.lt_or_ge i m with h6 | h6
        · have hne : i ≠ 0 + m := by omega
          simp only [setAt_other _ _ _ _ hne]
          exact ih i h6
        · have he : i = 0 + m := by omega
          subst he
          simp only [setAt_same]
          exact ⟨fun _ => by simp, fun hn => absurd hc hn⟩
      · simp only [setAt_same, hc, if_false]
        rcases Nat.lt_or_ge i m with h6 | h6
        · have hne : i ≠ 0 + m := by omega
          simp only [setAt_other _ _ _ _ hne]
          exact ih i h6
        · have he : i = 0 + m := by omega
          subst he
          simp only [setAt_same]
          exact ⟨fun hn => absurd hn hc, fun _ => by simp⟩)

/-- C2: dry-cell clipping in `UPredictor` with subgrid off. A cell whose total depth
`h[i]+dv[i]` after the free-surface solve is below `DRYCELLHEIGHT` ends with
`h[i] = -dv[i]+DRYCELLHEIGHT`, `active[i] = 0` and `hcorr[i]` equal to the amount added to
`h[i]`; every cell ends with `h[i]+dv[i] >= DRYCELLHEIGHT`; the same bound holds for the
initial free surface stored by `InitializePhysicalVariables`. -/
theorem clipDryCells_clips (s : ClipState) (hs : s.subgrid = false) (i : Nat)
    (hi : i < s.Nc) :
    (s.h i + s.dv i < s.DRYCELLHEIGHT →
      (clipDryCells s).h i = -s.dv i + s.DRYCELLHEIGHT ∧ (clipDryCells s).active i = 0 ∧
      (clipDryCells s).hcorr i = (clipDryCells s).h i - s.h i) ∧
    (clipDryCells s).h i + (clipDryCells s).dv i ≥ (clipDryCells s).DRYCELLHEIGHT ∧
    (∀ (surface h0 : Nat → REAL) (active0 : Nat → Int),
      (initFreeSurface s.Nc s.dv s.DRYCELLHEIGHT surface h0 active0).1 i + s.dv i
        ≥ s.DRYCELLHEIGHT) := by
  obtain ⟨e1, e2, e3⟩ := clipDryCells_cell s hs
  obtain ⟨c1, c2⟩ := e3 i hi
  refine ⟨?_, ?_, ?_⟩
  · intro hlt
    have hle : s.h i ≤ -s.dv i + s.DRYCELLHEIGHT := by linarith
    obtain ⟨a1, a2, a3⟩ := c1 hle
    exact ⟨a1, a3, by rw [a2, a1]⟩
  · rw [e1, e2]
    by_cases hle : s.h i ≤ -s.dv i + s.DRYCELLHEIGHT
    · rw [(c1 hle).1]; linarith
    · rw [(c2 hle).1]; linarith
  · intro surface h0 active0
    obtain ⟨d1, d2⟩ := initFreeSurface_cell s.Nc s.dv s.DRYCELLHEIGHT surface h0 active0 i hi
    by_cases hlt : surface i < -s.dv i + s.DRYCELLHEIGHT
    · rw [(d1 hlt).1]; linarith
    · rw [d2 hlt]; linarith

/-- C2 at the example: cell 2 has elevation -2 over a bed of depth 1. -/
theorem clipDryCells_clips_witness :
    (clipDryCells exampleClip).h 2 = -1 + 1 / 1000 ∧ (clipDryCells exampleClip).active 2 = 0 ∧
    (clipDryCells exampleClip).hcorr 2 = (clipDryCells exampleClip).h 2 - (-2) :=
  (clipDryCells_clips exampleClip rfl 2 (by decide)).1 (by simp [exampleClip]; norm_num)

/-! ## Continuity -/

theorem faceLoop_val (c : Nat → Prop) [DecidablePred c] (t : Nat → REAL) (k : Nat) :
    ∀ (n : Nat) (r0 : Nat → REAL),
      (forLoop (fun nf (r : Nat → REAL) => if c nf then setAt r k (r k - t nf) else r)
          0 n r0) k = r0 k - ∑ nf in Finset.range n, (if c nf then t nf else 0) ∧
      ∀ j, j ≠ k →
        (forLoop (fun nf (r : Nat → REAL) => if c nf then setAt r k (r k - t nf) else r)
          0 n r0) j = r0 j := by
  intro n r0
  induction n with
  | zero => simp [forLoop]
  | succ n ih =>
    obtain ⟨ih1, ih2⟩ := ih
    simp only [forLoop, Nat.zero_add]
    by_cases hc : c n
    · simp only [hc, if_true, Finset.sum_range_succ]
      refine ⟨?_, ?_⟩
      · rw [setAt_same, ih1]; ring
      · intro j hj
        rw [setAt_other _ _ _ _ hj]; exact ih2 j hj
    · simp only [hc, if_false, Finset.sum_range_succ]
      refine ⟨?_, ih2⟩
      rw [ih1]; ring

theorem contLayer_val (g : Grid) (pr : Props) (ph : Phys) (i k : Nat) (row : Nat → REAL) :
    contLayer g pr ph i k row k
      = row (k + 1) - pr.imfac2 / pr.imfac1 * (ph.w_old i k - ph.w_old i (k + 1))
        - pr.imfac3 / pr.imfac1 * (ph.w_old2 i k - ph.w_old2 i (k + 1))
        - ∑ nf in Finset.range (g.nfaces i),
            (if k < g.Nke (g.face (i * g.maxfaces + nf)) then faceFluxTerm g pr ph i k nf
              else 0) ∧
    ∀ j, j ≠ k → contLayer g pr ph i k row j = row j := by
  unfold contLayer
  have hl := faceLoop_val (fun nf => k < g.Nke (g.face (i * g.maxfaces + nf)))
    (fun nf => faceFluxTerm g pr ph i k nf) k (g.nfaces i)
    (setAt row k
      (row (k + 1) - pr.imfac2 / pr.imfac1 * (ph.w_old i k - ph.w_old i (k + 1))
        - pr.imfac3 / pr.imfac1 * (ph.w_old2 i k - ph.w_old2 i (k + 1))))
  refine ⟨?_, ?_⟩
  · rw [hl.1, setAt_same]
  · intro j hj
    rw [hl.2 j hj, setAt_other _ _ _ _ hj]

theorem contDown_rel (g : Grid) (pr : Props) (ph : Phys) (i : Nat) (row : Nat → REAL) :
    ∀ n, n ≤ g.Nk i →
      ∀ k, g.Nk i - n ≤ k → k < g.Nk i →
        forLoopDown (contLayer g pr ph i) (g.Nk i) n row k
          = forLoopDown (contLayer g pr ph i) (g.Nk i) n row (k + 1)
            - pr.imfac2 / pr.imfac1 * (ph.w_old i k - ph.w_old i (k + 1))
            - pr.imfac3 / pr.imfac1 * (ph.w_old2 i k - ph.w_old2 i (k + 1))
            - ∑ nf in Finset.range (g.nfaces i),
                (if k < g.Nke (g.face (i * g.maxfaces + nf)) then faceFluxTerm g pr ph i k nf
                  else 0) := by
  intro n
  induction n with
  | zero => intro _ k h1 h2; omega
  | succ n ih =>
    intro hn k h1 h2
    simp only [forLoopDown]
    obtain ⟨c1, c2⟩ := contLayer_val g pr ph i (g.Nk i - (n + 1))
      (forLoopDown (contLayer g pr ph i) (g.Nk i) n row)
    rcases Nat.lt_or_ge (g.Nk i - (n + 1)) k with h3 | h3
    · rw [c2 k (by omega), c2 (k + 1) (by omega)]
      exact ih (by omega) k (by omega) h2
    · have hk : k = g.Nk i - (n + 1) := by omega
      subst hk
      rw [c1, c2 (g.Nk i - (n + 1) + 1) (by omega)]

theorem contColumn_rel (g : Grid) (pr : Props) (ph : Phys) (i : Nat) (w : Nat → Nat → REAL) :
    ContRel g pr ph i (contColumn g pr ph i w i) ∧
    ∀ j, j ≠ i → contColumn g pr ph i w j = w j := by
  unfold contColumn
  refine ⟨?_, ?_⟩
  · intro k h1 h2
    simp only [setAt_same]
    exact contDown_rel g pr ph i _ (g.Nk i - g.ctop i) (by omega) k (by omega) h2
  · intro j hj
    exact setAt_other _ _ _ _ hj

theorem Continuity_rel (g : Grid) (pr : Props) (ph : Phys) (w : Nat → Nat → REAL)
    (iptr : Nat) (h1 : g.celldist 0 ≤ iptr) (h2 : iptr < g.celldist 1) :
    ContRel g pr ph (g.cellp iptr) ((Continuity g pr ph w).1 (g.cellp iptr)) := by
  unfold Continuity
  simp only
  have key := forLoop_induct
    (fun n (v : Nat → Nat → REAL) => ∀ m, m < n →
      ContRel g pr ph (g.cellp (g.celldist 0 + m)) (v (g.cellp (g.celldist 0 + m))))
    (fun iptr (w : Nat → Nat → REAL) => contColumn g pr ph (g.cellp iptr) w)
    (g.celldist 0) (g.celldist 1 - g.celldist 0) w
    (fun m hm => absurd hm (Nat.not_lt_zero m))
    (by
      intro n v _ ih m hm
      obtain ⟨c1, c2⟩ := contColumn_rel g pr ph (g.cellp (g.celldist 0 + n)) v
      show ContRel g pr ph (g.cellp (g.celldist 0 + m))
        (contColumn g pr ph (g.cellp (g.celldist 0 + n)) v (g.cellp (g.celldist 0 + m)))
      by_cases he : g.cellp (g.celldist 0 + m) = g.cellp (g.celldist 0 + n)
      · rw [he]; exact c1
      · rw [c2 _ he]
        rcases Nat.lt_or_ge m n with h3 | h3
        · exact ih m h3
        · have : m = n := by omega
          subst this; exact absurd rfl he)
  have := key (iptr - g.celldist 0) (by omega)
  have e : g.celldist 0 + (iptr - g.celldist 0) = iptr := by omega
  rw [e] at this
  exact this

/-- C3: discrete continuity. After `Continuity(w)` (z-level, subgrid off) with
`imfac1 != 0` and `Ac[i] != 0`, for every computational column `i` and every layer
`ctop[i] <= k < Nk[i]`, the area times the blended difference of vertical velocities across
the layer plus the blended horizontal fluxes through the faces with `k < Nke[ne]` is zero. -/
theorem Continuity_divergence_free (g : Grid) (pr : Props) (ph : Phys)
    (w : Nat → Nat → REAL) (iptr : Nat) (h1 : g.celldist 0 ≤ iptr) (h2 : iptr < g.celldist 1)
    (hfac : pr.imfac1 ≠ 0) (hAc : g.Ac (g.cellp iptr) ≠ 0)
    (k : Nat) (hk1 : g.ctop (g.cellp iptr) ≤ k) (hk2 : k < g.Nk (g.cellp iptr)) :
    layerDivergence g pr ph ((Continuity g pr ph w).1 (g.cellp iptr)) (g.cellp iptr) k = 0 := by
  unfold layerDivergence
  have hr := Continuity_rel g pr ph w iptr h1 h2 k hk1 hk2
  generalize (Continuity g pr ph w).1 (g.cellp iptr) = row at hr ⊢
  generalize g.cellp iptr = i at hr hAc hk1 hk2 ⊢
  have hs : ∑ nf in Finset.range (g.nfaces i),
      (if k < g.Nke (g.face (i * g.maxfaces + nf)) then
        (pr.imfac1 * ph.u (g.face (i * g.maxfaces + nf)) k
          + pr.imfac2 * ph.u_old (g.face (i * g.maxfaces + nf)) k
          + pr.imfac3 * ph.u_old2 (g.face (i * g.maxfaces + nf)) k)
        * g.df (g.face (i * g.maxfaces + nf)) * g.normal (i * g.maxfaces + nf)
        * g.dzf (g.face (i * g.maxfaces + nf)) k
      else 0)
      = g.Ac i * pr.imfac1 * ∑ nf in Finset.range (g.nfaces i),
          (if k < g.Nke (g.face (i * g.maxfaces + nf)) then faceFluxTerm g pr ph i k nf
            else 0) := by
    rw [Finset.mul_sum]
    apply Finset.sum_congr rfl
    intro nf _
    split_ifs
    · unfold faceFluxTerm
      field_simp
    · simp
  rw [hs, hr]
  field_simp
  ring

/-- C3 at the example mesh: top layer of cell 1. -/
theorem Continuity_divergence_free_witness :
    layerDivergence exampleMesh exampleProps examplePhys
      ((Continuity exampleMesh exampleProps examplePhys (fun _ _ => 7)).1
        (exampleMesh.cellp 1)) (exampleMesh.cellp 1) 0 = 0 :=
  Continuity_divergence_free exampleMesh exampleProps examplePhys (fun _ _ => 7) 1
    (by decide) (by decide) (by simp [exampleProps]) (by simp [exampleMesh]) 0
    (by decide) (by decide)

/-! ## Free-surface operator -/

theorem hcoefFace_pos (g : Grid) (pr : Props) (D : Nat → REAL) (i nf : Nat) (s : HCoefState)
    (hn : g.neigh (i * g.maxfaces + nf) ≠ -1) :
    hcoefFace g (pr.grav * (pr.imfac1 * pr.dt) ^ 2) D i nf s =
      { coef := setAt s.coef i (s.coef i + faceCoef g pr D i nf)
        fcoef := setAt s.fcoef (i * g.maxfaces + nf) (faceCoef g pr D i nf)
        htmp := s.htmp
        check := if faceCoef g pr D i nf > 0 then false else s.check } := by
  unfold hcoefFace
  rw [if_pos hn]
  simp only [setAt_same]
  rfl

theorem hcoefFace_neg (g : Grid) (tmp : REAL) (D : Nat → REAL) (i nf : Nat) (s : HCoefState)
    (hn : ¬ g.neigh (i * g.maxfaces + nf) ≠ -1) :
    hcoefFace g tmp D i nf s = s := by
  unfold hcoefFace
  rw [if_neg hn]

theorem hcoefFaces_inv (g : Grid) (pr : Props) (D : Nat → REAL) (i : Nat) (s0 : HCoefState) :
    ∀ n,
      (forLoop (hcoefFace g (pr.grav * (pr.imfac1 * pr.dt) ^ 2) D i) 0 n s0).coef i
        = s0.coef i + ∑ nf in Finset.range n,
            (if g.neigh (i * g.maxfaces + nf) ≠ -1 then faceCoef g pr D i nf else 0) ∧
      (∀ j, j ≠ i →
        (forLoop (hcoefFace g (pr.grav * (pr.imfac1 * pr.dt) ^ 2) D i) 0 n s0).coef j
          = s0.coef j) ∧
      (∀ nf, nf < n → g.neigh (i * g.maxfaces + nf) ≠ -1 →
        (forLoop (hcoefFace g (pr.grav * (pr.imfac1 * pr.dt) ^ 2) D i) 0 n s0).fcoef
          (i * g.maxfaces + nf) = faceCoef g pr D i nf) ∧
      (∀ idx, (∀ nf, nf < n → idx ≠ i * g.maxfaces + nf) →
        (forLoop (hcoefFace g (pr.grav * (pr.imfac1 * pr.dt) ^ 2) D i) 0 n s0).fcoef idx
          = s0.fcoef idx) ∧
      (forLoop (hcoefFace g (pr.grav * (pr.imfac1 * pr.dt) ^ 2) D i) 0 n s0).htmp = s0.htmp ∧
      ((forLoop (hcoefFace g (pr.grav * (pr.imfac1 * pr.dt) ^ 2) D i) 0 n s0).check = true ↔
        (s0.check = true ∧
          ∀ nf, nf < n → g.neigh (i * g.maxfaces + nf) ≠ -1 → ¬ faceCoef g pr D i nf > 0)) := by
  intro n
  induction n with
  | zero =>
    refine ⟨by simp [forLoop], fun _ _ => rfl, fun nf hnf => absurd hnf (Nat.not_lt_zero nf),
      fun _ _ => rfl, rfl, ⟨fun hc => ⟨hc, fun nf hnf => absurd hnf (Nat.not_lt_zero nf)⟩,
        fun hc => hc.1⟩⟩
  | succ n ih =>
    obtain ⟨i1, i2, i3, i4, i5, i6⟩ := ih
    simp only [forLoop, Nat.zero_add]
    generalize forLoop (hcoefFace g (pr.grav * (pr.imfac1 * pr.dt) ^ 2) D i) 0 n s0 = t
      at i1 i2 i3 i4 i5 i6
    by_cases hn : g.neigh (i * g.maxfaces + n) ≠ -1
    · rw [hcoefFace_pos g pr D i n t hn, Finset.sum_range_succ, if_pos hn]
      refine ⟨?_, ?_, ?_, ?_, i5, ?_⟩
      · show setAt t.coef i (t.coef i + faceCoef g pr D i n) i = _
        rw [setAt_same, i1]; ring
      · intro j hj
        show setAt t.coef i (t.coef i + faceCoef g pr D i n) j = _
        rw [setAt_other _ _ _ _ hj]; exact i2 j hj
      · intro nf hnf hne
        show setAt t.fcoef (i * g.maxfaces + n) (faceCoef g pr D i n) (i * g.maxfaces + nf) = _
        rcases Nat.lt_or_ge nf n with h1 | h1
        · have hidx : i * g.maxfaces + nf ≠ i * g.maxfaces + n := by omega
          rw [setAt_other _ _ _ _ hidx]; exact i3 nf h1 hne
        · have : nf = n := by omega
          subst this; exact setAt_same _ _ _
      · intro idx hidx
        show setAt t.fcoef (i * g.maxfaces + n) (faceCoef g pr D i n) idx = _
        rw [setAt_other _ _ _ _ (hidx n (by omega))]
        exact i4 idx (fun nf hnf => hidx nf (by omega))
      · show (if faceCoef g pr D i n > 0 then false else t.check) = true ↔ _
        by_cases hp : faceCoef g pr D i n > 0
        · rw [if_pos hp]
          constructor
          · intro hc; exact absurd hc (by decide)
          · intro ⟨_, hall⟩
            exact absurd hp (hall n (by omega) hn)
        · rw [if_neg hp, i6]
          constructor
          · intro ⟨hc, hall⟩
            refine ⟨hc, ?_⟩
            intro nf hnf hne
            rcases Nat.lt_or_ge nf n with h1 | h1
            · exact hall nf h1 hne
            · have : nf = n := by omega
              subst this; exact hp
          · intro ⟨hc, hall⟩
            exact ⟨hc, fun nf hnf hne => hall nf (by omega) hne⟩
    · rw [hcoefFace_neg g _ D i n t hn, Finset.sum_range_succ, if_neg hn, add_zero]
      refine ⟨i1, i2, ?_, ?_, i5, ?_⟩
      · intro nf hnf hne
        rcases Nat.lt_or_ge nf n with h1 | h1
        · exact i3 nf h1 hne
        · have : nf = n := by omega
          subst this; exact absurd hne hn
      · intro idx hidx
        exact i4 idx (fun nf hnf => hidx nf (by omega))
      · rw [i6]
        constructor
        · intro ⟨hc, hall⟩
          refine ⟨hc, ?_⟩
          intro nf hnf hne
          rcases Nat.lt_or_ge nf n with h1 | h1
          · exact hall nf h1 hne
          · have : nf = n := by omega
            subst this; exact absurd hne hn
        · intro ⟨hc, hall⟩
          exact ⟨hc, fun nf hnf hne => hall nf (by omega) hne⟩

theorem block_index_ne (m a b x y : Nat) (hx : x < m) (hy : y < m) (hab : a ≠ b) :
    a * m + x ≠ b * m + y := by
  intro he
  have hm : 0 < m := by omega
  have h1 : (a * m + x) / m = a := by
    rw [Nat.add_comm, Nat.add_mul_div_right _ _ hm, Nat.div_eq_of_lt hx, Nat.zero_add]
  have h2 : (b * m + y) / m = b := by
    rw [Nat.add_comm, Nat.add_mul_div_right _ _ hm, Nat.div_eq_of_lt hy, Nat.zero_add]
  rw [he, h2] at h1
  exact hab h1.symm

theorem hcoefCell_spec (g : Grid) (pr : Props) (D h : Nat → REAL) (i : Nat) (s : HCoefState) :
    CellCoefs g pr D h i (hcoefCell g (pr.grav * (pr.imfac1 * pr.dt) ^ 2) D h i s) ∧
    (Coupled g pr D i →
      (hcoefCell g (pr.grav * (pr.imfac1 * pr.dt) ^ 2) D h i s).htmp = s.htmp) ∧
    (∀ j, j ≠ i →
      (hcoefCell g (pr.grav * (pr.imfac1 * pr.dt) ^ 2) D h i s).coef j = s.coef j ∧
      (hcoefCell g (pr.grav * (pr.imfac1 * pr.dt) ^ 2) D h i s).htmp j = s.htmp j) ∧
    (∀ idx, (∀ nf, nf < g.nfaces i → idx ≠ i * g.maxfaces + nf) →
      (hcoefCell g (pr.grav * (pr.imfac1 * pr.dt) ^ 2) D h i s).fcoef idx = s.fcoef idx) := by
  obtain ⟨i1, i2, i3, i4, i5, i6⟩ := hcoefFaces_inv g pr D i
    { coef := setAt s.coef i (g.Ac i), fcoef := s.fcoef, htmp := s.htmp, check := true }
    (g.nfaces i)
  have hck : (forLoop (hcoefFace g (pr.grav * (pr.imfac1 * pr.dt) ^ 2) D i) 0 (g.nfaces i)
      { coef := setAt s.coef i (g.Ac i), fcoef := s.fcoef, htmp := s.htmp,
        check := true }).check = true ↔ ¬ Coupled g pr D i := by
    rw [i6]
    constructor
    · intro ⟨_, hall⟩ ⟨nf, h1, h2, h3⟩
      exact hall nf h1 h2 h3
    · intro hc
      exact ⟨rfl, fun nf h1 h2 h3 => hc ⟨nf, h1, h2, h3⟩⟩
  unfold hcoefCell
  simp only
  generalize forLoop (hcoefFace g (pr.grav * (pr.imfac1 * pr.dt) ^ 2) D i) 0 (g.nfaces i)
      { coef := setAt s.coef i (g.Ac i), fcoef := s.fcoef, htmp := s.htmp, check := true } = t
    at i1 i2 i3 i4 i5 i6 hck
  simp only [setAt_same] at i1
  by_cases hc : t.check = true
  · have hnc : ¬ Coupled g pr D i := hck.mp hc
    rw [if_pos hc]
    refine ⟨⟨fun hcp => absurd hcp hnc, fun _ => ⟨setAt_same _ _ _, setAt_same _ _ _⟩, i3⟩,
      fun hcp => absurd hcp hnc, ?_, i4⟩
    intro j hj
    refine ⟨?_, ?_⟩
    · show setAt t.coef i 1 j = s.coef j
      rw [setAt_other _ _ _ _ hj, i2 j hj]
      exact setAt_other _ _ _ _ hj
    · show setAt t.htmp i (h i) j = s.htmp j
      rw [setAt_other _ _ _ _ hj, i5]
  · have hcp : Coupled g pr D i := by
      by_contra hn
      exact hc (hck.mpr hn)
    rw [if_neg hc]
    refine ⟨⟨fun _ => i1, fun hn => absurd hcp hn, i3⟩, fun _ => i5, ?_, i4⟩
    intro j hj
    refine ⟨?_, by rw [i5]⟩
    rw [i2 j hj]
    exact setAt_other _ _ _ _ hj

/-- After `HCoefficients`, every computational cell carries its coefficients, and `htmp` is
untouched on the cells that have a positive face coefficient. -/
theorem HCoefficients_spec (g : Grid) (pr : Props) (D h : Nat → REAL) (s0 : HCoefState)
    (hnf : ∀ iptr, g.celldist 0 ≤ iptr → iptr < g.celldist 1 →
      g.nfaces (g.cellp iptr) ≤ g.maxfaces) :
    (∀ iptr, g.celldist 0 ≤ iptr → iptr < g.celldist 1 →
      CellCoefs g pr D h (g.cellp iptr) (HCoefficients g pr D h s0)) ∧
    (∀ j, Coupled g pr D j → (HCoefficients g pr D h s0).htmp j = s0.htmp j) ∧
    (∀ j, (∀ iptr, g.celldist 0 ≤ iptr → iptr < g.celldist 1 → j ≠ g.cellp iptr) →
      (HCoefficients g pr D h s0).htmp j = s0.htmp j) := by
  unfold HCoefficients
  simp only
  have key := forLoop_induct
    (fun n (t : HCoefState) =>
      (∀ m, m < n → CellCoefs g pr D h (g.cellp (g.celldist 0 + m)) t) ∧
      (∀ j, Coupled g pr D j → t.htmp j = s0.htmp j) ∧
      (∀ j, (∀ m, m < n → j ≠ g.cellp (g.celldist 0 + m)) → t.htmp j = s0.htmp j))
    (fun iptr (s : HCoefState) =>
      hcoefCell g (pr.grav * (pr.imfac1 * pr.dt) ^ 2) D h (g.cellp iptr) s)
    (g.celldist 0) (g.celldist 1 - g.celldist 0) s0
    ⟨fun m hm => absurd hm (Nat.not_lt_zero m), fun _ _ => rfl, fun _ _ => rfl⟩
    (by
      intro n t hn ⟨ih1, ih2, ih3⟩
      obtain ⟨c1, c2, c3, c4⟩ := hcoefCell_spec g pr D h (g.cellp (g.celldist 0 + n)) t
      show (∀ m, m < n + 1 → CellCoefs g pr D h (g.cellp (g.celldist 0 + m))
          (hcoefCell g (pr.grav * (pr.imfac1 * pr.dt) ^ 2) D h (g.cellp (g.celldist 0 + n)) t)) ∧
        (∀ j, Coupled g pr D j →
          (hcoefCell g (pr.grav * (pr.imfac1 * pr.dt) ^ 2) D h (g.cellp (g.celldist 0 + n))
            t).htmp j = s0.htmp j) ∧
        (∀ j, (∀ m, m < n + 1 → j ≠ g.cellp (g.celldist 0 + m)) →
          (hcoefCell g (pr.grav * (pr.imfac1 * pr.dt) ^ 2) D h (g.cellp (g.celldist 0 + n))
            t).htmp j = s0.htmp j)
      refine ⟨?_, ?_, ?_⟩
      · intro m hm
        by_cases he : g.cellp (g.celldist 0 + m) = g.cellp (g.celldist 0 + n)
        · rw [he]; exact c1
        · have hmn : m < n := by
            rcases Nat.lt_or_ge m n with h3 | h3
            · exact h3
            · have : m = n := by omega
              subst this; exact absurd rfl he
          obtain ⟨a1, a2, a3⟩ := ih1 m hmn
          obtain ⟨b1, b2⟩ := c3 _ he
          refine ⟨?_, ?_, ?_⟩
          · intro hcp; rw [b1]; exact a1 hcp
          · intro hcp; rw [b1, b2]; exact a2 hcp
          · intro nf h1 h2
            rw [c4]
            · exact a3 nf h1 h2
            · intro nf' h3
              have hA := hnf (g.celldist 0 + m) (by omega) (by omega)
              have hB := hnf (g.celldist 0 + n) (by omega) (by omega)
              exact block_index_ne g.maxfaces _ _ nf nf' (by omega) (by omega) he
      · intro j hj
        by_cases he : j = g.cellp (g.celldist 0 + n)
        · subst he
          rw [c2 hj]; exact ih2 _ hj
        · rw [(c3 j he).2]; exact ih2 j hj
      · intro j hj
        have he : j ≠ g.cellp (g.celldist 0 + n) := hj n (by omega)
        rw [(c3 j he).2]
        exact ih3 j (fun m hm => hj m (by omega)))
  obtain ⟨k1, k2, k3⟩ := key
  refine ⟨?_, k2, ?_⟩
  · intro iptr h1 h2
    have := k1 (iptr - g.celldist 0) (by omega)
    have e : g.celldist 0 + (iptr - g.celldist 0) = iptr := by omega
    rw [e] at this
    exact this
  · intro j hj
    exact k3 j (fun m hm => hj (g.celldist 0 + m) (by omega) (by omega))

theorem operatorFaces_val (g : Grid) (x fcoef : Nat → REAL) (i : Nat) :
    ∀ (n : Nat) (y0 : Nat → REAL),
      (forLoop (fun nf (y : Nat → REAL) =>
          if g.neigh (i * g.maxfaces + nf) ≠ -1 then
            setAt y i (y i - fcoef (i * g.maxfaces + nf) * x (g.neigh (i * g.maxfaces + nf)).toNat)
          else y) 0 n y0) i
        = y0 i - ∑ nf in Finset.range n,
            (if g.neigh (i * g.maxfaces + nf) ≠ -1 then
              fcoef (i * g.maxfaces + nf) * x (g.neigh (i * g.maxfaces + nf)).toNat else 0) ∧
      ∀ j, j ≠ i →
        (forLoop (fun nf (y : Nat → REAL) =>
          if g.neigh (i * g.maxfaces + nf) ≠ -1 then
            setAt y i (y i - fcoef (i * g.maxfaces + nf) * x (g.neigh (i * g.maxfaces + nf)).toNat)
          else y) 0 n y0) j = y0 j := by
  intro n y0
  induction n with
  | zero => simp [forLoop]
  | succ n ih =>
    obtain ⟨ih1, ih2⟩ := ih
    simp only [forLoop, Nat.zero_add]
    by_cases hc : g.neigh (i * g.maxfaces + n) ≠ -1
    · rw [if_pos hc, Finset.sum_range_succ, if_pos hc]
      refine ⟨?_, ?_⟩
      · rw [setAt_same, ih1]; ring
      · intro j hj
        rw [setAt_other _ _ _ _ hj]; exact ih2 j hj
    · rw [if_neg hc, Finset.sum_range_succ, if_neg hc]
      refine ⟨?_, ih2⟩
      rw [ih1]; ring

/-- The value `OperatorH` writes for a computational cell, and its frame. -/
theorem OperatorH_val (g : Grid) (x y coef fcoef : Nat → REAL) :
    (∀ iptr, g.celldist 0 ≤ iptr → iptr < g.celldist 1 →
      OperatorH g x y coef fcoef (g.cellp iptr)
        = coef (g.cellp iptr) * x (g.cellp iptr)
          - ∑ nf in Finset.range (g.nfaces (g.cellp iptr)),
              (if g.neigh (g.cellp iptr * g.maxfaces + nf) ≠ -1 then
                fcoef (g.cellp iptr * g.maxfaces + nf)
                  * x (g.neigh (g.cellp iptr * g.maxfaces + nf)).toNat else 0)) ∧
    (∀ j, (∀ iptr, g.celldist 0 ≤ iptr → iptr < g.celldist 1 → j ≠ g.cellp iptr) →
      OperatorH g x y coef fcoef j = y j) := by
  unfold OperatorH
  have key := forLoop_induct
    (fun n (v : Nat → REAL) =>
      (∀ m, m < n →
        v (g.cellp (g.celldist 0 + m))
          = coef (g.cellp (g.celldist 0 + m)) * x (g.cellp (g.celldist 0 + m))
            - ∑ nf in Finset.range (g.nfaces (g.cellp (g.celldist 0 + m))),
                (if g.neigh (g.cellp (g.celldist 0 + m) * g.maxfaces + nf) ≠ -1 then
                  fcoef (g.cellp (g.celldist 0 + m) * g.maxfaces + nf)
                    * x (g.neigh (g.cellp (g.celldist 0 + m) * g.maxfaces + nf)).toNat
                  else 0)) ∧
      (∀ j, (∀ m, m < n → j ≠ g.cellp (g.celldist 0 + m)) → v j = y j))
    (fun iptr (y : Nat → REAL) =>
      let i := g.cellp iptr
      let y1 := setAt y i (coef i * x i)
      forLoop (fun nf (y : Nat → REAL) =>
          if g.neigh (i * g.maxfaces + nf) ≠ -1 then
            setAt y i (y i - fcoef (i * g.maxfaces + nf) * x (g.neigh (i * g.maxfaces + nf)).toNat)
          else y)
        0 (g.nfaces i) y1)
    (g.celldist 0) (g.celldist 1 - g.celldist 0) y
    ⟨fun m hm => absurd hm (Nat.not_lt_zero m), fun _ _ => rfl⟩
    (by
      intro n v hn ⟨ih1, ih2⟩
      obtain ⟨c1, c2⟩ := operatorFaces_val g x fcoef (g.cellp (g.celldist 0 + n))
        (g.nfaces (g.cellp (g.celldist 0 + n)))
        (setAt v (g.cellp (g.celldist 0 + n))
          (coef (g.cellp (g.celldist 0 + n)) * x (g.cellp (g.celldist 0 + n))))
      rw [setAt_same] at c1
      refine ⟨?_, ?_⟩
      · intro m hm
        by_cases he : g.cellp (g.celldist 0 + m) = g.cellp (g.celldist 0 + n)
        · rw [he]; exact c1
        · have hmn : m < n := by
            rcases Nat.lt_or_ge m n with h3 | h3
            · exact h3
            · have : m = n := by omega
              subst this; exact absurd rfl he
          have := c2 _ he
          rw [setAt_other _ _ _ _ he] at this
          exact this.trans (ih1 m hmn)
      · intro j hj
        have he : j ≠ g.cellp (g.celldist 0 + n) := hj n (by omega)
        have := c2 _ he
        rw [setAt_other _ _ _ _ he] at this
        exact this.trans (ih2 j (fun m hm => hj m (by omega))))
  obtain ⟨k1, k2⟩ := key
  refine ⟨?_, ?_⟩
  · intro iptr h1 h2
    have := k1 (iptr - g.celldist 0) (by omega)
    have e : g.celldist 0 + (iptr - g.celldist 0) = iptr := by omega
    rw [e] at this
    exact this
  · intro j hj
    exact k2 j (fun m hm => hj (g.celldist 0 + m) (by omega) (by omega))

/-- `OperatorH` with the coefficients of `HCoefficients` on a coupled computational cell. -/
theorem OperatorH_coupled (g : Grid) (pr : Props) (D h : Nat → REAL) (s0 : HCoefState)
    (x y : Nat → REAL)
    (hnf : ∀ iptr, g.celldist 0 ≤ iptr → iptr < g.celldist 1 →
      g.nfaces (g.cellp iptr) ≤ g.maxfaces)
    (iptr : Nat) (h1 : g.celldist 0 ≤ iptr) (h2 : iptr < g.celldist 1)
    (hcp : Coupled g pr D (g.cellp iptr)) :
    OperatorH g x y (HCoefficients g pr D h s0).coef (HCoefficients g pr D h s0).fcoef
        (g.cellp iptr)
      = operatorStencil g pr D x (g.cellp iptr) := by
  unfold operatorStencil
  obtain ⟨a1, _, a3⟩ := (HCoefficients_spec g pr D h s0 hnf).1 iptr h1 h2
  rw [(OperatorH_val g x y _ _).1 iptr h1 h2, a1 hcp, add_mul, Finset.sum_mul, add_sub_assoc,
    ← Finset.sum_sub_distrib]
  congr 1
  apply Finset.sum_congr rfl
  intro nf hnf2
  have hlt := Finset.mem_range.mp hnf2
  by_cases hn : g.neigh (g.cellp iptr * g.maxfaces + nf) ≠ -1
  · rw [if_pos hn, if_pos hn, if_pos hn, a3 nf hlt hn]; ring
  · rw [if_neg hn, if_neg hn, if_neg hn]; ring

/-- C5: with `coef`/`fcoef` produced by `HCoefficients` (subgrid off), for every vector `x`
and every computational cell `i` that has a neighbouring face with positive coefficient,
`OperatorH(x)[i]` is `Ac[i]*x[i]` plus the sum over the faces with `neigh != -1` of
`grav*(imfac1*dt)^2*D[ne]*df[ne]/dg[ne]*(x[i]-x[neigh])`. -/
theorem OperatorH_formula (g : Grid) (pr : Props) (D h : Nat → REAL) (s0 : HCoefState)
    (x y : Nat → REAL)
    (hnf : ∀ iptr, g.celldist 0 ≤ iptr → iptr < g.celldist 1 →
      g.nfaces (g.cellp iptr) ≤ g.maxfaces)
    (iptr : Nat) (h1 : g.celldist 0 ≤ iptr) (h2 : iptr < g.celldist 1)
    (hcp : Coupled g pr D (g.cellp iptr)) :
    OperatorH g x y (HCoefficients g pr D h s0).coef (HCoefficients g pr D h s0).fcoef
        (g.cellp iptr)
      = operatorStencil g pr D x (g.cellp iptr) :=
  OperatorH_coupled g pr D h s0 x y hnf iptr h1 h2 hcp

/-- C5 at the example mesh: cell 0, coupled to cell 1 through edge 0. -/
theorem OperatorH_formula_witness :
    OperatorH exampleMesh (fun i => if i = 0 then 3 else 5) (fun _ => 0)
        (HCoefficients exampleMesh exampleProps examplePhys.D examplePhys.h zeroCoefs).coef
        (HCoefficients exampleMesh exampleProps examplePhys.D examplePhys.h zeroCoefs).fcoef
        (exampleMesh.cellp 0)
      = operatorStencil exampleMesh exampleProps examplePhys.D
          (fun i => if i = 0 then 3 else 5) (exampleMesh.cellp 0) :=
  OperatorH_formula exampleMesh exampleProps examplePhys.D examplePhys.h zeroCoefs
    (fun i => if i = 0 then 3 else 5) (fun _ => 0)
    (by intro iptr _ _; simp [exampleMesh]) 0 (by decide) (by decide)
    ⟨0, by decide, by simp [exampleMesh],
      by simp [faceCoef, exampleMesh, exampleProps, examplePhys]⟩

/-! ## Volume conservation -/

theorem forLoop_add (f : Nat → REAL) (lo : Nat) :
    ∀ (n : Nat) (s0 : REAL),
      forLoop (fun k (s : REAL) => s + f k) lo n s0
        = s0 + ∑ j in Finset.range n, f (lo + j) := by
  intro n s0
  induction n with
  | zero => simp [forLoop]
  | succ n ih => simp only [forLoop, ih, Finset.sum_range_succ]; ring

theorem forLoop_add_nested (f : Nat → Nat → REAL) (lo cnt : Nat → Nat) :
    ∀ (n : Nat) (s0 : REAL),
      forLoop (fun nf (s : REAL) => forLoop (fun k (s : REAL) => s + f nf k) (lo nf) (cnt nf) s)
          0 n s0
        = s0 + ∑ nf in Finset.range n, ∑ j in Finset.range (cnt nf), f nf (lo nf + j) := by
  intro n s0
  induction n with
  | zero => simp [forLoop]
  | succ n ih =>
    simp only [forLoop, Nat.zero_add, ih, Finset.sum_range_succ]
    rw [forLoop_add]; ring

/-- Terms attached to the faces of the cells cancel in pairs across interior edges. -/
theorem halfedge_cancel (g : Grid) (hm : MutualAdjacency g) (T : Nat → Nat → REAL)
    (hb : ∀ i nf, i < g.Nc → nf < g.nfaces i → g.neigh (i * g.maxfaces + nf) = -1 →
      T i nf = 0)
    (hpair : ∀ i nf j nf', i < g.Nc → nf < g.nfaces i → j < g.Nc → nf' < g.nfaces j →
      g.neigh (i * g.maxfaces + nf) = (j : Int) →
      g.face (j * g.maxfaces + nf') = g.face (i * g.maxfaces + nf) →
      g.neigh (j * g.maxfaces + nf') = (i : Int) →
      g.normal (j * g.maxfaces + nf') = - g.normal (i * g.maxfaces + nf) →
      T i nf + T j nf' = 0) :
    ∑ i in Finset.range g.Nc, ∑ nf in Finset.range (g.nfaces i), T i nf = 0 := by
  classical
  rw [Finset.sum_sigma']
  have htw := hm.twin
  choose! J NF hspec using htw
  have hmem : ∀ a : (_ : ℕ) × ℕ,
      a ∈ (Finset.range g.Nc).sigma (fun i => Finset.range (g.nfaces i)) ↔
        a.1 < g.Nc ∧ a.2 < g.nfaces a.1 := by
    intro a; simp [Finset.mem_sigma]
  refine Finset.sum_involution
    (fun a _ => if g.neigh (a.1 * g.maxfaces + a.2) = -1 then a else ⟨J a.1 a.2, NF a.1 a.2⟩)
    ?_ ?_ ?_ ?_
  · intro a ha
    obtain ⟨h1, h2⟩ := (hmem a).mp ha
    by_cases hn : g.neigh (a.1 * g.maxfaces + a.2) = -1
    · simp only [hn, if_true]
      rw [hb a.1 a.2 h1 h2 hn]; ring
    · simp only [hn, if_false]
      obtain ⟨s1, s2, s3, s4, s5, s6⟩ := hspec a.1 a.2 h1 h2 hn
      exact hpair a.1 a.2 _ _ h1 h2 s1 s3 s2 s4 s5 s6
  · intro a ha hne
    obtain ⟨h1, h2⟩ := (hmem a).mp ha
    by_cases hn : g.neigh (a.1 * g.maxfaces + a.2) = -1
    · exact absurd (hb a.1 a.2 h1 h2 hn) hne
    · simp only [hn, if_false]
      obtain ⟨s1, s2, s3, s4, s5, s6⟩ := hspec a.1 a.2 h1 h2 hn
      intro heq
      have hp := hpair a.1 a.2 _ _ h1 h2 s1 s3 s2 s4 s5 s6
      have e1 : J a.1 a.2 = a.1 := congrArg Sigma.fst heq
      have e2 : NF a.1 a.2 = a.2 := by
        have := congrArg (fun b : (_ : ℕ) × ℕ => b.2) heq
        simpa using this
      rw [e1, e2] at hp
      apply hne
      linarith
  · intro a ha
    obtain ⟨h1, h2⟩ := (hmem a).mp ha
    by_cases hn : g.neigh (a.1 * g.maxfaces + a.2) = -1
    · simp only [hn, if_true]; exact ha
    · simp only [hn, if_false]
      obtain ⟨s1, s2, s3, s4, s5, s6⟩ := hspec a.1 a.2 h1 h2 hn
      exact (hmem _).mpr ⟨s1, s3⟩
  · intro a ha
    obtain ⟨h1, h2⟩ := (hmem a).mp ha
    by_cases hn : g.neigh (a.1 * g.maxfaces + a.2) = -1
    · simp only [hn, if_true]
    · simp only [hn, if_false]
      obtain ⟨s1, s2, s3, s4, s5, s6⟩ := hspec a.1 a.2 h1 h2 hn
      have hn2 : g.neigh (J a.1 a.2 * g.maxfaces + NF a.1 a.2) ≠ -1 := by
        rw [s5]; omega
      simp only [hn2, if_false]
      obtain ⟨t1, t2, t3, t4, t5, t6⟩ := hspec (J a.1 a.2) (NF a.1 a.2) s1 s3 hn2
      have e1 : J (J a.1 a.2) (NF a.1 a.2) = a.1 := by
        have := t2.symm.trans s5
        exact_mod_cast this
      have e2 : NF (J a.1 a.2) (NF a.1 a.2) = a.2 := by
        rw [e1] at t3 t4
        exact hm.face_inj a.1 _ _ h1 t3 h2 (t4.trans s4)
      cases a with
      | mk a1 a2 =>
        simp only at e1 e2
        simp only [e1, e2]

theorem rhsSum_eq (g : Grid) (pr : Props) (ph : Phys) (i : Nat) :
    rhsSum g pr ph i = ∑ nf in Finset.range (g.nfaces i), faceFlux g pr ph i nf := by
  unfold rhsSum
  have := forLoop_add_nested
    (fun nf k => (pr.imfac2 * ph.u_old (g.face (i * g.maxfaces + nf)) k
        + pr.imfac1 * ph.utmp (g.face (i * g.maxfaces + nf)) k
        + pr.imfac3 * ph.u_old2 (g.face (i * g.maxfaces + nf)) k)
      * g.df (g.face (i * g.maxfaces + nf)) * g.normal (i * g.maxfaces + nf)
      * g.dzf (g.face (i * g.maxfaces + nf)) k)
    (fun nf => g.etop (g.face (i * g.maxfaces + nf)))
    (fun nf => g.Nke (g.face (i * g.maxfaces + nf)) - g.etop (g.face (i * g.maxfaces + nf)))
    (g.nfaces i) 0
  simp only at this
  rw [this, zero_add]
  rfl

theorem rhsSum_congr (g : Grid) (pr : Props) (ph t : Phys) (i : Nat)
    (h1 : t.u_old = ph.u_old) (h2 : t.utmp = ph.utmp) (h3 : t.u_old2 = ph.u_old2) :
    rhsSum g pr t i = rhsSum g pr ph i := by
  unfold rhsSum
  rw [h1, h2, h3]

/-- The state after the assembly of the right-hand side. -/
theorem assembleRHS_spec (g : Grid) (pr : Props) (ph : Phys) :
    (∀ iptr, g.celldist 0 ≤ iptr → iptr < g.celldist 1 →
      (assembleRHS g pr ph).htmp (g.cellp iptr)
        = g.Ac (g.cellp iptr) * ph.h (g.cellp iptr) - pr.dt * rhsSum g pr ph (g.cellp iptr)) ∧
    (assembleRHS g pr ph).h = ph.h ∧ (assembleRHS g pr ph).D = ph.D ∧
    (assembleRHS g pr ph).hcoef = ph.hcoef ∧ (assembleRHS g pr ph).hfcoef = ph.hfcoef ∧
    (∀ i, i < g.Nc → (assembleRHS g pr ph).h_old i = ph.h i) := by
  have key1 : _ ∧ _ ∧ _ ∧ _ ∧ _ ∧ _ ∧ _ ∧ _ := forLoop_induct
    (fun n (t : Phys) => t.h = ph.h ∧ t.u_old = ph.u_old ∧ t.utmp = ph.utmp ∧
      t.u_old2 = ph.u_old2 ∧ t.D = ph.D ∧ t.hcoef = ph.hcoef ∧ t.hfcoef = ph.hfcoef ∧
      ∀ m, m < n →
        t.htmp (g.cellp (g.celldist 0 + m))
          = g.Ac (g.cellp (g.celldist 0 + m)) * ph.h (g.cellp (g.celldist 0 + m))
            - pr.dt * rhsSum g pr ph (g.cellp (g.celldist 0 + m)))
    (fun iptr (p : Phys) =>
      let i := g.cellp iptr
      { p with htmp := setAt p.htmp i (g.Ac i * p.h i - pr.dt * rhsSum g pr p i) })
    (g.celldist 0) (g.celldist 1 - g.celldist 0) ph
    ⟨rfl, rfl, rfl, rfl, rfl, rfl, rfl, fun m hm => absurd hm (Nat.not_lt_zero m)⟩
    (by
      intro n t _ ⟨a1, a2, a3, a4, a5, a6, a7, a8⟩
      refine ⟨a1, a2, a3, a4, a5, a6, a7, ?_⟩
      intro m hm
      show setAt t.htmp (g.cellp (g.celldist 0 + n))
          (g.Ac (g.cellp (g.celldist 0 + n)) * t.h (g.cellp (g.celldist 0 + n))
            - pr.dt * rhsSum g pr t (g.cellp (g.celldist 0 + n)))
          (g.cellp (g.celldist 0 + m)) = _
      by_cases he : g.cellp (g.celldist 0 + m) = g.cellp (g.celldist 0 + n)
      · rw [he, setAt_same, a1, rhsSum_congr g pr ph t _ a2 a3 a4]
      · have hmn : m < n := by
          rcases Nat.lt_or_ge m n with h3 | h3
          · exact h3
          · have : m = n := by omega
            subst this; exact absurd rfl he
        rw [setAt_other _ _ _ _ he]
        exact a8 m hmn)
  unfold assembleRHS
  obtain ⟨a1, _, _, _, a5, a6, a7, a8⟩ := key1
  have key2 := forLoop_induct
    (fun n (t : Phys) => t.h = ph.h ∧ t.htmp = (sourceTerm g pr ph).htmp ∧ t.D = ph.D ∧ t.hcoef = ph.hcoef ∧
      t.hfcoef = ph.hfcoef ∧ ∀ i, i < n → t.h_old i = ph.h i)
    (fun i (p : Phys) =>
      { p with h_old := setAt p.h_old i (p.h i), dhdt := setAt p.dhdt i (p.h i) })
    0 g.Nc (sourceTerm g pr ph)
    ⟨a1, rfl, a5, a6, a7, fun i hi => absurd hi (Nat.not_lt_zero i)⟩
    (by
      intro n t _ ⟨b1, b2, b3, b4, b5, b6⟩
      refine ⟨b1, b2, b3, b4, b5, ?_⟩
      intro i hi
      show setAt t.h_old (0 + n) (t.h (0 + n)) i = ph.h i
      rcases Nat.lt_or_ge i n with h3 | h3
      · rw [setAt_other _ _ _ _ (by omega)]; exact b6 i h3
      · have : i = 0 + n := by omega
        subst this
        rw [setAt_same, b1])
  obtain ⟨b1, b2, b3, b4, b5, b6⟩ := key2
  refine ⟨?_, b1, b3, b4, b5, b6⟩
  intro iptr h1 h2
  rw [b2]
  have := a8 (iptr - g.celldist 0) (by omega)
  have e : g.celldist 0 + (iptr - g.celldist 0) = iptr := by omega
  rw [e] at this
  exact this

/-- In a closed domain the face fluxes of all cells add up to zero. -/
theorem faceFlux_total (g : Grid) (pr : Props) (ph : Phys) (hm : MutualAdjacency g)
    (hcl : ClosedBoundary g ph) :
    ∑ i in Finset.range g.Nc, ∑ nf in Finset.range (g.nfaces i), faceFlux g pr ph i nf = 0 := by
  apply halfedge_cancel g hm
  · intro i nf h1 h2 hn
    unfold faceFlux
    apply Finset.sum_eq_zero
    intro j hj
    have hlt := Finset.mem_range.mp hj
    obtain ⟨c1, c2, c3⟩ := hcl i nf h1 h2 hn
      (g.etop (g.face (i * g.maxfaces + nf)) + j) (by omega) (by omega)
    rw [c1, c2, c3]; ring
  · intro i nf j nf' _ _ _ _ _ hf _ hnorm
    unfold faceFlux
    rw [hf, hnorm, ← Finset.sum_add_distrib]
    apply Finset.sum_eq_zero
    intro k _
    ring

/-- The coupling terms of the free-surface operator add up to zero over all cells. -/
theorem coupling_total (g : Grid) (pr : Props) (D x : Nat → REAL) (hm : MutualAdjacency g) :
    ∑ i in Finset.range g.Nc, ∑ nf in Finset.range (g.nfaces i),
      (if g.neigh (i * g.maxfaces + nf) ≠ -1 then
        faceCoef g pr D i nf * (x i - x (g.neigh (i * g.maxfaces + nf)).toNat)
      else 0) = 0 := by
  apply halfedge_cancel g hm
  · intro i nf _ _ hn
    rw [if_neg (by simp [hn])]
  · intro i nf j nf' _ _ _ _ hij hf hji _
    have h1 : g.neigh (i * g.maxfaces + nf) ≠ -1 := by rw [hij]; omega
    have h2 : g.neigh (j * g.maxfaces + nf') ≠ -1 := by rw [hji]; omega
    rw [if_pos h1, if_pos h2, hij, hji]
    have hc : faceCoef g pr D j nf' = faceCoef g pr D i nf := by
      unfold faceCoef; rw [hf]
    rw [hc]
    simp only [Int.toNat_ofNat]
    ring

/-- C4: volume conservation of one free-surface step in a closed domain. When every cell
is computational, adjacency is mutual with opposite normals, faces without a neighbour
carry no velocity, and no cell is degenerate in `HCoefficients`, the source term of
`UPredictor` satisfies `sum htmp = sum Ac*h_old`; every `h_new` with
`OperatorH(h_new) = htmp` on all cells has `sum Ac*h_new = sum Ac*h_old`; and then
`UpdateDZ` run on `h_new` leaves the total volume of a layering that matched `h_old`. -/
theorem free_surface_step_conserves_volume (g : Grid) (pr : Props) (ph : Phys)
    (hall : AllComputational g)
    (hnf : ∀ iptr, g.celldist 0 ≤ iptr → iptr < g.celldist 1 →
      g.nfaces (g.cellp iptr) ≤ g.maxfaces)
    (hm : MutualAdjacency g) (hcl : ClosedBoundary g ph)
    (hcp : ∀ i, i < g.Nc → Coupled g pr ph.D i) :
    (∑ i in Finset.range g.Nc, (assembleRHS g pr ph).htmp i
      = ∑ i in Finset.range g.Nc, g.Ac i * (assembleRHS g pr ph).h_old i) ∧
    ∀ hnew y0 : Nat → REAL,
      (∀ i, i < g.Nc →
        OperatorH g hnew y0 (hcoefOf g pr (assembleRHS g pr ph)).coef
          (hcoefOf g pr (assembleRHS g pr ph)).fcoef i
          = (hcoefOf g pr (assembleRHS g pr ph)).htmp i) →
      (∑ i in Finset.range g.Nc, g.Ac i * hnew i
        = ∑ i in Finset.range g.Nc, g.Ac i * (assembleRHS g pr ph).h_old i) ∧
      ∀ d : DZState, d.linearFS = false → d.Nc = g.Nc → d.dv = g.dv → d.Nk = g.Nk →
        d.h = hnew →
        (∀ i, i < g.Nc → 1 ≤ d.Nk i ∧ d.Nk i ≤ d.Nkmax ∧ (∀ k, k < d.Nk i → 0 < d.dz k) ∧
          depthTo d.dz (d.Nk i - 1) ≤ d.dv i) →
        (∀ i, i < g.Nc →
          ∑ k in Finset.range (g.Nk i), d.dzz i k = g.dv i + (assembleRHS g pr ph).h_old i) →
        totalVolume g.Nc g.Ac g.Nk (UpdateDZ d 0).dzz = totalVolume g.Nc g.Ac g.Nk d.dzz := by
  obtain ⟨r1, r2, r3, r4, r5, r6⟩ := assembleRHS_spec g pr ph
  have hsrc : ∑ i in Finset.range g.Nc, (assembleRHS g pr ph).htmp i
      = ∑ i in Finset.range g.Nc, g.Ac i * ph.h i := by
    have e : ∀ i ∈ Finset.range g.Nc, (assembleRHS g pr ph).htmp i
        = g.Ac i * ph.h i - pr.dt * ∑ nf in Finset.range (g.nfaces i), faceFlux g pr ph i nf := by
      intro i hi
      obtain ⟨iptr, h1, h2, h3⟩ := hall i (Finset.mem_range.mp hi)
      have := r1 iptr h1 h2
      rw [h3, rhsSum_eq] at this
      exact this
    rw [Finset.sum_congr rfl e, Finset.sum_sub_distrib, ← Finset.mul_sum,
      faceFlux_total g pr ph hm hcl]
    ring
  have hold : ∑ i in Finset.range g.Nc, g.Ac i * (assembleRHS g pr ph).h_old i
      = ∑ i in Finset.range g.Nc, g.Ac i * ph.h i := by
    apply Finset.sum_congr rfl
    intro i hi
    rw [r6 i (Finset.mem_range.mp hi)]
  refine ⟨by rw [hsrc, hold], ?_⟩
  intro hnew y0 hsol
  have hnewsum : ∑ i in Finset.range g.Nc, g.Ac i * hnew i
      = ∑ i in Finset.range g.Nc, g.Ac i * ph.h i := by
    have e : ∀ i ∈ Finset.range g.Nc,
        operatorStencil g pr ph.D hnew i = (assembleRHS g pr ph).htmp i := by
      intro i hi
      have hi2 := Finset.mem_range.mp hi
      obtain ⟨iptr, h1, h2, h3⟩ := hall i hi2
      have hop := OperatorH_coupled g pr (assembleRHS g pr ph).D (assembleRHS g pr ph).h
        { coef := (assembleRHS g pr ph).hcoef, fcoef := (assembleRHS g pr ph).hfcoef,
          htmp := (assembleRHS g pr ph).htmp, check := false }
        hnew y0 hnf iptr h1 h2 (by rw [h3, r3]; exact hcp i hi2)
      have hs := hsol i hi2
      have hh := (HCoefficients_spec g pr (assembleRHS g pr ph).D (assembleRHS g pr ph).h
        { coef := (assembleRHS g pr ph).hcoef, fcoef := (assembleRHS g pr ph).hfcoef,
          htmp := (assembleRHS g pr ph).htmp, check := false } hnf).2.1 i
        (by rw [r3]; exact hcp i hi2)
      rw [h3, r3] at hop
      unfold hcoefOf at hs
      rw [r3] at hs hh
      rw [← hop, hs, hh]
    have hst : ∑ i in Finset.range g.Nc, operatorStencil g pr ph.D hnew i
        = ∑ i in Finset.range g.Nc, g.Ac i * hnew i := by
      unfold operatorStencil
      rw [Finset.sum_add_distrib, coupling_total g pr ph.D hnew hm, add_zero]
    rw [← hst, Finset.sum_congr rfl e, hsrc]
  refine ⟨by rw [hnewsum, hold], ?_⟩
  intro d hlin hNc hdv hNk hh hwf hinv
  unfold totalVolume
  have e1 : ∀ i ∈ Finset.range g.Nc,
      g.Ac i * ∑ k in Finset.range (g.Nk i), (UpdateDZ d 0).dzz i k
        = g.Ac i * g.dv i + g.Ac i * hnew i := by
    intro i hi
    have hi2 := Finset.mem_range.mp hi
    obtain ⟨w1, w2, w3, w4⟩ := hwf i hi2
    obtain ⟨c1, c2, c3, _⟩ := UpdateDZ_column_sum d 0 (Or.inl rfl) hlin i (by rw [hNc]; exact hi2)
      w1 w2 w3 w4
    have hN : (UpdateDZ d 0).Nk i = g.Nk i := by
      obtain ⟨_, _, hin, _⟩ := UpdateDZ_facts d 0 (Or.inl rfl) hlin
      rw [hin.2.2.2.1, hNk]
    rw [hN, c2, c3, hdv, hh] at c1
    rw [c1]; ring
  have e2 : ∀ i ∈ Finset.range g.Nc,
      g.Ac i * ∑ k in Finset.range (g.Nk i), d.dzz i k
        = g.Ac i * g.dv i + g.Ac i * (assembleRHS g pr ph).h_old i := by
    intro i hi
    rw [hinv i (Finset.mem_range.mp hi)]; ring
  rw [Finset.sum_congr rfl e1, Finset.sum_congr rfl e2, Finset.sum_add_distrib,
    Finset.sum_add_distrib, hnewsum, hold]

theorem exampleMesh_mutual : MutualAdjacency exampleMesh where
  face_inj := by
    intro i nf nf' hi h1 h2
    have hi' : i < 2 := hi
    have h1' : nf < 3 := h1
    have h2' : nf' < 3 := h2
    interval_cases i <;> interval_cases nf <;> interval_cases nf' <;> simp [exampleMesh]
  twin := by
    intro i nf hi h1
    have hi' : i < 2 := hi
    have h1' : nf < 3 := h1
    interval_cases i <;> interval_cases nf
    · intro _; exact ⟨1, 0, by decide, by simp [exampleMesh], by decide,
        by simp [exampleMesh], by simp [exampleMesh], by simp [exampleMesh]⟩
    · intro hn; simp [exampleMesh] at hn
    · intro hn; simp [exampleMesh] at hn
    · intro _; exact ⟨0, 0, by decide, by simp [exampleMesh], by decide,
        by simp [exampleMesh], by simp [exampleMesh], by simp [exampleMesh]⟩
    · intro hn; simp [exampleMesh] at hn
    · intro hn; simp [exampleMesh] at hn

theorem exampleMesh_closed : ClosedBoundary exampleMesh examplePhys := by
  intro i nf hi h1
  have hi' : i < 2 := hi
  have h1' : nf < 3 := h1
  interval_cases i <;> interval_cases nf <;> simp [exampleMesh, examplePhys]

theorem exampleMesh_coupled : ∀ i, i < exampleMesh.Nc →
    Coupled exampleMesh exampleProps examplePhys.D i := by
  intro i hi
  have hi' : i < 2 := hi
  interval_cases i
  · exact ⟨0, by decide, by simp [exampleMesh],
      by simp [faceCoef, exampleMesh, exampleProps, examplePhys]⟩
  · exact ⟨0, by decide, by simp [exampleMesh],
      by simp [faceCoef, exampleMesh, exampleProps, examplePhys]⟩

/-- C4 at the example mesh: two cells exchanging water through edge 0. -/
theorem free_surface_step_conserves_volume_witness :
    ∑ i in Finset.range exampleMesh.Nc, (assembleRHS exampleMesh exampleProps examplePhys).htmp i
      = ∑ i in Finset.range exampleMesh.Nc,
          exampleMesh.Ac i * (assembleRHS exampleMesh exampleProps examplePhys).h_old i :=
  (free_surface_step_conserves_volume exampleMesh exampleProps examplePhys
    (by intro i hi; exact ⟨i, Nat.zero_le i, hi, rfl⟩)
    (by intro iptr _ _; simp [exampleMesh])
    exampleMesh_mutual exampleMesh_closed exampleMesh_coupled).1

/-! ## Free-surface solve on a single decoupled cell -/

theorem forLoop_one {σ : Type} (body : Nat → σ → σ) (lo : Nat) (s : σ) :
    forLoop body lo 1 s = body lo s := rfl

theorem innerProduct_single (g : Grid) (x y : Nat → REAL) (hcd0 : g.celldist 0 = 0)
    (hcd1 : g.celldist 1 = 1) : InnerProduct g x y = x (g.cellp 0) * y (g.cellp 0) := by
  unfold InnerProduct
  rw [hcd0, hcd1, Nat.sub_zero, forLoop_one, zero_add]

theorem hpreconditioner_single (g : Grid) (coef x y : Nat → REAL) (hcd0 : g.celldist 0 = 0)
    (hcd1 : g.celldist 1 = 1) :
    HPreconditioner g coef x y (g.cellp 0) = x (g.cellp 0) / coef (g.cellp 0) := by
  unfold HPreconditioner
  rw [hcd0, hcd1, Nat.sub_zero, forLoop_one, setAt_same]

/-- The coefficients that `HCoefficients` leaves for a single computational cell whose
faces all have zero flux-conductance: diagonal 1, source `h`, face coefficients 0. -/
theorem hcoefOf_decoupled (g : Grid) (pr : Props) (ph : Phys) (hcd0 : g.celldist 0 = 0)
    (hcd1 : g.celldist 1 = 1)
    (hD : ∀ nf, nf < g.nfaces (g.cellp 0) → g.neigh (g.cellp 0 * g.maxfaces + nf) ≠ -1 →
      ph.D (g.face (g.cellp 0 * g.maxfaces + nf)) = 0) :
    (hcoefOf g pr ph).coef (g.cellp 0) = 1 ∧
    (hcoefOf g pr ph).htmp (g.cellp 0) = ph.h (g.cellp 0) ∧
    ∀ x y : Nat → REAL,
      OperatorH g x y (hcoefOf g pr ph).coef (hcoefOf g pr ph).fcoef (g.cellp 0)
        = x (g.cellp 0) := by
  have hfc : ∀ nf, nf < g.nfaces (g.cellp 0) → g.neigh (g.cellp 0 * g.maxfaces + nf) ≠ -1 →
      faceCoef g pr ph.D (g.cellp 0) nf = 0 := by
    intro nf h1 h2
    unfold faceCoef
    rw [hD nf h1 h2]; simp
  have hnc : ¬ Coupled g pr ph.D (g.cellp 0) := by
    intro ⟨nf, h1, h2, h3⟩
    rw [hfc nf h1 h2] at h3
    exact lt_irrefl _ h3
  have e : hcoefOf g pr ph = hcoefCell g (pr.grav * (pr.imfac1 * pr.dt) ^ 2) ph.D ph.h
      (g.cellp 0) { coef := ph.hcoef, fcoef := ph.hfcoef, htmp := ph.htmp, check := false } := by
    unfold hcoefOf HCoefficients
    rw [hcd0, hcd1, Nat.sub_zero, forLoop_one]
  obtain ⟨⟨_, c2, c3⟩, _, _, _⟩ := hcoefCell_spec g pr ph.D ph.h (g.cellp 0)
    { coef := ph.hcoef, fcoef := ph.hfcoef, htmp := ph.htmp, check := false }
  rw [← e] at c2 c3
  refine ⟨(c2 hnc).1, (c2 hnc).2, ?_⟩
  intro x y
  have hv := (OperatorH_val g x y (hcoefOf g pr ph).coef (hcoefOf g pr ph).fcoef).1 0
    (by omega) (by omega)
  rw [hv, (c2 hnc).1, one_mul]
  have hz : ∑ nf in Finset.range (g.nfaces (g.cellp 0)),
      (if g.neigh (g.cellp 0 * g.maxfaces + nf) ≠ -1 then
        (hcoefOf g pr ph).fcoef (g.cellp 0 * g.maxfaces + nf)
          * x (g.neigh (g.cellp 0 * g.maxfaces + nf)).toNat else 0) = 0 := by
    apply Finset.sum_eq_zero
    intro nf hnf
    have hlt := Finset.mem_range.mp hnf
    by_cases hn : g.neigh (g.cellp 0 * g.maxfaces + nf) ≠ -1
    · rw [if_pos hn, c3 nf hlt hn, hfc nf hlt hn, zero_mul]
    · rw [if_neg hn]
  rw [hz, sub_zero]

/-- The state of `CGSolve` after the boundary treatment, for a single computational cell
whose faces all have zero flux-conductance. -/
theorem cgBoundary_decoupled (g : Grid) (pr : Props) (ph : Phys) (hcd0 : g.celldist 0 = 0)
    (hcd1 : g.celldist 1 = 1)
    (hD : ∀ nf, nf < g.nfaces (g.cellp 0) → g.neigh (g.cellp 0 * g.maxfaces + nf) ≠ -1 →
      ph.D (g.face (g.cellp 0 * g.maxfaces + nf)) = 0) :
    (cgBoundary g pr ph).x (g.cellp 0) = 0 ∧
    (cgBoundary g pr ph).r (g.cellp 0) = ph.h (g.cellp 0) ∧
    (cgBoundary g pr ph).coef = (hcoefOf g pr ph).coef ∧
    (cgBoundary g pr ph).fcoef = (hcoefOf g pr ph).fcoef ∧
    (cgBoundary g pr ph).iters = 0 := by
  obtain ⟨_, k2, k3⟩ := hcoefOf_decoupled g pr ph hcd0 hcd1 hD
  have e : g.celldist 1 - g.celldist 0 = 1 := by omega
  unfold cgBoundary
  simp only [e]
  simp only [forLoop_one, hcd0, setAt_same, k2, k3, sub_zero]
  exact ⟨trivial, trivial, trivial, trivial, trivial⟩

/-- The first search direction on a single computational cell with diagonal 1. -/
theorem cgDirection_single (g : Grid) (pr : Props) (s : CGState) (hcd0 : g.celldist 0 = 0)
    (hcd1 : g.celldist 1 = 1) (hc : s.coef (g.cellp 0) = 1) :
    (cgDirection g pr s).x = s.x ∧ (cgDirection g pr s).r = s.r ∧
    (cgDirection g pr s).coef = s.coef ∧ (cgDirection g pr s).fcoef = s.fcoef ∧
    (cgDirection g pr s).iters = s.iters ∧
    (cgDirection g pr s).p (g.cellp 0) = s.r (g.cellp 0) ∧
    (cgDirection g pr s).alpha = s.r (g.cellp 0) * s.r (g.cellp 0) ∧
    (s.r (g.cellp 0) ≠ 0 → (cgDirection g pr s).eps ≠ 0) := by
  have e : g.celldist 1 - g.celldist 0 = 1 := by omega
  have hip := fun x y => innerProduct_single g x y hcd0 hcd1
  have hpc := fun coef x y => hpreconditioner_single g coef x y hcd0 hcd1
  have hsq : s.r (g.cellp 0) ≠ 0 → s.r (g.cellp 0) * s.r (g.cellp 0) ≠ 0 :=
    fun hne => mul_ne_zero hne hne
  unfold cgDirection
  simp only [e]
  by_cases hp : pr.hprecond = 1
  · by_cases hr : pr.resnorm = 0
    · simp only [hp, hr, if_true, forLoop_one, hcd0, setAt_same, hip, hpc, hc, div_one]
      exact ⟨trivial, trivial, trivial, trivial, trivial, trivial, trivial, hsq⟩
    · simp only [hp, hr, if_true, if_false, forLoop_one, hcd0, setAt_same, hip, hpc, hc,
        div_one]
      exact ⟨trivial, trivial, trivial, trivial, trivial, trivial, trivial, hsq⟩
  · by_cases hr : pr.resnorm = 0
    · simp only [hp, hr, if_true, if_false, forLoop_one, hcd0, setAt_same, hip]
      exact ⟨trivial, trivial, trivial, trivial, trivial, trivial, trivial,
        fun _ => one_ne_zero⟩
    · simp only [hp, hr, if_false, forLoop_one, hcd0, setAt_same, hip]
      exact ⟨trivial, trivial, trivial, trivial, trivial, trivial, trivial, hsq⟩

/-- One pass of the loop body on a single cell with diagonal 1 and no coupling: the
iterate moves by the residual and the residual norms become 0. -/
theorem cgBody_single (g : Grid) (pr : Props) (s : CGState) (hcd0 : g.celldist 0 = 0)
    (hcd1 : g.celldist 1 = 1) (hc : s.coef (g.cellp 0) = 1)
    (hop : ∀ x y : Nat → REAL, OperatorH g x y s.coef s.fcoef (g.cellp 0) = x (g.cellp 0))
    (hp : s.p (g.cellp 0) = s.r (g.cellp 0))
    (ha : s.alpha = s.r (g.cellp 0) * s.r (g.cellp 0)) (hr : s.r (g.cellp 0) ≠ 0) :
    (cgBody g pr s).x (g.cellp 0) = s.x (g.cellp 0) + s.r (g.cellp 0) ∧
    (cgBody g pr s).eps = 0 ∧ (cgBody g pr s).iters = s.iters := by
  have e : g.celldist 1 - g.celldist 0 = 1 := by omega
  have hip := fun x y => innerProduct_single g x y hcd0 hcd1
  have hpc := fun coef x y => hpreconditioner_single g coef x y hcd0 hcd1
  have hnu : s.r (g.cellp 0) * s.r (g.cellp 0) / (s.r (g.cellp 0) * s.r (g.cellp 0)) = 1 :=
    div_self (mul_ne_zero hr hr)
  unfold cgBody
  simp only [e]
  by_cases hpre : pr.hprecond = 1
  · simp only [hpre, if_true, forLoop_one, hcd0, setAt_same, hip, hpc, hop, hp, ha, hnu, hc,
      one_mul, sub_self, mul_zero, zero_mul, div_one]
    exact ⟨trivial, trivial, trivial⟩
  · simp only [hpre, if_false, forLoop_one, hcd0, setAt_same, hip, hop, hp, ha, hnu,
      one_mul, sub_self, mul_zero, zero_mul]
    exact ⟨trivial, trivial, trivial⟩

/-- `CGSolve` on a single computational cell whose faces all have zero flux-conductance
returns the elevation the cell had on entry, after one pass of the loop when that elevation
is not zero and none when it is. -/
theorem cgRun_decoupled (g : Grid) (pr : Props) (ph : Phys) (hcd0 : g.celldist 0 = 0)
    (hcd1 : g.celldist 1 = 1)
    (hD : ∀ nf, nf < g.nfaces (g.cellp 0) → g.neigh (g.cellp 0 * g.maxfaces + nf) ≠ -1 →
      ph.D (g.face (g.cellp 0 * g.maxfaces + nf)) = 0)
    (hit : 1 ≤ pr.maxiters) :
    (cgRun g pr ph).x (g.cellp 0) = ph.h (g.cellp 0) ∧
    (cgRun g pr ph).iters = if ph.h (g.cellp 0) = 0 then 0 else 1 := by
  obtain ⟨k1, _, k3⟩ := hcoefOf_decoupled g pr ph hcd0 hcd1 hD
  obtain ⟨b1, b2, b3, b4, b5⟩ := cgBoundary_decoupled g pr ph hcd0 hcd1 hD
  obtain ⟨d1, d2, d3, d4, d5, d6, d7, d8⟩ := cgDirection_single g pr (cgBoundary g pr ph)
    hcd0 hcd1 (by rw [b3]; exact k1)
  obtain ⟨fuel, hfuel⟩ : ∃ fuel, pr.maxiters = fuel + 1 := ⟨pr.maxiters - 1, by omega⟩
  unfold cgRun
  rw [hfuel]
  have hs : cgStart g pr ph = cgDirection g pr (cgBoundary g pr ph) := rfl
  rw [hs]
  generalize cgDirection g pr (cgBoundary g pr ph) = s at d1 d2 d3 d4 d5 d6 d7 d8
  rw [b2] at d6 d7 d8
  have hx : s.x (g.cellp 0) = 0 := by rw [d1]; exact b1
  have hr : s.r (g.cellp 0) = ph.h (g.cellp 0) := by rw [d2]; exact b2
  by_cases h0 : ph.h (g.cellp 0) = 0
  · have ha : s.alpha = 0 := by rw [d7, h0]; ring
    rw [if_pos h0]
    unfold cgLoop
    rw [if_neg (by rw [ha]; simp)]
    exact ⟨by rw [hx, h0], by rw [d5]; exact b5⟩
  · have ha : s.alpha ≠ 0 := by rw [d7]; exact mul_ne_zero h0 h0
    obtain ⟨c1, c2, c3⟩ := cgBody_single g pr s hcd0 hcd1 (by rw [d3, b3]; exact k1)
      (by intro x y; rw [d3, d4, b3, b4]; exact k3 x y) (by rw [d6, hr]) (by rw [d7, hr])
      (by rw [hr]; exact h0)
    rw [if_neg h0]
    unfold cgLoop
    rw [if_pos ⟨d8 h0, ha⟩]
    simp only
    have hx1 : (cgBody g pr s).x (g.cellp 0) = ph.h (g.cellp 0) := by
      rw [c1, hx, hr]; ring
    have hi1 : (cgBody g pr s).iters + 1 = 1 := by rw [c3, d5, b5]
    by_cases hq : sqrtLt ((cgBody g pr s).eps / (cgBody g pr s).eps0) pr.epsilon = true
    · rw [if_pos hq]
      exact ⟨hx1, hi1⟩
    · rw [if_neg hq]
      cases fuel with
      | zero => exact ⟨hx1, hi1⟩
      | succ k =>
        unfold cgLoop
        rw [if_neg (by simp [c2])]
        exact ⟨hx1, hi1⟩

/-- C10, as stated, fails: the island cell has all neighbours in the specified-elevation
range and `D = 0` on every face, `epsilon > 0`, `maxiters >= 1` and forcing 5, yet
`CGSolve` returns its entry elevation 1 and not the forcing. -/
theorem CGSolve_degenerate_counterexample :
    (islandMesh.celldist 0 = 0 ∧ islandMesh.celldist 1 = 1) ∧
    (∀ nf, nf < islandMesh.nfaces (islandMesh.cellp 0) →
      (∃ iptr, islandMesh.celldist 1 ≤ iptr ∧ iptr < islandMesh.celldist 2 ∧
        islandMesh.neigh (islandMesh.cellp 0 * islandMesh.maxfaces + nf)
          = (islandMesh.cellp iptr : Int)) ∧
      islandPhys.D (islandMesh.face (islandMesh.cellp 0 * islandMesh.maxfaces + nf)) = 0) ∧
    0 < implicitProps.epsilon ∧ 1 ≤ implicitProps.maxiters ∧
    islandPhys.htmp (islandMesh.cellp 0) ≠ 0 ∧
    (CGSolve islandMesh implicitProps islandPhys).h (islandMesh.cellp 0)
      ≠ islandPhys.htmp (islandMesh.cellp 0) := by
  refine ⟨⟨rfl, rfl⟩, ?_, by simp [implicitProps], by decide, by simp [islandPhys, islandMesh],
    ?_⟩
  · intro nf hnf
    have h3 : nf < 3 := hnf
    refine ⟨⟨nf + 1, ?_, ?_, ?_⟩, rfl⟩
    · show 1 ≤ nf + 1
      omega
    · show nf + 1 < 4
      omega
    · interval_cases nf <;> simp [islandMesh]
  · have hrun := (cgRun_decoupled islandMesh implicitProps islandPhys rfl rfl
      (fun _ _ _ => rfl) (by decide)).1
    show (cgRun islandMesh implicitProps islandPhys).x (islandMesh.cellp 0)
      ≠ islandPhys.htmp (islandMesh.cellp 0)
    rw [hrun]
    simp [islandPhys, islandMesh]

/-- C10, amended: for a single computational cell whose faces with a neighbour all have
flux-conductance `D = 0`, `HCoefficients` replaces the source of the cell by its entry
elevation, and `CGSolve` with `maxiters >= 1` returns in `h` that entry elevation, after
exactly one pass of the loop when it is not zero and none when it is zero. -/
theorem CGSolve_degenerate_returns_entry (g : Grid) (pr : Props) (ph : Phys)
    (hcd0 : g.celldist 0 = 0) (hcd1 : g.celldist 1 = 1)
    (hD : ∀ nf, nf < g.nfaces (g.cellp 0) → g.neigh (g.cellp 0 * g.maxfaces + nf) ≠ -1 →
      ph.D (g.face (g.cellp 0 * g.maxfaces + nf)) = 0)
    (hit : 1 ≤ pr.maxiters) :
    (hcoefOf g pr ph).htmp (g.cellp 0) = ph.h (g.cellp 0) ∧
    (CGSolve g pr ph).h (g.cellp 0) = ph.h (g.cellp 0) ∧
    (cgRun g pr ph).iters = if ph.h (g.cellp 0) = 0 then 0 else 1 := by
  obtain ⟨r1, r2⟩ := cgRun_decoupled g pr ph hcd0 hcd1 hD hit
  exact ⟨(hcoefOf_decoupled g pr ph hcd0 hcd1 hD).2.1, r1, r2⟩

/-- C10, amended, at the island cell: the entry elevation 1 comes back after one pass. -/
theorem CGSolve_degenerate_returns_entry_witness :
    (hcoefOf islandMesh implicitProps islandPhys).htmp (islandMesh.cellp 0)
      = islandPhys.h (islandMesh.cellp 0) ∧
    (CGSolve islandMesh implicitProps islandPhys).h (islandMesh.cellp 0)
      = islandPhys.h (islandMesh.cellp 0) ∧
    (cgRun islandMesh implicitProps islandPhys).iters
      = if islandPhys.h (islandMesh.cellp 0) = 0 then 0 else 1 :=
  CGSolve_degenerate_returns_entry islandMesh implicitProps islandPhys rfl rfl
    (fun _ _ _ => rfl) (by decide)

/-! ## Mass balance of a one-cell domain -/

/-- C9, as stated, fails: in the one-cell pond with inflow speed 1 through edge 0 the
assembled source is `Ac*h_old + dt*U*df = 3/2`, but after the free-surface solve the
elevation change is 0 and not `dt*U*df/Ac = 1`. -/
theorem mass_balance_counterexample :
    (∀ nf, nf < pondMesh.nfaces 0 → pondMesh.neigh (0 * pondMesh.maxfaces + nf) = -1) ∧
    (implicitProps.imfac1 = 1 ∧ implicitProps.imfac2 = 0 ∧ implicitProps.imfac3 = 0) ∧
    (pondPhys.utmp 0 0 * pondMesh.normal 0 = -1 ∧
      ∀ j, j ≠ 0 → pondPhys.utmp j 0 = 0) ∧
    (CGSolve pondMesh implicitProps (assembleRHS pondMesh implicitProps pondPhys)).h
        (pondMesh.cellp 0)
      - (assembleRHS pondMesh implicitProps pondPhys).h_old (pondMesh.cellp 0)
      ≠ implicitProps.dt * 1 * pondMesh.df 0 / pondMesh.Ac (pondMesh.cellp 0) := by
  refine ⟨fun _ _ => rfl, ⟨rfl, rfl, rfl⟩, ⟨by simp [pondPhys, pondMesh], ?_⟩, ?_⟩
  · intro j hj
    simp [pondPhys, hj]
  · obtain ⟨_, r2, _, _, _, r6⟩ := assembleRHS_spec pondMesh implicitProps pondPhys
    have hrun := (cgRun_decoupled pondMesh implicitProps
      (assembleRHS pondMesh implicitProps pondPhys) rfl rfl
      (fun nf _ hn => absurd rfl hn) (by decide)).1
    have hx : (CGSolve pondMesh implicitProps (assembleRHS pondMesh implicitProps pondPhys)).h
        (pondMesh.cellp 0) = pondPhys.h (pondMesh.cellp 0) := by
      show (cgRun pondMesh implicitProps (assembleRHS pondMesh implicitProps pondPhys)).x
        (pondMesh.cellp 0) = _
      rw [hrun, r2]
    rw [hx, r6 (pondMesh.cellp 0) (by decide)]
    simp [implicitProps, pondMesh]

/-- C9, amended: for a one-cell domain (no face has a neighbour) whose edges have one layer,
with inflow through the face `nf0` only and `fac1 = 1`, `fac2 = fac3 = 0`, the source
assembled by `UPredictor` is `Ac*h_old - dt*utmp*df*normal*dzf` of that edge, that is
`Ac*h_old + dt*U*df*dzf` for the inflow speed `U = -utmp*normal`; `HCoefficients` then
resets the source to `h_old`, and the free-surface solve with `maxiters >= 1` returns
`h_new = h_old`. -/
theorem mass_balance_single_cell (g : Grid) (pr : Props) (ph : Phys)
    (hcd0 : g.celldist 0 = 0) (hcd1 : g.celldist 1 = 1) (hc : g.cellp 0 < g.Nc)
    (hno : ∀ nf, nf < g.nfaces (g.cellp 0) → g.neigh (g.cellp 0 * g.maxfaces + nf) = -1)
    (hlay : ∀ nf, nf < g.nfaces (g.cellp 0) →
      g.etop (g.face (g.cellp 0 * g.maxfaces + nf)) = 0 ∧
      g.Nke (g.face (g.cellp 0 * g.maxfaces + nf)) = 1)
    (nf0 : Nat) (hnf0 : nf0 < g.nfaces (g.cellp 0))
    (hclosed : ∀ nf, nf < g.nfaces (g.cellp 0) → nf ≠ nf0 →
      ph.utmp (g.face (g.cellp 0 * g.maxfaces + nf)) 0 = 0)
    (hf1 : pr.imfac1 = 1) (hf2 : pr.imfac2 = 0) (hf3 : pr.imfac3 = 0)
    (hit : 1 ≤ pr.maxiters) :
    (assembleRHS g pr ph).htmp (g.cellp 0)
      = g.Ac (g.cellp 0) * (assembleRHS g pr ph).h_old (g.cellp 0)
        - pr.dt * (ph.utmp (g.face (g.cellp 0 * g.maxfaces + nf0)) 0
            * g.df (g.face (g.cellp 0 * g.maxfaces + nf0))
            * g.normal (g.cellp 0 * g.maxfaces + nf0)
            * g.dzf (g.face (g.cellp 0 * g.maxfaces + nf0)) 0) ∧
    (hcoefOf g pr (assembleRHS g pr ph)).htmp (g.cellp 0)
      = (assembleRHS g pr ph).h_old (g.cellp 0) ∧
    (CGSolve g pr (assembleRHS g pr ph)).h (g.cellp 0)
      = (assembleRHS g pr ph).h_old (g.cellp 0) := by
  obtain ⟨r1, r2, _, _, _, r6⟩ := assembleRHS_spec g pr ph
  have hD : ∀ nf, nf < g.nfaces (g.cellp 0) → g.neigh (g.cellp 0 * g.maxfaces + nf) ≠ -1 →
      (assembleRHS g pr ph).D (g.face (g.cellp 0 * g.maxfaces + nf)) = 0 :=
    fun nf h1 hn => absurd (hno nf h1) hn
  refine ⟨?_, ?_, ?_⟩
  · rw [r1 0 (by omega) (by omega), r6 _ hc, rhsSum_eq,
      Finset.sum_eq_single nf0]
    · unfold faceFlux
      rw [(hlay nf0 hnf0).1, (hlay nf0 hnf0).2, hf1, hf2, hf3]
      simp
    · intro nf hnf hne
      unfold faceFlux
      have hlt := Finset.mem_range.mp hnf
      rw [(hlay nf hlt).1, (hlay nf hlt).2, hf2, hf3]
      simp [hclosed nf hlt hne]
    · intro hn
      exact absurd (Finset.mem_range.mpr hnf0) hn
  · rw [(hcoefOf_decoupled g pr (assembleRHS g pr ph) hcd0 hcd1 hD).2.1, r2, r6 _ hc]
  · have hrun := (cgRun_decoupled g pr (assembleRHS g pr ph) hcd0 hcd1 hD hit).1
    show (cgRun g pr (assembleRHS g pr ph)).x (g.cellp 0) = _
    rw [hrun, r2, r6 _ hc]

/-- C9, amended, at the pond: source 3/2, elevation unchanged. -/
theorem mass_balance_single_cell_witness :
    (assembleRHS pondMesh implicitProps pondPhys).htmp (pondMesh.cellp 0)
      = pondMesh.Ac (pondMesh.cellp 0)
          * (assembleRHS pondMesh implicitProps pondPhys).h_old (pondMesh.cellp 0)
        - implicitProps.dt * (pondPhys.utmp (pondMesh.face (pondMesh.cellp 0 * pondMesh.maxfaces + 0)) 0
            * pondMesh.df (pondMesh.face (pondMesh.cellp 0 * pondMesh.maxfaces + 0))
            * pondMesh.normal (pondMesh.cellp 0 * pondMesh.maxfaces + 0)
            * pondMesh.dzf (pondMesh.face (pondMesh.cellp 0 * pondMesh.maxfaces + 0)) 0) ∧
    (hcoefOf pondMesh implicitProps (assembleRHS pondMesh implicitProps pondPhys)).htmp
        (pondMesh.cellp 0)
      = (assembleRHS pondMesh implicitProps pondPhys).h_old (pondMesh.cellp 0) ∧
    (CGSolve pondMesh implicitProps (assembleRHS pondMesh implicitProps pondPhys)).h
        (pondMesh.cellp 0)
      = (assembleRHS pondMesh implicitProps pondPhys).h_old (pondMesh.cellp 0) :=
  mass_balance_single_cell pondMesh implicitProps pondPhys rfl rfl (by decide)
    (fun _ _ => rfl) (fun _ _ => ⟨rfl, rfl⟩) 0 (by decide)
    (by
      intro nf _ hne
      have hne2 : pondMesh.face (pondMesh.cellp 0 * pondMesh.maxfaces + nf) ≠ 0 := by
        simp [pondMesh, hne]
      simp [pondPhys, hne2])
    rfl rfl rfl (by decide)

/-! ## Vertical implicit system -/

/-- C6 at its failing input: the three-layer edge `deepEdge` is assembled first and leaves
`c[1] = -2` in the scratch array; the single-layer edge `shallowEdge` with a no-slip bed
(`CdB = -1`) then reads that entry as `c[k]` with `k = Nke = 1`, and with `nu = 1`,
`dt = 2` its diagonal is `b[0] = -3`, although both edges meet the provisos of the claim. -/
theorem tridiag_single_layer_noslip_diagonal :
    TridiagInputsOk 1 0 2 deepEdge ∧ TridiagInputsOk 1 0 2 shallowEdge ∧
    (assembleTridiag 1 0 1 2 deepEdge zeroTri).c 1 = -2 ∧
    (assembleTridiag 1 0 1 2 shallowEdge (assembleTridiag 1 0 1 2 deepEdge zeroTri)).b 0 = -3 ∧
    ¬ DiagDominant shallowEdge
      (assembleTridiag 1 0 1 2 shallowEdge (assembleTridiag 1 0 1 2 deepEdge zeroTri)) := by
  have hb : (assembleTridiag 1 0 1 2 shallowEdge
      (assembleTridiag 1 0 1 2 deepEdge zeroTri)).b 0 = -3 := by
    simp [assembleTridiag, viscousCoefficients, implicitRowsMulti, implicitEndRows,
      implicitRowsSingle, forLoop, setAt, shallowEdge, deepEdge, zeroTri]
    norm_num
  refine ⟨?_, ?_, ?_, hb, ?_⟩
  · refine ⟨by norm_num, by norm_num, ?_, ?_, ?_, Or.inl (le_refl _), Or.inl (le_refl _)⟩
    · intro k; simp [deepEdge]
    · intro k; simp [deepEdge]
    · intro k _ _; simp [deepEdge]
  · refine ⟨by norm_num, by norm_num, ?_, ?_, ?_, Or.inl (le_refl _), Or.inr rfl⟩
    · intro k; simp [shallowEdge]
    · intro k; simp [shallowEdge]
    · intro k _ _; simp [shallowEdge]
  · simp [assembleTridiag, viscousCoefficients, implicitRowsMulti, implicitEndRows, forLoop,
      setAt, deepEdge, zeroTri]
    norm_num
  · intro hdom
    have h0 := hdom 0 (le_refl _) (by decide)
    rw [hb] at h0
    have h1 := abs_nonneg ((assembleTridiag 1 0 1 2 shallowEdge
      (assembleTridiag 1 0 1 2 deepEdge zeroTri)).a 0)
    have h2 := abs_nonneg ((assembleTridiag 1 0 1 2 shallowEdge
      (assembleTridiag 1 0 1 2 deepEdge zeroTri)).c 0)
    linarith

/-- After the viscous coefficients of lines 3512-3539 the rows `a` and `b` are not
negative on the active layers, `c[etop]` is 0, and `c` is as before from `Nke` on. -/
theorem viscousCoefficients_nonneg (nu lax dt : REAL) (e : EdgeIn) (s : Tri)
    (hok : TridiagInputsOk nu lax dt e) (hlt : e.etop < e.Nke) :
    (∀ k, e.etop ≤ k → k < e.Nke →
      0 ≤ (viscousCoefficients nu lax e s).a k ∧ 0 ≤ (viscousCoefficients nu lax e s).b k) ∧
    (viscousCoefficients nu lax e s).a e.etop = 0 ∧
    (viscousCoefficients nu lax e s).c e.etop = 0 ∧
    ∀ j, e.Nke ≤ j → (viscousCoefficients nu lax e s).c j = s.c j := by
  obtain ⟨_, hnu, hvis, hdzz, hdz, _, _⟩ := hok
  -- zeroing
  have k1 := forLoop_induct
    (fun m (t : Tri) =>
      (∀ k, e.etop ≤ k → k < e.etop + m → t.a k = 0 ∧ t.b k = 0 ∧ t.c k = 0) ∧
      ∀ j, e.etop + m ≤ j → t.c j = s.c j)
    (fun k (t : Tri) =>
      { a := setAt t.a k 0, b := setAt t.b k 0, c := setAt t.c k 0, d := setAt t.d k 0 })
    e.etop (e.Nke - e.etop) s
    ⟨fun k h1 h2 => by omega, fun _ _ => rfl⟩
    (by
      intro m t _ ⟨i1, i2⟩
      refine ⟨?_, ?_⟩
      · intro k h1 h2
        rcases Nat.lt_or_ge k (e.etop + m) with h3 | h3
        · simp only [setAt_other _ _ _ _ (Nat.ne_of_lt h3)]
          exact i1 k h1 h3
        · have : k = e.etop + m := by omega
          subst this
          simp only [setAt_same]
          exact ⟨trivial, trivial, trivial⟩
      · intro j hj
        simp only [setAt_other _ _ _ _ (show j ≠ e.etop + m by omega)]
        exact i2 j (by omega))
  generalize hs1 : forLoop (fun k (t : Tri) =>
      ({ a := setAt t.a k 0, b := setAt t.b k 0, c := setAt t.c k 0, d := setAt t.d k 0 } : Tri))
    e.etop (e.Nke - e.etop) s = s1 at k1
  obtain ⟨z1, z2⟩ := k1
  -- face viscosities
  have k2 := forLoop_induct
    (fun m (t : Tri) => t.a = s1.a ∧ t.b = s1.b ∧
      (∀ k, e.etop + 1 ≤ k → k < e.etop + 1 + m → 0 ≤ t.c k) ∧
      ∀ j, (j < e.etop + 1 ∨ e.etop + 1 + m ≤ j) → t.c j = s1.c j)
    (fun k (t : Tri) =>
      let v := 0.25 * (e.nu_tv1 (k - 1) + e.nu_tv2 (k - 1) + e.nu_tv1 k + e.nu_tv2 k
        + lax * (e.nu_lax1 (k - 1) + e.nu_lax2 (k - 1) + e.nu_lax1 k + e.nu_lax2 k))
      { t with c := setAt t.c k v })
    (e.etop + 1) (e.Nke - (e.etop + 1)) s1
    ⟨rfl, rfl, fun k h1 h2 => by omega, fun _ _ => rfl⟩
    (by
      intro m t _ ⟨i1, i2, i3, i4⟩
      refine ⟨i1, i2, ?_, ?_⟩
      · intro k h1 h2
        show 0 ≤ setAt t.c (e.etop + 1 + m) _ k
        rcases Nat.lt_or_ge k (e.etop + 1 + m) with h3 | h3
        · rw [setAt_other _ _ _ _ (Nat.ne_of_lt h3)]
          exact i3 k h1 h3
        · have : k = e.etop + 1 + m := by omega
          subst this
          rw [setAt_same]
          have hidx : e.etop + 1 + m - 1 = e.etop + m := by omega
          rw [hidx]
          have v1 := hvis (e.etop + m)
          have v2 := hvis (e.etop + 1 + m)
          have hl : 0 ≤ lax * (e.nu_lax1 (e.etop + m) + e.nu_lax2 (e.etop + m)
              + e.nu_lax1 (e.etop + 1 + m) + e.nu_lax2 (e.etop + 1 + m)) := by
            have := v1.2.2.1
            have := v1.2.2.2
            have := v2.2.2.1
            have := v2.2.2.2
            nlinarith
          have := v1.1
          have := v1.2.1
          have := v2.1
          have := v2.2.1
          apply mul_nonneg
          · norm_num
          · linarith
      · intro j hj
        show setAt t.c (e.etop + 1 + m) _ j = s1.c j
        rw [setAt_other _ _ _ _ (show j ≠ e.etop + 1 + m by omega)]
        exact i4 j (by omega))
  generalize hs2 : forLoop (fun k (t : Tri) =>
      let v := 0.25 * (e.nu_tv1 (k - 1) + e.nu_tv2 (k - 1) + e.nu_tv1 k + e.nu_tv2 k
        + lax * (e.nu_lax1 (k - 1) + e.nu_lax2 (k - 1) + e.nu_lax1 k + e.nu_lax2 k))
      ({ t with c := setAt t.c k v } : Tri))
    (e.etop + 1) (e.Nke - (e.etop + 1)) s1 = s2 at k2
  obtain ⟨c1, c2, c3, c4⟩ := k2
  -- row a
  have k3 := forLoop_induct
    (fun m (t : Tri) => t.b = s2.b ∧ t.c = s2.c ∧
      (∀ k, e.etop + 1 ≤ k → k < e.etop + 1 + m → 0 ≤ t.a k) ∧
      ∀ j, (j < e.etop + 1 ∨ e.etop + 1 + m ≤ j) → t.a j = s2.a j)
    (fun k (t : Tri) =>
      let v := 2.0 * (nu + t.c k) / (0.25 * (e.dzz1 k + e.dzz2 k)
        * (e.dzz1 (k - 1) + e.dzz2 (k - 1) + e.dzz1 k + e.dzz2 k))
      { t with a := setAt t.a k v })
    (e.etop + 1) (e.Nke - (e.etop + 1)) s2
    ⟨rfl, rfl, fun k h1 h2 => by omega, fun _ _ => rfl⟩
    (by
      intro m t hm ⟨i1, i2, i3, i4⟩
      refine ⟨i1, i2, ?_, ?_⟩
      · intro k h1 h2
        show 0 ≤ setAt t.a (e.etop + 1 + m) _ k
        rcases Nat.lt_or_ge k (e.etop + 1 + m) with h3 | h3
        · rw [setAt_other _ _ _ _ (Nat.ne_of_lt h3)]
          exact i3 k h1 h3
        · have : k = e.etop + 1 + m := by omega
          subst this
          rw [setAt_same, i2]
          have hc := c3 (e.etop + 1 + m) (by omega) (by omega)
          have d1 := hdzz (e.etop + 1 + m)
          have d0 := hdzz (e.etop + 1 + m - 1)
          apply div_nonneg
          · have : 0 ≤ nu + s2.c (e.etop + 1 + m) := by linarith
            norm_num
            exact this
          · apply mul_nonneg
            · have : 0 ≤ e.dzz1 (e.etop + 1 + m) + e.dzz2 (e.etop + 1 + m) := by linarith [d1.1, d1.2]
              norm_num
              exact this
            · linarith [d1.1, d1.2, d0.1, d0.2]
      · intro j hj
        show setAt t.a (e.etop + 1 + m) _ j = s2.a j
        rw [setAt_other _ _ _ _ (show j ≠ e.etop + 1 + m by omega)]
        exact i4 j (by omega))
  generalize hs3 : forLoop (fun k (t : Tri) =>
      let v := 2.0 * (nu + t.c k) / (0.25 * (e.dzz1 k + e.dzz2 k)
        * (e.dzz1 (k - 1) + e.dzz2 (k - 1) + e.dzz1 k + e.dzz2 k))
      ({ t with a := setAt t.a k v } : Tri))
    (e.etop + 1) (e.Nke - (e.etop + 1)) s2 = s3 at k3
  obtain ⟨a1, a2, a3, a4⟩ := k3
  -- row b
  have k4 := forLoop_induct
    (fun m (t : Tri) => t.a = s3.a ∧ t.c = s3.c ∧
      (∀ k, e.etop ≤ k → k < e.etop + m → 0 ≤ t.b k) ∧
      ∀ j, (j < e.etop ∨ e.etop + m ≤ j) → t.b j = s3.b j)
    (fun k (t : Tri) =>
      let v := 2.0 * (nu + t.c (k + 1)) / (0.25 * (e.dzz1 k + e.dzz2 k)
        * (e.dzz1 k + e.dzz2 k + e.dzz1 (k + 1) + e.dzz2 (k + 1)))
      { t with b := setAt t.b k v })
    e.etop (e.Nke - 1 - e.etop) s3
    ⟨rfl, rfl, fun k h1 h2 => by omega, fun _ _ => rfl⟩
    (by
      intro m t hm ⟨i1, i2, i3, i4⟩
      refine ⟨i1, i2, ?_, ?_⟩
      · intro k h1 h2
        show 0 ≤ setAt t.b (e.etop + m) _ k
        rcases Nat.lt_or_ge k (e.etop + m) with h3 | h3
        · rw [setAt_other _ _ _ _ (Nat.ne_of_lt h3)]
          exact i3 k h1 h3
        · have : k = e.etop + m := by omega
          subst this
          rw [setAt_same, i2, a2]
          have hc := c3 (e.etop + m + 1) (by omega) (by omega)
          have d1 := hdzz (e.etop + m)
          have d0 := hdzz (e.etop + m + 1)
          apply div_nonneg
          · have : 0 ≤ nu + s2.c (e.etop + m + 1) := by linarith
            norm_num
            exact this
          · apply mul_nonneg
            · have : 0 ≤ e.dzz1 (e.etop + m) + e.dzz2 (e.etop + m) := by linarith [d1.1, d1.2]
              norm_num
              exact this
            · linarith [d1.1, d1.2, d0.1, d0.2]
      · intro j hj
        show setAt t.b (e.etop + m) _ j = s3.b j
        rw [setAt_other _ _ _ _ (show j ≠ e.etop + m by omega)]
        exact i4 j (by omega))
  have hv : viscousCoefficients nu lax e s = forLoop (fun k (t : Tri) =>
      let v := 2.0 * (nu + t.c (k + 1)) / (0.25 * (e.dzz1 k + e.dzz2 k)
        * (e.dzz1 k + e.dzz2 k + e.dzz1 (k + 1) + e.dzz2 (k + 1)))
      ({ t with b := setAt t.b k v } : Tri))
    e.etop (e.Nke - 1 - e.etop) s3 := by
    unfold viscousCoefficients
    simp only [hs1, hs2, hs3]
  rw [hv]
  obtain ⟨b1, b2, b3, b4⟩ := k4
  refine ⟨?_, ?_, ?_, ?_⟩
  · intro k h1 h2
    refine ⟨?_, ?_⟩
    · rw [b1]
      rcases Nat.lt_or_ge k (e.etop + 1) with h3 | h3
      · rw [a4 k (Or.inl h3), c1]
        exact le_of_eq (z1 k h1 (by omega)).1.symm
      · exact a3 k h3 (by omega)
    · rcases Nat.lt_or_ge k (e.Nke - 1) with h3 | h3
      · exact b3 k h1 (by omega)
      · rw [b4 k (Or.inr (by omega)), a1, c2]
        exact le_of_eq (z1 k h1 (by omega)).2.1.symm
  · rw [b1, a4 e.etop (Or.inl (by omega)), c1]
    exact (z1 e.etop (le_refl _) (by omega)).1
  · rw [b2, a2, c4 e.etop (Or.inl (by omega))]
    exact (z1 e.etop (le_refl _) (by omega)).2.2
  · intro j hj
    rw [b2, a2, c4 j (Or.inr (by omega))]
    exact z2 j (by omega)

/-- The rows of the top and bottom layers dominate, and the other rows are untouched. -/
theorem implicitEndRows_spec (theta dt : REAL) (e : EdgeIn) (s : Tri) (hth : 0 ≤ theta)
    (hdt : 0 < dt) (hn : e.Nke - e.etop > 1)
    (hpos : ∀ k, e.etop ≤ k → k < e.Nke → 0 ≤ s.a k ∧ 0 ≤ s.b k)
    (hdzz : ∀ k, 0 ≤ e.dzz1 k ∧ 0 ≤ e.dzz2 k)
    (hT : 0 ≤ e.CdT ∨ e.CdT = -1) (hB : 0 ≤ e.CdB ∨ e.CdB = -1) :
    ((implicitEndRows theta dt e s).b e.etop
      ≥ 1 + |(implicitEndRows theta dt e s).a e.etop| + |(implicitEndRows theta dt e s).c e.etop|) ∧
    ((implicitEndRows theta dt e s).b (e.Nke - 1)
      ≥ 1 + |(implicitEndRows theta dt e s).a (e.Nke - 1)|
        + |(implicitEndRows theta dt e s).c (e.Nke - 1)|) ∧
    ∀ j, j ≠ e.etop → j ≠ e.Nke - 1 →
      (implicitEndRows theta dt e s).a j = s.a j ∧ (implicitEndRows theta dt e s).b j = s.b j ∧
      (implicitEndRows theta dt e s).c j = s.c j := by
  have htd : 0 ≤ theta * dt := mul_nonneg hth (le_of_lt hdt)
  have hne : e.Nke - 1 ≠ e.etop := by omega
  have hne2 : e.etop ≠ e.Nke - 1 := by omega
  obtain ⟨pa1, pb1⟩ := hpos e.etop (le_refl _) (by omega)
  obtain ⟨pa1', _⟩ := hpos (e.etop + 1) (by omega) (by omega)
  obtain ⟨pa2, pb2⟩ := hpos (e.Nke - 1) (by omega) (by omega)
  obtain ⟨_, pb3⟩ := hpos (e.Nke - 2) (by omega) (by omega)
  have hu1 : 0 ≤ 2 * e.CdT * |e.u e.etop| / (e.dzz1 e.etop + e.dzz2 e.etop) ∨ e.CdT = -1 := by
    rcases hT with h | h
    · left
      apply div_nonneg
      · exact mul_nonneg (mul_nonneg (by norm_num) h) (abs_nonneg _)
      · linarith [(hdzz e.etop).1, (hdzz e.etop).2]
    · right; exact h
  have hu2 : 0 ≤ 2 * e.CdB * |e.u (e.Nke - 1)| / (e.dzz1 (e.Nke - 1) + e.dzz2 (e.Nke - 1))
      ∨ e.CdB = -1 := by
    rcases hB with h | h
    · left
      apply div_nonneg
      · exact mul_nonneg (mul_nonneg (by norm_num) h) (abs_nonneg _)
      · linarith [(hdzz (e.Nke - 1)).1, (hdzz (e.Nke - 1)).2]
    · right; exact h
  have habs : ∀ x : REAL, 0 ≤ x → |(-theta * dt * x)| = theta * dt * x := by
    intro x hx
    have : -theta * dt * x = -(theta * dt * x) := by ring
    rw [this, abs_neg, abs_of_nonneg (mul_nonneg htd hx)]
  -- the top diagonal
  have hbTop : (1 : REAL) + theta * dt * s.b e.etop ≤
      (if e.CdT = -1 then
        1.0 + theta * dt * (s.a e.etop + s.a (e.etop + 1) + s.b e.etop)
      else
        1.0 + theta * dt * (s.b e.etop
          + 2.0 * e.CdT * |e.u e.etop| / (e.dzz1 e.etop + e.dzz2 e.etop))) := by
    split_ifs with h
    · have := mul_nonneg htd (add_nonneg pa1 pa1')
      norm_num
      nlinarith
    · rcases hu1 with h1 | h1
      · have := mul_nonneg htd h1
        norm_num
        nlinarith
      · exact absurd h1 h
  have hbTop0 : (0 : REAL) ≤
      (if e.CdT = -1 then
        1.0 + theta * dt * (s.a e.etop + s.a (e.etop + 1) + s.b e.etop)
      else
        1.0 + theta * dt * (s.b e.etop
          + 2.0 * e.CdT * |e.u e.etop| / (e.dzz1 e.etop + e.dzz2 e.etop))) := by
    have := mul_nonneg htd pb1
    linarith
  unfold implicitEndRows
  simp only [setAt_same, setAt_other _ _ _ _ hne, setAt_other _ _ _ _ hne2]
  refine ⟨?_, ?_, ?_⟩
  · rw [abs_zero, habs _ pb1]
    linarith
  · rw [abs_zero, habs _ pa2]
    split_ifs with h1 h2
    · have hb3 : 0 ≤ setAt s.b e.etop
          (1.0 + theta * dt * (s.a e.etop + s.a (e.etop + 1) + s.b e.etop)) (e.Nke - 2) := by
        by_cases hk : e.Nke - 2 = e.etop
        · rw [hk, setAt_same]
          have := hbTop0
          rw [if_pos h2] at this
          exact this
        · rw [setAt_other _ _ _ _ hk]; exact pb3
      have := mul_nonneg htd (add_nonneg pb2 hb3)
      norm_num at this ⊢
      nlinarith
    · have hb3 : 0 ≤ setAt s.b e.etop
          (1.0 + theta * dt * (s.b e.etop
            + 2.0 * e.CdT * |e.u e.etop| / (e.dzz1 e.etop + e.dzz2 e.etop))) (e.Nke - 2) := by
        by_cases hk : e.Nke - 2 = e.etop
        · rw [hk, setAt_same]
          have := hbTop0
          rw [if_neg h2] at this
          exact this
        · rw [setAt_other _ _ _ _ hk]; exact pb3
      have := mul_nonneg htd (add_nonneg pb2 hb3)
      norm_num at this ⊢
      nlinarith
    · rcases hu2 with h3 | h3
      · have := mul_nonneg htd h3
        norm_num
        nlinarith
      · exact absurd h3 h1
  · intro j hj1 hj2
    simp only [setAt_other _ _ _ _ hj1, setAt_other _ _ _ _ hj2]
    exact ⟨trivial, trivial, trivial⟩

/-- With more than one layer the assembled rows dominate. -/
theorem implicitRowsMulti_dominant (theta dt : REAL) (e : EdgeIn) (s : Tri) (hth : 0 ≤ theta)
    (hdt : 0 < dt) (hn : e.Nke - e.etop > 1)
    (hpos : ∀ k, e.etop ≤ k → k < e.Nke → 0 ≤ s.a k ∧ 0 ≤ s.b k)
    (hdzz : ∀ k, 0 ≤ e.dzz1 k ∧ 0 ≤ e.dzz2 k)
    (hT : 0 ≤ e.CdT ∨ e.CdT = -1) (hB : 0 ≤ e.CdB ∨ e.CdB = -1) :
    DiagDominant e (implicitRowsMulti theta dt e s) := by
  have htd : 0 ≤ theta * dt := mul_nonneg hth (le_of_lt hdt)
  obtain ⟨e1, e2, e3⟩ := implicitEndRows_spec theta dt e s hth hdt hn hpos hdzz hT hB
  have habs : ∀ x : REAL, 0 ≤ x → |(-theta * dt * x)| = theta * dt * x := by
    intro x hx
    have : -theta * dt * x = -(theta * dt * x) := by ring
    rw [this, abs_neg, abs_of_nonneg (mul_nonneg htd hx)]
  have key := forLoop_induct
    (fun m (t : Tri) =>
      (∀ k, e.etop + 1 ≤ k → k < e.etop + 1 + m → t.b k ≥ 1 + |t.a k| + |t.c k|) ∧
      ∀ j, (j < e.etop + 1 ∨ e.etop + 1 + m ≤ j) →
        t.a j = (implicitEndRows theta dt e s).a j ∧ t.b j = (implicitEndRows theta dt e s).b j ∧
        t.c j = (implicitEndRows theta dt e s).c j)
    (fun k (t : Tri) =>
      let t1 : Tri := { t with c := setAt t.c k (-theta * dt * t.b k) }
      let t2 : Tri := { t1 with b := setAt t1.b k (1.0 + theta * dt * (t1.a k + t1.b k)) }
      { t2 with a := setAt t2.a k (-theta * dt * t2.a k) })
    (e.etop + 1) (e.Nke - 1 - (e.etop + 1)) (implicitEndRows theta dt e s)
    ⟨fun k h1 h2 => by omega, fun _ _ => ⟨rfl, rfl, rfl⟩⟩
    (by
      intro m t hm ⟨i1, i2⟩
      refine ⟨?_, ?_⟩
      · intro k h1 h2
        rcases Nat.lt_or_ge k (e.etop + 1 + m) with h3 | h3
        · simp only [setAt_other _ _ _ _ (Nat.ne_of_lt h3)]
          exact i1 k h1 h3
        · have hk : k = e.etop + 1 + m := by omega
          subst hk
          simp only [setAt_same]
          obtain ⟨f1, f2, _⟩ := i2 (e.etop + 1 + m) (Or.inr (le_refl _))
          obtain ⟨g1, g2, _⟩ := e3 (e.etop + 1 + m) (by omega) (by omega)
          obtain ⟨p1, p2⟩ := hpos (e.etop + 1 + m) (by omega) (by omega)
          rw [f1, f2, g1, g2, habs _ p1, habs _ p2]
          norm_num
          linarith
      · intro j hj
        simp only [setAt_other _ _ _ _ (show j ≠ e.etop + 1 + m by omega)]
        exact i2 j (by omega))
  obtain ⟨k1, k2⟩ := key
  intro k h1 h2
  show (implicitRowsMulti theta dt e s).b k
    ≥ 1 + |(implicitRowsMulti theta dt e s).a k| + |(implicitRowsMulti theta dt e s).c k|
  unfold implicitRowsMulti
  rcases Nat.lt_or_ge k (e.etop + 1) with h3 | h3
  · have hk : k = e.etop := by omega
    obtain ⟨f1, f2, f3⟩ := k2 k (Or.inl h3)
    rw [f1, f2, f3, hk]
    exact e1
  · rcases Nat.lt_or_ge k (e.Nke - 1) with h4 | h4
    · exact k1 k h3 (by omega)
    · have hk : k = e.Nke - 1 := by omega
      obtain ⟨f1, f2, f3⟩ := k2 k (Or.inr (by omega))
      rw [f1, f2, f3, hk]
      exact e2

/-- With a single layer the rows `a`, `c` stay as they are and the diagonal is 1 plus the
bed and the surface terms; the no-slip terms read `c[Nke]`. -/
theorem implicitRowsSingle_dominant (nu theta dt : REAL) (e : EdgeIn) (s : Tri)
    (hth : 0 ≤ theta) (hdt : 0 < dt) (ha : s.a e.etop = 0) (hc : s.c e.etop = 0)
    (hsingle : e.Nke = e.etop + 1)
    (hdzz : ∀ k, 0 ≤ e.dzz1 k ∧ 0 ≤ e.dzz2 k)
    (hT : 0 ≤ e.CdT ∨ e.CdT = -1) (hB : 0 ≤ e.CdB ∨ e.CdB = -1)
    (hslip : (e.CdT ≠ -1 ∧ e.CdB ≠ -1) ∨ 0 ≤ nu + s.c e.Nke) :
    DiagDominant e (implicitRowsSingle nu theta dt e s) := by
  have htd : 0 ≤ theta * dt := mul_nonneg hth (le_of_lt hdt)
  have hd : 0 ≤ e.dzz1 e.etop + e.dzz2 e.etop := by
    linarith [(hdzz e.etop).1, (hdzz e.etop).2]
  have hdrag : ∀ cd : REAL, 0 ≤ cd →
      0 ≤ 2.0 * theta * dt * |e.utmp e.etop| / (e.dzz1 e.etop + e.dzz2 e.etop) * cd := by
    intro cd hcd
    apply mul_nonneg _ hcd
    apply div_nonneg _ hd
    have h2 : (2.0 : REAL) = 2 := by norm_num
    have : (2.0 : REAL) * theta * dt * |e.utmp e.etop| = 2 * (theta * dt) * |e.utmp e.etop| := by
      rw [h2]; ring
    rw [this]
    exact mul_nonneg (mul_nonneg (by norm_num) htd) (abs_nonneg _)
  have hnoslip : 0 ≤ nu + s.c e.Nke →
      0 ≤ 4.0 * theta * dt * 2.0 * (nu + s.c e.Nke)
        / ((e.dzz1 e.etop + e.dzz2 e.etop) * (e.dzz1 e.etop + e.dzz2 e.etop)) := by
    intro hv
    apply div_nonneg _ (mul_nonneg hd hd)
    have h2 : (2.0 : REAL) = 2 := by norm_num
    have h4 : (4.0 : REAL) = 4 := by norm_num
    have : (4.0 : REAL) * theta * dt * 2.0 * (nu + s.c e.Nke)
        = 8 * (theta * dt) * (nu + s.c e.Nke) := by
      rw [h2, h4]; ring
    rw [this]
    exact mul_nonneg (mul_nonneg (by norm_num) htd) hv
  have hB' : 0 ≤ (if e.CdB = -1 then
        4.0 * theta * dt * 2.0 * (nu + s.c e.Nke)
          / ((e.dzz1 e.etop + e.dzz2 e.etop) * (e.dzz1 e.etop + e.dzz2 e.etop))
      else
        2.0 * theta * dt * |e.utmp e.etop| / (e.dzz1 e.etop + e.dzz2 e.etop) * e.CdB) := by
    split_ifs with h
    · rcases hslip with h1 | h1
      · exact absurd h h1.2
      · exact hnoslip h1
    · rcases hB with h1 | h1
      · exact hdrag _ h1
      · exact absurd h1 h
  have hT' : 0 ≤ (if e.CdT = -1 then
        4.0 * theta * dt * 2.0 * (nu + s.c e.Nke)
          / ((e.dzz1 e.etop + e.dzz2 e.etop) * (e.dzz1 e.etop + e.dzz2 e.etop))
      else
        2.0 * theta * dt * |e.utmp e.etop| / (e.dzz1 e.etop + e.dzz2 e.etop) * e.CdT) := by
    split_ifs with h
    · rcases hslip with h1 | h1
      · exact absurd h h1.1
      · exact hnoslip h1
    · rcases hT with h1 | h1
      · exact hdrag _ h1
      · exact absurd h1 h
  intro k h1 h2
  have hk : k = e.etop := by omega
  subst hk
  show (implicitRowsSingle nu theta dt e s).b e.etop
    ≥ 1 + |(implicitRowsSingle nu theta dt e s).a e.etop|
      + |(implicitRowsSingle nu theta dt e s).c e.etop|
  unfold implicitRowsSingle
  simp only [setAt_same, ha, hc, abs_zero]
  norm_num
  linarith

/-- The scope of claim C6 on the code: under the provisos of the claim the rows assembled
for an active edge dominate when the edge has more than one layer, or no no-slip end, or
when the scratch entry `c[Nke]` read by the single-layer no-slip terms is at least `-nu`. -/
theorem assembleTridiag_dominant (nu lax dt : REAL) (e : EdgeIn) (s : Tri)
    (hok : TridiagInputsOk nu lax dt e) (hlt : e.etop < e.Nke)
    (hcase : e.Nke - e.etop > 1 ∨ (e.CdT ≠ -1 ∧ e.CdB ≠ -1) ∨ 0 ≤ nu + s.c e.Nke) :
    DiagDominant e (assembleTridiag nu lax 1 dt e s) := by
  obtain ⟨v1, v2, v3, v4⟩ := viscousCoefficients_nonneg nu lax dt e s hok hlt
  obtain ⟨hdt, hnu, _, hdzz, hdz, hT, hB⟩ := hok
  have hne : ¬ (e.dzz1 e.etop = 0 ∧ e.dzz2 e.etop = 0) := by
    intro ⟨h1, h2⟩
    have := hdz e.etop (le_refl _) hlt
    rw [h1, h2] at this
    simp at this
  have hd := forLoop_preserves
    (fun t : Tri => t.a = (viscousCoefficients nu lax e s).a ∧
      t.b = (viscousCoefficients nu lax e s).b ∧ t.c = (viscousCoefficients nu lax e s).c)
    (fun k (t : Tri) => { t with d := setAt t.d k (e.utmp k) })
    (fun k t ht => ht) e.etop (e.Nke - e.etop) (viscousCoefficients nu lax e s) ⟨rfl, rfl, rfl⟩
  unfold assembleTridiag
  rw [if_pos hne]
  simp only
  generalize forLoop (fun k (t : Tri) => ({ t with d := setAt t.d k (e.utmp k) } : Tri))
    e.etop (e.Nke - e.etop) (viscousCoefficients nu lax e s) = s2 at hd
  obtain ⟨d1, d2, d3⟩ := hd
  by_cases hm : e.Nke - e.etop > 1
  · rw [if_pos hm]
    apply implicitRowsMulti_dominant 1 dt e s2 (by norm_num) hdt hm _ hdzz hT hB
    intro k h1 h2
    rw [d1, d2]
    exact v1 k h1 h2
  · rw [if_neg hm]
    apply implicitRowsSingle_dominant nu 1 dt e s2 (by norm_num) hdt (by rw [d1]; exact v2)
      (by rw [d3]; exact v3) (by omega) hdzz hT hB
    rcases hcase with h | h | h
    · exact absurd h hm
    · exact Or.inl h
    · right
      rw [d3, v4 e.Nke (le_refl _)]
      exact h


/-! ## Old-layering snapshots of `UpdateDZ` -/

/-- Closed form of a loop that copies `dzz[i][k]` into `dzzold[i][k]` for `lo ≤ k < lo+n`. -/
theorem oldRowLoop (i lo n : Nat) (s : DZState) :
    forLoop (fun k (t : DZState) =>
        { t with dzzold := setAt t.dzzold i (setAt (t.dzzold i) k (t.dzz i k)) }) lo n s
      = { s with
          dzzold := setAt s.dzzold i (fun k => if lo ≤ k ∧ k < lo + n then s.dzz i k else s.dzzold i k) } := by
  induction n with
  | zero =>
    show s = _
    have e : setAt s.dzzold i
        (fun k => if lo ≤ k ∧ k < lo + 0 then s.dzz i k else s.dzzold i k) = s.dzzold := by
      funext a k
      unfold setAt
      by_cases ha : a = i <;> simp [ha]
    rw [e]
  | succ n ih =>
    show (fun k (t : DZState) =>
        { t with dzzold := setAt t.dzzold i (setAt (t.dzzold i) k (t.dzz i k)) }) (lo + n) _ = _
    rw [ih]
    dsimp only
    congr 1
    funext a k
    unfold setAt
    by_cases ha : a = i
    · simp only [ha, if_true]
      by_cases hk : k = lo + n
      · simp [hk]
      · simp only [hk, if_false]
        by_cases hr : lo ≤ k ∧ k < lo + n
        · have hr2 : lo ≤ k ∧ k < lo + (n + 1) := ⟨hr.1, by omega⟩
          simp only [hr, hr2, if_true, and_self]
        · have hr2 : ¬ (lo ≤ k ∧ k < lo + (n + 1)) := by omega
          simp only [hr, hr2, if_false]
    · simp only [ha, if_false]

/-- Closed form of a loop that zeroes `dzzold[i][k]` for `lo ≤ k < lo+n`. -/
theorem oldZeroLoop (i lo n : Nat) (s : DZState) :
    forLoop (fun k (t : DZState) =>
        { t with dzzold := setAt t.dzzold i (setAt (t.dzzold i) k 0) }) lo n s
      = { s with
          dzzold := setAt s.dzzold i (fun k => if lo ≤ k ∧ k < lo + n then 0 else s.dzzold i k) } := by
  induction n with
  | zero =>
    show s = _
    have e : setAt s.dzzold i
        (fun k => if lo ≤ k ∧ k < lo + 0 then 0 else s.dzzold i k) = s.dzzold := by
      funext a k
      unfold setAt
      by_cases ha : a = i <;> simp [ha]
    rw [e]
  | succ n ih =>
    show (fun k (t : DZState) =>
        { t with dzzold := setAt t.dzzold i (setAt (t.dzzold i) k 0) }) (lo + n) _ = _
    rw [ih]
    dsimp only
    congr 1
    funext a k
    unfold setAt
    by_cases ha : a = i
    · simp only [ha, if_true]
      by_cases hk : k = lo + n
      · simp [hk]
      · simp only [hk, if_false]
        by_cases hr : lo ≤ k ∧ k < lo + n
        · have hr2 : lo ≤ k ∧ k < lo + (n + 1) := ⟨hr.1, by omega⟩
          simp only [hr, hr2, if_true, and_self]
        · have hr2 : ¬ (lo ≤ k ∧ k < lo + (n + 1)) := by omega
          simp only [hr, hr2, if_false]
    · simp only [ha, if_false]

/-- Closed form of the loop `etopold[j]=etop[j]` over the first `n` edges. -/
theorem etopoldLoop (n : Nat) (g : DZState) :
    forLoop (fun j (s : DZState) => { s with etopold := setAt s.etopold j (s.etop j) }) 0 n g
      = { g with etopold := fun j => if j < n then g.etop j else g.etopold j } := by
  induction n with
  | zero => rfl
  | succ n ih =>
    show (fun j (s : DZState) => { s with etopold := setAt s.etopold j (s.etop j) }) (0 + n) _ = _
    rw [ih]
    dsimp only
    congr 1
    funext j
    unfold setAt
    by_cases hj : j = 0 + n
    · simp [hj]
    · simp only [hj, if_false]
      by_cases h1 : j < n
      · have h2 : j < n + 1 := by omega
        simp only [h1, h2, if_true]
      · have h2 : ¬ j < n + 1 := by omega
        simp only [h1, h2, if_false]

/-- Closed form of the loop over cells at lines 1116-1122. -/
theorem snapshotCells (n : Nat) (g : DZState) :
    forLoop (fun i (s : DZState) =>
      let s1 := { s with ctopold := setAt s.ctopold i (s.ctop i) }
      let s2 := forLoop (fun k (t : DZState) =>
          { t with dzzold := setAt t.dzzold i (setAt (t.dzzold i) k 0) }) 0 (s1.ctop i) s1
      forLoop (fun k (t : DZState) =>
          { t with dzzold := setAt t.dzzold i (setAt (t.dzzold i) k (t.dzz i k)) })
        (s2.ctop i) (s2.Nk i - s2.ctop i) s2)
    0 n g
      = { g with
          ctopold := fun i => if i < n then g.ctop i else g.ctopold i
          dzzold := fun i k => if i < n then (if k < g.ctop i then 0 else if k < g.Nk i then g.dzz i k else g.dzzold i k) else g.dzzold i k } := by
  induction n with
  | zero => rfl
  | succ n ih =>
    rw [forLoop, ih]
    simp only [oldZeroLoop, oldRowLoop]
    congr 1
    · funext i
      unfold setAt
      by_cases hi : i = 0 + n
      · have h0 : ¬ (0 + n < n) := by omega
        have h1 : 0 + n < n + 1 := by omega
        simp only [hi, if_true, h0, if_false, h1, zero_le, true_and, Nat.zero_add]
        funext k
        by_cases hk : k < g.ctop n
        · have hk2 : ¬ (g.ctop n ≤ k ∧ k < g.ctop n + (g.Nk n - g.ctop n)) := by omega
          simp [hk, hk2]
        · by_cases hk3 : k < g.Nk n
          · have hk2 : (g.ctop n ≤ k ∧ k < g.ctop n + (g.Nk n - g.ctop n)) := by omega
            simp [hk, hk2, hk3]
          · have hk2 : ¬ (g.ctop n ≤ k ∧ k < g.ctop n + (g.Nk n - g.ctop n)) := by omega
            simp [hk, hk2, hk3]
      · simp only [hi, if_false]
        by_cases h1 : i < n
        · have h2 : i < n + 1 := by omega
          simp only [h1, h2, if_true]
        · have h2 : ¬ i < n + 1 := by omega
          simp only [h1, h2, if_false]
    · funext i
      unfold setAt
      by_cases hi : i = 0 + n
      · simp [hi]
      · simp only [hi, if_false]
        by_cases h1 : i < n
        · have h2 : i < n + 1 := by omega
          simp only [h1, h2, if_true]
        · have h2 : ¬ i < n + 1 := by omega
          simp only [h1, h2, if_false]

/-- Closed form of the loop over cells at lines 1217-1221. -/
theorem firstCells (n : Nat) (g : DZState) :
    forLoop (fun i (s : DZState) =>
      let s1 := { s with ctopold := setAt s.ctopold i (s.ctop i) }
      forLoop (fun k (t : DZState) =>
          { t with dzzold := setAt t.dzzold i (setAt (t.dzzold i) k (t.dzz i k)) })
        0 (s1.Nk i) s1)
    0 n g
      = { g with
          ctopold := fun i => if i < n then g.ctop i else g.ctopold i
          dzzold := fun i k => if i < n ∧ k < g.Nk i then g.dzz i k else g.dzzold i k } := by
  induction n with
  | zero => simp [forLoop]
  | succ n ih =>
    rw [forLoop, ih]
    simp only [oldRowLoop]
    congr 1
    · funext i
      unfold setAt
      by_cases hi : i = 0 + n
      · have h0 : ¬ (0 + n < n) := by omega
        have h1 : 0 + n < n + 1 := by omega
        simp only [hi, if_true, h0, if_false, h1, zero_le, true_and, Nat.zero_add, false_and]
        funext k
        by_cases hk : k < g.Nk n <;> simp [hk]
      · simp only [hi, if_false]
        funext k
        by_cases h1 : i < n
        · have h2 : i < n + 1 := by omega
          simp only [h1, h2, if_true]
        · have h2 : ¬ i < n + 1 := by omega
          simp only [h1, h2, if_false, false_and]
    · funext i
      unfold setAt
      by_cases hi : i = 0 + n
      · simp [hi]
      · simp only [hi, if_false]
        by_cases h1 : i < n
        · have h2 : i < n + 1 := by omega
          simp only [h1, h2, if_true]
        · have h2 : ¬ i < n + 1 := by omega
          simp only [h1, h2, if_false]

/-- What the snapshot of lines 1113-1123 stores. -/
theorem snapshotOld_spec (g : DZState) :
    (∀ j, j < g.Ne → (snapshotOld g).etopold j = g.etop j) ∧
    ∀ i, i < g.Nc → (snapshotOld g).ctopold i = g.ctop i ∧
      (∀ k, k < g.ctop i → (snapshotOld g).dzzold i k = 0) ∧
      ∀ k, g.ctop i ≤ k → k < g.Nk i → (snapshotOld g).dzzold i k = g.dzz i k := by
  unfold snapshotOld
  simp only [snapshotCells, etopoldLoop]
  refine ⟨fun j hj => by simp [hj], fun i hi => ⟨by simp [hi], fun k hk => by simp [hi, hk],
    fun k h1 h2 => ?_⟩⟩
  have h3 : ¬ k < g.ctop i := by omega
  simp [hi, h2, h3]

/-- What the first-call block of lines 1214-1221 stores in the old-layering arrays. -/
theorem firstCall_old (g : DZState) :
    (∀ j, j < g.Ne → (firstCall g).etopold j = g.etop j) ∧
    ∀ i, i < g.Nc → (firstCall g).ctopold i = g.ctop i ∧
      ∀ k, k < g.Nk i → (firstCall g).dzzold i k = g.dzz i k := by
  unfold firstCall
  simp only [firstCells, etopoldLoop]
  apply forLoop_preserves (fun t : DZState =>
    (∀ j, j < g.Ne → t.etopold j = g.etop j) ∧
    ∀ i, i < g.Nc → t.ctopold i = g.ctop i ∧ ∀ k, k < g.Nk i → t.dzzold i k = g.dzz i k)
  · intro j s hs; exact hs
  · exact ⟨fun j hj => by simp [hj], fun i hi => ⟨by simp [hi], fun k hk => by simp [hi, hk]⟩⟩

/-- The stages of `UpdateDZ` that compute the new layering leave the old-layering arrays. -/
theorem layering_old (g : DZState) :
    SameOld g (setEtop (cutLayers (bottomLayer g))) := by
  have hb : SameOld g (bottomLayer g) := by
    unfold bottomLayer
    apply forLoop_preserves (SameOld g)
    · intro i s hs; exact hs
    · exact ⟨rfl, rfl, rfl⟩
  have hc : SameOld g (cutLayers (bottomLayer g)) := by
    unfold cutLayers
    split_ifs
    · apply forLoop_preserves (SameOld g)
      · intro i s hs; exact hs
      · exact hb
    · apply forLoop_preserves (SameOld g)
      · intro i s hs; exact hs
      · exact hb
  unfold setEtop
  apply forLoop_preserves (SameOld g)
  · intro j s hs; exact hs
  · exact hc

/-- With `option == 0` the old-layering arrays hold the entry layering on return. -/
theorem UpdateDZ_old_zero (g : DZState) (hlin : g.linearFS = false) :
    (∀ j, j < g.Ne → (UpdateDZ g 0).etopold j = g.etop j) ∧
    ∀ i, i < g.Nc → (UpdateDZ g 0).ctopold i = g.ctop i ∧
      (∀ k, k < g.ctop i → (UpdateDZ g 0).dzzold i k = 0) ∧
      ∀ k, g.ctop i ≤ k → k < g.Nk i → (UpdateDZ g 0).dzzold i k = g.dzz i k := by
  have e : UpdateDZ g 0 = setEtop (cutLayers (bottomLayer (snapshotOld g))) := by
    simp [UpdateDZ, hlin]
  obtain ⟨o1, o2, o3⟩ := layering_old (snapshotOld g)
  rw [e, o1, o2, o3]
  exact snapshotOld_spec g

/-- With `option == 1` the old-layering arrays hold the returned layering. -/
theorem UpdateDZ_old_first (g : DZState) (hlin : g.linearFS = false) :
    (∀ j, j < g.Ne → (UpdateDZ g 1).etopold j = (UpdateDZ g 1).etop j) ∧
    ∀ i, i < g.Nc → (UpdateDZ g 1).ctopold i = (UpdateDZ g 1).ctop i ∧
      ∀ k, k < g.Nk i → (UpdateDZ g 1).dzzold i k = (UpdateDZ g 1).dzz i k := by
  have e : UpdateDZ g 1 = firstCall (setEtop (cutLayers (bottomLayer g))) := by
    simp [UpdateDZ, hlin]
  have hb := bottomLayer_keeps g
  have hc := cutLayers_keeps (bottomLayer g)
  obtain ⟨e1, _, _, _⟩ := setEtop_spec (cutLayers (bottomLayer g))
  obtain ⟨a1, a2, _, a4, _⟩ := sameInputs_trans (sameInputs_trans hb.1 hc) e1
  obtain ⟨_, f2, f3, f4⟩ := firstCall_keeps (setEtop (cutLayers (bottomLayer g)))
  obtain ⟨p1, p2⟩ := firstCall_old (setEtop (cutLayers (bottomLayer g)))
  rw [e, f2, f3, f4]
  rw [a1, a2, a4] at *
  exact ⟨p1, p2⟩

/-- With `option == -1` the old-layering arrays are not written. -/
theorem UpdateDZ_old_fixdzz (g : DZState) : SameOld g (UpdateDZ g (-1)) := by
  by_cases hl : g.linearFS = true
  · have e : UpdateDZ g (-1) = g := by simp [UpdateDZ, hl]
    rw [e]
    exact ⟨rfl, rfl, rfl⟩
  · have e : UpdateDZ g (-1) = fixBottom (setEtop (cutLayers (bottomLayer
        (forLoop (fun i (s : DZState) => { s with h := setAt s.h i 0 }) 0 g.Nc g)))) := by
      simp [UpdateDZ, hl]
    rw [e]
    have hz : SameOld g
        (forLoop (fun i (s : DZState) => { s with h := setAt s.h i 0 }) 0 g.Nc g) := by
      apply forLoop_preserves (SameOld g)
      · intro i s hs; exact hs
      · exact ⟨rfl, rfl, rfl⟩
    obtain ⟨o1, o2, o3⟩ := layering_old
      (forLoop (fun i (s : DZState) => { s with h := setAt s.h i 0 }) 0 g.Nc g)
    unfold fixBottom
    apply forLoop_preserves (SameOld g)
    · intro i s hs
      dsimp only
      split_ifs <;> exact hs
    · exact ⟨o1.trans hz.1, o2.trans hz.2.1, o3.trans hz.2.2⟩

/-- The inner loop of `InitializeVerticalGrid` over the layers of cell `i`, in closed form. -/
theorem initRowLoop (i n : Nat) (s : DZState) :
    forLoop (fun k (t : DZState) =>
        { t with
          dzz := setAt t.dzz i (setAt (t.dzz i) k (t.dz k))
          dzzold := setAt t.dzzold i (setAt (t.dzzold i) k (t.dz k)) }) 0 n s
      = { s with
          dzz := fun a k => if a = i ∧ k < n then s.dz k else s.dzz a k
          dzzold := fun a k => if a = i ∧ k < n then s.dz k else s.dzzold a k } := by
  induction n with
  | zero => simp [forLoop]
  | succ n ih =>
    rw [forLoop, ih]
    dsimp only
    congr 1
    · funext a k
      unfold setAt
      simp only [Nat.zero_add]
      by_cases ha : a = i
      · by_cases hk : k = n
        · simp [ha, hk]
        · have h1 : k < n + 1 ↔ k < n := by omega
          simp [ha, hk, h1]
      · simp [ha]
    · funext a k
      unfold setAt
      simp only [Nat.zero_add]
      by_cases ha : a = i
      · by_cases hk : k = n
        · simp [ha, hk]
        · have h1 : k < n + 1 ↔ k < n := by omega
          simp [ha, hk, h1]
      · simp [ha]

/-- The loop of `InitializeVerticalGrid` over the first `n` cells, in closed form. -/
theorem initCells (n : Nat) (g : DZState) :
    forLoop (fun i (s : DZState) =>
      forLoop (fun k (t : DZState) =>
          { t with
            dzz := setAt t.dzz i (setAt (t.dzz i) k (t.dz k))
            dzzold := setAt t.dzzold i (setAt (t.dzzold i) k (t.dz k)) })
        0 (s.Nk i) s)
    0 n g
      = { g with
          dzz := fun i k => if i < n ∧ k < g.Nk i then g.dz k else g.dzz i k
          dzzold := fun i k => if i < n ∧ k < g.Nk i then g.dz k else g.dzzold i k } := by
  induction n with
  | zero => simp [forLoop]
  | succ n ih =>
    rw [forLoop, ih]
    dsimp only
    rw [initRowLoop]
    dsimp only
    congr 1
    · funext a k
      simp only [Nat.zero_add]
      by_cases ha : a = n
      · subst ha
        by_cases hk : k < g.Nk a <;> simp [hk]
      · by_cases h2 : a < n
        · have h3 : a < n + 1 := by omega
          simp [ha, h2, h3]
        · have h3 : ¬ a < n + 1 := by omega
          simp [ha, h2, h3]
    · funext a k
      simp only [Nat.zero_add]
      by_cases ha : a = n
      · subst ha
        by_cases hk : k < g.Nk a <;> simp [hk]
      · by_cases h2 : a < n
        · have h3 : a < n + 1 := by omega
          simp [ha, h2, h3]
        · have h3 : ¬ a < n + 1 := by omega
          simp [ha, h2, h3]

/-- What `InitializeVerticalGrid` leaves: both thickness arrays hold `dz[k]`, nothing else
is written. -/
theorem InitializeVerticalGrid_spec (g : DZState) :
    InitializeVerticalGrid g = { g with
      dzz := fun i k => if i < g.Nc ∧ k < g.Nk i then g.dz k else g.dzz i k
      dzzold := fun i k => if i < g.Nc ∧ k < g.Nk i then g.dz k else g.dzzold i k } := by
  unfold InitializeVerticalGrid
  exact initCells g.Nc g

/-- C19, as stated, fails for `option == -1`. The grid is the one `InitializeVerticalGrid`
leaves from `freshGrid`: `dzz[i][k] = dzzold[i][k] = dz[k]`, entry `ctop[0] = 0` and
`etop[0] = 0`, entry `ctopold[0] = 1` and `etopold[0] = 1`. The call returns with
`ctopold[0] = 1` and `etopold[0] = 1`, not with the entry `ctop[0]` and `etop[0]`. -/
theorem UpdateDZ_fixdzz_counterexample :
    (InitializeVerticalGrid freshGrid).linearFS = false ∧
    (0 < (InitializeVerticalGrid freshGrid).Nc ∧ 0 < (InitializeVerticalGrid freshGrid).Ne) ∧
    (InitializeVerticalGrid freshGrid).dzz 0 0 = (InitializeVerticalGrid freshGrid).dzzold 0 0 ∧
    (InitializeVerticalGrid freshGrid).dzz 0 1 = (InitializeVerticalGrid freshGrid).dzzold 0 1 ∧
    (InitializeVerticalGrid freshGrid).ctop 0 = 0 ∧
    (InitializeVerticalGrid freshGrid).etop 0 = 0 ∧
    (UpdateDZ (InitializeVerticalGrid freshGrid) (-1)).ctopold 0 = 1 ∧
    (UpdateDZ (InitializeVerticalGrid freshGrid) (-1)).etopold 0 = 1 ∧
    (UpdateDZ (InitializeVerticalGrid freshGrid) (-1)).ctopold 0
      ≠ (InitializeVerticalGrid freshGrid).ctop 0 ∧
    (UpdateDZ (InitializeVerticalGrid freshGrid) (-1)).etopold 0
      ≠ (InitializeVerticalGrid freshGrid).etop 0 := by
  obtain ⟨_, o2, o3⟩ := UpdateDZ_old_fixdzz (InitializeVerticalGrid freshGrid)
  rw [o2, o3, InitializeVerticalGrid_spec]
  simp [freshGrid, exampleGrid]

/-- C19, amended: the old-layering arrays of `UpdateDZ` when the free surface is not
linearised. With `option == 1` they hold the returned layering: `dzzold[i][k]` is the new
`dzz[i][k]` for `k < Nk[i]`, `ctopold` the new `ctop`, `etopold` the new `etop`. With
`option == 0` they hold the entry layering: `dzzold[i][k]` is the entry `dzz[i][k]` for
`ctop[i] <= k < Nk[i]` and 0 above the entry `ctop[i]`, `ctopold` and `etopold` are the
entry `ctop` and `etop`. With `option == -1` the three arrays are not written and come back
as they were on entry; called on the grid that `InitializeVerticalGrid` leaves, `dzzold[i][k]`
is therefore still `dz[k]`. -/
theorem UpdateDZ_old_layering (g : DZState) (hlin : g.linearFS = false) :
    ((∀ j, j < g.Ne → (UpdateDZ g 1).etopold j = (UpdateDZ g 1).etop j) ∧
      ∀ i, i < g.Nc → (UpdateDZ g 1).ctopold i = (UpdateDZ g 1).ctop i ∧
        ∀ k, k < g.Nk i → (UpdateDZ g 1).dzzold i k = (UpdateDZ g 1).dzz i k) ∧
    ((∀ j, j < g.Ne → (UpdateDZ g 0).etopold j = g.etop j) ∧
      ∀ i, i < g.Nc → (UpdateDZ g 0).ctopold i = g.ctop i ∧
        (∀ k, k < g.ctop i → (UpdateDZ g 0).dzzold i k = 0) ∧
        ∀ k, g.ctop i ≤ k → k < g.Nk i → (UpdateDZ g 0).dzzold i k = g.dzz i k) ∧
    ((UpdateDZ g (-1)).dzzold = g.dzzold ∧ (UpdateDZ g (-1)).ctopold = g.ctopold ∧
      (UpdateDZ g (-1)).etopold = g.etopold) ∧
    (∀ i, i < g.Nc → ∀ k, k < g.Nk i →
      (UpdateDZ (InitializeVerticalGrid g) (-1)).dzzold i k = g.dz k ∧
      (InitializeVerticalGrid g).dzz i k = g.dz k) := by
  refine ⟨UpdateDZ_old_first g hlin, UpdateDZ_old_zero g hlin, UpdateDZ_old_fixdzz g, ?_⟩
  intro i hi k hk
  obtain ⟨o1, _, _⟩ := UpdateDZ_old_fixdzz (InitializeVerticalGrid g)
  rw [o1, InitializeVerticalGrid_spec]
  simp [hi, hk]

/-- C19, amended, on `freshGrid`, whose old top indices are 1 while `ctop`, `etop` are 0 and
all thicknesses are 1: `option == 0` stores the entry layering, `option == 1` the returned
one, `option == -1` leaves the old top indices at 1. -/
theorem UpdateDZ_old_layering_witness :
    freshGrid.linearFS = false ∧
    ((UpdateDZ freshGrid 1).ctopold 0 = (UpdateDZ freshGrid 1).ctop 0 ∧
      (UpdateDZ freshGrid 1).dzzold 0 1 = (UpdateDZ freshGrid 1).dzz 0 1) ∧
    ((UpdateDZ freshGrid 0).ctopold 0 = 0 ∧ (UpdateDZ freshGrid 0).etopold 0 = 0 ∧
      (UpdateDZ freshGrid 0).dzzold 0 1 = 1) ∧
    ((UpdateDZ freshGrid (-1)).ctopold 0 = 1 ∧ (UpdateDZ freshGrid (-1)).etopold 0 = 1) ∧
    (UpdateDZ (InitializeVerticalGrid freshGrid) (-1)).dzzold 0 1 = 1 := by
  obtain ⟨⟨_, a⟩, ⟨b1, b2⟩, ⟨_, c2, c3⟩, d⟩ := UpdateDZ_old_layering freshGrid rfl
  have hc : (0 : Nat) < freshGrid.Nc := by decide
  have he : (0 : Nat) < freshGrid.Ne := by decide
  have hk : (1 : Nat) < freshGrid.Nk 0 := by decide
  refine ⟨rfl, ⟨(a 0 hc).1, (a 0 hc).2 1 hk⟩, ⟨(b2 0 hc).1, b1 0 he, ?_⟩, ⟨?_, ?_⟩, ?_⟩
  · rw [(b2 0 hc).2.2 1 (by decide) hk]
    rfl
  · rw [c2]
    rfl
  · rw [c3]
    rfl
  · rw [(d 0 hc 1 hk).1]
    rfl


/-! ## `DepthFromDZ` -/

/-- For `i = -1` the function returns the sentinel `-1`. -/
theorem DepthFromDZ_sentinel (h : Nat → REAL) (dzz : Nat → Nat → REAL) (ctop : Nat → Nat)
    (before : REAL) (kind : Int) : DepthFromDZ h dzz ctop before (-1) kind = -1 := by
  simp [DepthFromDZ]

/-- What the loop of lines 1259-1262 computes for a cell `i ≥ 0`: with `n` layers below the
top it subtracts the half thicknesses of the layers `ctop-1 .. ctop+n-2` and `ctop .. ctop+n-1`. -/
theorem DepthFromDZ_value (h : Nat → REAL) (dzz : Nat → Nat → REAL) (ctop : Nat → Nat)
    (before : REAL) (i n : Nat) :
    DepthFromDZ h dzz ctop before i ((ctop i : Int) + n)
      = h i - 1 / 2 * dzz i (ctop i)
        - ∑ m in Finset.range n,
            (1 / 2 * readRow (dzz i) before ((ctop i : Int) + m - 1)
              + 1 / 2 * dzz i (ctop i + m)) := by
  have hi : ((i : Int) = -1) = False := by
    apply eq_false
    omega
  have hn : ((ctop i : Int) + n - (ctop i : Int)).toNat = n := by omega
  simp only [DepthFromDZ, hi, if_false, Int.toNat_ofNat, hn]
  clear hn
  induction n with
  | zero => simp [forLoop]
  | succ n ih =>
    rw [forLoop, ih, Finset.sum_range_succ]
    push_cast
    ring

/-- At the top layer the value is the mid-depth of that layer. -/
theorem DepthFromDZ_top (h : Nat → REAL) (dzz : Nat → Nat → REAL) (ctop : Nat → Nat)
    (before : REAL) (i : Nat) :
    DepthFromDZ h dzz ctop before i (ctop i) = h i - dzz i (ctop i) / 2 := by
  have e := DepthFromDZ_value h dzz ctop before i 0
  simp only [Nat.cast_zero, add_zero, Finset.range_zero, Finset.sum_empty, sub_zero] at e
  rw [e]
  ring

/-- C18, evaluated on the code: the loop of lines 1259-1262 starts at `k = ctop[i]` and
subtracts `dzz[i][k-1]/2 + dzz[i][k]/2`, so it reads `dzz[i][ctop-1]` and never
`dzz[i][kind]`. With `h = 0`, `ctop = 1`, `dzz = (0, 1, 2)` and `kind = 2` the result is
`-1`, while `h - dzz[1] - dzz[2]/2 = -2`; with `ctop = 0` and `kind = 1` the result
contains the value read at index `-1`, before the row. -/
theorem DepthFromDZ_reads_layer_above :
    (∀ before : REAL, DepthFromDZ (fun _ => 0) depthDzz (fun _ => 1) before 0 2 = -1) ∧
    ((0 : REAL) - ∑ m in Finset.Ico 1 2, depthDzz 0 m - depthDzz 0 2 / 2 = -2) ∧
    (∀ before : REAL, DepthFromDZ (fun _ => 0) depthDzz (fun _ => 0) before 0 1
      = 0 - depthDzz 0 0 - before / 2) := by
  refine ⟨fun before => ?_, ?_, fun before => ?_⟩
  · have e := DepthFromDZ_value (fun _ => 0) depthDzz (fun _ => 1) before 0 1
    simp only [Nat.cast_one, Nat.cast_zero] at e
    have e2 : ((1 : Int) + 1) = 2 := by norm_num
    rw [e2] at e
    rw [e]
    simp [depthDzz, readRow]
    norm_num
  · simp [depthDzz]
    norm_num
  · have e := DepthFromDZ_value (fun _ => 0) depthDzz (fun _ => 0) before 0 1
    simp only [Nat.cast_one, Nat.cast_zero, zero_add] at e
    rw [e]
    simp [depthDzz, readRow]
    ring


/-! ## `InitializeSigmaCoordinate` -/

/-- Closed form of the loop of lines 92-95 after `n` passes. -/
theorem dsigmaLoop (n : Nat) (s : SigmaState) :
    forLoop (fun k (t : SigmaState) =>
        { t with dsigma := setAt t.dsigma k (1 / (t.Nkmax : REAL)) }) 0 n s
      = { s with dsigma := fun k => if k < n then 1 / (s.Nkmax : REAL) else s.dsigma k } := by
  induction n with
  | zero => rfl
  | succ n ih =>
    rw [forLoop, ih]
    dsimp only
    congr 1
    funext k
    unfold setAt
    by_cases hk : k = 0 + n
    · simp [hk]
    · simp only [hk, if_false]
      by_cases h1 : k < n
      · have h2 : k < n + 1 := by omega
        simp only [h1, h2, if_true]
      · have h2 : ¬ k < n + 1 := by omega
        simp only [h1, h2, if_false]

/-- Closed form of the loop of lines 99-103 over the layers `lo .. lo+n-1` of column `i`. -/
theorem sigmaLayerLoop (i lo n : Nat) (u : SigmaState) :
    forLoop (sigmaLayer i) lo n u
      = { u with
          dzz := setAt u.dzz i (fun k => if lo ≤ k ∧ k < lo + n then u.dsigma k * (u.dv i + u.h i) else u.dzz i k)
          dzzold := setAt u.dzzold i (fun k => if lo ≤ k ∧ k < lo + n then u.dsigma k * (u.dv i + u.h i) else u.dzzold i k) } := by
  induction n with
  | zero =>
    show u = _
    have e1 : setAt u.dzz i
        (fun k => if lo ≤ k ∧ k < lo + 0 then u.dsigma k * (u.dv i + u.h i) else u.dzz i k)
          = u.dzz := by
      funext a k
      unfold setAt
      by_cases ha : a = i <;> simp [ha]
    have e2 : setAt u.dzzold i
        (fun k => if lo ≤ k ∧ k < lo + 0 then u.dsigma k * (u.dv i + u.h i) else u.dzzold i k)
          = u.dzzold := by
      funext a k
      unfold setAt
      by_cases ha : a = i <;> simp [ha]
    rw [e1, e2]
  | succ n ih =>
    rw [forLoop, ih]
    unfold sigmaLayer
    dsimp only
    congr 1
    · funext a k
      unfold setAt
      by_cases ha : a = i
      · simp only [ha, if_true]
        by_cases hk : k = lo + n
        · simp [hk]
        · simp only [hk, if_false]
          by_cases hr : lo ≤ k ∧ k < lo + n
          · have hr2 : lo ≤ k ∧ k < lo + (n + 1) := ⟨hr.1, by omega⟩
            simp only [hr, hr2, if_true, and_self]
          · have hr2 : ¬ (lo ≤ k ∧ k < lo + (n + 1)) := by omega
            simp only [hr, hr2, if_false]
      · simp only [ha, if_false]
    · funext a k
      unfold setAt
      by_cases ha : a = i
      · simp only [ha, if_true]
        by_cases hk : k = lo + n
        · simp [hk]
        · simp only [hk, if_false]
          by_cases hr : lo ≤ k ∧ k < lo + n
          · have hr2 : lo ≤ k ∧ k < lo + (n + 1) := ⟨hr.1, by omega⟩
            simp only [hr, hr2, if_true, and_self]
          · have hr2 : ¬ (lo ≤ k ∧ k < lo + (n + 1)) := by omega
            simp only [hr, hr2, if_false]
      · simp only [ha, if_false]

/-- Closed form of the loop over cells of lines 97-104 after `n` cells. -/
theorem sigmaCells (n : Nat) (s : SigmaState) :
    forLoop (fun i (t : SigmaState) =>
        forLoop (sigmaLayer i) (t.ctop i) (t.Nk i - t.ctop i) t) 0 n s
      = { s with
          dzz := fun i k => if i < n ∧ s.ctop i ≤ k ∧ k < s.Nk i then s.dsigma k * (s.dv i + s.h i) else s.dzz i k
          dzzold := fun i k => if i < n ∧ s.ctop i ≤ k ∧ k < s.Nk i then s.dsigma k * (s.dv i + s.h i) else s.dzzold i k } := by
  induction n with
  | zero => simp [forLoop]
  | succ n ih =>
    rw [forLoop, ih]
    simp only [sigmaLayerLoop]
    congr 1
    · funext i
      unfold setAt
      by_cases hi : i = 0 + n
      · have h0 : ¬ (0 + n < n) := by omega
        have h1 : 0 + n < n + 1 := by omega
        simp only [hi, if_true, h0, if_false, h1, true_and, Nat.zero_add, false_and]
        funext k
        by_cases hk : s.ctop n ≤ k ∧ k < s.Nk n
        · have hk2 : s.ctop n ≤ k ∧ k < s.ctop n + (s.Nk n - s.ctop n) := by omega
          simp [hk, hk2]
        · have hk2 : ¬ (s.ctop n ≤ k ∧ k < s.ctop n + (s.Nk n - s.ctop n)) := by omega
          simp [hk, hk2]
      · simp only [hi, if_false]
        funext k
        by_cases h1 : i < n
        · have h2 : i < n + 1 := by omega
          simp only [h1, h2, if_true]
        · have h2 : ¬ i < n + 1 := by omega
          simp only [h1, h2, if_false, false_and]
    · funext i
      unfold setAt
      by_cases hi : i = 0 + n
      · have h0 : ¬ (0 + n < n) := by omega
        have h1 : 0 + n < n + 1 := by omega
        simp only [hi, if_true, h0, if_false, h1, true_and, Nat.zero_add, false_and]
        funext k
        by_cases hk : s.ctop n ≤ k ∧ k < s.Nk n
        · have hk2 : s.ctop n ≤ k ∧ k < s.ctop n + (s.Nk n - s.ctop n) := by omega
          simp [hk, hk2]
        · have hk2 : ¬ (s.ctop n ≤ k ∧ k < s.ctop n + (s.Nk n - s.ctop n)) := by omega
          simp [hk, hk2]
      · simp only [hi, if_false]
        funext k
        by_cases h1 : i < n
        · have h2 : i < n + 1 := by omega
          simp only [h1, h2, if_true]
        · have h2 : ¬ i < n + 1 := by omega
          simp only [h1, h2, if_false, false_and]

/-- C20: `InitializeSigmaCoordinate` on a grid with at least one layer sets
`dsigma[k] = 1/Nkmax` for `k < Nkmax`, and these sum to 1; in every column `i < Nc` with
`ctop[i] = 0` and `Nk[i] = Nkmax` it sets `dzz[i][k] = (dv[i]+h[i])/Nkmax` for `k < Nk[i]`,
summing to `dv[i]+h[i]`; and in every column `dzzold[i][k] = dzz[i][k]` on the layers
`ctop[i] ≤ k < Nk[i]`. -/
theorem InitializeSigmaCoordinate_uniform (s : SigmaState) (hN : 0 < s.Nkmax) :
    (∀ k, k < s.Nkmax → (InitializeSigmaCoordinate s).dsigma k = 1 / (s.Nkmax : REAL)) ∧
    (∑ k in Finset.range s.Nkmax, (InitializeSigmaCoordinate s).dsigma k = 1) ∧
    (∀ i, i < s.Nc → s.ctop i = 0 → s.Nk i = s.Nkmax →
      (∀ k, k < s.Nk i →
        (InitializeSigmaCoordinate s).dzz i k = (s.dv i + s.h i) / (s.Nkmax : REAL)) ∧
      ∑ k in Finset.range (s.Nk i), (InitializeSigmaCoordinate s).dzz i k = s.dv i + s.h i) ∧
    (∀ i, i < s.Nc → ∀ k, s.ctop i ≤ k → k < s.Nk i →
      (InitializeSigmaCoordinate s).dzzold i k = (InitializeSigmaCoordinate s).dzz i k) := by
  have hne : (s.Nkmax : REAL) ≠ 0 := by
    have : (0 : REAL) < (s.Nkmax : REAL) := by exact_mod_cast hN
    exact ne_of_gt this
  unfold InitializeSigmaCoordinate
  simp only [dsigmaLoop, sigmaCells]
  have hds : ∀ k, k < s.Nkmax →
      (if k < s.Nkmax then 1 / (s.Nkmax : REAL) else s.dsigma k) = 1 / (s.Nkmax : REAL) := by
    intro k hk
    simp [hk]
  refine ⟨hds, ?_, ?_, ?_⟩
  · rw [Finset.sum_congr rfl (fun k hk => hds k (Finset.mem_range.mp hk))]
    rw [Finset.sum_const, Finset.card_range, nsmul_eq_mul]
    field_simp
  · intro i hi hc hk
    have hrow : ∀ k, k < s.Nk i →
        (if i < s.Nc ∧ s.ctop i ≤ k ∧ k < s.Nk i then
          (if k < s.Nkmax then 1 / (s.Nkmax : REAL) else s.dsigma k) * (s.dv i + s.h i)
          else s.dzz i k) = (s.dv i + s.h i) / (s.Nkmax : REAL) := by
      intro k hkk
      have h1 : i < s.Nc ∧ s.ctop i ≤ k ∧ k < s.Nk i := ⟨hi, by omega, hkk⟩
      have h2 : k < s.Nkmax := by omega
      simp only [h1, h2, if_true, and_self]
      field_simp
    refine ⟨hrow, ?_⟩
    rw [Finset.sum_congr rfl (fun k hkk => hrow k (Finset.mem_range.mp hkk))]
    rw [Finset.sum_const, Finset.card_range, nsmul_eq_mul, hk]
    field_simp
  · intro i hi k h1 h2
    simp [hi, h1, h2]

theorem InitializeSigmaCoordinate_uniform_witness :
    0 < sigmaExample.Nkmax ∧
    (InitializeSigmaCoordinate sigmaExample).dsigma 3 = 1 / ((4 : Nat) : REAL) ∧
    (InitializeSigmaCoordinate sigmaExample).dzz 0 2 = (10 + 2) / ((4 : Nat) : REAL) ∧
    (InitializeSigmaCoordinate sigmaExample).dzzold 1 1
      = (InitializeSigmaCoordinate sigmaExample).dzz 1 1 :=
  ⟨by decide,
   (InitializeSigmaCoordinate_uniform sigmaExample (by decide)).1 3 (by decide),
   ((InitializeSigmaCoordinate_uniform sigmaExample (by decide)).2.2.1 0 (by decide) rfl rfl).1
     2 (by decide),
   (InitializeSigmaCoordinate_uniform sigmaExample (by decide)).2.2.2 1 (by decide) 1
     (by decide) (by decide)⟩


/-! ## Multistep weights of `HorizontalSource` -/

/-- The zeroing loops of lines 1937-1939 keep the weights and leave 0 in `Cn_U[j][k]` and
`Cn_U2[j][k]` for `j < Ne`, `k < Nke[j]`. -/
theorem zeroTendencies_spec (Ne : Nat) (Nke : Nat → Nat) (s : HSState) :
    (zeroTendencies Ne Nke s).fab1 = s.fab1 ∧ (zeroTendencies Ne Nke s).fab2 = s.fab2 ∧
    (zeroTendencies Ne Nke s).fab3 = s.fab3 ∧
    ∀ j, j < Ne → ∀ k, k < Nke j →
      (zeroTendencies Ne Nke s).Cn_U j k = 0 ∧ (zeroTendencies Ne Nke s).Cn_U2 j k = 0 := by
  unfold zeroTendencies
  have inner : ∀ (j n : Nat) (t : HSState),
      let r := forLoop (fun k (u : HSState) =>
          { u with
            Cn_U2 := setAt u.Cn_U2 j (setAt (u.Cn_U2 j) k 0)
            Cn_U := setAt u.Cn_U j (setAt (u.Cn_U j) k 0) }) 0 n t
      r.fab1 = t.fab1 ∧ r.fab2 = t.fab2 ∧ r.fab3 = t.fab3 ∧
      (∀ k, k < n → r.Cn_U j k = 0 ∧ r.Cn_U2 j k = 0) ∧
      (∀ a, a ≠ j → r.Cn_U a = t.Cn_U a ∧ r.Cn_U2 a = t.Cn_U2 a) := by
    intro j n t
    induction n with
    | zero =>
      exact ⟨rfl, rfl, rfl, fun k hk => absurd hk (Nat.not_lt_zero k), fun a _ => ⟨rfl, rfl⟩⟩
    | succ n ih =>
      obtain ⟨i1, i2, i3, i4, i5⟩ := ih
      simp only [forLoop]
      refine ⟨i1, i2, i3, ?_, ?_⟩
      · intro k hk
        by_cases hkn : k = 0 + n
        · subst hkn
          simp [setAt]
        · have hlt : k < n := by omega
          simp only [setAt, if_true, hkn, if_false]
          exact i4 k hlt
      · intro a ha
        simp only [setAt, ha, if_false]
        exact i5 a ha
  have key := forLoop_induct
    (fun m (t : HSState) => t.fab1 = s.fab1 ∧ t.fab2 = s.fab2 ∧ t.fab3 = s.fab3 ∧
      ∀ j, j < m → ∀ k, k < Nke j → t.Cn_U j k = 0 ∧ t.Cn_U2 j k = 0)
    (fun j (t : HSState) =>
      forLoop (fun k (u : HSState) =>
          { u with
            Cn_U2 := setAt u.Cn_U2 j (setAt (u.Cn_U2 j) k 0)
            Cn_U := setAt u.Cn_U j (setAt (u.Cn_U j) k 0) })
        0 (Nke j) t)
    0 Ne s
    ⟨rfl, rfl, rfl, fun j hj => absurd hj (Nat.not_lt_zero j)⟩
    (by
      intro m t _ ⟨h1, h2, h3, h4⟩
      obtain ⟨i1, i2, i3, i4, i5⟩ := inner (0 + m) (Nke (0 + m)) t
      refine ⟨i1.trans h1, i2.trans h2, i3.trans h3, ?_⟩
      intro j hj k hk
      by_cases hjm : j = 0 + m
      · subst hjm
        exact i4 k hk
      · have hlt : j < m := by omega
        obtain ⟨e1, e2⟩ := i5 j hjm
        show (forLoop _ 0 (Nke (0 + m)) t).Cn_U j k = 0 ∧ (forLoop _ 0 (Nke (0 + m)) t).Cn_U2 j k = 0
        rw [e1, e2]
        exact h4 j hlt k hk)
  exact key

/-- C14 as stated fails when wetting and drying is on: at step `n = 2` the weights are
`(1, 0, 0)` instead of `(3/2, -1/2, 0)`, at step `n = 3` they are `(1, 0, 0)` instead of the
configured `(exfac1, exfac2, exfac3)`, and the stored tendencies are zeroed again. -/
theorem multistep_wetdry_counterexample :
    (multistepStart 2 true (23 / 12) (-4 / 3) (5 / 12) 1 (fun _ => 1) (fun _ _ => 7)
        (fun _ _ => 7)).fab1 = 1 ∧
    (multistepStart 2 true (23 / 12) (-4 / 3) (5 / 12) 1 (fun _ => 1) (fun _ _ => 7)
        (fun _ _ => 7)).fab2 = 0 ∧
    (multistepStart 3 true (23 / 12) (-4 / 3) (5 / 12) 1 (fun _ => 1) (fun _ _ => 7)
        (fun _ _ => 7)).fab1 = 1 ∧
    (multistepStart 3 true (23 / 12) (-4 / 3) (5 / 12) 1 (fun _ => 1) (fun _ _ => 7)
        (fun _ _ => 7)).fab3 = 0 ∧
    (multistepStart 3 true (23 / 12) (-4 / 3) (5 / 12) 1 (fun _ => 1) (fun _ _ => 7)
        (fun _ _ => 7)).Cn_U 0 0 = 0 := by
  simp [multistepStart, zeroTendencies, forLoop, setAt]

/-- C14, amended: with wetting and drying off, `HorizontalSource` uses the weights
`(1, 0, 0)` and zeroes `Cn_U`, `Cn_U2` at step `n = 1`, uses `(3/2, -1/2, 0)` at `n = 2`
and the configured `(exfac1, exfac2, exfac3)` at every other step, leaving `Cn_U`, `Cn_U2`
as they are in both cases; with wetting and drying on it uses `(1, 0, 0)` and zeroes
`Cn_U`, `Cn_U2` at every step. -/
theorem multistepStart_weights (n : Int) (wetdry : Bool) (exfac1 exfac2 exfac3 : REAL)
    (Ne : Nat) (Nke : Nat → Nat) (Cn_U Cn_U2 : Nat → Nat → REAL) :
    (n = 1 ∨ wetdry = true →
      (multistepStart n wetdry exfac1 exfac2 exfac3 Ne Nke Cn_U Cn_U2).fab1 = 1 ∧
      (multistepStart n wetdry exfac1 exfac2 exfac3 Ne Nke Cn_U Cn_U2).fab2 = 0 ∧
      (multistepStart n wetdry exfac1 exfac2 exfac3 Ne Nke Cn_U Cn_U2).fab3 = 0 ∧
      ∀ j, j < Ne → ∀ k, k < Nke j →
        (multistepStart n wetdry exfac1 exfac2 exfac3 Ne Nke Cn_U Cn_U2).Cn_U j k = 0 ∧
        (multistepStart n wetdry exfac1 exfac2 exfac3 Ne Nke Cn_U Cn_U2).Cn_U2 j k = 0) ∧
    (wetdry = false → n = 2 →
      multistepStart n wetdry exfac1 exfac2 exfac3 Ne Nke Cn_U Cn_U2
        = { fab1 := 3 / 2, fab2 := -1 / 2, fab3 := 0, Cn_U := Cn_U, Cn_U2 := Cn_U2 }) ∧
    (wetdry = false → n ≠ 1 → n ≠ 2 →
      multistepStart n wetdry exfac1 exfac2 exfac3 Ne Nke Cn_U Cn_U2
        = { fab1 := exfac1, fab2 := exfac2, fab3 := exfac3, Cn_U := Cn_U, Cn_U2 := Cn_U2 }) := by
  refine ⟨?_, ?_, ?_⟩
  · intro hc
    have e : multistepStart n wetdry exfac1 exfac2 exfac3 Ne Nke Cn_U Cn_U2
        = zeroTendencies Ne Nke
            { fab1 := 1, fab2 := 0, fab3 := 0, Cn_U := Cn_U, Cn_U2 := Cn_U2 } := by
      unfold multistepStart
      rw [if_pos hc]
    rw [e]
    exact zeroTendencies_spec Ne Nke _
  · intro hw hn
    subst hn
    simp [multistepStart, hw]
  · intro hw h1 h2
    simp [multistepStart, hw, h1, h2]

theorem multistepStart_weights_witness :
    ((3 : Int) ≠ 1 ∧ (3 : Int) ≠ 2) ∧
    multistepStart 3 false (23 / 12) (-4 / 3) (5 / 12) 1 (fun _ => 1) (fun _ _ => 7)
        (fun _ _ => 7)
      = { fab1 := 23 / 12, fab2 := -4 / 3, fab3 := 5 / 12, Cn_U := fun _ _ => 7,
          Cn_U2 := fun _ _ => 7 } ∧
    (multistepStart 1 false (23 / 12) (-4 / 3) (5 / 12) 1 (fun _ => 1) (fun _ _ => 7)
        (fun _ _ => 7)).fab1 = 1 :=
  ⟨⟨by decide, by decide⟩,
   (multistepStart_weights 3 false (23 / 12) (-4 / 3) (5 / 12) 1 (fun _ => 1) (fun _ _ => 7)
      (fun _ _ => 7)).2.2 rfl (by decide) (by decide),
   ((multistepStart_weights 1 false (23 / 12) (-4 / 3) (5 / 12) 1 (fun _ => 1) (fun _ _ => 7)
      (fun _ _ => 7)).1 (Or.inl rfl)).1⟩


/-! ## `OperatorQ` -/

/-- A loop that adds `f k` to the entries `lo ≤ k < lo+n` of a row. -/
theorem rowAddLoop (f : Nat → REAL) (lo n : Nat) (r : Nat → REAL) (k : Nat) :
    forLoop (fun k (r : Nat → REAL) => setAt r k (r k + f k)) lo n r k
      = r k + if lo ≤ k ∧ k < lo + n then f k else 0 := by
  induction n generalizing k with
  | zero =>
    have h : ¬ (lo ≤ k ∧ k < lo + 0) := by omega
    simp [forLoop, h]
  | succ n ih =>
    rw [forLoop]
    by_cases hk : k = lo + n
    · subst hk
      have h1 : ¬ (lo ≤ lo + n ∧ lo + n < lo + n) := by omega
      have h2 : lo ≤ lo + n ∧ lo + n < lo + (n + 1) := by omega
      rw [setAt_same, ih, if_neg h1, add_zero, if_pos h2]
    · rw [setAt_other _ _ _ _ hk, ih]
      by_cases hr : lo ≤ k ∧ k < lo + n
      · have hr2 : lo ≤ k ∧ k < lo + (n + 1) := ⟨hr.1, by omega⟩
        rw [if_pos hr, if_pos hr2]
      · have hr2 : ¬ (lo ≤ k ∧ k < lo + (n + 1)) := by omega
        rw [if_neg hr, if_neg hr2]

/-- A loop that zeroes the entries `lo ≤ k < lo+n` of a row. -/
theorem rowZeroLoop (lo n : Nat) (r : Nat → REAL) (k : Nat) :
    forLoop (fun k (r : Nat → REAL) => setAt r k 0) lo n r k
      = if lo ≤ k ∧ k < lo + n then 0 else r k := by
  induction n generalizing k with
  | zero =>
    have h : ¬ (lo ≤ k ∧ k < lo + 0) := by omega
    rw [if_neg h]
    rfl
  | succ n ih =>
    rw [forLoop]
    by_cases hk : k = lo + n
    · subst hk
      have h2 : lo ≤ lo + n ∧ lo + n < lo + (n + 1) := by omega
      rw [setAt_same, if_pos h2]
    · rw [setAt_other _ _ _ _ hk, ih]
      by_cases hr : lo ≤ k ∧ k < lo + n
      · have hr2 : lo ≤ k ∧ k < lo + (n + 1) := ⟨hr.1, by omega⟩
        rw [if_pos hr, if_pos hr2]
      · have hr2 : ¬ (lo ≤ k ∧ k < lo + (n + 1)) := by omega
        rw [if_neg hr, if_neg hr2]

/-- The loop over the faces at lines 5004-5021 adds the horizontal terms to `y[i][k]`. -/
theorem qFaces_val (g : Grid) (D : Nat → REAL) (x : Nat → Nat → REAL) (i n : Nat)
    (r : Nat → REAL) (k : Nat) :
    forLoop (fun nf (r : Nat → REAL) =>
      if g.neigh (i * g.maxfaces + nf) ≠ -1 then
        let nc := (g.neigh (i * g.maxfaces + nf)).toNat
        let ne := g.face (i * g.maxfaces + nf)
        let kmin := if g.ctop nc > g.ctop i then g.ctop nc else g.ctop i
        forLoop (fun k (r : Nat → REAL) =>
            setAt r k (r k + (x nc k - x i k) * g.dzf ne k * D ne))
          kmin (g.Nke ne - kmin) r
      else r) 0 n r k
    = r k + ∑ nf in Finset.range n,
        if g.neigh (i * g.maxfaces + nf) ≠ -1 ∧
            (if g.ctop (g.neigh (i * g.maxfaces + nf)).toNat > g.ctop i
              then g.ctop (g.neigh (i * g.maxfaces + nf)).toNat else g.ctop i) ≤ k ∧
            k < g.Nke (g.face (i * g.maxfaces + nf)) then
          (x (g.neigh (i * g.maxfaces + nf)).toNat k - x i k)
            * g.dzf (g.face (i * g.maxfaces + nf)) k * D (g.face (i * g.maxfaces + nf))
        else 0 := by
  induction n with
  | zero => simp [forLoop]
  | succ n ih =>
    rw [Finset.sum_range_succ, ← add_assoc]
    simp only [forLoop, Nat.zero_add]
    by_cases hn : g.neigh (i * g.maxfaces + n) ≠ -1
    · rw [if_pos hn]
      rw [rowAddLoop (fun k => (x (g.neigh (i * g.maxfaces + n)).toNat k - x i k)
        * g.dzf (g.face (i * g.maxfaces + n)) k * D (g.face (i * g.maxfaces + n))), ih]
      congr 1
      by_cases hc : (if g.ctop (g.neigh (i * g.maxfaces + n)).toNat > g.ctop i
              then g.ctop (g.neigh (i * g.maxfaces + n)).toNat else g.ctop i) ≤ k ∧
            k < g.Nke (g.face (i * g.maxfaces + n))
      · have hc2 : (if g.ctop (g.neigh (i * g.maxfaces + n)).toNat > g.ctop i
              then g.ctop (g.neigh (i * g.maxfaces + n)).toNat else g.ctop i) ≤ k ∧
            k < (if g.ctop (g.neigh (i * g.maxfaces + n)).toNat > g.ctop i
              then g.ctop (g.neigh (i * g.maxfaces + n)).toNat else g.ctop i)
              + (g.Nke (g.face (i * g.maxfaces + n))
                - (if g.ctop (g.neigh (i * g.maxfaces + n)).toNat > g.ctop i
              then g.ctop (g.neigh (i * g.maxfaces + n)).toNat else g.ctop i)) := by omega
        rw [if_pos hc2, if_pos ⟨hn, hc⟩]
      · have hc2 : ¬ ((if g.ctop (g.neigh (i * g.maxfaces + n)).toNat > g.ctop i
              then g.ctop (g.neigh (i * g.maxfaces + n)).toNat else g.ctop i) ≤ k ∧
            k < (if g.ctop (g.neigh (i * g.maxfaces + n)).toNat > g.ctop i
              then g.ctop (g.neigh (i * g.maxfaces + n)).toNat else g.ctop i)
              + (g.Nke (g.face (i * g.maxfaces + n))
                - (if g.ctop (g.neigh (i * g.maxfaces + n)).toNat > g.ctop i
              then g.ctop (g.neigh (i * g.maxfaces + n)).toNat else g.ctop i))) := by omega
        have hc3 : ¬ (g.neigh (i * g.maxfaces + n) ≠ -1 ∧
            (if g.ctop (g.neigh (i * g.maxfaces + n)).toNat > g.ctop i
              then g.ctop (g.neigh (i * g.maxfaces + n)).toNat else g.ctop i) ≤ k ∧
            k < g.Nke (g.face (i * g.maxfaces + n))) := fun h => hc h.2
        rw [if_neg hc2, if_neg hc3]
    · rw [if_neg hn, ih]
      have hc3 : ¬ (g.neigh (i * g.maxfaces + n) ≠ -1 ∧
            (if g.ctop (g.neigh (i * g.maxfaces + n)).toNat > g.ctop i
              then g.ctop (g.neigh (i * g.maxfaces + n)).toNat else g.ctop i) ≤ k ∧
            k < g.Nke (g.face (i * g.maxfaces + n))) := fun h => hn h.1
      rw [if_neg hc3, add_zero]

/-- On an active layer of a computational cell, `qColumn` leaves the horizontal part plus
the ghost-value stencil, whatever the row held before. -/
theorem qColumn_val (g : Grid) (D : Nat → REAL) (coef x : Nat → Nat → REAL) (i : Nat)
    (row : Nat → REAL) (k : Nat) (h1 : g.ctop i ≤ k) (h2 : k < g.Nk i) :
    qColumn g D coef x i row k = horizontalQ g D x i k + ghostStencil g coef x i k := by
  have hz : forLoop (fun k (r : Nat → REAL) => setAt r k 0) (g.ctop i) (g.Nk i - g.ctop i) row k
      = 0 := by
    rw [rowZeroLoop]
    have h : g.ctop i ≤ k ∧ k < g.ctop i + (g.Nk i - g.ctop i) := by omega
    rw [if_pos h]
  unfold qColumn
  by_cases hm : g.ctop i + 1 < g.Nk i
  · simp only [if_pos hm]
    by_cases hb : k = g.Nk i - 1
    · subst hb
      have hkt : g.Nk i - 1 ≠ g.ctop i := by omega
      rw [setAt_same, setAt_other _ _ _ _ hkt]
      rw [rowAddLoop (fun k => coef i k * x i (k - 1) - (coef i k + coef i (k + 1)) * x i k
        + coef i (k + 1) * x i (k + 1))]
      rw [qFaces_val, hz]
      have hno : ¬ (g.ctop i + 1 ≤ g.Nk i - 1 ∧
          g.Nk i - 1 < g.ctop i + 1 + (g.Nk i - 1 - (g.ctop i + 1))) := by omega
      rw [if_neg hno]
      unfold horizontalQ ghostStencil ghostX
      have e1 : ¬ (((g.Nk i - 1 : Nat) : Int) - 1 = (g.ctop i : Int) - 1) := by omega
      have e2 : ¬ (((g.Nk i - 1 : Nat) : Int) - 1 = (g.Nk i : Int)) := by omega
      have e3 : ¬ (((g.Nk i - 1 : Nat) : Int) + 1 = (g.ctop i : Int) - 1) := by omega
      have e4 : (((g.Nk i - 1 : Nat) : Int) + 1 = (g.Nk i : Int)) := by omega
      have e5 : (((g.Nk i - 1 : Nat) : Int) - 1).toNat = g.Nk i - 1 - 1 := by omega
      rw [if_neg e1, if_neg e2, if_neg e3, if_pos e4, e5]
      ring
    · rw [setAt_other _ _ _ _ hb]
      by_cases ht : k = g.ctop i
      · subst ht
        rw [setAt_same]
        rw [rowAddLoop (fun k => coef i k * x i (k - 1) - (coef i k + coef i (k + 1)) * x i k
          + coef i (k + 1) * x i (k + 1))]
        rw [qFaces_val, hz]
        have hno : ¬ (g.ctop i + 1 ≤ g.ctop i ∧
            g.ctop i < g.ctop i + 1 + (g.Nk i - 1 - (g.ctop i + 1))) := by omega
        rw [if_neg hno]
        unfold horizontalQ ghostStencil ghostX
        have e1 : ((g.ctop i : Int) - 1 = (g.ctop i : Int) - 1) := rfl
        have e3 : ¬ ((g.ctop i : Int) + 1 = (g.ctop i : Int) - 1) := by omega
        have e4 : ¬ ((g.ctop i : Int) + 1 = (g.Nk i : Int)) := by omega
        have e5 : ((g.ctop i : Int) + 1).toNat = g.ctop i + 1 := by omega
        rw [if_pos e1, if_neg e3, if_neg e4, e5]
        ring
      · rw [setAt_other _ _ _ _ ht]
        rw [rowAddLoop (fun k => coef i k * x i (k - 1) - (coef i k + coef i (k + 1)) * x i k
          + coef i (k + 1) * x i (k + 1))]
        rw [qFaces_val, hz]
        have hyes : g.ctop i + 1 ≤ k ∧ k < g.ctop i + 1 + (g.Nk i - 1 - (g.ctop i + 1)) := by
          omega
        rw [if_pos hyes]
        unfold horizontalQ ghostStencil ghostX
        have e1 : ¬ ((k : Int) - 1 = (g.ctop i : Int) - 1) := by omega
        have e2 : ¬ ((k : Int) - 1 = (g.Nk i : Int)) := by omega
        have e3 : ¬ ((k : Int) + 1 = (g.ctop i : Int) - 1) := by omega
        have e4 : ¬ ((k : Int) + 1 = (g.Nk i : Int)) := by omega
        have e5 : ((k : Int) - 1).toNat = k - 1 := by omega
        have e6 : ((k : Int) + 1).toNat = k + 1 := by omega
        rw [if_neg e1, if_neg e2, if_neg e3, if_neg e4, e5, e6]
        ring
  · simp only [if_neg hm]
    have hk : k = g.ctop i := by omega
    subst hk
    rw [setAt_same]
    rw [rowAddLoop (fun k => coef i k * x i (k - 1) - (coef i k + coef i (k + 1)) * x i k
        + coef i (k + 1) * x i (k + 1))]
    rw [qFaces_val, hz]
    have hno : ¬ (g.ctop i + 1 ≤ g.ctop i ∧
      g.ctop i < g.ctop i + 1 + (g.Nk i - 1 - (g.ctop i + 1))) := by omega
    rw [if_neg hno]
    unfold horizontalQ ghostStencil ghostX
    have e1 : ((g.ctop i : Int) - 1 = (g.ctop i : Int) - 1) := rfl
    have e2 : ¬ ((g.ctop i : Int) + 1 = (g.ctop i : Int) - 1) := by omega
    have e3 : ((g.ctop i : Int) + 1 = (g.Nk i : Int)) := by omega
    have e4 : g.Nk i - 1 = g.ctop i := by omega
    rw [if_pos e1, if_neg e2, if_pos e3, e4]
    ring

/-- The rows `OperatorQ` leaves for the computational cells. -/
theorem OperatorQ_val (g : Grid) (D : Nat → REAL) (coef x y : Nat → Nat → REAL) :
    ∀ iptr, g.celldist 0 ≤ iptr → iptr < g.celldist 1 →
      ∀ k, g.ctop (g.cellp iptr) ≤ k → k < g.Nk (g.cellp iptr) →
        OperatorQ g D coef x y (g.cellp iptr) k
          = horizontalQ g D x (g.cellp iptr) k + ghostStencil g coef x (g.cellp iptr) k := by
  have key := forLoop_induct
    (fun m (t : Nat → Nat → REAL) =>
      ∀ iptr, g.celldist 0 ≤ iptr → iptr < g.celldist 0 + m →
        ∀ k, g.ctop (g.cellp iptr) ≤ k → k < g.Nk (g.cellp iptr) →
          t (g.cellp iptr) k
            = horizontalQ g D x (g.cellp iptr) k + ghostStencil g coef x (g.cellp iptr) k)
    (fun iptr (y : Nat → Nat → REAL) =>
      let i := g.cellp iptr
      setAt y i (qColumn g D coef x i (y i)))
    (g.celldist 0) (g.celldist 1 - g.celldist 0) y
    (by intro iptr h1 h2; omega)
    (by
      intro m t _ ih iptr h1 h2 k hk1 hk2
      show setAt t (g.cellp (g.celldist 0 + m))
        (qColumn g D coef x (g.cellp (g.celldist 0 + m)) (t (g.cellp (g.celldist 0 + m))))
        (g.cellp iptr) k = _
      by_cases hc : g.cellp iptr = g.cellp (g.celldist 0 + m)
      · rw [hc, setAt_same]
        rw [hc] at hk1 hk2
        exact qColumn_val g D coef x _ _ k hk1 hk2
      · rw [setAt_other _ _ _ _ hc]
        have hlt : iptr < g.celldist 0 + m := by
          rcases Nat.lt_or_ge iptr (g.celldist 0 + m) with h | h
          · exact h
          · have : iptr = g.celldist 0 + m := by omega
            rw [this] at hc
            exact absurd rfl hc
        exact ih iptr h1 hlt k hk1 hk2)
  intro iptr h1 h2 k hk1 hk2
  exact key iptr h1 (by omega) k hk1 hk2

/-- C15: for every computational cell `i` and every layer `ctop[i] ≤ k < Nk[i]`, the value
`OperatorQ` leaves in `y[i][k]` is the horizontal part plus the three-point stencil
`coef[k]*xg[k-1] - (coef[k]+coef[k+1])*x[k] + coef[k+1]*xg[k+1]` with the ghost values
`xg[ctop-1] = -x[ctop]` and `xg[Nk] = x[Nk-1]`; in a single-layer column the stencil is
`-2*coef[ctop]*x[ctop]`. -/
theorem OperatorQ_ghost_stencil (g : Grid) (D : Nat → REAL) (coef x y : Nat → Nat → REAL)
    (iptr : Nat) (h1 : g.celldist 0 ≤ iptr) (h2 : iptr < g.celldist 1) :
    (∀ k, g.ctop (g.cellp iptr) ≤ k → k < g.Nk (g.cellp iptr) →
      OperatorQ g D coef x y (g.cellp iptr) k - horizontalQ g D x (g.cellp iptr) k
        = coef (g.cellp iptr) k * ghostX g x (g.cellp iptr) ((k : Int) - 1)
          - (coef (g.cellp iptr) k + coef (g.cellp iptr) (k + 1)) * x (g.cellp iptr) k
          + coef (g.cellp iptr) (k + 1) * ghostX g x (g.cellp iptr) ((k : Int) + 1)) ∧
    (g.ctop (g.cellp iptr) + 1 = g.Nk (g.cellp iptr) →
      OperatorQ g D coef x y (g.cellp iptr) (g.ctop (g.cellp iptr))
          - horizontalQ g D x (g.cellp iptr) (g.ctop (g.cellp iptr))
        = -2 * coef (g.cellp iptr) (g.ctop (g.cellp iptr))
            * x (g.cellp iptr) (g.ctop (g.cellp iptr))) := by
  refine ⟨?_, ?_⟩
  · intro k hk1 hk2
    rw [OperatorQ_val g D coef x y iptr h1 h2 k hk1 hk2]
    unfold ghostStencil
    ring
  · intro hs
    rw [OperatorQ_val g D coef x y iptr h1 h2 _ (le_refl _) (by omega)]
    unfold ghostStencil ghostX
    have e1 : ((g.ctop (g.cellp iptr) : Int) - 1 = (g.ctop (g.cellp iptr) : Int) - 1) := rfl
    have e2 : ¬ ((g.ctop (g.cellp iptr) : Int) + 1 = (g.ctop (g.cellp iptr) : Int) - 1) := by
      omega
    have e3 : ((g.ctop (g.cellp iptr) : Int) + 1 = (g.Nk (g.cellp iptr) : Int)) := by omega
    have e4 : g.Nk (g.cellp iptr) - 1 = g.ctop (g.cellp iptr) := by omega
    rw [if_pos e1, if_neg e2, if_pos e3, e4]
    ring

theorem OperatorQ_ghost_stencil_witness :
    (exampleMesh.celldist 0 ≤ 1 ∧ 1 < exampleMesh.celldist 1 ∧
      exampleMesh.ctop (exampleMesh.cellp 1) ≤ 0 ∧ 0 < exampleMesh.Nk (exampleMesh.cellp 1)) ∧
    OperatorQ exampleMesh examplePhys.D qCoefExample qFieldExample (fun _ _ => 9)
        (exampleMesh.cellp 1) 0
      - horizontalQ exampleMesh examplePhys.D qFieldExample (exampleMesh.cellp 1) 0
      = qCoefExample (exampleMesh.cellp 1) 0
          * ghostX exampleMesh qFieldExample (exampleMesh.cellp 1) (((0 : Nat) : Int) - 1)
        - (qCoefExample (exampleMesh.cellp 1) 0 + qCoefExample (exampleMesh.cellp 1) (0 + 1))
          * qFieldExample (exampleMesh.cellp 1) 0
        + qCoefExample (exampleMesh.cellp 1) (0 + 1)
          * ghostX exampleMesh qFieldExample (exampleMesh.cellp 1) (((0 : Nat) : Int) + 1) :=
  ⟨⟨by decide, by decide, by decide, by decide⟩,
   (OperatorQ_ghost_stencil exampleMesh examplePhys.D qCoefExample qFieldExample (fun _ _ => 9)
      1 (by decide) (by decide)).1 0 (by decide) (by decide)⟩


/-! ## `CGSolve` writes the elevation of computational cells only -/

/-- The treatment of the boundary at lines 4594-4616 writes `x` in computational cells only. -/
theorem cgBoundary_frame (g : Grid) (pr : Props) (ph : Phys) (j : Nat)
    (hj : NotComputational g j) : (cgBoundary g pr ph).x j = ph.h j := by
  have h1 : forLoop (fun iptr (x : Nat → REAL) => setAt x (g.cellp iptr) 0)
      (g.celldist 0) (g.celldist 1 - g.celldist 0) ph.h j = ph.h j := by
    have key := forLoop_induct (fun _ (x : Nat → REAL) => x j = ph.h j)
      (fun iptr (x : Nat → REAL) => setAt x (g.cellp iptr) 0)
      (g.celldist 0) (g.celldist 1 - g.celldist 0) ph.h rfl
      (by
        intro m t hm ht
        have hne : j ≠ g.cellp (g.celldist 0 + m) :=
          fun e => hj (g.celldist 0 + m) (by omega) (by omega) e.symm
        show setAt t (g.cellp (g.celldist 0 + m)) 0 j = ph.h j
        rw [setAt_other _ _ _ _ hne]
        exact ht)
    exact key
  unfold cgBoundary
  have key := forLoop_induct (fun _ (s : CGState) => s.x j = ph.h j)
    (fun iptr (s : CGState) =>
      let i := g.cellp iptr
      let p := setAt s.p i (s.p i - s.z i)
      { s with p := p, r := setAt s.r i (p i), x := setAt s.x i 0 })
    (g.celldist 0) (g.celldist 1 - g.celldist 0)
    { x := forLoop (fun iptr (x : Nat → REAL) => setAt x (g.cellp iptr) 0)
        (g.celldist 0) (g.celldist 1 - g.celldist 0) ph.h,
      r := ph.hold, rtmp := ph.htmp2,
      z := OperatorH g (forLoop (fun iptr (x : Nat → REAL) => setAt x (g.cellp iptr) 0)
        (g.celldist 0) (g.celldist 1 - g.celldist 0) ph.h) ph.htmp3
          (hcoefOf g pr ph).coef (hcoefOf g pr ph).fcoef,
      p := (hcoefOf g pr ph).htmp, coef := (hcoefOf g pr ph).coef,
      fcoef := (hcoefOf g pr ph).fcoef, mu := 0, nu := 0, eps := 0, eps0 := 0, alpha := 0,
      alpha0 := 0, n := 0, iters := 0 }
    h1
    (by
      intro m t hm ht
      have hne : j ≠ g.cellp (g.celldist 0 + m) :=
        fun e => hj (g.celldist 0 + m) (by omega) (by omega) e.symm
      show setAt t.x (g.cellp (g.celldist 0 + m)) 0 j = ph.h j
      rw [setAt_other _ _ _ _ hne]
      exact ht)
  exact key

/-- The set-up of lines 4618-4640 does not write `x`. -/
theorem cgDirection_frame (g : Grid) (pr : Props) (s : CGState) :
    (cgDirection g pr s).x = s.x := by
  unfold cgDirection
  by_cases h1 : pr.hprecond = 1 <;> by_cases h2 : pr.resnorm = 0 <;> simp [h1, h2]

/-- One pass of the iteration writes `x` in computational cells only. -/
theorem cgBody_frame (g : Grid) (pr : Props) (s : CGState) (j : Nat)
    (hj : NotComputational g j) : (cgBody g pr s).x j = s.x j := by
  have key := forLoop_induct (fun _ (t : CGState) => t.x j = s.x j)
    (fun iptr (t : CGState) =>
      let i := g.cellp iptr
      { t with
        x := setAt t.x i (t.x i + s.alpha / InnerProduct g s.p (OperatorH g s.p s.z s.coef s.fcoef) * t.p i)
        r := setAt t.r i (t.r i - s.alpha / InnerProduct g s.p (OperatorH g s.p s.z s.coef s.fcoef) * OperatorH g s.p s.z s.coef s.fcoef i) })
    (g.celldist 0) (g.celldist 1 - g.celldist 0)
    { s with
      z := OperatorH g s.p s.z s.coef s.fcoef
      mu := 1 / s.alpha
      nu := s.alpha / InnerProduct g s.p (OperatorH g s.p s.z s.coef s.fcoef) }
    rfl
    (by
      intro m t hm ht
      have hne : j ≠ g.cellp (g.celldist 0 + m) :=
        fun e => hj (g.celldist 0 + m) (by omega) (by omega) e.symm
      show setAt t.x (g.cellp (g.celldist 0 + m)) _ j = s.x j
      rw [setAt_other _ _ _ _ hne]
      exact ht)
  unfold cgBody
  by_cases h1 : pr.hprecond = 1
  · simp only [h1, if_true]
    exact key
  · simp only [h1, if_false]
    exact key

/-- The iteration writes `x` in computational cells only. -/
theorem cgLoop_frame (g : Grid) (pr : Props) (j : Nat) (hj : NotComputational g j) :
    ∀ (fuel : Nat) (s : CGState), (cgLoop g pr fuel s).x j = s.x j := by
  intro fuel
  induction fuel with
  | zero => intro s; rfl
  | succ fuel ih =>
    intro s
    rw [cgLoop]
    by_cases hc : s.eps ≠ 0 ∧ s.alpha ≠ 0
    · rw [if_pos hc]
      dsimp only
      split_ifs
      · exact cgBody_frame g pr s j hj
      · rw [ih]
        exact cgBody_frame g pr s j hj
    · rw [if_neg hc]

/-- The elevation of a cell outside the computational range is the same after `CGSolve`. -/
theorem CGSolve_frame (g : Grid) (pr : Props) (ph : Phys) (j : Nat)
    (hj : NotComputational g j) : (CGSolve g pr ph).h j = ph.h j := by
  show (cgLoop g pr pr.maxiters (cgDirection g pr (cgBoundary g pr ph))).x j = ph.h j
  rw [cgLoop_frame g pr j hj, cgDirection_frame, cgBoundary_frame g pr ph j hj]

/-- C12: `CGSolve` returns the entry elevation `h[j]` in every cell `j` that is not listed
in the computational range, so only computational cells are updated; in a mesh whose cell
list `cellp` names no cell twice this holds for every boundary cell `i = cellp[iptr]`,
`celldist[1] ≤ iptr < celldist[2]`. -/
theorem CGSolve_keeps_boundary_cells (g : Grid) (pr : Props) (ph : Phys) :
    (∀ j, NotComputational g j → (CGSolve g pr ph).h j = ph.h j) ∧
    ((∀ a b, a < g.celldist 2 → b < g.celldist 2 → g.cellp a = g.cellp b → a = b) →
      ∀ iptr, g.celldist 1 ≤ iptr → iptr < g.celldist 2 →
        (CGSolve g pr ph).h (g.cellp iptr) = ph.h (g.cellp iptr)) := by
  refine ⟨fun j hj => CGSolve_frame g pr ph j hj, ?_⟩
  intro hinj iptr h1 h2
  apply CGSolve_frame
  intro a ha1 ha2 e
  have := hinj a iptr (by omega) h2 e
  omega

theorem CGSolve_keeps_boundary_cells_witness :
    (∀ a b, a < islandMesh.celldist 2 → b < islandMesh.celldist 2 →
      islandMesh.cellp a = islandMesh.cellp b → a = b) ∧
    (islandMesh.celldist 1 ≤ 2 ∧ 2 < islandMesh.celldist 2) ∧
    (CGSolve islandMesh implicitProps islandPhys).h (islandMesh.cellp 2)
      = islandPhys.h (islandMesh.cellp 2) :=
  ⟨fun _ _ _ _ e => e, ⟨by decide, by decide⟩,
   (CGSolve_keeps_boundary_cells islandMesh implicitProps islandPhys).2
     (fun _ _ _ _ e => e) 2 (by decide) (by decide)⟩


/-! ## Tridiagonal elimination -/

theorem forLoopDown_induct {σ : Type} (P : Nat → σ → Prop) (body : Nat → σ → σ) (hi n : Nat)
    (s : σ) (h0 : P 0 s) (hs : ∀ m t, m < n → P m t → P (m + 1) (body (hi - (m + 1)) t)) :
    P n (forLoopDown body hi n s) := by
  have key : ∀ m, m ≤ n → P m (forLoopDown body hi m s) := by
    intro m
    induction m with
    | zero => intro _; exact h0
    | succ m ih => intro hm; exact hs m _ (by omega) (ih (by omega))
  exact key n (le_refl n)

/-- The downward pass on a strictly diagonally dominant system: the pivots dominate the
super-diagonal, and each reduced row is the original row minus a multiple of the reduced
row above. -/
theorem triForward_spec (a b c d u : Nat → REAL) (N : Nat) (hN : 1 ≤ N)
    (hdom : ∀ k, k < N → |a k| + |c k| < |b k|) :
    let s1 := forLoop (fun k (s : TriOut) =>
      let bk := s.b k - a k * c (k - 1) / s.b (k - 1)
      let dk := s.d k - a k * s.d (k - 1) / s.b (k - 1)
      { s with b := setAt s.b k bk, d := setAt s.d k dk })
      1 (N - 1) { b := b, d := d, u := u }
    s1.u = u ∧ s1.b 0 = b 0 ∧ s1.d 0 = d 0 ∧
    (∀ k, k < N → |c k| < |s1.b k|) ∧
    (∀ k, k + 1 < N → s1.b (k + 1) = b (k + 1) - a (k + 1) * c k / s1.b k ∧
      s1.d (k + 1) = d (k + 1) - a (k + 1) * s1.d k / s1.b k) := by
  have key := forLoop_induct
    (fun m (s : TriOut) => s.u = u ∧ s.b 0 = b 0 ∧ s.d 0 = d 0 ∧
      (∀ k, m < k → s.b k = b k ∧ s.d k = d k) ∧
      (∀ k, k ≤ m → |c k| < |s.b k|) ∧
      (∀ k, k < m → s.b (k + 1) = b (k + 1) - a (k + 1) * c k / s.b k ∧
        s.d (k + 1) = d (k + 1) - a (k + 1) * s.d k / s.b k))
    (fun k (s : TriOut) =>
      let bk := s.b k - a k * c (k - 1) / s.b (k - 1)
      let dk := s.d k - a k * s.d (k - 1) / s.b (k - 1)
      { s with b := setAt s.b k bk, d := setAt s.d k dk })
    1 (N - 1) { b := b, d := d, u := u }
    (by
      refine ⟨rfl, rfl, rfl, fun k _ => ⟨rfl, rfl⟩, ?_, fun k hk => absurd hk (Nat.not_lt_zero k)⟩
      intro k hk
      have hk0 : k = 0 := by omega
      subst hk0
      have h := hdom 0 (by omega)
      have h2 := abs_nonneg (a 0)
      show |c 0| < |b 0|
      linarith)
    (by
      intro m t hm ⟨i1, i2, i3, i4, i5, i6⟩
      have e1 : 1 + m - 1 = m := by omega
      have hrest := i4 (1 + m) (by omega)
      have hpiv := i5 m (le_refl m)
      have hbm : t.b m ≠ 0 := by
        intro h0
        rw [h0, abs_zero] at hpiv
        exact absurd hpiv (not_lt.mpr (abs_nonneg _))
      have hnew : |c (1 + m)| < |t.b (1 + m) - a (1 + m) * c m / t.b m| := by
        rw [hrest.1]
        have hd := hdom (1 + m) (by omega)
        have hq : |a (1 + m) * c m / t.b m| ≤ |a (1 + m)| := by
          rw [abs_div, abs_mul]
          have hpos : 0 < |t.b m| := abs_pos.mpr hbm
          rw [div_le_iff₀ hpos]
          have := abs_nonneg (a (1 + m))
          nlinarith
        have htri := abs_sub_abs_le_abs_sub (b (1 + m)) (a (1 + m) * c m / t.b m)
        linarith
      have hm0 : (0 : Nat) ≠ 1 + m := by omega
      refine ⟨i1, ?_, ?_, ?_, ?_, ?_⟩
      · show setAt t.b (1 + m) _ 0 = b 0
        rw [setAt_other _ _ _ _ hm0]
        exact i2
      · show setAt t.d (1 + m) _ 0 = d 0
        rw [setAt_other _ _ _ _ hm0]
        exact i3
      · intro k hk
        have hne : k ≠ 1 + m := by omega
        show setAt t.b (1 + m) _ k = b k ∧ setAt t.d (1 + m) _ k = d k
        rw [setAt_other _ _ _ _ hne, setAt_other _ _ _ _ hne]
        exact i4 k (by omega)
      · intro k hk
        show |c k| < |setAt t.b (1 + m) (t.b (1 + m) - a (1 + m) * c (1 + m - 1) / t.b (1 + m - 1)) k|
        rw [e1]
        by_cases hkm : k = 1 + m
        · rw [hkm, setAt_same]
          exact hnew
        · rw [setAt_other _ _ _ _ hkm]
          exact i5 k (by omega)
      · intro k hk
        show setAt t.b (1 + m) (t.b (1 + m) - a (1 + m) * c (1 + m - 1) / t.b (1 + m - 1)) (k + 1)
            = b (k + 1) - a (k + 1) * c k
              / setAt t.b (1 + m) (t.b (1 + m) - a (1 + m) * c (1 + m - 1) / t.b (1 + m - 1)) k ∧
          setAt t.d (1 + m) (t.d (1 + m) - a (1 + m) * t.d (1 + m - 1) / t.b (1 + m - 1)) (k + 1)
            = d (k + 1) - a (k + 1)
              * setAt t.d (1 + m) (t.d (1 + m) - a (1 + m) * t.d (1 + m - 1) / t.b (1 + m - 1)) k
              / setAt t.b (1 + m) (t.b (1 + m) - a (1 + m) * c (1 + m - 1) / t.b (1 + m - 1)) k
        rw [e1]
        have hk1 : k ≠ 1 + m := by omega
        rw [setAt_other _ _ _ _ hk1, setAt_other _ _ _ _ hk1]
        by_cases hkm : k = m
        · subst hkm
          have e2 : k + 1 = 1 + k := by omega
          rw [e2, setAt_same, setAt_same, hrest.1, hrest.2]
          exact ⟨rfl, rfl⟩
        · have hk2 : k + 1 ≠ 1 + m := by omega
          rw [setAt_other _ _ _ _ hk2, setAt_other _ _ _ _ hk2]
          exact i6 k (by omega))
  obtain ⟨k1, k2, k3, _, k5, k6⟩ := key
  exact ⟨k1, k2, k3, fun k hk => k5 k (by omega), fun k hk => k6 k (by omega)⟩

/-- The upward pass: with nonzero pivots `B`, the solution satisfies the reduced rows
`B[k]*u[k] + c[k]*u[k+1] = D[k]` for `k < N-1` and `B[N-1]*u[N-1] = D[N-1]`. -/
theorem triBack_spec (c : Nat → REAL) (N : Nat) (s1 : TriOut)
    (hpiv : ∀ k, k < N → s1.b k ≠ 0) (hN : 1 ≤ N) :
    let r := forLoopDown (fun k (s : TriOut) =>
        { s with u := setAt s.u k ((s.d k - c k * s.u (k + 1)) / s.b k) })
      (N - 1) (N - 1) { s1 with u := setAt s1.u (N - 1) (s1.d (N - 1) / s1.b (N - 1)) }
    s1.b (N - 1) * r.u (N - 1) = s1.d (N - 1) ∧
    ∀ k, k + 1 < N → s1.b k * r.u k + c k * r.u (k + 1) = s1.d k := by
  have key := forLoopDown_induct
    (fun m (s : TriOut) => s.b = s1.b ∧ s.d = s1.d ∧
      s1.b (N - 1) * s.u (N - 1) = s1.d (N - 1) ∧
      ∀ k, N - 1 - m ≤ k → k + 1 < N → s1.b k * s.u k + c k * s.u (k + 1) = s1.d k)
    (fun k (s : TriOut) =>
        { s with u := setAt s.u k ((s.d k - c k * s.u (k + 1)) / s.b k) })
    (N - 1) (N - 1) { s1 with u := setAt s1.u (N - 1) (s1.d (N - 1) / s1.b (N - 1)) }
    (by
      refine ⟨rfl, rfl, ?_, ?_⟩
      · show s1.b (N - 1) * setAt s1.u (N - 1) (s1.d (N - 1) / s1.b (N - 1)) (N - 1) = _
        rw [setAt_same]
        field_simp [hpiv (N - 1) (by omega)]
      · intro k h1 h2
        omega)
    (by
      intro m t hm ⟨i1, i2, i3, i4⟩
      have hk0 : N - 1 - (m + 1) ≠ N - 1 := by omega
      refine ⟨i1, i2, ?_, ?_⟩
      · show s1.b (N - 1) * setAt t.u (N - 1 - (m + 1)) _ (N - 1) = _
        have hne : N - 1 ≠ N - 1 - (m + 1) := by omega
        rw [setAt_other _ _ _ _ hne]
        exact i3
      · intro k h1 h2
        show s1.b k * setAt t.u (N - 1 - (m + 1))
            ((t.d (N - 1 - (m + 1)) - c (N - 1 - (m + 1)) * t.u (N - 1 - (m + 1) + 1))
              / t.b (N - 1 - (m + 1))) k
          + c k * setAt t.u (N - 1 - (m + 1))
            ((t.d (N - 1 - (m + 1)) - c (N - 1 - (m + 1)) * t.u (N - 1 - (m + 1) + 1))
              / t.b (N - 1 - (m + 1))) (k + 1) = s1.d k
        have hne1 : k + 1 ≠ N - 1 - (m + 1) := by omega
        rw [setAt_other _ _ _ _ hne1]
        by_cases hk : k = N - 1 - (m + 1)
        · rw [← hk, setAt_same, i1, i2]
          field_simp [hpiv k (by omega)]
        · rw [setAt_other _ _ _ _ hk]
          exact i4 k (by omega) h2)
  obtain ⟨_, _, k3, k4⟩ := key
  exact ⟨k3, fun k hk => k4 k (by omega) hk⟩

/-- The elimination reduces the system to rows `B[k]*x[k] + c[k]*x[k+1] = D[k]` with
nonzero pivots `B`, and the returned `x` solves them. -/
theorem TriSolve_reduced (a b c d u : Nat → REAL) (N : Nat) (hN : 1 ≤ N)
    (hdom : ∀ k, k < N → |a k| + |c k| < |b k|) :
    ∃ B Dd : Nat → REAL, B 0 = b 0 ∧ Dd 0 = d 0 ∧ (∀ k, k < N → B k ≠ 0) ∧
      (∀ k, k + 1 < N → B (k + 1) = b (k + 1) - a (k + 1) * c k / B k ∧
        Dd (k + 1) = d (k + 1) - a (k + 1) * Dd k / B k) ∧
      B (N - 1) * (TriSolve a b c d u N).u (N - 1) = Dd (N - 1) ∧
      ∀ k, k + 1 < N →
        B k * (TriSolve a b c d u N).u k + c k * (TriSolve a b c d u N).u (k + 1) = Dd k := by
  obtain ⟨_, f2, f3, f4, f5⟩ := triForward_spec a b c d u N hN hdom
  have hpiv : ∀ k, k < N → (forLoop (fun k (s : TriOut) =>
      let bk := s.b k - a k * c (k - 1) / s.b (k - 1)
      let dk := s.d k - a k * s.d (k - 1) / s.b (k - 1)
      { s with b := setAt s.b k bk, d := setAt s.d k dk })
      1 (N - 1) { b := b, d := d, u := u }).b k ≠ 0 := by
    intro k hk h0
    have h := f4 k hk
    rw [h0, abs_zero] at h
    exact absurd h (not_lt.mpr (abs_nonneg _))
  obtain ⟨g1, g2⟩ := triBack_spec c N _ hpiv hN
  exact ⟨_, _, f2, f3, hpiv, f5, g1, g2⟩

/-- C17: for a strictly diagonally dominant tridiagonal system of length `N ≥ 1`, the
vector `x` produced by the elimination satisfies `a[k]*x[k-1] + b[k]*x[k] + c[k]*x[k+1]
= d[k]` in every row `k < N`, with `x[-1] = x[N] = 0`, in exact arithmetic. -/
theorem TriSolve_roundtrip (a b c d u : Nat → REAL) (N : Nat) (hN : 1 ≤ N)
    (hdom : ∀ k, k < N → |a k| + |c k| < |b k|) :
    ∀ k, k < N →
      a k * (if k = 0 then 0 else (TriSolve a b c d u N).u (k - 1))
        + b k * (TriSolve a b c d u N).u k
        + c k * (if k + 1 = N then 0 else (TriSolve a b c d u N).u (k + 1)) = d k := by
  obtain ⟨B, Dd, f2, f3, hpiv, f5, g1, g2⟩ := TriSolve_reduced a b c d u N hN hdom
  intro k hk
  generalize (TriSolve a b c d u N).u = x at g1 g2 ⊢
  -- the reduced row `k`
  have hrow : B k * x k + c k * (if k + 1 = N then 0 else x (k + 1)) = Dd k := by
    by_cases hl : k + 1 = N
    · rw [if_pos hl, mul_zero, add_zero]
      have e : k = N - 1 := by omega
      rw [e]
      exact g1
    · rw [if_neg hl]
      exact g2 k (by omega)
  rcases Nat.eq_zero_or_pos k with h0 | hpos
  · subst h0
    rw [if_pos rfl, mul_zero, zero_add, ← f2, ← f3]
    exact hrow
  · obtain ⟨j, rfl⟩ : ∃ j, k = j + 1 := ⟨k - 1, by omega⟩
    have hj0 : ¬ (j + 1 = 0) := by omega
    rw [if_neg hj0]
    have e1 : j + 1 - 1 = j := by omega
    rw [e1]
    obtain ⟨hb, hd⟩ := f5 j (by omega)
    have hprev := g2 j (by omega)
    have hbj := hpiv j (by omega)
    rw [hb, hd] at hrow
    have h1 : a (j + 1) / B j * B j = a (j + 1) := by field_simp
    generalize (if j + 1 + 1 = N then 0 else x (j + 1 + 1)) = C at hrow ⊢
    linear_combination hrow + (a (j + 1) / B j) * hprev - x j * h1

theorem TriSolve_roundtrip_witness :
    ((1 : Nat) ≤ 2 ∧ ∀ k, k < 2 → |(fun _ : Nat => (1 : REAL)) k| + |(fun _ : Nat => (1 : REAL)) k|
        < |(fun _ : Nat => (3 : REAL)) k|) ∧
    ∀ k, k < 2 →
      (fun _ : Nat => (1 : REAL)) k * (if k = 0 then 0
          else (TriSolve (fun _ => 1) (fun _ => 3) (fun _ => 1) (fun _ => 8) (fun _ => 0) 2).u
            (k - 1))
        + (fun _ : Nat => (3 : REAL)) k
          * (TriSolve (fun _ => 1) (fun _ => 3) (fun _ => 1) (fun _ => 8) (fun _ => 0) 2).u k
        + (fun _ : Nat => (1 : REAL)) k * (if k + 1 = 2 then 0
          else (TriSolve (fun _ => 1) (fun _ => 3) (fun _ => 1) (fun _ => 8) (fun _ => 0) 2).u
            (k + 1))
        = (fun _ : Nat => (8 : REAL)) k :=
  ⟨⟨by decide, fun _ _ => by norm_num⟩,
   TriSolve_roundtrip (fun _ => 1) (fun _ => 3) (fun _ => 1) (fun _ => 8) (fun _ => 0) 2
     (by decide) (fun _ _ => by norm_num)⟩


/-! ## Checks, solve and flux-conductance in `UPredictor` -/

/-- The checks of lines 3949-3971 terminate the run exactly when some active layer has
zero thickness on both sides of the edge. -/
theorem rowChecks_exited (e : EdgeIn) (t : Tri) :
    (rowChecks e t).exited = true ↔
      ∃ k, e.etop ≤ k ∧ k < e.Nke ∧ e.dzz1 k = 0 ∧ e.dzz2 k = 0 := by
  have key := forLoop_induct
    (fun m (o : CheckOut) => (o.exited = true ↔
      ∃ k, e.etop ≤ k ∧ k < e.etop + m ∧ e.dzz1 k = 0 ∧ e.dzz2 k = 0))
    (fun k (o : CheckOut) =>
      if o.exited = true then o
      else if e.dzz1 k = 0 ∧ e.dzz2 k = 0 then { o with exited := true }
      else if t.b k = 0 then { o with reported := o.reported ++ [k] }
      else o)
    e.etop (e.Nke - e.etop) { exited := false, reported := [] }
    (by
      constructor
      · intro h; exact absurd h (by simp)
      · rintro ⟨k, h1, h2, _⟩; omega)
    (by
      intro m o hm ih
      show (if o.exited = true then o
        else if e.dzz1 (e.etop + m) = 0 ∧ e.dzz2 (e.etop + m) = 0 then
          ({ o with exited := true } : CheckOut)
        else if t.b (e.etop + m) = 0 then
          ({ o with reported := o.reported ++ [e.etop + m] } : CheckOut)
        else o).exited = true ↔ _
      have hold : (∃ k, e.etop ≤ k ∧ k < e.etop + m ∧ e.dzz1 k = 0 ∧ e.dzz2 k = 0) →
          ∃ k, e.etop ≤ k ∧ k < e.etop + (m + 1) ∧ e.dzz1 k = 0 ∧ e.dzz2 k = 0 := by
        rintro ⟨k, h1, h2, h3⟩
        exact ⟨k, h1, by omega, h3⟩
      by_cases hx : o.exited = true
      · rw [if_pos hx]
        exact ⟨fun _ => hold (ih.mp hx), fun _ => hx⟩
      · rw [if_neg hx]
        by_cases hz : e.dzz1 (e.etop + m) = 0 ∧ e.dzz2 (e.etop + m) = 0
        · rw [if_pos hz]
          exact ⟨fun _ => ⟨e.etop + m, by omega, by omega, hz.1, hz.2⟩, fun _ => rfl⟩
        · rw [if_neg hz]
          have hnew : (∃ k, e.etop ≤ k ∧ k < e.etop + (m + 1) ∧ e.dzz1 k = 0 ∧ e.dzz2 k = 0) →
              o.exited = true := by
            rintro ⟨k, h1, h2, h3⟩
            by_cases hk : k = e.etop + m
            · rw [hk] at h3
              exact absurd h3 hz
            · exact ih.mpr ⟨k, h1, by omega, h3⟩
          by_cases hb : t.b (e.etop + m) = 0
          · rw [if_pos hb]
            exact ⟨fun h => absurd h hx, hnew⟩
          · rw [if_neg hb]
            exact ⟨fun h => absurd h hx, hnew⟩)
  unfold rowChecks
  refine Iff.trans key ?_
  constructor
  · rintro ⟨k, h1, h2, h3⟩
    exact ⟨k, h1, by omega, h3⟩
  · rintro ⟨k, h1, h2, h3⟩
    exact ⟨k, h1, by omega, h3⟩

/-- A loop that adds `f k` to entry `j` of an array for `lo ≤ k < lo+n`. -/
theorem accumLoop (f : Nat → REAL) (j lo n : Nat) (D0 : Nat → REAL) :
    forLoop (fun k (D : Nat → REAL) => setAt D j (D j + f k)) lo n D0 j
        = D0 j + ∑ i in Finset.range n, f (lo + i) ∧
    ∀ a, a ≠ j → forLoop (fun k (D : Nat → REAL) => setAt D j (D j + f k)) lo n D0 a = D0 a := by
  induction n with
  | zero => simp [forLoop]
  | succ n ih =>
    obtain ⟨i1, i2⟩ := ih
    rw [forLoop]
    refine ⟨?_, ?_⟩
    · rw [setAt_same, i1, Finset.sum_range_succ]
      ring
    · intro a ha
      rw [setAt_other _ _ _ _ ha]
      exact i2 a ha

/-- The solve for edge `j` leaves `D[j]` as the sum of `E[j][k]*dzf[j][k]` over its active
layers, writes no other entry of `D` and no other row of `E`, and does not end the run. -/
theorem solveEdge_spec (dzf : Nat → Nat → REAL) (e : EdgeIn) (j : Nat) (t : Tri) (s : VSolve) :
    (solveEdge dzf e j t s).exited = s.exited ∧
    (∀ a, a ≠ j → (solveEdge dzf e j t s).D a = s.D a ∧ (solveEdge dzf e j t s).E a = s.E a) ∧
    (solveEdge dzf e j t s).D j
      = ∑ k in Finset.Ico e.etop e.Nke, (solveEdge dzf e j t s).E j k * dzf j k := by
  unfold solveEdge
  by_cases hn : e.Nke - e.etop > 1
  · simp only [hn, if_true]
    refine ⟨trivial, ?_, ?_⟩
    · intro a ha
      refine ⟨?_, setAt_other _ _ _ _ ha⟩
      rw [(accumLoop _ j e.etop (e.Nke - e.etop) _).2 a ha, setAt_other _ _ _ _ ha]
    · rw [(accumLoop _ j e.etop (e.Nke - e.etop) _).1, setAt_same, zero_add,
        Finset.sum_Ico_eq_sum_range]
  · simp only [hn, if_false]
    refine ⟨trivial, ?_, ?_⟩
    · intro a ha
      refine ⟨?_, setAt_other _ _ _ _ ha⟩
      rw [(accumLoop _ j e.etop (e.Nke - e.etop) _).2 a ha, setAt_other _ _ _ _ ha]
    · rw [(accumLoop _ j e.etop (e.Nke - e.etop) _).1, setAt_same, zero_add,
        Finset.sum_Ico_eq_sum_range]

/-- One pass of the loop over the edges, when the run goes on: an edge without water in
its top layer is skipped, any other edge is assembled and solved. -/
theorem edgeSolve_cases (nu lax dt : REAL) (dzf : Nat → Nat → REAL) (edge : Nat → EdgeIn)
    (j : Nat) (s : VSolve) (hrun : (edgeSolve nu lax dt dzf edge j s).exited = false) :
    s.exited = false ∧
    (¬ topHasWater (edge j) → edgeSolve nu lax dt dzf edge j s = s) ∧
    (topHasWater (edge j) → edgeSolve nu lax dt dzf edge j s
      = solveEdge dzf (edge j) j (assembleTridiag nu lax 1 dt (edge j) s.scratch) s) := by
  unfold edgeSolve at hrun ⊢
  unfold topHasWater
  by_cases hx : s.exited = true
  · rw [if_pos hx] at hrun
    rw [hx] at hrun
    exact absurd hrun (by simp)
  · rw [if_neg hx] at hrun ⊢
    have hx2 : s.exited = false := by
      cases h : s.exited
      · rfl
      · exact absurd h hx
    refine ⟨hx2, ?_, ?_⟩
    · intro hw
      dsimp only
      rw [if_neg hw]
    · intro hw
      dsimp only at hrun ⊢
      rw [if_pos hw] at hrun ⊢
      by_cases hc : (rowChecks (edge j) (assembleTridiag nu lax 1 dt (edge j) s.scratch)).exited
          = true
      · rw [if_pos hc] at hrun
        exact absurd hrun (by simp)
      · rw [if_neg hc]

/-- The loop `D[j] = 0` of lines 3437-3441. -/
theorem zeroD_loop (n : Nat) (D : Nat → REAL) (j : Nat) :
    forLoop (fun j (D : Nat → REAL) => setAt D j 0) 0 n D j = if j < n then 0 else D j := by
  rw [rowZeroLoop]
  by_cases h : j < n
  · have h2 : 0 ≤ j ∧ j < 0 + n := by omega
    rw [if_pos h, if_pos h2]
  · have h2 : ¬ (0 ≤ j ∧ j < 0 + n) := by omega
    rw [if_neg h, if_neg h2]

/-- State of `D` after the first `m` passes of the loop over the computational edges, when
the run has not been terminated. -/
theorem verticalSolve_inv (nu lax dt : REAL) (Ne : Nat) (edgedist edgep : Nat → Nat)
    (dzf : Nat → Nat → REAL) (edge : Nat → EdgeIn) (s : VSolve) (m : Nat) :
    let t := forLoop (fun jptr (t : VSolve) => edgeSolve nu lax dt dzf edge (edgep jptr) t)
      (edgedist 0) m
      { s with D := forLoop (fun j (D : Nat → REAL) => setAt D j 0) 0 Ne s.D }
    t.exited = false →
      (∀ j, j < Ne →
        (¬ (∃ jptr, edgedist 0 ≤ jptr ∧ jptr < edgedist 0 + m ∧ edgep jptr = j) ∨
          ¬ topHasWater (edge j)) → t.D j = 0) ∧
      (∀ j, (∃ jptr, edgedist 0 ≤ jptr ∧ jptr < edgedist 0 + m ∧ edgep jptr = j) →
        topHasWater (edge j) →
        t.D j = ∑ k in Finset.Ico (edge j).etop (edge j).Nke, t.E j k * dzf j k) := by
  induction m with
  | zero =>
    intro t _
    refine ⟨?_, ?_⟩
    · intro j hj _
      show forLoop (fun j (D : Nat → REAL) => setAt D j 0) 0 Ne s.D j = 0
      rw [zeroD_loop, if_pos hj]
    · rintro j ⟨jptr, h1, h2, _⟩ _
      omega
  | succ m ih =>
    intro t hrun
    have ht : t = edgeSolve nu lax dt dzf edge (edgep (edgedist 0 + m))
        (forLoop (fun jptr (t : VSolve) => edgeSolve nu lax dt dzf edge (edgep jptr) t)
          (edgedist 0) m
          { s with D := forLoop (fun j (D : Nat → REAL) => setAt D j 0) 0 Ne s.D }) := rfl
    rw [ht] at hrun
    obtain ⟨hprev, hdry, hwet⟩ := edgeSolve_cases nu lax dt dzf edge _ _ hrun
    obtain ⟨ih1, ih2⟩ := ih hprev
    have hvis : ∀ j, (∃ jptr, edgedist 0 ≤ jptr ∧ jptr < edgedist 0 + (m + 1) ∧ edgep jptr = j) →
        (∃ jptr, edgedist 0 ≤ jptr ∧ jptr < edgedist 0 + m ∧ edgep jptr = j) ∨
        j = edgep (edgedist 0 + m) := by
      rintro j ⟨jptr, h1, h2, h3⟩
      by_cases hlast : jptr = edgedist 0 + m
      · right
        rw [← h3, hlast]
      · left
        exact ⟨jptr, h1, by omega, h3⟩
    have hvis2 : ∀ j, ¬ (∃ jptr, edgedist 0 ≤ jptr ∧ jptr < edgedist 0 + (m + 1) ∧ edgep jptr = j) →
        ¬ (∃ jptr, edgedist 0 ≤ jptr ∧ jptr < edgedist 0 + m ∧ edgep jptr = j) ∧
        j ≠ edgep (edgedist 0 + m) := by
      intro j hno
      refine ⟨?_, ?_⟩
      · rintro ⟨jptr, h1, h2, h3⟩
        exact hno ⟨jptr, h1, by omega, h3⟩
      · intro hj
        exact hno ⟨edgedist 0 + m, by omega, by omega, hj.symm⟩
    by_cases hw : topHasWater (edge (edgep (edgedist 0 + m)))
    · have e := hwet hw
      obtain ⟨_, sp2, sp3⟩ := solveEdge_spec dzf (edge (edgep (edgedist 0 + m)))
        (edgep (edgedist 0 + m))
        (assembleTridiag nu lax 1 dt (edge (edgep (edgedist 0 + m)))
          (forLoop (fun jptr (t : VSolve) => edgeSolve nu lax dt dzf edge (edgep jptr) t)
            (edgedist 0) m
            { s with D := forLoop (fun j (D : Nat → REAL) => setAt D j 0) 0 Ne s.D }).scratch)
        (forLoop (fun jptr (t : VSolve) => edgeSolve nu lax dt dzf edge (edgep jptr) t)
          (edgedist 0) m
          { s with D := forLoop (fun j (D : Nat → REAL) => setAt D j 0) 0 Ne s.D })
      rw [← e, ← ht] at sp2 sp3
      refine ⟨?_, ?_⟩
      · intro j hj hcase
        have hne : j ≠ edgep (edgedist 0 + m) := by
          rcases hcase with h | h
          · exact (hvis2 j h).2
          · intro hj2
            rw [hj2] at h
            exact h hw
        rw [(sp2 j hne).1]
        apply ih1 j hj
        rcases hcase with h | h
        · exact Or.inl (hvis2 j h).1
        · exact Or.inr h
      · intro j hv hwj
        by_cases hj : j = edgep (edgedist 0 + m)
        · rw [hj]
          exact sp3
        · rw [(sp2 j hj).1, (sp2 j hj).2]
          rcases hvis j hv with h | h
          · exact ih2 j h hwj
          · exact absurd h hj
    · have e := hdry hw
      rw [← ht] at e
      rw [e]
      refine ⟨?_, ?_⟩
      · intro j hj hcase
        apply ih1 j hj
        rcases hcase with h | h
        · exact Or.inl (hvis2 j h).1
        · exact Or.inr h
      · intro j hv hwj
        rcases hvis j hv with h | h
        · exact ih2 j h hwj
        · rw [h] at hwj
          exact absurd hwj hw

/-- C11: when the loop over the computational edges has run to its end, `D[j] = 0` for
every edge `j < Ne` that is not a computational edge and for every computational edge
`j < Ne` whose two columns both have zero thickness at `etop[j]`; for every other
computational edge `D[j]` is the sum of `E[j][k]*dzf[j][k]` over `etop[j] ≤ k < Nke[j]`. -/
theorem verticalSolve_conductance (nu lax dt : REAL) (Ne : Nat) (edgedist edgep : Nat → Nat)
    (dzf : Nat → Nat → REAL) (edge : Nat → EdgeIn) (s : VSolve)
    (hrun : (verticalSolve nu lax dt Ne edgedist edgep dzf edge s).exited = false) :
    (∀ j, j < Ne → ¬ ComputationalEdge edgedist edgep j →
      (verticalSolve nu lax dt Ne edgedist edgep dzf edge s).D j = 0) ∧
    (∀ j, j < Ne → ComputationalEdge edgedist edgep j →
      (edge j).dzz1 (edge j).etop = 0 ∧ (edge j).dzz2 (edge j).etop = 0 →
      (verticalSolve nu lax dt Ne edgedist edgep dzf edge s).D j = 0) ∧
    (∀ j, ComputationalEdge edgedist edgep j →
      ¬ ((edge j).dzz1 (edge j).etop = 0 ∧ (edge j).dzz2 (edge j).etop = 0) →
      (verticalSolve nu lax dt Ne edgedist edgep dzf edge s).D j
        = ∑ k in Finset.Ico (edge j).etop (edge j).Nke,
            (verticalSolve nu lax dt Ne edgedist edgep dzf edge s).E j k * dzf j k) := by
  obtain ⟨k1, k2⟩ := verticalSolve_inv nu lax dt Ne edgedist edgep dzf edge s
    (edgedist 1 - edgedist 0) hrun
  refine ⟨?_, ?_, ?_⟩
  · intro j hj hnc
    apply k1 j hj
    left
    rintro ⟨jptr, h1, h2, h3⟩
    exact hnc ⟨jptr, h1, by omega, h3⟩
  · intro j hj _ hz
    apply k1 j hj
    right
    intro hw
    exact hw hz
  · rintro j ⟨jptr, h1, h2, h3⟩ hw
    exact k2 j ⟨jptr, h1, by omega, h3⟩ hw

/-- When the run goes on into edge `j`, whose top layer has water, it is terminated there
exactly when some active layer is dry on both sides; otherwise the edge is solved. -/
theorem edgeSolve_wet (nu lax dt : REAL) (dzf : Nat → Nat → REAL) (edge : Nat → EdgeIn)
    (j : Nat) (s : VSolve) (hs : s.exited = false) (hw : topHasWater (edge j)) :
    ((∃ k, (edge j).etop ≤ k ∧ k < (edge j).Nke ∧ (edge j).dzz1 k = 0 ∧ (edge j).dzz2 k = 0) →
      edgeSolve nu lax dt dzf edge j s
        = { s with scratch := assembleTridiag nu lax 1 dt (edge j) s.scratch, exited := true }) ∧
    (¬ (∃ k, (edge j).etop ≤ k ∧ k < (edge j).Nke ∧ (edge j).dzz1 k = 0 ∧ (edge j).dzz2 k = 0) →
      edgeSolve nu lax dt dzf edge j s
        = solveEdge dzf (edge j) j (assembleTridiag nu lax 1 dt (edge j) s.scratch) s) := by
  have hx : ¬ (s.exited = true) := by rw [hs]; simp
  unfold topHasWater at hw
  refine ⟨?_, ?_⟩
  · intro hdry
    have hc := (rowChecks_exited (edge j) (assembleTridiag nu lax 1 dt (edge j) s.scratch)).mpr hdry
    unfold edgeSolve
    rw [if_neg hx]
    dsimp only
    rw [if_pos hw, if_pos hc]
  · intro hdry
    have hc : ¬ ((rowChecks (edge j) (assembleTridiag nu lax 1 dt (edge j) s.scratch)).exited
        = true) :=
      fun h => hdry ((rowChecks_exited _ _).mp h)
    unfold edgeSolve
    rw [if_neg hx]
    dsimp only
    rw [if_pos hw, if_neg hc]

/-- The loop over the computational edges runs to its end when no computational edge with
water in its top layer has an active layer that is dry on both sides. -/
theorem verticalSolve_runs (nu lax dt : REAL) (Ne : Nat) (edgedist edgep : Nat → Nat)
    (dzf : Nat → Nat → REAL) (edge : Nat → EdgeIn) (s : VSolve) (hs : s.exited = false)
    (hok : ∀ jptr, edgedist 0 ≤ jptr → jptr < edgedist 1 → topHasWater (edge (edgep jptr)) →
      ¬ (∃ k, (edge (edgep jptr)).etop ≤ k ∧ k < (edge (edgep jptr)).Nke ∧
        (edge (edgep jptr)).dzz1 k = 0 ∧ (edge (edgep jptr)).dzz2 k = 0)) :
    (verticalSolve nu lax dt Ne edgedist edgep dzf edge s).exited = false := by
  unfold verticalSolve
  have key := forLoop_induct (fun _ (t : VSolve) => t.exited = false)
    (fun jptr (t : VSolve) => edgeSolve nu lax dt dzf edge (edgep jptr) t)
    (edgedist 0) (edgedist 1 - edgedist 0)
    { s with D := forLoop (fun j (D : Nat → REAL) => setAt D j 0) 0 Ne s.D }
    hs
    (by
      intro m t hm ht
      show (edgeSolve nu lax dt dzf edge (edgep (edgedist 0 + m)) t).exited = false
      by_cases hw : topHasWater (edge (edgep (edgedist 0 + m)))
      · rw [(edgeSolve_wet nu lax dt dzf edge _ t ht hw).2
          (hok (edgedist 0 + m) (by omega) (by omega) hw)]
        rw [(solveEdge_spec dzf _ _ _ t).1]
        exact ht
      · have hx : ¬ (t.exited = true) := by rw [ht]; simp
        unfold edgeSolve
        rw [if_neg hx]
        dsimp only
        unfold topHasWater at hw
        rw [if_neg hw]
        exact ht)
  exact key

theorem verticalSolve_conductance_witness :
    (verticalSolve 1 0 2 3 edgeRanges (fun n => n) (fun _ _ => 1) threeEdges zeroSolve).exited
      = false ∧
    (ComputationalEdge edgeRanges (fun n => n) 0 ∧
      ¬ ((threeEdges 0).dzz1 (threeEdges 0).etop = 0 ∧
        (threeEdges 0).dzz2 (threeEdges 0).etop = 0)) ∧
    (verticalSolve 1 0 2 3 edgeRanges (fun n => n) (fun _ _ => 1) threeEdges zeroSolve).D 0
      = ∑ k in Finset.Ico (threeEdges 0).etop (threeEdges 0).Nke,
          (verticalSolve 1 0 2 3 edgeRanges (fun n => n) (fun _ _ => 1) threeEdges zeroSolve).E
            0 k * (fun (_ : Nat) (_ : Nat) => (1 : REAL)) 0 k :=
  have hrun : (verticalSolve 1 0 2 3 edgeRanges (fun n => n) (fun _ _ => 1) threeEdges
      zeroSolve).exited = false :=
    verticalSolve_runs 1 0 2 3 edgeRanges (fun n => n) (fun _ _ => 1) threeEdges zeroSolve rfl
      (by
        intro jptr h1 h2 hw
        have h3 : jptr < 2 := h2
        interval_cases jptr
        · rintro ⟨k, _, _, h, _⟩
          simp [threeEdges, deepEdge] at h
        · exact absurd hw (by simp [topHasWater, threeEdges, dryEdge, shallowEdge]))
  ⟨hrun, ⟨⟨0, by decide, by decide, rfl⟩, by simp [threeEdges, deepEdge]⟩,
   (verticalSolve_conductance 1 0 2 3 edgeRanges (fun n => n) (fun _ _ => 1) threeEdges
      zeroSolve hrun).2.2 0 ⟨0, by decide, by decide, rfl⟩ (by simp [threeEdges, deepEdge])⟩


/-! ## Termination before the tridiagonal solve -/

/-- On a mesh without computational and type-4 edges `HorizontalSource` leaves the free
surface, the velocities and the termination flag as they are. -/
theorem HorizontalSource_frame (e : CoreEnv) (s : CoreState)
    (h1 : e.edgedist 1 = e.edgedist 0) (h5 : e.edgedist 5 = e.edgedist 4) :
    (HorizontalSource e s).ph.h = s.ph.h ∧ (HorizontalSource e s).ph.u = s.ph.u ∧
    (HorizontalSource e s).w = s.w ∧ (HorizontalSource e s).wnew = s.wnew ∧
    (HorizontalSource e s).exited = s.exited := by
  unfold HorizontalSource
  simp only [h1, h5, Nat.sub_self, forLoop]
  exact ⟨trivial, trivial, trivial, trivial, trivial⟩

/-- The stored copies of lines 3415-3441 do not touch `h`, `u`, `w`. -/
theorem storeOld_frame (e : CoreEnv) (s : CoreState) :
    (storeOld e s).ph.h = s.ph.h ∧ (storeOld e s).ph.u = s.ph.u ∧ (storeOld e s).w = s.w ∧
    (storeOld e s).wnew = s.wnew ∧ (storeOld e s).exited = s.exited := by
  unfold storeOld
  by_cases hn : e.n = 1
  · simp only [hn, if_true]
    exact ⟨trivial, trivial, trivial, trivial, trivial⟩
  · simp only [hn, if_false]
    exact ⟨trivial, trivial, trivial, trivial, trivial⟩

/-- Without type-2 and computational edges lines 3449-3466 do nothing. -/
theorem explicitSurface_none (e : CoreEnv) (ph : Phys)
    (h1 : e.edgedist 1 = e.edgedist 0) (h3 : e.edgedist 3 = e.edgedist 2) :
    explicitSurface e ph = ph := by
  unfold explicitSurface
  simp only [h1, h3, Nat.sub_self, forLoop]

/-- Without computational edges lines 4353-4369 do nothing. -/
theorem correctVelocity_none (e : CoreEnv) (E : Nat → Nat → REAL) (ph : Phys)
    (h1 : e.edgedist 1 = e.edgedist 0) : correctVelocity e E ph = ph := by
  unfold correctVelocity
  simp only [h1, Nat.sub_self, forLoop]

/-- Without type-2 edges and boundary cells lines 4494-4518 do nothing. -/
theorem boundaryVelocity_none (e : CoreEnv) (ph : Phys)
    (h3 : e.edgedist 3 = e.edgedist 2) (hc : e.g.celldist 2 = e.g.celldist 1) :
    boundaryVelocity e ph = ph := by
  unfold boundaryVelocity
  simp only [h3, hc, Nat.sub_self, forLoop]

/-- Without computational edges the vertical solve only zeroes `D`. -/
theorem verticalSolve_none (nu lax dt : REAL) (Ne : Nat) (edgedist edgep : Nat → Nat)
    (dzf : Nat → Nat → REAL) (edge : Nat → EdgeIn) (s : VSolve)
    (h1 : edgedist 1 = edgedist 0) :
    verticalSolve nu lax dt Ne edgedist edgep dzf edge s
      = { s with D := forLoop (fun j (D : Nat → REAL) => setAt D j 0) 0 Ne s.D } := by
  unfold verticalSolve
  simp only [h1, Nat.sub_self, forLoop]

/-- The source term of lines 4034-4073 does not touch the velocities. -/
theorem assembleRHS_u (g : Grid) (pr : Props) (ph : Phys) : (assembleRHS g pr ph).u = ph.u := by
  unfold assembleRHS sourceTerm
  apply forLoop_preserves (fun t : Phys => t.u = ph.u)
  · intro i p hp; exact hp
  · apply forLoop_preserves (fun t : Phys => t.u = ph.u)
    · intro i p hp; exact hp
    · rfl

/-- In the closed one-cell domain `UPredictor` runs to its end and returns the entry
elevation of the cell when that is 0, and the entry velocities. -/
theorem UPredictor_closed (e : CoreEnv) (s : CoreState) (hdom : ClosedSingleCell e)
    (hit : 1 ≤ e.pr.maxiters) (hx : s.exited = false) (h0 : s.ph.h (e.g.cellp 0) = 0) :
    (UPredictor e s).ph.h (e.g.cellp 0) = 0 ∧ (UPredictor e s).ph.u = s.ph.u ∧
    (UPredictor e s).w = s.w ∧ (UPredictor e s).wnew = s.wnew ∧
    (UPredictor e s).exited = false := by
  obtain ⟨c0, c1, c2, cN, hneigh, e1, e3, _, hdv⟩ := hdom
  obtain ⟨o1, o2, o3, o4, o5⟩ := storeOld_frame e s
  have hc21 : e.g.celldist 2 = e.g.celldist 1 := by rw [c1, c2]
  unfold UPredictor
  simp only [explicitSurface_none e _ e1 e3, verticalSolve_none _ _ _ _ _ _ _ _ _ e1,
    correctVelocity_none e _ _ e1, boundaryVelocity_none e _ e3 hc21, o5, hx]
  simp only [show (false = true) = False by simp, if_false]
  -- the free-surface solve returns the entry elevation of the cell
  have hD : ∀ (p : Phys) (nf : Nat), nf < e.g.nfaces (e.g.cellp 0) →
      e.g.neigh (e.g.cellp 0 * e.g.maxfaces + nf) ≠ -1 →
      p.D (e.g.face (e.g.cellp 0 * e.g.maxfaces + nf)) = 0 :=
    fun p nf hnf hne => absurd (hneigh nf hnf) hne
  have hcg : ∀ p : Phys, (CGSolve e.g e.pr p).h (e.g.cellp 0) = p.h (e.g.cellp 0) :=
    fun p => (cgRun_decoupled e.g e.pr p c0 c1 (hD p) hit).1
  have hcgu : ∀ p : Phys, (CGSolve e.g e.pr p).u = p.u := fun p => rfl
  obtain ⟨_, rh, _⟩ := assembleRHS_spec e.g e.pr
    { (storeOld e s).ph with
      utmp := e.OpenBoundaryFluxes (storeOld e s).ph.utmp
      D := forLoop (fun j (D : Nat → REAL) => setAt D j 0) 0 e.g.Ne (storeOld e s).ph.D }
  have ru := assembleRHS_u e.g e.pr
    { (storeOld e s).ph with
      utmp := e.OpenBoundaryFluxes (storeOld e s).ph.utmp
      D := forLoop (fun j (D : Nat → REAL) => setAt D j 0) 0 e.g.Ne (storeOld e s).ph.D }
  have hsolved : (CGSolve e.g e.pr (assembleRHS e.g e.pr
      { (storeOld e s).ph with
        utmp := e.OpenBoundaryFluxes (storeOld e s).ph.utmp
        D := forLoop (fun j (D : Nat → REAL) => setAt D j 0) 0 e.g.Ne (storeOld e s).ph.D })).h
      (e.g.cellp 0) = 0 := by
    rw [hcg, rh]
    show (storeOld e s).ph.h (e.g.cellp 0) = 0
    rw [o1, h0]
  -- the clipping leaves it
  obtain ⟨_, _, hclip⟩ := clipDryCells_cell
    { Nc := e.g.Nc, maxfaces := e.g.maxfaces, nfaces := e.g.nfaces, face := e.g.face,
      etop := e.g.etop, Nke := e.g.Nke, dzf := e.g.dzf, dv := e.g.dv,
      DRYCELLHEIGHT := e.DRYCELLHEIGHT, subgrid := false, wetdry := e.wetdry,
      h := (CGSolve e.g e.pr (assembleRHS e.g e.pr
        { (storeOld e s).ph with
          utmp := e.OpenBoundaryFluxes (storeOld e s).ph.utmp
          D := forLoop (fun j (D : Nat → REAL) => setAt D j 0) 0 e.g.Ne (storeOld e s).ph.D })).h,
      h_old := (CGSolve e.g e.pr (assembleRHS e.g e.pr
        { (storeOld e s).ph with
          utmp := e.OpenBoundaryFluxes (storeOld e s).ph.utmp
          D := forLoop (fun j (D : Nat → REAL) => setAt D j 0) 0 e.g.Ne (storeOld e s).ph.D })).h_old,
      hcorr := (storeOld e s).hcorr, active := (storeOld e s).active } rfl
  have hnot : ¬ ((0 : REAL) ≤ -e.g.dv (e.g.cellp 0) + e.DRYCELLHEIGHT) := by
    intro h
    linarith
  have hkeep := ((hclip (e.g.cellp 0) cN).2 (by
    show ¬ ((CGSolve e.g e.pr _).h (e.g.cellp 0) ≤ -e.g.dv (e.g.cellp 0) + e.DRYCELLHEIGHT)
    rw [hsolved]
    exact hnot)).1
  have hcount : e.g.celldist 1 - e.g.celldist 0 = 1 := by rw [c0, c1]
  simp only [hcount, forLoop]
  refine ⟨?_, ?_, o3, o4, trivial⟩
  · show (clipDryCells _).h (e.g.cellp 0) = 0
    rw [hkeep]
    exact hsolved
  · show (CGSolve e.g e.pr _).u = s.ph.u
    rw [hcgu, ru]
    exact o2

/-- With zero velocities and fully implicit blending one layer of the downward loop of
`Continuity` keeps a row that is zero up to index `N`. -/
theorem contLayer_zero (g : Grid) (pr : Props) (ph : Phys) (i k N : Nat) (row : Nat → REAL)
    (hu : ∀ j k, ph.u j k = 0) (himp : FullyImplicit pr) (hk : k + 1 ≤ N)
    (hrow : ∀ m, m ≤ N → row m = 0) :
    ∀ m, m ≤ N → contLayer g pr ph i k row m = 0 := by
  obtain ⟨f1, f2, f3⟩ := himp
  have hflux : ∀ nf, faceFluxTerm g pr ph i k nf = 0 := by
    intro nf
    unfold faceFluxTerm
    simp only [hu, f1, f2, f3]
    ring
  unfold contLayer
  apply forLoop_preserves (fun r : Nat → REAL => ∀ m, m ≤ N → r m = 0)
  · intro nf r hr m hm
    by_cases hc : k < g.Nke (g.face (i * g.maxfaces + nf))
    · rw [if_pos hc]
      by_cases hmk : m = k
      · rw [hmk, setAt_same, hflux, sub_zero]
        exact hr k (by omega)
      · rw [setAt_other _ _ _ _ hmk]
        exact hr m hm
    · rw [if_neg hc]
      exact hr m hm
  · intro m hm
    by_cases hmk : m = k
    · rw [hmk, setAt_same, f2, f3, hrow (k + 1) hk]
      ring
    · rw [setAt_other _ _ _ _ hmk]
      exact hrow m hm

/-- With zero velocities and fully implicit blending `Continuity` leaves zero vertical
velocity in every computational column, on the interfaces `0 .. Nk[i]`. -/
theorem Continuity_zero (g : Grid) (pr : Props) (ph : Phys) (w : Nat → Nat → REAL)
    (hu : ∀ j k, ph.u j k = 0) (himp : FullyImplicit pr) :
    ∀ iptr, g.celldist 0 ≤ iptr → iptr < g.celldist 1 →
      ∀ m, m ≤ g.Nk (g.cellp iptr) → (Continuity g pr ph w).1 (g.cellp iptr) m = 0 := by
  have hcol : ∀ (i : Nat) (v : Nat → Nat → REAL) (m : Nat), m ≤ g.Nk i →
      contColumn g pr ph i v i m = 0 := by
    intro i v m hm
    unfold contColumn
    rw [setAt_same]
    have key := forLoopDown_induct (fun _ (r : Nat → REAL) => ∀ m, m ≤ g.Nk i → r m = 0)
      (contLayer g pr ph i) (g.Nk i) (g.Nk i - g.ctop i)
      (setAt (forLoop (fun k (r : Nat → REAL) => setAt r k 0) 0 (g.Nk i + 1) (v i)) (g.Nk i) 0)
      (by
        intro a ha
        by_cases hak : a = g.Nk i
        · rw [hak, setAt_same]
        · rw [setAt_other _ _ _ _ hak, rowZeroLoop]
          have hin : 0 ≤ a ∧ a < 0 + (g.Nk i + 1) := by omega
          rw [if_pos hin])
      (by
        intro n r hn hr
        exact contLayer_zero g pr ph i (g.Nk i - (n + 1)) (g.Nk i) r hu himp (by omega) hr)
    exact key m hm
  have key := forLoop_induct
    (fun n (v : Nat → Nat → REAL) => ∀ a, a < n →
      ∀ m, m ≤ g.Nk (g.cellp (g.celldist 0 + a)) → v (g.cellp (g.celldist 0 + a)) m = 0)
    (fun iptr (w : Nat → Nat → REAL) => contColumn g pr ph (g.cellp iptr) w)
    (g.celldist 0) (g.celldist 1 - g.celldist 0) w
    (fun a ha => absurd ha (Nat.not_lt_zero a))
    (by
      intro n v _ ih a ha m hm
      show contColumn g pr ph (g.cellp (g.celldist 0 + n)) v (g.cellp (g.celldist 0 + a)) m = 0
      by_cases he : g.cellp (g.celldist 0 + a) = g.cellp (g.celldist 0 + n)
      · rw [he] at hm ⊢
        exact hcol _ v m hm
      · rw [(contColumn_rel g pr ph (g.cellp (g.celldist 0 + n)) v).2 _ he]
        rcases Nat.lt_or_ge a n with h3 | h3
        · exact ih a h3 m hm
        · have : a = n := by omega
          subst this
          exact absurd rfl he)
  intro iptr h1 h2 m hm
  have := key (iptr - g.celldist 0) (by omega)
  have e : g.celldist 0 + (iptr - g.celldist 0) = iptr := by omega
  rw [e] at this
  exact this m hm

/-- One time step of the core sequence in the closed one-cell domain keeps the rest state,
and the vertical velocity computed by `Continuity` is zero. -/
theorem coreStep_rest (e : CoreEnv) (s : CoreState) (hdom : ClosedSingleCell e)
    (himp : FullyImplicit e.pr) (hit : 1 ≤ e.pr.maxiters) (hs : AtRest (e.g.cellp 0) s) :
    AtRest (e.g.cellp 0) (coreStep e s) ∧
    ∀ iptr, (continuityGrid e s).celldist 0 ≤ iptr → iptr < (continuityGrid e s).celldist 1 →
      ∀ k, k ≤ (continuityGrid e s).Nk ((continuityGrid e s).cellp iptr) →
        (coreStep e s).wnew ((continuityGrid e s).cellp iptr) k = 0 := by
  obtain ⟨s1, s2, s3, s4⟩ := hs
  obtain ⟨a1, a2, a3, _, a5⟩ := HorizontalSource_frame e s hdom.2.2.2.2.2.1 hdom.2.2.2.2.2.2.2.1
  obtain ⟨b1, b2, b3, _, b5⟩ := UPredictor_closed e (HorizontalSource e s) hdom hit
    (by rw [a5]; exact s4) (by rw [a1]; exact s1)
  have hu : ∀ j k, (UPredictor e (HorizontalSource e s)).ph.u j k = 0 := by
    intro j k
    rw [b2, a2]
    exact s2 j k
  have hstep : coreStep e s
      = { UPredictor e (HorizontalSource e s) with
          ph := (Continuity (continuityGrid e s) e.pr
            (UPredictor e (HorizontalSource e s)).ph (UPredictor e (HorizontalSource e s)).wnew).2
          wnew := (Continuity (continuityGrid e s) e.pr
            (UPredictor e (HorizontalSource e s)).ph (UPredictor e (HorizontalSource e s)).wnew).1 } := by
    unfold coreStep continuityGrid
    simp only [b5]
    simp
  rw [hstep]
  refine ⟨⟨?_, ?_, ?_, b5⟩, ?_⟩
  · exact b1
  · exact hu
  · intro c k
    show (UPredictor e (HorizontalSource e s)).w c k = 0
    rw [b3, a3]
    exact s3 c k
  · intro iptr h1 h2 m hm
    exact Continuity_zero _ e.pr _ _ hu himp iptr h1 h2 m hm

/-- C16: in a flat-bottom one-cell domain with all edges closed, fully implicit blending
and a bed deeper than the dry threshold, the core sequence (`HorizontalSource`,
`UPredictor` with its free-surface solve and clipping, `Continuity`) started from `h = 0`,
`u = 0`, `w = 0` runs every time step to its end and leaves `h = 0`, `u = 0`, `w = 0`
after any number of time steps, so also after 100; the vertical velocity that
`Continuity` computes in each step is zero in every computational column. -/
theorem coreRun_steady_state (envs : Nat → CoreEnv) (c : Nat) (s : CoreState)
    (hdom : ∀ k, ClosedSingleCell (envs k)) (himp : ∀ k, FullyImplicit (envs k).pr)
    (hit : ∀ k, 1 ≤ (envs k).pr.maxiters) (hcell : ∀ k, (envs k).g.cellp 0 = c)
    (hs : AtRest c s) :
    (∀ m, AtRest c (coreRun envs m s)) ∧
    ∀ m iptr,
      (continuityGrid (envs m) (coreRun envs m s)).celldist 0 ≤ iptr →
      iptr < (continuityGrid (envs m) (coreRun envs m s)).celldist 1 →
      ∀ k, k ≤ (continuityGrid (envs m) (coreRun envs m s)).Nk
          ((continuityGrid (envs m) (coreRun envs m s)).cellp iptr) →
        (coreRun envs (m + 1) s).wnew
          ((continuityGrid (envs m) (coreRun envs m s)).cellp iptr) k = 0 := by
  have hrun : ∀ m, AtRest c (coreRun envs m s) := by
    intro m
    induction m with
    | zero => exact hs
    | succ m ih =>
      have h := (coreStep_rest (envs m) (coreRun envs m s) (hdom m) (himp m) (hit m)
        (by rw [hcell m]; exact ih)).1
      rw [hcell m] at h
      exact h
  refine ⟨hrun, ?_⟩
  intro m iptr h1 h2 k hk
  exact (coreStep_rest (envs m) (coreRun envs m s) (hdom m) (himp m) (hit m)
    (by rw [hcell m]; exact hrun m)).2 iptr h1 h2 k hk

theorem coreRun_steady_state_witness :
    ((∀ k : Nat, ClosedSingleCell ((fun _ => pondEnv) k)) ∧
      FullyImplicit pondEnv.pr ∧ 1 ≤ pondEnv.pr.maxiters ∧ AtRest 0 pondRest) ∧
    AtRest 0 (coreRun (fun _ => pondEnv) 100 pondRest) :=
  have hdom : ClosedSingleCell pondEnv :=
    ⟨rfl, rfl, rfl, by decide, fun _ _ => rfl, rfl, rfl, rfl,
      by norm_num [pondEnv, pondMesh]⟩
  have himp : FullyImplicit pondEnv.pr := ⟨rfl, rfl, rfl⟩
  have hit : 1 ≤ pondEnv.pr.maxiters := by decide
  have hrest : AtRest 0 pondRest := ⟨rfl, fun _ _ => rfl, fun _ _ => rfl, rfl⟩
  ⟨⟨fun _ => hdom, himp, hit, hrest⟩,
   (coreRun_steady_state (fun _ => pondEnv) 0 pondRest (fun _ => hdom) (fun _ => himp)
      (fun _ => hit) (fun _ => rfl) hrest).1 100⟩

/-! ## Time-stepping weights of `ReadProperties` -/

/-- C30: for every value of the selectors `ex` and `im` and every `theta`, the weights set
by `ReadProperties` are `7/4, -1, 1/4` for `ex == 1`, `3/2, -1/2, 0` for `ex == 2` and
`23/12, -4/3, 5/12` otherwise; `theta, 1-theta, 0` for `im == 0`, `3/4, 0, 1/4` for
`im == 1` and `5/4, -1, 3/4` otherwise; and in every case
`exfac1+exfac2+exfac3 = 1` and `imfac1+imfac2+imfac3 = 1`. -/
theorem ReadProperties_weights_sum_to_one (ex im : Int) (theta : REAL) :
    ((ReadPropertiesWeights ex im theta).exfac1 + (ReadPropertiesWeights ex im theta).exfac2
      + (ReadPropertiesWeights ex im theta).exfac3 = 1) ∧
    ((ReadPropertiesWeights ex im theta).imfac1 + (ReadPropertiesWeights ex im theta).imfac2
      + (ReadPropertiesWeights ex im theta).imfac3 = 1) ∧
    ((ReadPropertiesWeights ex im theta).exfac1, (ReadPropertiesWeights ex im theta).exfac2,
        (ReadPropertiesWeights ex im theta).exfac3)
      = (if ex = 1 then ((7 / 4 : REAL), (-1 : REAL), (1 / 4 : REAL))
         else if ex = 2 then (3 / 2, -1 / 2, 0) else (23 / 12, -4 / 3, 5 / 12)) ∧
    ((ReadPropertiesWeights ex im theta).imfac1, (ReadPropertiesWeights ex im theta).imfac2,
        (ReadPropertiesWeights ex im theta).imfac3)
      = (if im = 0 then (theta, 1 - theta, (0 : REAL))
         else if im = 1 then (3 / 4, 0, 1 / 4) else (5 / 4, -1, 3 / 4)) := by
  unfold ReadPropertiesWeights
  refine ⟨?_, ?_, ?_, ?_⟩
  · by_cases h1 : ex = 1
    · simp only [h1, if_true]; norm_num
    · by_cases h2 : ex = 2
      · simp only [h1, h2, if_true, if_false]; norm_num
      · simp only [h1, h2, if_false]; norm_num
  · by_cases h1 : im = 0
    · simp only [h1, if_true]; ring
    · by_cases h2 : im = 1
      · simp only [h1, h2, if_true, if_false]; norm_num
      · simp only [h1, h2, if_false]; norm_num
  · by_cases h1 : ex = 1
    · simp only [h1, if_true]
    · by_cases h2 : ex = 2
      · simp only [h1, h2, if_true, if_false]
      · simp only [h1, h2, if_false]
  · by_cases h1 : im = 0
    · simp only [h1, if_true]
    · by_cases h2 : im = 1
      · simp only [h1, h2, if_true, if_false]
      · simp only [h1, h2, if_false]

/-! ## Initial iterate of `CGSolve` -/

/-- After the treatment of the boundary at lines 4594-4616 the iterate `x` is zero on
every computational cell. -/
theorem cgBoundary_zero (g : Grid) (pr : Props) (ph : Phys) (iptr : Nat)
    (h1 : g.celldist 0 ≤ iptr) (h2 : iptr < g.celldist 1) :
    (cgBoundary g pr ph).x (g.cellp iptr) = 0 := by
  unfold cgBoundary
  simp only
  have key := forLoop_induct
    (fun m (t : CGState) => ∀ a, g.celldist 0 ≤ a → a < g.celldist 0 + m → t.x (g.cellp a) = 0)
    (fun iptr (s : CGState) =>
      let i := g.cellp iptr
      let p := setAt s.p i (s.p i - s.z i)
      { s with p := p, r := setAt s.r i (p i), x := setAt s.x i 0 })
    (g.celldist 0) (g.celldist 1 - g.celldist 0)
    { x := forLoop (fun iptr (x : Nat → REAL) => setAt x (g.cellp iptr) 0)
        (g.celldist 0) (g.celldist 1 - g.celldist 0) ph.h,
      r := ph.hold, rtmp := ph.htmp2,
      z := OperatorH g (forLoop (fun iptr (x : Nat → REAL) => setAt x (g.cellp iptr) 0)
        (g.celldist 0) (g.celldist 1 - g.celldist 0) ph.h) ph.htmp3 (hcoefOf g pr ph).coef
        (hcoefOf g pr ph).fcoef,
      p := (hcoefOf g pr ph).htmp, coef := (hcoefOf g pr ph).coef,
      fcoef := (hcoefOf g pr ph).fcoef, mu := 0, nu := 0, eps := 0, eps0 := 0, alpha := 0,
      alpha0 := 0, n := 0, iters := 0 }
    (by intro a h3 h4; omega)
    (by
      intro m t _ ih a h3 h4
      show setAt t.x (g.cellp (g.celldist 0 + m)) 0 (g.cellp a) = 0
      by_cases hc : g.cellp a = g.cellp (g.celldist 0 + m)
      · rw [hc, setAt_same]
      · rw [setAt_other _ _ _ _ hc]
        have hlt : a < g.celldist 0 + m := by
          rcases Nat.lt_or_ge a (g.celldist 0 + m) with h | h
          · exact h
          · have : a = g.celldist 0 + m := by omega
            rw [this] at hc
            exact absurd rfl hc
        exact ih a h3 hlt)
  exact key iptr h1 (by omega)

/-- C23, as stated, fails: at the island cell with entry elevation 1 and `maxiters = 0`,
`CGSolve` returns the elevation 0 in the computational cell, not the entry value. -/
theorem CGSolve_initial_guess_counterexample :
    (islandMesh.celldist 0 ≤ 0 ∧ 0 < islandMesh.celldist 1) ∧
    noIterProps.maxiters = 0 ∧
    islandPhys.h (islandMesh.cellp 0) = 1 ∧
    (cgStart islandMesh noIterProps islandPhys).x (islandMesh.cellp 0) = 0 ∧
    (CGSolve islandMesh noIterProps islandPhys).h (islandMesh.cellp 0) = 0 ∧
    (CGSolve islandMesh noIterProps islandPhys).h (islandMesh.cellp 0)
      ≠ islandPhys.h (islandMesh.cellp 0) := by
  have hx : (cgStart islandMesh noIterProps islandPhys).x (islandMesh.cellp 0) = 0 := by
    show (cgDirection islandMesh noIterProps (cgBoundary islandMesh noIterProps islandPhys)).x
      (islandMesh.cellp 0) = 0
    rw [cgDirection_frame]
    exact cgBoundary_zero islandMesh noIterProps islandPhys 0 (by decide) (by decide)
  have hh : (CGSolve islandMesh noIterProps islandPhys).h (islandMesh.cellp 0) = 0 := hx
  refine ⟨⟨by decide, by decide⟩, rfl, by simp [islandPhys, islandMesh], hx, hh, ?_⟩
  rw [hh]
  simp [islandPhys, islandMesh]

/-- C23, amended: `CGSolve` begins its iteration from the zero vector on the computational
cells: the first iterate `x_0` is 0 on every computational cell, whatever `phys->h` holds on
entry, and when the iteration cap `maxiters` is 0 `CGSolve` returns `h = 0` on every
computational cell. -/
theorem CGSolve_starts_from_zero (g : Grid) (pr : Props) (ph : Phys) (iptr : Nat)
    (h1 : g.celldist 0 ≤ iptr) (h2 : iptr < g.celldist 1) :
    (cgStart g pr ph).x (g.cellp iptr) = 0 ∧
    (pr.maxiters = 0 → (CGSolve g pr ph).h (g.cellp iptr) = 0) := by
  have hx : (cgStart g pr ph).x (g.cellp iptr) = 0 := by
    show (cgDirection g pr (cgBoundary g pr ph)).x (g.cellp iptr) = 0
    rw [cgDirection_frame]
    exact cgBoundary_zero g pr ph iptr h1 h2
  refine ⟨hx, ?_⟩
  intro h0
  show (cgLoop g pr pr.maxiters (cgStart g pr ph)).x (g.cellp iptr) = 0
  rw [h0]
  exact hx

/-- C23, amended, at the island cell with `maxiters = 0`. -/
theorem CGSolve_starts_from_zero_witness :
    (islandMesh.celldist 0 ≤ 0 ∧ 0 < islandMesh.celldist 1 ∧ noIterProps.maxiters = 0) ∧
    (cgStart islandMesh noIterProps islandPhys).x (islandMesh.cellp 0) = 0 ∧
    (CGSolve islandMesh noIterProps islandPhys).h (islandMesh.cellp 0) = 0 :=
  ⟨⟨by decide, by decide, rfl⟩,
   (CGSolve_starts_from_zero islandMesh noIterProps islandPhys 0 (by decide) (by decide)).1,
   (CGSolve_starts_from_zero islandMesh noIterProps islandPhys 0 (by decide) (by decide)).2 rfl⟩

/-! ## A cell without a positive face coefficient keeps its elevation -/

/-- The coefficients that `HCoefficients` leaves for a single computational cell whose
face coefficients are all zero: diagonal 1, source `h`, and `OperatorH` is the identity. -/
theorem hcoefOf_uncoupled (g : Grid) (pr : Props) (ph : Phys) (hcd0 : g.celldist 0 = 0)
    (hcd1 : g.celldist 1 = 1)
    (hfc : ∀ nf, nf < g.nfaces (g.cellp 0) → g.neigh (g.cellp 0 * g.maxfaces + nf) ≠ -1 →
      faceCoef g pr ph.D (g.cellp 0) nf = 0) :
    (hcoefOf g pr ph).coef (g.cellp 0) = 1 ∧
    (hcoefOf g pr ph).htmp (g.cellp 0) = ph.h (g.cellp 0) ∧
    ∀ x y : Nat → REAL,
      OperatorH g x y (hcoefOf g pr ph).coef (hcoefOf g pr ph).fcoef (g.cellp 0)
        = x (g.cellp 0) := by
  have hnc : ¬ Coupled g pr ph.D (g.cellp 0) := by
    intro ⟨nf, h1, h2, h3⟩
    rw [hfc nf h1 h2] at h3
    exact lt_irrefl _ h3
  have e : hcoefOf g pr ph = hcoefCell g (pr.grav * (pr.imfac1 * pr.dt) ^ 2) ph.D ph.h
      (g.cellp 0) { coef := ph.hcoef, fcoef := ph.hfcoef, htmp := ph.htmp, check := false } := by
    unfold hcoefOf HCoefficients
    rw [hcd0, hcd1, Nat.sub_zero, forLoop_one]
  obtain ⟨⟨_, c2, c3⟩, _, _, _⟩ := hcoefCell_spec g pr ph.D ph.h (g.cellp 0)
    { coef := ph.hcoef, fcoef := ph.hfcoef, htmp := ph.htmp, check := false }
  rw [← e] at c2 c3
  refine ⟨(c2 hnc).1, (c2 hnc).2, ?_⟩
  intro x y
  have hv := (OperatorH_val g x y (hcoefOf g pr ph).coef (hcoefOf g pr ph).fcoef).1 0
    (by omega) (by omega)
  rw [hv, (c2 hnc).1, one_mul]
  have hz : ∑ nf in Finset.range (g.nfaces (g.cellp 0)),
      (if g.neigh (g.cellp 0 * g.maxfaces + nf) ≠ -1 then
        (hcoefOf g pr ph).fcoef (g.cellp 0 * g.maxfaces + nf)
          * x (g.neigh (g.cellp 0 * g.maxfaces + nf)).toNat else 0) = 0 := by
    apply Finset.sum_eq_zero
    intro nf hnf
    have hlt := Finset.mem_range.mp hnf
    by_cases hn : g.neigh (g.cellp 0 * g.maxfaces + nf) ≠ -1
    · rw [if_pos hn, c3 nf hlt hn, hfc nf hlt hn, zero_mul]
    · rw [if_neg hn]
  rw [hz, sub_zero]

/-- `CGSolve` on a single computational cell for which `HCoefficients` leaves the diagonal
1, the source `h` and an operator that is the identity: the entry elevation comes back. -/
theorem cgRun_unit (g : Grid) (pr : Props) (ph : Phys) (hcd0 : g.celldist 0 = 0)
    (hcd1 : g.celldist 1 = 1)
    (k1 : (hcoefOf g pr ph).coef (g.cellp 0) = 1)
    (k2 : (hcoefOf g pr ph).htmp (g.cellp 0) = ph.h (g.cellp 0))
    (k3 : ∀ x y : Nat → REAL,
      OperatorH g x y (hcoefOf g pr ph).coef (hcoefOf g pr ph).fcoef (g.cellp 0)
        = x (g.cellp 0))
    (hit : 1 ≤ pr.maxiters) :
    (cgRun g pr ph).x (g.cellp 0) = ph.h (g.cellp 0) := by
  have e : g.celldist 1 - g.celldist 0 = 1 := by omega
  obtain ⟨b1, b2, b3, b4⟩ : (cgBoundary g pr ph).x (g.cellp 0) = 0 ∧
      (cgBoundary g pr ph).r (g.cellp 0) = ph.h (g.cellp 0) ∧
      (cgBoundary g pr ph).coef = (hcoefOf g pr ph).coef ∧
      (cgBoundary g pr ph).fcoef = (hcoefOf g pr ph).fcoef := by
    unfold cgBoundary
    simp only [e]
    simp only [forLoop_one, hcd0, setAt_same, k2, k3, sub_zero]
    exact ⟨trivial, trivial, trivial, trivial⟩
  obtain ⟨d1, d2, d3, d4, _, d6, d7, d8⟩ := cgDirection_single g pr (cgBoundary g pr ph)
    hcd0 hcd1 (by rw [b3]; exact k1)
  obtain ⟨fuel, hfuel⟩ : ∃ fuel, pr.maxiters = fuel + 1 := ⟨pr.maxiters - 1, by omega⟩
  unfold cgRun
  rw [hfuel]
  have hs : cgStart g pr ph = cgDirection g pr (cgBoundary g pr ph) := rfl
  rw [hs]
  generalize cgDirection g pr (cgBoundary g pr ph) = s at d1 d2 d3 d4 d6 d7 d8
  rw [b2] at d6 d7 d8
  have hx : s.x (g.cellp 0) = 0 := by rw [d1]; exact b1
  have hr : s.r (g.cellp 0) = ph.h (g.cellp 0) := by rw [d2]; exact b2
  by_cases h0 : ph.h (g.cellp 0) = 0
  · have ha : s.alpha = 0 := by rw [d7, h0]; ring
    unfold cgLoop
    rw [if_neg (by rw [ha]; simp)]
    rw [hx, h0]
  · have ha : s.alpha ≠ 0 := by rw [d7]; exact mul_ne_zero h0 h0
    obtain ⟨c1, c2, _⟩ := cgBody_single g pr s hcd0 hcd1 (by rw [d3, b3]; exact k1)
      (by intro x y; rw [d3, d4, b3, b4]; exact k3 x y) (by rw [d6, hr]) (by rw [d7, hr])
      (by rw [hr]; exact h0)
    unfold cgLoop
    rw [if_pos ⟨d8 h0, ha⟩]
    simp only
    have hx1 : (cgBody g pr s).x (g.cellp 0) = ph.h (g.cellp 0) := by
      rw [c1, hx, hr]; ring
    by_cases hq : sqrtLt ((cgBody g pr s).eps / (cgBody g pr s).eps0) pr.epsilon = true
    · rw [if_pos hq]
      exact hx1
    · rw [if_neg hq]
      cases fuel with
      | zero => exact hx1
      | succ k =>
        unfold cgLoop
        rw [if_neg (by simp [c2])]
        exact hx1

/-- C22, as stated, fails: the island cell is the only computational cell, none of its
faces has a positive coefficient (`D = 0` on its three edges), and `HCoefficients` leaves
`coef = 1` and the source `htmp = h = 1` for it; yet with the iteration cap `maxiters = 0`
`CGSolve` returns the elevation 0 in that cell, not its entry value 1. -/
theorem decoupled_cell_no_iteration_counterexample :
    (islandMesh.celldist 0 = 0 ∧ islandMesh.celldist 1 = 1) ∧
    (¬ Coupled islandMesh noIterProps islandPhys.D (islandMesh.cellp 0)) ∧
    (∀ nf, nf < islandMesh.nfaces (islandMesh.cellp 0) →
      faceCoef islandMesh noIterProps islandPhys.D (islandMesh.cellp 0) nf = 0) ∧
    noIterProps.maxiters = 0 ∧
    ((hcoefOf islandMesh noIterProps islandPhys).coef (islandMesh.cellp 0) = 1 ∧
      (hcoefOf islandMesh noIterProps islandPhys).htmp (islandMesh.cellp 0)
        = islandPhys.h (islandMesh.cellp 0)) ∧
    islandPhys.h (islandMesh.cellp 0) = 1 ∧
    (CGSolve islandMesh noIterProps islandPhys).h (islandMesh.cellp 0) = 0 ∧
    (CGSolve islandMesh noIterProps islandPhys).h (islandMesh.cellp 0)
      ≠ islandPhys.h (islandMesh.cellp 0) := by
  have hdec : ¬ Coupled islandMesh noIterProps islandPhys.D (islandMesh.cellp 0) := by
    intro ⟨nf, _, _, h3⟩
    simp [faceCoef, islandPhys] at h3
  have hco := ((HCoefficients_spec islandMesh noIterProps islandPhys.D islandPhys.h
      { coef := islandPhys.hcoef, fcoef := islandPhys.hfcoef, htmp := islandPhys.htmp,
        check := false } (by intro iptr _ _; simp [islandMesh])).1
        0 (by decide) (by decide)).2.1 hdec
  have hx : (cgDirection islandMesh noIterProps
      (cgBoundary islandMesh noIterProps islandPhys)).x (islandMesh.cellp 0) = 0 := by
    rw [cgDirection_frame]
    exact cgBoundary_zero islandMesh noIterProps islandPhys 0 (by decide) (by decide)
  have hh : (CGSolve islandMesh noIterProps islandPhys).h (islandMesh.cellp 0) = 0 := hx
  refine ⟨⟨rfl, rfl⟩, hdec, by intro nf _; simp [faceCoef, islandPhys], rfl, hco,
    by simp [islandPhys, islandMesh], hh, ?_⟩
  rw [hh]
  simp [islandPhys, islandMesh]

/-- C22, amended: if no face of a computational cell `i` has a strictly positive
coefficient, `HCoefficients` sets `coef[i] = 1` and overwrites the source `htmp[i]` with the
current `h[i]`; and when `i` is the only computational cell of the domain, its face
coefficients are not negative and the iteration cap `maxiters` is at least 1, `CGSolve`
returns `h[i]` equal to its value on entry, whatever source term `htmp[i]` held. -/
theorem decoupled_cell_keeps_elevation (g : Grid) (pr : Props) (ph : Phys)
    (hnf : ∀ iptr, g.celldist 0 ≤ iptr → iptr < g.celldist 1 →
      g.nfaces (g.cellp iptr) ≤ g.maxfaces)
    (iptr : Nat) (h1 : g.celldist 0 ≤ iptr) (h2 : iptr < g.celldist 1)
    (hdec : ¬ Coupled g pr ph.D (g.cellp iptr)) :
    ((hcoefOf g pr ph).coef (g.cellp iptr) = 1 ∧
      (hcoefOf g pr ph).htmp (g.cellp iptr) = ph.h (g.cellp iptr)) ∧
    (g.celldist 0 = 0 → g.celldist 1 = 1 →
      (∀ nf, nf < g.nfaces (g.cellp iptr) → g.neigh (g.cellp iptr * g.maxfaces + nf) ≠ -1 →
        0 ≤ faceCoef g pr ph.D (g.cellp iptr) nf) →
      1 ≤ pr.maxiters →
      (CGSolve g pr ph).h (g.cellp iptr) = ph.h (g.cellp iptr)) := by
  refine ⟨?_, ?_⟩
  · exact ((HCoefficients_spec g pr ph.D ph.h
      { coef := ph.hcoef, fcoef := ph.hfcoef, htmp := ph.htmp, check := false } hnf).1
        iptr h1 h2).2.1 hdec
  · intro hcd0 hcd1 hpos hit
    have hi : iptr = 0 := by omega
    subst hi
    have hfc : ∀ nf, nf < g.nfaces (g.cellp 0) → g.neigh (g.cellp 0 * g.maxfaces + nf) ≠ -1 →
        faceCoef g pr ph.D (g.cellp 0) nf = 0 := by
      intro nf a1 a2
      have hle : faceCoef g pr ph.D (g.cellp 0) nf ≤ 0 := by
        by_contra hgt
        exact hdec ⟨nf, a1, a2, lt_of_not_ge hgt⟩
      exact le_antisymm hle (hpos nf a1 a2)
    obtain ⟨k1, k2, k3⟩ := hcoefOf_uncoupled g pr ph hcd0 hcd1 hfc
    exact cgRun_unit g pr ph hcd0 hcd1 k1 k2 k3 hit

/-- C22, amended, at the island cell with `maxiters = 10`: forcing 5 is discarded and the
entry elevation 1 comes back. -/
theorem decoupled_cell_keeps_elevation_witness :
    (¬ Coupled islandMesh implicitProps islandPhys.D (islandMesh.cellp 0)) ∧
    islandPhys.htmp (islandMesh.cellp 0) = 5 ∧
    ((hcoefOf islandMesh implicitProps islandPhys).coef (islandMesh.cellp 0) = 1 ∧
      (hcoefOf islandMesh implicitProps islandPhys).htmp (islandMesh.cellp 0)
        = islandPhys.h (islandMesh.cellp 0)) ∧
    (CGSolve islandMesh implicitProps islandPhys).h (islandMesh.cellp 0)
      = islandPhys.h (islandMesh.cellp 0) := by
  have hdec : ¬ Coupled islandMesh implicitProps islandPhys.D (islandMesh.cellp 0) := by
    intro ⟨nf, _, _, h3⟩
    simp [faceCoef, islandPhys] at h3
  have key := decoupled_cell_keeps_elevation islandMesh implicitProps islandPhys
    (by intro iptr _ _; simp [islandMesh]) 0 (by decide) (by decide) hdec
  refine ⟨hdec, by simp [islandPhys, islandMesh], key.1, ?_⟩
  exact key.2 rfl rfl (by intro nf _ _; simp [faceCoef, islandPhys]) (by decide)

/-! ## `NewCells` -/

/-- C26: `NewCells` also writes layers that were wet before and reads below the last
layer of the edge. For the single computational edge 0 with three layers (`Nke = 3`):
(1) with `etop = 0`, `etopold = 2` the layer 2, wet at the previous step, is overwritten,
and all three layers receive `u[0][3]`, the entry at index `Nke[0]`, so the result depends
on that entry; (2) with `etop = etopold = 0`, where the top layer did not rise, `u[0][0]`
is replaced by `u[0][1]`. -/
theorem NewCells_overwrites_wet_layers :
    (NewCells oneEdgeRange (fun n => n) (fun _ => 0) (fun _ => 2) (fun _ => 3)
        (layeredU 9) 0 2 = 9 ∧
      layeredU 9 0 2 = 3) ∧
    (NewCells oneEdgeRange (fun n => n) (fun _ => 0) (fun _ => 2) (fun _ => 3)
        (layeredU 9) 0 0 = 9 ∧
      NewCells oneEdgeRange (fun n => n) (fun _ => 0) (fun _ => 2) (fun _ => 3)
        (layeredU 7) 0 0 = 7 ∧
      (∀ k, k < 3 → layeredU 9 0 k = layeredU 7 0 k)) ∧
    (NewCells oneEdgeRange (fun n => n) (fun _ => 0) (fun _ => 0) (fun _ => 3)
        (layeredU 9) 0 0 = 2 ∧
      layeredU 9 0 0 = 1) := by
  refine ⟨⟨?_, ?_⟩, ⟨?_, ?_, ?_⟩, ⟨?_, ?_⟩⟩
  · simp [NewCells, oneEdgeRange, forLoop, setAt, layeredU]
  · simp [layeredU]
  · simp [NewCells, oneEdgeRange, forLoop, setAt, layeredU]
  · simp [NewCells, oneEdgeRange, forLoop, setAt, layeredU]
  · intro k hk
    interval_cases k <;> simp [layeredU]
  · simp [NewCells, oneEdgeRange, forLoop, setAt, layeredU]
  · simp [layeredU]

/-! ## `SetFluxHeight` -/

/-- A loop that assigns `f k` to the entries `lo ≤ k < lo+n` of a row. -/
theorem rowAssignLoop (f : Nat → REAL) (lo n : Nat) (r : Nat → REAL) (k : Nat) :
    forLoop (fun k (r : Nat → REAL) => setAt r k (f k)) lo n r k
      = if lo ≤ k ∧ k < lo + n then f k else r k := by
  induction n generalizing k with
  | zero =>
    have h : ¬ (lo ≤ k ∧ k < lo + 0) := by omega
    rw [if_neg h]
    rfl
  | succ n ih =>
    rw [forLoop]
    by_cases hk : k = lo + n
    · subst hk
      have h2 : lo ≤ lo + n ∧ lo + n < lo + (n + 1) := by omega
      rw [setAt_same, if_pos h2]
    · rw [setAt_other _ _ _ _ hk, ih]
      by_cases hr : lo ≤ k ∧ k < lo + n
      · have hr2 : lo ≤ k ∧ k < lo + (n + 1) := ⟨hr.1, by omega⟩
        rw [if_pos hr, if_pos hr2]
      · have hr2 : ¬ (lo ≤ k ∧ k < lo + (n + 1)) := by omega
        rw [if_neg hr, if_neg hr2]

/-- The loop at lines 6021-6023 zeroes the entries `lo ≤ k < lo+n` that do not exceed `d`. -/
theorem rowCleanLoop (d : REAL) (lo n : Nat) (r : Nat → REAL) (k : Nat) :
    forLoop (fun k (r : Nat → REAL) => if r k ≤ d then setAt r k 0 else r) lo n r k
      = if lo ≤ k ∧ k < lo + n then (if r k ≤ d then 0 else r k) else r k := by
  induction n generalizing k with
  | zero =>
    have h : ¬ (lo ≤ k ∧ k < lo + 0) := by omega
    rw [if_neg h]
    rfl
  | succ n ih =>
    rw [forLoop]
    have hprev : forLoop (fun k (r : Nat → REAL) => if r k ≤ d then setAt r k 0 else r)
        lo n r (lo + n) = r (lo + n) := by
      rw [ih]
      have h : ¬ (lo ≤ lo + n ∧ lo + n < lo + n) := by omega
      rw [if_neg h]
    by_cases hk : k = lo + n
    · subst hk
      have h2 : lo ≤ lo + n ∧ lo + n < lo + (n + 1) := by omega
      rw [if_pos h2, hprev]
      by_cases hd : r (lo + n) ≤ d
      · rw [if_pos hd, if_pos hd, setAt_same]
      · rw [if_neg hd, if_neg hd, hprev]
    · have hstep : (if forLoop (fun k (r : Nat → REAL) => if r k ≤ d then setAt r k 0 else r)
            lo n r (lo + n) ≤ d
          then setAt (forLoop (fun k (r : Nat → REAL) => if r k ≤ d then setAt r k 0 else r)
            lo n r) (lo + n) 0
          else forLoop (fun k (r : Nat → REAL) => if r k ≤ d then setAt r k 0 else r) lo n r) k
          = forLoop (fun k (r : Nat → REAL) => if r k ≤ d then setAt r k 0 else r) lo n r k := by
        split
        · rw [setAt_other _ _ _ _ hk]
        · rfl
      rw [hstep, ih]
      by_cases hr : lo ≤ k ∧ k < lo + n
      · have hr2 : lo ≤ k ∧ k < lo + (n + 1) := ⟨hr.1, by omega⟩
        rw [if_pos hr, if_pos hr2]
      · have hr2 : ¬ (lo ≤ k ∧ k < lo + (n + 1)) := by omega
        rw [if_neg hr, if_neg hr2]

/-- The bottom-layer step writes at most the entry `Nke[j]-1`. -/
theorem fluxBottom_other (e : FluxIn) (dzz : Nat → Nat → REAL) (j : Nat) (row : Nat → REAL)
    (k : Nat) (hk : k + 1 ≠ e.Nke j) : fluxBottom e dzz j row k = row k := by
  unfold fluxBottom
  simp only
  split
  · rename_i h1
    have hne : k ≠ ((e.Nke j : Int) - 1).toNat := by omega
    rw [setAt_other _ _ _ _ hne]
  · split
    · split
      · rename_i h1
        have hne : k ≠ ((e.Nke j : Int) - 1).toNat := by omega
        rw [setAt_other _ _ _ _ hne]
      · rfl
    · rfl

/-- The row of flux heights of an edge with `etop[j] < Nke[j]`: zero above the top layer,
zero or above the threshold on the active layers, untouched from `Nke[j]` on. -/
theorem fluxRow_spec (e : FluxIn) (dzz : Nat → Nat → REAL) (j : Nat) (row : Nat → REAL)
    (het : e.etop j < e.Nke j) :
    (∀ k, k < e.etop j → fluxRow e dzz j row k = 0) ∧
    (∀ k, e.etop j ≤ k → k < e.Nke j →
      fluxRow e dzz j row k = 0 ∨ e.DRYCELLHEIGHT < fluxRow e dzz j row k) ∧
    (∀ k, e.Nke j ≤ k → fluxRow e dzz j row k = row k) := by
  refine ⟨?_, ?_, ?_⟩
  · intro k hk
    unfold fluxRow
    rw [rowCleanLoop]
    have h1 : ¬ (e.etop j ≤ k ∧ k < e.etop j + (e.Nke j - e.etop j)) := by omega
    rw [if_neg h1, fluxBottom_other e dzz j _ k (by omega), rowAssignLoop, if_neg h1,
      rowZeroLoop]
    have h2 : 0 ≤ k ∧ k < 0 + e.etop j := by omega
    rw [if_pos h2]
  · intro k hk1 hk2
    unfold fluxRow
    rw [rowCleanLoop]
    have h1 : e.etop j ≤ k ∧ k < e.etop j + (e.Nke j - e.etop j) := by omega
    rw [if_pos h1]
    split
    · exact Or.inl rfl
    · rename_i hgt
      exact Or.inr (lt_of_not_ge hgt)
  · intro k hk
    unfold fluxRow
    rw [rowCleanLoop]
    have h1 : ¬ (e.etop j ≤ k ∧ k < e.etop j + (e.Nke j - e.etop j)) := by omega
    rw [if_neg h1, fluxBottom_other e dzz j _ k (by omega), rowAssignLoop, if_neg h1,
      rowZeroLoop]
    have h2 : ¬ (0 ≤ k ∧ k < 0 + e.etop j) := by omega
    rw [if_neg h2]

/-- The initialisation zeroes `hf[j]` and `dzf[j][0..Nkc[j])` of every edge and leaves
`dzz`. -/
theorem fluxInit_spec (e : FluxIn) (s : FluxState) :
    (∀ j, j < e.Ne → (fluxInit e s).hf j = 0 ∧ ∀ k, k < e.Nkc j → (fluxInit e s).dzf j k = 0) ∧
    (fluxInit e s).dzz = s.dzz := by
  unfold fluxInit
  exact forLoop_induct
    (fun m (t : FluxState) =>
      (∀ j, j < m → t.hf j = 0 ∧ ∀ k, k < e.Nkc j → t.dzf j k = 0) ∧ t.dzz = s.dzz)
    (fun j (s : FluxState) =>
      let row := forLoop (fun k (r : Nat → REAL) => setAt r k 0) 0 (e.Nkc j) (s.dzf j)
      { s with hf := setAt s.hf j 0, dzf := setAt s.dzf j row })
    0 e.Ne s
    ⟨by intro j hj; omega, rfl⟩
    (by
      intro m t _ ih
      obtain ⟨ih1, ih2⟩ := ih
      refine ⟨?_, ih2⟩
      intro j hj
      simp only [Nat.zero_add]
      by_cases hjm : j = m
      · subst hjm
        refine ⟨setAt_same _ _ _, ?_⟩
        intro k hk
        show setAt t.dzf j _ j k = 0
        rw [setAt_same, rowZeroLoop]
        have h : 0 ≤ k ∧ k < 0 + e.Nkc j := by omega
        rw [if_pos h]
      · have hlt : j < m := by omega
        refine ⟨?_, ?_⟩
        · show setAt t.hf m 0 j = 0
          rw [setAt_other _ _ _ _ hjm]
          exact (ih1 j hlt).1
        · intro k hk
          show setAt t.dzf m _ j k = 0
          rw [setAt_other _ _ _ _ hjm]
          exact (ih1 j hlt).2 k hk)

/-- The loop over the edges leaves in `dzf[j]` the row computed from the entry row and in
`hf[j]` the entry value plus the sum of the active entries; `dzz` is not written. -/
theorem fluxEdges_spec (e : FluxIn) (s : FluxState) :
    (∀ j, j < e.Ne →
      (forLoop (fluxEdge e) 0 e.Ne s).dzf j = fluxRow e s.dzz j (s.dzf j) ∧
      (forLoop (fluxEdge e) 0 e.Ne s).hf j
        = s.hf j + ∑ m in Finset.range (e.Nke j - e.etop j),
            fluxRow e s.dzz j (s.dzf j) (e.etop j + m)) ∧
    (forLoop (fluxEdge e) 0 e.Ne s).dzz = s.dzz := by
  have key := forLoop_induct
    (fun m (t : FluxState) =>
      t.dzz = s.dzz ∧
      (∀ j, j < m → t.dzf j = fluxRow e s.dzz j (s.dzf j) ∧
        t.hf j = s.hf j + ∑ i in Finset.range (e.Nke j - e.etop j),
            fluxRow e s.dzz j (s.dzf j) (e.etop j + i)) ∧
      (∀ j, m ≤ j → t.dzf j = s.dzf j ∧ t.hf j = s.hf j))
    (fluxEdge e) 0 e.Ne s
    ⟨rfl, by intro j hj; omega, by intro j _; exact ⟨rfl, rfl⟩⟩
    (by
      intro m t _ ih
      obtain ⟨ih1, ih2, ih3⟩ := ih
      simp only [Nat.zero_add]
      refine ⟨ih1, ?_, ?_⟩
      · intro j hj
        by_cases hjm : j = m
        · subst hjm
          unfold fluxEdge
          simp only [setAt_same]
          rw [ih1, (ih3 j (le_refl j)).1, (ih3 j (le_refl j)).2, forLoop_add]
          exact ⟨rfl, rfl⟩
        · have hlt : j < m := by omega
          unfold fluxEdge
          simp only [setAt_other _ _ _ _ hjm]
          exact ih2 j hlt
      · intro j hj
        have hjm : j ≠ m := by omega
        unfold fluxEdge
        simp only [setAt_other _ _ _ _ hjm]
        exact ih3 j (by omega))
  exact ⟨key.2.1, key.1⟩

/-- The two passes over the bottom thicknesses at lines 5971-5973 and 6030-6032 write
`dzz` only. -/
theorem smoothLoop_frame (f : Nat → FluxState → REAL) (idx : Nat → Nat) (n : Nat)
    (s : FluxState) :
    (forLoop (fun i (s : FluxState) =>
        { s with dzz := setAt s.dzz i (setAt (s.dzz i) (idx i) (f i s)) }) 0 n s).dzf = s.dzf ∧
    (forLoop (fun i (s : FluxState) =>
        { s with dzz := setAt s.dzz i (setAt (s.dzz i) (idx i) (f i s)) }) 0 n s).hf = s.hf :=
  forLoop_preserves (fun t : FluxState => t.dzf = s.dzf ∧ t.hf = s.hf) _
    (by intro k t ht; exact ht) 0 n s ⟨rfl, rfl⟩

/-- What `SetFluxHeight` leaves in `dzf[j]` and `hf[j]`: the row computed from a zeroed
row and some thicknesses `dzz`, and the sum of its active entries. -/
theorem SetFluxHeight_rows (e : FluxIn) (s : FluxState) :
    ∃ dzz : Nat → Nat → REAL, ∀ j, j < e.Ne →
      (SetFluxHeight e s).dzf j = fluxRow e dzz j ((fluxInit e s).dzf j) ∧
      (SetFluxHeight e s).hf j = ∑ m in Finset.range (e.Nke j - e.etop j),
        fluxRow e dzz j ((fluxInit e s).dzf j) (e.etop j + m) := by
  obtain ⟨i1, _⟩ := fluxInit_spec e s
  by_cases hs : e.smoothbot ≠ 0 ∧ e.vertcoord = 1
  · obtain ⟨a1, a2⟩ := smoothLoop_frame
      (fun i _ => max (e.dzbot i) (e.smoothbot * e.dz (e.Nk i - 1))) (fun i => e.Nk i - 1)
      e.Nc (fluxInit e s)
    generalize hs2 : forLoop (fun i (s : FluxState) =>
        { s with dzz := setAt s.dzz i (setAt (s.dzz i) (e.Nk i - 1)
          (max (e.dzbot i) (e.smoothbot * e.dz (e.Nk i - 1)))) }) 0 e.Nc (fluxInit e s) = s2
      at a1 a2
    obtain ⟨b1, _⟩ := fluxEdges_spec e s2
    obtain ⟨c1, c2⟩ := smoothLoop_frame
      (fun i t => max (t.dzz i (e.Nk i - 1)) (e.dzsmall * e.dz (e.Nk i - 1)))
      (fun i => e.Nk i - 1) e.Nc (forLoop (fluxEdge e) 0 e.Ne s2)
    refine ⟨s2.dzz, ?_⟩
    intro j hj
    have e1 : SetFluxHeight e s = forLoop (fun i (s : FluxState) =>
        { s with dzz := setAt s.dzz i (setAt (s.dzz i) (e.Nk i - 1)
          (max (s.dzz i (e.Nk i - 1)) (e.dzsmall * e.dz (e.Nk i - 1)))) }) 0 e.Nc
        (forLoop (fluxEdge e) 0 e.Ne s2) := by
      unfold SetFluxHeight
      simp only [if_pos hs, hs2]
    rw [e1, c1, c2, (b1 j hj).1, (b1 j hj).2, a1, a2, (i1 j hj).1, zero_add]
    exact ⟨rfl, rfl⟩
  · obtain ⟨b1, _⟩ := fluxEdges_spec e (fluxInit e s)
    refine ⟨(fluxInit e s).dzz, ?_⟩
    intro j hj
    have e1 : SetFluxHeight e s = forLoop (fluxEdge e) 0 e.Ne (fluxInit e s) := by
      unfold SetFluxHeight
      simp only [if_neg hs]
    rw [e1, (b1 j hj).1, (b1 j hj).2, (i1 j hj).1, zero_add]
    exact ⟨rfl, rfl⟩

/-- C29: after `SetFluxHeight`, for every edge `j` (with a top layer `etop[j] < Nke[j]`)
and every layer `k < Nkc[j]`, `dzf[j][k]` is exactly 0 or strictly greater than
`DRYCELLHEIGHT`, hence not negative when `DRYCELLHEIGHT >= 0`, whatever the velocities,
elevations and thicknesses; `dzf[j][k] = 0` for `k < etop[j]` and for
`Nke[j] <= k < Nkc[j]`; and `hf[j]` is the sum of `dzf[j][k]` over
`etop[j] <= k < Nke[j]`. -/
theorem SetFluxHeight_heights (e : FluxIn) (s : FluxState) (j : Nat) (hj : j < e.Ne)
    (het : e.etop j < e.Nke j) :
    (∀ k, k < e.Nkc j →
      (SetFluxHeight e s).dzf j k = 0 ∨ e.DRYCELLHEIGHT < (SetFluxHeight e s).dzf j k) ∧
    (0 ≤ e.DRYCELLHEIGHT → ∀ k, k < e.Nkc j → 0 ≤ (SetFluxHeight e s).dzf j k) ∧
    (∀ k, k < e.etop j → (SetFluxHeight e s).dzf j k = 0) ∧
    (∀ k, e.Nke j ≤ k → k < e.Nkc j → (SetFluxHeight e s).dzf j k = 0) ∧
    (SetFluxHeight e s).hf j
      = ∑ m in Finset.range (e.Nke j - e.etop j), (SetFluxHeight e s).dzf j (e.etop j + m) := by
  obtain ⟨dzz, hrows⟩ := SetFluxHeight_rows e s
  obtain ⟨r1, r2⟩ := hrows j hj
  obtain ⟨p1, p2, p3⟩ := fluxRow_spec e dzz j ((fluxInit e s).dzf j) het
  have hinit := ((fluxInit_spec e s).1 j hj).2
  have hall : ∀ k, k < e.Nkc j →
      (SetFluxHeight e s).dzf j k = 0 ∨ e.DRYCELLHEIGHT < (SetFluxHeight e s).dzf j k := by
    intro k hk
    rw [r1]
    rcases Nat.lt_or_ge k (e.etop j) with h | h
    · exact Or.inl (p1 k h)
    · rcases Nat.lt_or_ge k (e.Nke j) with h' | h'
      · exact p2 k h h'
      · exact Or.inl (by rw [p3 k h', hinit k hk])
  refine ⟨hall, ?_, ?_, ?_, ?_⟩
  · intro hd k hk
    rcases hall k hk with h | h
    · rw [h]
    · exact le_of_lt (lt_of_le_of_lt hd h)
  · intro k hk
    rw [r1]
    exact p1 k hk
  · intro k hk1 hk2
    rw [r1, p3 k hk1, hinit k hk2]
  · rw [r2, r1]

/-- C29 at an edge with a negative velocity and a negative thickness in its top layer. -/
theorem SetFluxHeight_heights_witness :
    (0 < fluxExample.Ne ∧ fluxExample.etop 0 < fluxExample.Nke 0) ∧
    (∀ k, k < fluxExample.Nkc 0 →
      (SetFluxHeight fluxExample fluxStart).dzf 0 k = 0 ∨
      fluxExample.DRYCELLHEIGHT < (SetFluxHeight fluxExample fluxStart).dzf 0 k) ∧
    (0 ≤ fluxExample.DRYCELLHEIGHT → ∀ k, k < fluxExample.Nkc 0 →
      0 ≤ (SetFluxHeight fluxExample fluxStart).dzf 0 k) ∧
    (∀ k, k < fluxExample.etop 0 → (SetFluxHeight fluxExample fluxStart).dzf 0 k = 0) ∧
    (∀ k, fluxExample.Nke 0 ≤ k → k < fluxExample.Nkc 0 →
      (SetFluxHeight fluxExample fluxStart).dzf 0 k = 0) ∧
    (SetFluxHeight fluxExample fluxStart).hf 0
      = ∑ m in Finset.range (fluxExample.Nke 0 - fluxExample.etop 0),
          (SetFluxHeight fluxExample fluxStart).dzf 0 (fluxExample.etop 0 + m) :=
  ⟨⟨by decide, by decide⟩,
   SetFluxHeight_heights fluxExample fluxStart 0 (by decide) (by decide)⟩

/-! ## `ComputeUCPerot` -/

/-- A loop that replaces the entries `lo ≤ k < lo+n` of a row by `F k` of their value. -/
theorem rowMapLoop (F : Nat → REAL → REAL) (lo n : Nat) (r : Nat → REAL) (k : Nat) :
    forLoop (fun k (r : Nat → REAL) => setAt r k (F k (r k))) lo n r k
      = if lo ≤ k ∧ k < lo + n then F k (r k) else r k := by
  induction n generalizing k with
  | zero =>
    have h : ¬ (lo ≤ k ∧ k < lo + 0) := by omega
    rw [if_neg h]
    rfl
  | succ n ih =>
    rw [forLoop]
    by_cases hk : k = lo + n
    · subst hk
      have h1 : ¬ (lo ≤ lo + n ∧ lo + n < lo + n) := by omega
      have h2 : lo ≤ lo + n ∧ lo + n < lo + (n + 1) := by omega
      rw [setAt_same, ih, if_neg h1, if_pos h2]
    · rw [setAt_other _ _ _ _ hk, ih]
      by_cases hr : lo ≤ k ∧ k < lo + n
      · have hr2 : lo ≤ k ∧ k < lo + (n + 1) := ⟨hr.1, by omega⟩
        rw [if_pos hr, if_pos hr2]
      · have hr2 : ¬ (lo ≤ k ∧ k < lo + (n + 1)) := by omega
        rw [if_neg hr, if_neg hr2]

/-- The body of the loop over the interior layers rewrites the entry `k` only. -/
theorem perotLayer_step (g : Grid) (P : PerotGrid) (nrm : Nat → REAL) (u : Nat → Nat → REAL)
    (n k : Nat) (r : Nat → REAL) :
    (let r1 := forLoop (fun nf (r : Nat → REAL) => setAt r k (r k + perotTerm g P nrm u n k nf))
        0 (g.nfaces n) r
      if P.dzz n k > P.DRYCELLHEIGHT then setAt r1 k (r1 k / (g.Ac n * P.dzz n k))
      else setAt r1 k 0)
    = setAt r k (if P.dzz n k > P.DRYCELLHEIGHT then
        (r k + ∑ nf in Finset.range (g.nfaces n), perotTerm g P nrm u n k nf)
          / (g.Ac n * P.dzz n k)
      else 0) := by
  obtain ⟨a1, a2⟩ := accumLoop (fun nf => perotTerm g P nrm u n k nf) k 0 (g.nfaces n) r
  simp only [Nat.zero_add] at a1
  simp only
  funext a
  by_cases ha : a = k
  · subst ha
    by_cases hd : P.dzz n a > P.DRYCELLHEIGHT
    · rw [if_pos hd, if_pos hd, setAt_same, setAt_same, a1]
    · rw [if_neg hd, if_neg hd, setAt_same, setAt_same]
  · by_cases hd : P.dzz n k > P.DRYCELLHEIGHT
    · rw [if_pos hd, setAt_other _ _ _ _ ha, setAt_other _ _ _ _ ha, a2 a ha]
    · rw [if_neg hd, setAt_other _ _ _ _ ha, setAt_other _ _ _ _ ha, a2 a ha]

/-- The row that lines 5457-5500 leave for a cell with `ctop[n] < Nk[n]`, whatever the row
held before: zero above the top layer, the plain face sum over `Ac` in the top layer, and
the flux-height weighted face sum over `Ac*dzz` (or zero in a dry layer) below it. -/
theorem perotRow_val (g : Grid) (P : PerotGrid) (nrm : Nat → REAL) (u : Nat → Nat → REAL)
    (n : Nat) (row : Nat → REAL) (hct : g.ctop n < g.Nk n) :
    (∀ k, k < g.ctop n → perotRow g P nrm u n row k = 0) ∧
    (perotRow g P nrm u n row (g.ctop n)
      = (∑ nf in Finset.range (g.nfaces n), perotTopTerm g P nrm u n (g.ctop n) nf) / g.Ac n) ∧
    (∀ k, g.ctop n < k → k < g.Nk n →
      perotRow g P nrm u n row k
        = if P.dzz n k > P.DRYCELLHEIGHT then
            (∑ nf in Finset.range (g.nfaces n), perotTerm g P nrm u n k nf)
              / (g.Ac n * P.dzz n k)
          else 0) := by
  have hbody : (fun k (r : Nat → REAL) =>
      let r1 := forLoop (fun nf (r : Nat → REAL) => setAt r k (r k + perotTerm g P nrm u n k nf))
        0 (g.nfaces n) r
      if P.dzz n k > P.DRYCELLHEIGHT then setAt r1 k (r1 k / (g.Ac n * P.dzz n k))
      else setAt r1 k 0)
    = (fun k (r : Nat → REAL) => setAt r k
        (if P.dzz n k > P.DRYCELLHEIGHT then
          (r k + ∑ nf in Finset.range (g.nfaces n), perotTerm g P nrm u n k nf)
            / (g.Ac n * P.dzz n k)
        else 0)) := by
    funext k r
    exact perotLayer_step g P nrm u n k r
  have hz : ∀ k, k < g.Nk n →
      forLoop (fun k (r : Nat → REAL) => setAt r k 0) 0 (g.Nk n) row k = 0 := by
    intro k hk
    rw [rowZeroLoop]
    have h : 0 ≤ k ∧ k < 0 + g.Nk n := by omega
    rw [if_pos h]
  have hmap := rowMapLoop (fun k v =>
      if P.dzz n k > P.DRYCELLHEIGHT then
        (v + ∑ nf in Finset.range (g.nfaces n), perotTerm g P nrm u n k nf)
          / (g.Ac n * P.dzz n k)
      else 0) (g.ctop n + 1) (g.Nk n - (g.ctop n + 1))
    (forLoop (fun k (r : Nat → REAL) => setAt r k 0) 0 (g.Nk n) row)
  have htop := accumLoop (fun nf => perotTopTerm g P nrm u n (g.ctop n) nf) (g.ctop n) 0
    (g.nfaces n)
  unfold perotRow
  simp only
  rw [hbody]
  refine ⟨?_, ?_, ?_⟩
  · intro k hk
    have hne : k ≠ g.ctop n := by omega
    rw [setAt_other _ _ _ _ hne, (htop _).2 k hne, hmap]
    have h : ¬ (g.ctop n + 1 ≤ k ∧ k < g.ctop n + 1 + (g.Nk n - (g.ctop n + 1))) := by omega
    rw [if_neg h, hz k (by omega)]
  · rw [setAt_same, (htop _).1, hmap]
    have h : ¬ (g.ctop n + 1 ≤ g.ctop n ∧
        g.ctop n < g.ctop n + 1 + (g.Nk n - (g.ctop n + 1))) := by omega
    rw [if_neg h, hz _ hct, zero_add]
    simp only [Nat.zero_add]
  · intro k hk1 hk2
    have hne : k ≠ g.ctop n := by omega
    rw [setAt_other _ _ _ _ hne, (htop _).2 k hne, hmap]
    have h : g.ctop n + 1 ≤ k ∧ k < g.ctop n + 1 + (g.Nk n - (g.ctop n + 1)) := by omega
    rw [if_pos h, hz k hk2, zero_add]

/-- The rows `ComputeUCPerot` leaves for the computational cells. -/
theorem ComputeUCPerot_val (g : Grid) (P : PerotGrid) (u : Nat → Nat → REAL) (s : UC) :
    ∀ iptr, g.celldist 0 ≤ iptr → iptr < g.celldist 1 →
      g.ctop (g.cellp iptr) < g.Nk (g.cellp iptr) →
      ∀ k, k < g.Nk (g.cellp iptr) →
        (ComputeUCPerot g P u s).uc (g.cellp iptr) k
          = perotRow g P P.n1 u (g.cellp iptr) (fun _ => 0) k ∧
        (ComputeUCPerot g P u s).vc (g.cellp iptr) k
          = perotRow g P P.n2 u (g.cellp iptr) (fun _ => 0) k := by
  have hind : ∀ (nrm : Nat → REAL) (n : Nat) (r1 r2 : Nat → REAL), g.ctop n < g.Nk n →
      ∀ k, k < g.Nk n → perotRow g P nrm u n r1 k = perotRow g P nrm u n r2 k := by
    intro nrm n r1 r2 hct k hk
    obtain ⟨a1, a2, a3⟩ := perotRow_val g P nrm u n r1 hct
    obtain ⟨b1, b2, b3⟩ := perotRow_val g P nrm u n r2 hct
    rcases Nat.lt_trichotomy k (g.ctop n) with h | h | h
    · rw [a1 k h, b1 k h]
    · rw [h, a2, b2]
    · rw [a3 k h hk, b3 k h hk]
  have key := forLoop_induct
    (fun m (t : UC) =>
      ∀ iptr, g.celldist 0 ≤ iptr → iptr < g.celldist 0 + m →
        g.ctop (g.cellp iptr) < g.Nk (g.cellp iptr) →
        ∀ k, k < g.Nk (g.cellp iptr) →
          t.uc (g.cellp iptr) k = perotRow g P P.n1 u (g.cellp iptr) (fun _ => 0) k ∧
          t.vc (g.cellp iptr) k = perotRow g P P.n2 u (g.cellp iptr) (fun _ => 0) k)
    (fun iptr (s : UC) =>
      let n := g.cellp iptr
      { uc := setAt s.uc n (perotRow g P P.n1 u n (s.uc n)),
        vc := setAt s.vc n (perotRow g P P.n2 u n (s.vc n)) })
    (g.celldist 0) (g.celldist 1 - g.celldist 0) s
    (by intro iptr h1 h2; omega)
    (by
      intro m t _ ih iptr h1 h2 hct k hk
      by_cases hc : g.cellp iptr = g.cellp (g.celldist 0 + m)
      · simp only
        rw [← hc, setAt_same, setAt_same]
        exact ⟨hind _ _ _ _ hct k hk, hind _ _ _ _ hct k hk⟩
      · simp only
        rw [setAt_other _ _ _ _ hc, setAt_other _ _ _ _ hc]
        have hlt : iptr < g.celldist 0 + m := by
          rcases Nat.lt_or_ge iptr (g.celldist 0 + m) with h | h
          · exact h
          · have : iptr = g.celldist 0 + m := by omega
            rw [this] at hc
            exact absurd rfl hc
        exact ih iptr h1 hlt hct k hk)
  intro iptr h1 h2 hct k hk
  exact key iptr h1 (by omega) hct k hk

/-- C25, as stated, fails below the top layer: in cell 0 of the example mesh (two layers,
`Ac = 2`, flux heights 1, thickness 2, velocity 1 through edge 0) the layer 1 receives
`uc = 1/4`, the face sum weighted by `dzf` and divided by `Ac*dzz`, and not
`(1/Ac) * sum u*n1*def*df = 1/2`. -/
theorem ComputeUCPerot_counterexample :
    (exampleMesh.celldist 0 ≤ 0 ∧ 0 < exampleMesh.celldist 1 ∧
      exampleMesh.ctop (exampleMesh.cellp 0) ≤ 1 ∧ 1 < exampleMesh.Nk (exampleMesh.cellp 0) ∧
      perotExample.smoothbot = 0) ∧
    (ComputeUCPerot exampleMesh perotExample examplePhys.u perotStart).uc
        (exampleMesh.cellp 0) 1 = 1 / 4 ∧
    (1 / exampleMesh.Ac (exampleMesh.cellp 0)) *
        (∑ nf in Finset.range (exampleMesh.nfaces (exampleMesh.cellp 0)),
          examplePhys.u (exampleMesh.face (exampleMesh.cellp 0 * exampleMesh.maxfaces + nf)) 1
            * perotExample.n1 (exampleMesh.face (exampleMesh.cellp 0 * exampleMesh.maxfaces + nf))
            * perotExample.def_ (exampleMesh.cellp 0 * exampleMesh.maxfaces + nf)
            * exampleMesh.df (exampleMesh.face (exampleMesh.cellp 0 * exampleMesh.maxfaces + nf)))
      = 1 / 2 := by
  refine ⟨⟨by decide, by decide, by decide, by decide, rfl⟩, ?_, ?_⟩
  · have hct : exampleMesh.ctop (exampleMesh.cellp 0) < exampleMesh.Nk (exampleMesh.cellp 0) := by
      decide
    rw [(ComputeUCPerot_val exampleMesh perotExample examplePhys.u perotStart 0 (by decide)
      (by decide) hct 1 (by decide)).1]
    rw [(perotRow_val exampleMesh perotExample perotExample.n1 examplePhys.u
      (exampleMesh.cellp 0) (fun _ => 0) hct).2.2 1 (by decide) (by decide)]
    have hn : exampleMesh.nfaces (exampleMesh.cellp 0) = 3 := rfl
    rw [hn]
    simp only [Finset.sum_range_succ, Finset.sum_range_zero]
    simp [perotTerm, perotLayer, exampleMesh, perotExample, examplePhys]
    norm_num
  · have hn : exampleMesh.nfaces (exampleMesh.cellp 0) = 3 := rfl
    rw [hn]
    simp only [Finset.sum_range_succ, Finset.sum_range_zero]
    simp [exampleMesh, perotExample, examplePhys]

/-- C25, amended: for every computational cell `n` with `ctop[n] < Nk[n]` and `smoothbot`
off, `ComputeUCPerot` sets, in the top layer `k = ctop[n]`,
`uc[n][k] = (sum over faces of u[ne][k]*n1[ne]*def[n,nf]*df[ne]) / Ac[n]`; in every layer
`ctop[n] < k < Nk[n]`,
`uc[n][k] = (sum over faces of u[ne][k]*n1[ne]*def[n,nf]*df[ne]*dzf[ne][k]) / (Ac[n]*dzz[n][k])`
when `dzz[n][k] > DRYCELLHEIGHT` and `uc[n][k] = 0` otherwise; and `uc[n][k] = 0` in the
layers above `ctop[n]`. The same holds for `vc` with `n2` in place of `n1`. -/
theorem ComputeUCPerot_formula (g : Grid) (P : PerotGrid) (u : Nat → Nat → REAL) (s : UC)
    (iptr : Nat) (h1 : g.celldist 0 ≤ iptr) (h2 : iptr < g.celldist 1)
    (hct : g.ctop (g.cellp iptr) < g.Nk (g.cellp iptr)) (hsm : P.smoothbot = 0) :
    ((ComputeUCPerot g P u s).uc (g.cellp iptr) (g.ctop (g.cellp iptr))
        = (∑ nf in Finset.range (g.nfaces (g.cellp iptr)),
            u (g.face (g.cellp iptr * g.maxfaces + nf)) (g.ctop (g.cellp iptr))
              * P.n1 (g.face (g.cellp iptr * g.maxfaces + nf))
              * P.def_ (g.cellp iptr * g.maxfaces + nf)
              * g.df (g.face (g.cellp iptr * g.maxfaces + nf))) / g.Ac (g.cellp iptr) ∧
      (ComputeUCPerot g P u s).vc (g.cellp iptr) (g.ctop (g.cellp iptr))
        = (∑ nf in Finset.range (g.nfaces (g.cellp iptr)),
            u (g.face (g.cellp iptr * g.maxfaces + nf)) (g.ctop (g.cellp iptr))
              * P.n2 (g.face (g.cellp iptr * g.maxfaces + nf))
              * P.def_ (g.cellp iptr * g.maxfaces + nf)
              * g.df (g.face (g.cellp iptr * g.maxfaces + nf))) / g.Ac (g.cellp iptr)) ∧
    (∀ k, g.ctop (g.cellp iptr) < k → k < g.Nk (g.cellp iptr) →
      (ComputeUCPerot g P u s).uc (g.cellp iptr) k
        = (if P.dzz (g.cellp iptr) k > P.DRYCELLHEIGHT then
            (∑ nf in Finset.range (g.nfaces (g.cellp iptr)),
              u (g.face (g.cellp iptr * g.maxfaces + nf)) k
                * P.n1 (g.face (g.cellp iptr * g.maxfaces + nf))
                * P.def_ (g.cellp iptr * g.maxfaces + nf)
                * g.df (g.face (g.cellp iptr * g.maxfaces + nf))
                * g.dzf (g.face (g.cellp iptr * g.maxfaces + nf)) k)
              / (g.Ac (g.cellp iptr) * P.dzz (g.cellp iptr) k)
          else 0) ∧
      (ComputeUCPerot g P u s).vc (g.cellp iptr) k
        = (if P.dzz (g.cellp iptr) k > P.DRYCELLHEIGHT then
            (∑ nf in Finset.range (g.nfaces (g.cellp iptr)),
              u (g.face (g.cellp iptr * g.maxfaces + nf)) k
                * P.n2 (g.face (g.cellp iptr * g.maxfaces + nf))
                * P.def_ (g.cellp iptr * g.maxfaces + nf)
                * g.df (g.face (g.cellp iptr * g.maxfaces + nf))
                * g.dzf (g.face (g.cellp iptr * g.maxfaces + nf)) k)
              / (g.Ac (g.cellp iptr) * P.dzz (g.cellp iptr) k)
          else 0)) ∧
    (∀ k, k < g.ctop (g.cellp iptr) →
      (ComputeUCPerot g P u s).uc (g.cellp iptr) k = 0 ∧
      (ComputeUCPerot g P u s).vc (g.cellp iptr) k = 0) := by
  have hval := ComputeUCPerot_val g P u s iptr h1 h2 hct
  obtain ⟨a1, a2, a3⟩ := perotRow_val g P P.n1 u (g.cellp iptr) (fun _ => 0) hct
  obtain ⟨b1, b2, b3⟩ := perotRow_val g P P.n2 u (g.cellp iptr) (fun _ => 0) hct
  have hl : ∀ ne k, perotLayer g P ne k = k := by
    intro ne k
    unfold perotLayer
    rw [if_pos (Or.inl hsm)]
  refine ⟨⟨?_, ?_⟩, ?_, ?_⟩
  · rw [(hval _ hct).1, a2]
    simp only [perotTopTerm, hl]
  · rw [(hval _ hct).2, b2]
    simp only [perotTopTerm, hl]
  · intro k hk1 hk2
    rw [(hval k hk2).1, (hval k hk2).2, a3 k hk1 hk2, b3 k hk1 hk2]
    simp only [perotTerm, hl]
    exact ⟨trivial, trivial⟩
  · intro k hk
    rw [(hval k (by omega)).1, (hval k (by omega)).2, a1 k hk, b1 k hk]
    exact ⟨rfl, rfl⟩

/-- C25, amended, at cell 0 of the example mesh. -/
theorem ComputeUCPerot_formula_witness :
    (exampleMesh.celldist 0 ≤ 0 ∧ 0 < exampleMesh.celldist 1 ∧
      exampleMesh.ctop (exampleMesh.cellp 0) < exampleMesh.Nk (exampleMesh.cellp 0) ∧
      perotExample.smoothbot = 0 ∧ exampleMesh.ctop (exampleMesh.cellp 0) < 1 ∧
      1 < exampleMesh.Nk (exampleMesh.cellp 0)) ∧
    (ComputeUCPerot exampleMesh perotExample examplePhys.u perotStart).uc
        (exampleMesh.cellp 0) 1
      = (if perotExample.dzz (exampleMesh.cellp 0) 1 > perotExample.DRYCELLHEIGHT then
          (∑ nf in Finset.range (exampleMesh.nfaces (exampleMesh.cellp 0)),
            examplePhys.u (exampleMesh.face (exampleMesh.cellp 0 * exampleMesh.maxfaces + nf)) 1
              * perotExample.n1 (exampleMesh.face (exampleMesh.cellp 0 * exampleMesh.maxfaces + nf))
              * perotExample.def_ (exampleMesh.cellp 0 * exampleMesh.maxfaces + nf)
              * exampleMesh.df (exampleMesh.face (exampleMesh.cellp 0 * exampleMesh.maxfaces + nf))
              * exampleMesh.dzf (exampleMesh.face (exampleMesh.cellp 0 * exampleMesh.maxfaces + nf))
                  1)
            / (exampleMesh.Ac (exampleMesh.cellp 0) * perotExample.dzz (exampleMesh.cellp 0) 1)
        else 0) :=
  ⟨⟨by decide, by decide, by decide, rfl, by decide, by decide⟩,
   ((ComputeUCPerot_formula exampleMesh perotExample examplePhys.u perotStart 0 (by decide)
      (by decide) (by decide) rfl).2.1 1 (by decide) (by decide)).1⟩

/-! ## `ConditionQ` against the diagonal of `OperatorQ` -/

/-- C24: the value stored by `ConditionQ` is not the square root of the magnitude of the
diagonal of `OperatorQ`. (1) In the single-layer island cell (three faces with `D = 3`,
flux heights and thickness 1, `Ac = 2`) `ConditionQ` stores `sqrt(9)`, the horizontal sum
alone, while the diagonal coefficient of `OperatorQ` is `-13`: the vertical term
`2*coef[ctop]` is missing. (2) In cell 0 of the two-layer example mesh with thickness 2 and
flux heights 1 `ConditionQ` stores `sqrt(7)` in the top layer, having weighted `D` by
`dzz[i][k]`, while the diagonal coefficient of `OperatorQ`, which weights `D` by
`dzf[ne][k]`, is `-5`. -/
theorem ConditionQ_differs_from_operator_diagonal :
    (∀ sqrt : REAL → REAL,
      (ConditionQ sqrt islandMesh (fun _ _ => 1) (fun _ => 3) condStart).x 0 0 = sqrt 9) ∧
    OperatorQ islandMesh (fun _ => 3) (QCoefficients islandMesh (fun _ _ => 1) (fun _ _ => 0))
      unitField (fun _ _ => 0) 0 0 = -13 ∧
    (∀ sqrt : REAL → REAL,
      (ConditionQ sqrt exampleMesh (fun _ _ => 2) examplePhys.D condStart).x 0 0 = sqrt 7) ∧
    OperatorQ exampleMesh examplePhys.D
      (QCoefficients exampleMesh (fun _ _ => 2) (fun _ _ => 0))
      unitField (fun _ _ => 0) 0 0 = -5 := by
  refine ⟨?_, ?_, ?_, ?_⟩
  · intro sqrt
    simp [ConditionQ, conditionCell, conditionRoot, forLoop, islandMesh, condStart]
    unfold setAt
    norm_num
  · simp [OperatorQ, qColumn, QCoefficients, forLoop, islandMesh, unitField]
    unfold setAt
    norm_num
  · intro sqrt
    simp [ConditionQ, conditionCell, conditionRoot, forLoop, exampleMesh, condStart,
      examplePhys]
    unfold setAt
    norm_num
  · simp [OperatorQ, qColumn, QCoefficients, forLoop, exampleMesh, unitField,
      examplePhys]
    unfold setAt
    norm_num

/-! ## Bilinear form of the free-surface operator -/

/-- A listing of all cells turns a sum over the list into the sum over the cells. -/
theorem cellListing_sum (g : Grid) (hl : CellListing g) (f : Nat → REAL) :
    ∑ a in Finset.range g.Nc, f (g.cellp a) = ∑ i in Finset.range g.Nc, f i := by
  classical
  have hinj : Set.InjOn g.cellp (Finset.range g.Nc : Set Nat) := by
    intro a ha b hb hab
    exact hl.inj a b (Finset.mem_range.mp (Finset.mem_coe.mp ha))
      (Finset.mem_range.mp (Finset.mem_coe.mp hb)) hab
  have himg : (Finset.range g.Nc).image g.cellp = Finset.range g.Nc := by
    apply Finset.eq_of_subset_of_card_le
    · intro i hi
      obtain ⟨a, ha, rfl⟩ := Finset.mem_image.mp hi
      exact Finset.mem_range.mpr (hl.range a (Finset.mem_range.mp ha))
    · rw [Finset.card_image_of_injOn hinj]
  rw [← Finset.sum_image (fun a ha b hb hab => hinj (Finset.mem_coe.mpr ha)
    (Finset.mem_coe.mpr hb) hab), himg]

theorem cellListing_all (g : Grid) (hl : CellListing g) (i : Nat) (hi : i < g.Nc) :
    ∃ iptr, g.celldist 0 ≤ iptr ∧ iptr < g.celldist 1 ∧ g.cellp iptr = i := by
  classical
  have hinj : Set.InjOn g.cellp (Finset.range g.Nc : Set Nat) := by
    intro a ha b hb hab
    exact hl.inj a b (Finset.mem_range.mp (Finset.mem_coe.mp ha))
      (Finset.mem_range.mp (Finset.mem_coe.mp hb)) hab
  have himg : (Finset.range g.Nc).image g.cellp = Finset.range g.Nc := by
    apply Finset.eq_of_subset_of_card_le
    · intro i hi
      obtain ⟨a, ha, rfl⟩ := Finset.mem_image.mp hi
      exact Finset.mem_range.mpr (hl.range a (Finset.mem_range.mp ha))
    · rw [Finset.card_image_of_injOn hinj]
  have hmem : i ∈ (Finset.range g.Nc).image g.cellp := by
    rw [himg]; exact Finset.mem_range.mpr hi
  obtain ⟨a, ha, hai⟩ := Finset.mem_image.mp hmem
  exact ⟨a, by rw [hl.start]; omega, by rw [hl.stop]; exact Finset.mem_range.mp ha, hai⟩

/-- `InnerProduct` over a listing of all cells is the sum over the cells. -/
theorem innerProduct_sum (g : Grid) (hl : CellListing g) (x y : Nat → REAL) :
    InnerProduct g x y = ∑ i in Finset.range g.Nc, x i * y i := by
  unfold InnerProduct
  rw [forLoop_add (fun iptr => x (g.cellp iptr) * y (g.cellp iptr)), hl.start, hl.stop,
    Nat.sub_zero, zero_add]
  simp only [Nat.zero_add]
  exact cellListing_sum g hl (fun i => x i * y i)

/-- The half-edge sum of `fcoef*(x[a]-x[b])*y[a]` is half the sum of
`fcoef*(x[a]-x[b])*(y[a]-y[b])`. -/
theorem coupling_bilinear (g : Grid) (pr : Props) (D x y : Nat → REAL)
    (hm : MutualAdjacency g) :
    ∑ i in Finset.range g.Nc, ∑ nf in Finset.range (g.nfaces i),
      (if g.neigh (i * g.maxfaces + nf) ≠ -1 then
        faceCoef g pr D i nf * (x i - x (g.neigh (i * g.maxfaces + nf)).toNat) * y i
      else 0)
    = 1 / 2 * ∑ i in Finset.range g.Nc, ∑ nf in Finset.range (g.nfaces i),
        (if g.neigh (i * g.maxfaces + nf) ≠ -1 then
          faceCoef g pr D i nf * (x i - x (g.neigh (i * g.maxfaces + nf)).toNat)
            * (y i - y (g.neigh (i * g.maxfaces + nf)).toNat)
        else 0) := by
  have hz : ∑ i in Finset.range g.Nc, ∑ nf in Finset.range (g.nfaces i),
      (if g.neigh (i * g.maxfaces + nf) ≠ -1 then
        faceCoef g pr D i nf * (x i - x (g.neigh (i * g.maxfaces + nf)).toNat)
          * (y i + y (g.neigh (i * g.maxfaces + nf)).toNat)
      else 0) = 0 := by
    apply halfedge_cancel g hm
    · intro i nf _ _ hn
      rw [if_neg (by simp [hn])]
    · intro i nf j nf' _ _ _ _ hij hf hji _
      have h1 : g.neigh (i * g.maxfaces + nf) ≠ -1 := by rw [hij]; omega
      have h2 : g.neigh (j * g.maxfaces + nf') ≠ -1 := by rw [hji]; omega
      rw [if_pos h1, if_pos h2, hij, hji]
      have hc : faceCoef g pr D j nf' = faceCoef g pr D i nf := by
        unfold faceCoef; rw [hf]
      rw [hc]
      simp only [Int.toNat_ofNat]
      ring
  have hsplit : ∀ i nf,
      (if g.neigh (i * g.maxfaces + nf) ≠ -1 then
        faceCoef g pr D i nf * (x i - x (g.neigh (i * g.maxfaces + nf)).toNat) * y i
      else 0)
      = 1 / 2 * (if g.neigh (i * g.maxfaces + nf) ≠ -1 then
          faceCoef g pr D i nf * (x i - x (g.neigh (i * g.maxfaces + nf)).toNat)
            * (y i - y (g.neigh (i * g.maxfaces + nf)).toNat)
        else 0)
      + 1 / 2 * (if g.neigh (i * g.maxfaces + nf) ≠ -1 then
          faceCoef g pr D i nf * (x i - x (g.neigh (i * g.maxfaces + nf)).toNat)
            * (y i + y (g.neigh (i * g.maxfaces + nf)).toNat)
        else 0) := by
    intro i nf
    by_cases hn : g.neigh (i * g.maxfaces + nf) ≠ -1
    · rw [if_pos hn, if_pos hn, if_pos hn]; ring
    · rw [if_neg hn, if_neg hn, if_neg hn]; ring
  simp only [hsplit, Finset.sum_add_distrib, ← Finset.mul_sum]
  rw [hz]
  ring

/-- With the coefficients of `HCoefficients` and no degenerate cell, the pairing of `y`
with `OperatorH(x)` is the bilinear form. -/
theorem OperatorH_pairing (g : Grid) (pr : Props) (D h : Nat → REAL) (s0 : HCoefState)
    (hl : CellListing g)
    (hnf : ∀ iptr, g.celldist 0 ≤ iptr → iptr < g.celldist 1 →
      g.nfaces (g.cellp iptr) ≤ g.maxfaces)
    (hm : MutualAdjacency g) (hcp : ∀ i, i < g.Nc → Coupled g pr D i)
    (x y y0 : Nat → REAL) :
    ∑ i in Finset.range g.Nc,
      y i * OperatorH g x y0 (HCoefficients g pr D h s0).coef (HCoefficients g pr D h s0).fcoef i
    = energyForm g pr D x y := by
  have hop : ∀ i, i ∈ Finset.range g.Nc →
      y i * OperatorH g x y0 (HCoefficients g pr D h s0).coef
        (HCoefficients g pr D h s0).fcoef i
      = g.Ac i * x i * y i + ∑ nf in Finset.range (g.nfaces i),
          (if g.neigh (i * g.maxfaces + nf) ≠ -1 then
            faceCoef g pr D i nf * (x i - x (g.neigh (i * g.maxfaces + nf)).toNat) * y i
          else 0) := by
    intro i hi
    have hi2 := Finset.mem_range.mp hi
    obtain ⟨iptr, h1, h2, rfl⟩ := cellListing_all g hl i hi2
    rw [OperatorH_coupled g pr D h s0 x y0 hnf iptr h1 h2 (hcp _ hi2)]
    unfold operatorStencil
    rw [mul_add, Finset.mul_sum]
    congr 1
    · ring
    · apply Finset.sum_congr rfl
      intro nf _
      by_cases hn : g.neigh (g.cellp iptr * g.maxfaces + nf) ≠ -1
      · rw [if_pos hn, if_pos hn]; ring
      · rw [if_neg hn, if_neg hn]; ring
  rw [Finset.sum_congr rfl hop, Finset.sum_add_distrib, coupling_bilinear g pr D x y hm]
  rfl

/-- The bilinear form is symmetric. -/
theorem energyForm_symm (g : Grid) (pr : Props) (D x y : Nat → REAL) :
    energyForm g pr D x y = energyForm g pr D y x := by
  unfold energyForm
  congr 1
  · apply Finset.sum_congr rfl
    intro i _
    ring
  · congr 1
    apply Finset.sum_congr rfl
    intro i _
    apply Finset.sum_congr rfl
    intro nf _
    by_cases hn : g.neigh (i * g.maxfaces + nf) ≠ -1
    · rw [if_pos hn, if_pos hn]; ring
    · rw [if_neg hn, if_neg hn]

/-- With positive areas and face coefficients that are not negative the form is positive
on every vector that is not zero. -/
theorem energyForm_pos (g : Grid) (pr : Props) (D p : Nat → REAL)
    (hA : ∀ i, i < g.Nc → 0 < g.Ac i)
    (hfc : ∀ i nf, 0 ≤ faceCoef g pr D i nf)
    (i : Nat) (hi : i < g.Nc) (hp : p i ≠ 0) : 0 < energyForm g pr D p p := by
  unfold energyForm
  have h1 : 0 < ∑ i in Finset.range g.Nc, g.Ac i * p i * p i := by
    apply Finset.sum_pos'
    · intro a ha
      have := hA a (Finset.mem_range.mp ha)
      have h2 : 0 ≤ p a * p a := mul_self_nonneg _
      rw [mul_assoc]
      exact mul_nonneg (le_of_lt this) h2
    · refine ⟨i, Finset.mem_range.mpr hi, ?_⟩
      have h2 : 0 < p i * p i := mul_self_pos.mpr hp
      rw [mul_assoc]
      exact mul_pos (hA i hi) h2
  have h2 : 0 ≤ ∑ i in Finset.range g.Nc, ∑ nf in Finset.range (g.nfaces i),
      (if g.neigh (i * g.maxfaces + nf) ≠ -1 then
        faceCoef g pr D i nf * (p i - p (g.neigh (i * g.maxfaces + nf)).toNat)
          * (p i - p (g.neigh (i * g.maxfaces + nf)).toNat)
      else 0) := by
    apply Finset.sum_nonneg
    intro a _
    apply Finset.sum_nonneg
    intro nf _
    by_cases hn : g.neigh (a * g.maxfaces + nf) ≠ -1
    · rw [if_pos hn, mul_assoc]
      exact mul_nonneg (hfc a nf) (mul_self_nonneg _)
    · rw [if_neg hn]
  linarith

/-- When some face coefficient is positive and `D`, `df`, `dg` have the stated signs, no
face coefficient is negative. -/
theorem faceCoef_nonneg (g : Grid) (pr : Props) (D : Nat → REAL)
    (hD : ∀ j, 0 ≤ D j) (hdf : ∀ j, 0 < g.df j) (hdg : ∀ j, 0 < g.dg j)
    (i0 nf0 : Nat) (hpos : faceCoef g pr D i0 nf0 > 0) (i nf : Nat) :
    0 ≤ faceCoef g pr D i nf := by
  have hc : 0 ≤ pr.grav * (pr.imfac1 * pr.dt) ^ 2 := by
    by_contra hneg
    have hlt : pr.grav * (pr.imfac1 * pr.dt) ^ 2 < 0 := lt_of_not_ge hneg
    have h1 : pr.grav * (pr.imfac1 * pr.dt) ^ 2 * D (g.face (i0 * g.maxfaces + nf0)) ≤ 0 :=
      mul_nonpos_of_nonpos_of_nonneg (le_of_lt hlt) (hD _)
    have h2 : pr.grav * (pr.imfac1 * pr.dt) ^ 2 * D (g.face (i0 * g.maxfaces + nf0))
        * g.df (g.face (i0 * g.maxfaces + nf0)) ≤ 0 :=
      mul_nonpos_of_nonpos_of_nonneg h1 (le_of_lt (hdf _))
    have h3 : faceCoef g pr D i0 nf0 ≤ 0 := by
      unfold faceCoef
      exact div_nonpos_of_nonpos_of_nonneg h2 (le_of_lt (hdg _))
    linarith
  unfold faceCoef
  exact div_nonneg (mul_nonneg (mul_nonneg hc (hD _)) (le_of_lt (hdf _))) (le_of_lt (hdg _))

/-- C27: on a mesh where every cell is computational and listed once, adjacency is mutual
and no cell is degenerate in `HCoefficients`, for all vectors `x` and `y`,
`sum_i y[i]*OperatorH(x)[i] = sum_i Ac[i]*x[i]*y[i]` plus the sum over the interior edges
`e = (a,b)` of `fcoef_e*(x[a]-x[b])*(y[a]-y[b])` with
`fcoef_e = grav*(imfac1*dt)^2*D[e]*df[e]/dg[e]`; hence `OperatorH` is symmetric; and with
`Ac > 0`, `D >= 0`, `df, dg > 0` the step-size denominator
`InnerProduct(p, OperatorH(p))` of `CGSolve` is strictly positive for every `p` that is not
zero. -/
theorem OperatorH_symmetric_positive (g : Grid) (pr : Props) (D h : Nat → REAL)
    (s0 : HCoefState) (hl : CellListing g)
    (hnf : ∀ iptr, g.celldist 0 ≤ iptr → iptr < g.celldist 1 →
      g.nfaces (g.cellp iptr) ≤ g.maxfaces)
    (hm : MutualAdjacency g) (hcp : ∀ i, i < g.Nc → Coupled g pr D i) :
    (∀ x y y0 : Nat → REAL,
      ∑ i in Finset.range g.Nc,
        y i * OperatorH g x y0 (HCoefficients g pr D h s0).coef
          (HCoefficients g pr D h s0).fcoef i
      = energyForm g pr D x y) ∧
    (∀ x y y0 y1 : Nat → REAL,
      ∑ i in Finset.range g.Nc,
        y i * OperatorH g x y0 (HCoefficients g pr D h s0).coef
          (HCoefficients g pr D h s0).fcoef i
      = ∑ i in Finset.range g.Nc,
        x i * OperatorH g y y1 (HCoefficients g pr D h s0).coef
          (HCoefficients g pr D h s0).fcoef i) ∧
    ((∀ i, i < g.Nc → 0 < g.Ac i) → (∀ j, 0 ≤ D j) → (∀ j, 0 < g.df j) →
      (∀ j, 0 < g.dg j) →
      ∀ p z0 : Nat → REAL, (∃ i, i < g.Nc ∧ p i ≠ 0) →
        0 < InnerProduct g p (OperatorH g p z0 (HCoefficients g pr D h s0).coef
          (HCoefficients g pr D h s0).fcoef)) := by
  refine ⟨?_, ?_, ?_⟩
  · intro x y y0
    exact OperatorH_pairing g pr D h s0 hl hnf hm hcp x y y0
  · intro x y y0 y1
    rw [OperatorH_pairing g pr D h s0 hl hnf hm hcp x y y0,
      OperatorH_pairing g pr D h s0 hl hnf hm hcp y x y1]
    exact energyForm_symm g pr D x y
  · intro hA hD hdf hdg p z0 hp
    obtain ⟨i, hi, hpi⟩ := hp
    obtain ⟨nf0, _, _, hpos⟩ := hcp i hi
    have hfc := faceCoef_nonneg g pr D hD hdf hdg i nf0 hpos
    rw [innerProduct_sum g hl, OperatorH_pairing g pr D h s0 hl hnf hm hcp p p z0]
    exact energyForm_pos g pr D p hA hfc i hi hpi

/-- The example mesh lists its two cells once. -/
theorem exampleMesh_listing : CellListing exampleMesh where
  start := rfl
  stop := rfl
  range := by intro a ha; exact ha
  inj := by intro a b _ _ hab; exact hab

/-- C27 at the example mesh, for the vectors `(3, 5)` and `(1, -2)`. -/
theorem OperatorH_symmetric_positive_witness :
    (CellListing exampleMesh ∧ MutualAdjacency exampleMesh ∧
      (∀ i, i < exampleMesh.Nc → Coupled exampleMesh exampleProps examplePhys.D i) ∧
      (∀ i, i < exampleMesh.Nc → 0 < exampleMesh.Ac i) ∧ (∀ j, 0 ≤ examplePhys.D j) ∧
      (∀ j, 0 < exampleMesh.df j) ∧ (∀ j, 0 < exampleMesh.dg j)) ∧
    (∑ i in Finset.range exampleMesh.Nc,
        (if i = 0 then (1 : REAL) else -2) *
          OperatorH exampleMesh (fun i => if i = 0 then 3 else 5) (fun _ => 0)
            (HCoefficients exampleMesh exampleProps examplePhys.D examplePhys.h zeroCoefs).coef
            (HCoefficients exampleMesh exampleProps examplePhys.D examplePhys.h zeroCoefs).fcoef i
      = energyForm exampleMesh exampleProps examplePhys.D (fun i => if i = 0 then 3 else 5)
          (fun i => if i = 0 then 1 else -2)) ∧
    0 < InnerProduct exampleMesh (fun i => if i = 0 then 3 else 5)
        (OperatorH exampleMesh (fun i => if i = 0 then 3 else 5) (fun _ => 0)
          (HCoefficients exampleMesh exampleProps examplePhys.D examplePhys.h zeroCoefs).coef
          (HCoefficients exampleMesh exampleProps examplePhys.D examplePhys.h zeroCoefs).fcoef) := by
  have hnf : ∀ iptr, exampleMesh.celldist 0 ≤ iptr → iptr < exampleMesh.celldist 1 →
      exampleMesh.nfaces (exampleMesh.cellp iptr) ≤ exampleMesh.maxfaces := by
    intro iptr _ _; simp [exampleMesh]
  have hA : ∀ i, i < exampleMesh.Nc → 0 < exampleMesh.Ac i := by
    intro i _; simp [exampleMesh]
  have hD : ∀ j, 0 ≤ examplePhys.D j := by
    intro j; simp only [examplePhys]; split <;> norm_num
  have hdf : ∀ j, 0 < exampleMesh.df j := by intro j; simp [exampleMesh]
  have hdg : ∀ j, 0 < exampleMesh.dg j := by intro j; simp [exampleMesh]
  have key := OperatorH_symmetric_positive exampleMesh exampleProps examplePhys.D examplePhys.h
    zeroCoefs exampleMesh_listing hnf exampleMesh_mutual exampleMesh_coupled
  exact ⟨⟨exampleMesh_listing, exampleMesh_mutual, exampleMesh_coupled, hA, hD, hdf, hdg⟩,
    key.1 (fun i => if i = 0 then 3 else 5) (fun i => if i = 0 then 1 else -2) (fun _ => 0),
    key.2.2 hA hD hdf hdg (fun i => if i = 0 then 3 else 5) (fun _ => 0)
      ⟨0, by decide, by simp⟩⟩

/-! ## Residual of `CGSolve` -/

/-- A loop over the computational cells whose body writes the entry of its own cell only
leaves the entries of the other cells. -/
theorem cellLoop_frame {σ : Type} (g : Grid) (f : σ → Nat → REAL) (body : Nat → σ → σ)
    (hb : ∀ iptr t j, j ≠ g.cellp iptr → f (body iptr t) j = f t j) (s : σ) (j : Nat)
    (hj : NotComputational g j) :
    f (forLoop body (g.celldist 0) (g.celldist 1 - g.celldist 0) s) j = f s j := by
  exact forLoop_induct (fun _ t => f t j = f s j) body (g.celldist 0)
    (g.celldist 1 - g.celldist 0) s rfl
    (by
      intro m t hm ht
      have hne : j ≠ g.cellp (g.celldist 0 + m) :=
        fun e => hj (g.celldist 0 + m) (by omega) (by omega) e.symm
      rw [hb _ _ _ hne]
      exact ht)

/-- A loop that zeroes the entries of the listed cells. -/
theorem zeroCells (g : Grid) (lo n : Nat) (x : Nat → REAL) :
    (∀ a, lo ≤ a → a < lo + n →
      forLoop (fun iptr (x : Nat → REAL) => setAt x (g.cellp iptr) 0) lo n x (g.cellp a) = 0) ∧
    (∀ j, (∀ a, lo ≤ a → a < lo + n → g.cellp a ≠ j) →
      forLoop (fun iptr (x : Nat → REAL) => setAt x (g.cellp iptr) 0) lo n x j = x j) := by
  exact forLoop_induct
    (fun m (t : Nat → REAL) =>
      (∀ a, lo ≤ a → a < lo + m → t (g.cellp a) = 0) ∧
      (∀ j, (∀ a, lo ≤ a → a < lo + m → g.cellp a ≠ j) → t j = x j))
    (fun iptr (x : Nat → REAL) => setAt x (g.cellp iptr) 0) lo n x
    ⟨by intro a h1 h2; omega, by intro j _; rfl⟩
    (by
      intro m t _ ih
      obtain ⟨ih1, ih2⟩ := ih
      refine ⟨?_, ?_⟩
      · intro a h1 h2
        show setAt t (g.cellp (lo + m)) 0 (g.cellp a) = 0
        by_cases hc : g.cellp a = g.cellp (lo + m)
        · rw [hc, setAt_same]
        · rw [setAt_other _ _ _ _ hc]
          have hlt : a < lo + m := by
            rcases Nat.lt_or_ge a (lo + m) with h | h
            · exact h
            · have : a = lo + m := by omega
              rw [this] at hc
              exact absurd rfl hc
          exact ih1 a h1 hlt
      · intro j hj
        have hne : j ≠ g.cellp (lo + m) := fun e => hj (lo + m) (by omega) (by omega) e.symm
        show setAt t (g.cellp (lo + m)) 0 j = x j
        rw [setAt_other _ _ _ _ hne]
        exact ih2 j (fun a h1 h2 => hj a h1 (by omega)))

/-- `OperatorH` writes `operatorRow` in every computational cell. -/
theorem OperatorH_row (g : Grid) (x y coef fcoef : Nat → REAL) (iptr : Nat)
    (h1 : g.celldist 0 ≤ iptr) (h2 : iptr < g.celldist 1) :
    OperatorH g x y coef fcoef (g.cellp iptr) = operatorRow g coef fcoef x (g.cellp iptr) :=
  (OperatorH_val g x y coef fcoef).1 iptr h1 h2

/-- `operatorRow` at a cell depends on `x` at the cell and at its neighbours only, and is
linear there. -/
theorem operatorRow_axpy (g : Grid) (coef fcoef x p x' : Nat → REAL) (nu : REAL) (i : Nat)
    (hi : x' i = x i + nu * p i)
    (hn : ∀ nf, nf < g.nfaces i → g.neigh (i * g.maxfaces + nf) ≠ -1 →
      x' (g.neigh (i * g.maxfaces + nf)).toNat
        = x (g.neigh (i * g.maxfaces + nf)).toNat + nu * p (g.neigh (i * g.maxfaces + nf)).toNat) :
    operatorRow g coef fcoef x' i
      = operatorRow g coef fcoef x i + nu * operatorRow g coef fcoef p i := by
  unfold operatorRow
  rw [hi]
  have hsum : ∑ nf in Finset.range (g.nfaces i),
      (if g.neigh (i * g.maxfaces + nf) ≠ -1 then
        fcoef (i * g.maxfaces + nf) * x' (g.neigh (i * g.maxfaces + nf)).toNat else 0)
      = ∑ nf in Finset.range (g.nfaces i),
          (if g.neigh (i * g.maxfaces + nf) ≠ -1 then
            fcoef (i * g.maxfaces + nf) * x (g.neigh (i * g.maxfaces + nf)).toNat else 0)
        + nu * ∑ nf in Finset.range (g.nfaces i),
          (if g.neigh (i * g.maxfaces + nf) ≠ -1 then
            fcoef (i * g.maxfaces + nf) * p (g.neigh (i * g.maxfaces + nf)).toNat else 0) := by
    rw [Finset.mul_sum, ← Finset.sum_add_distrib]
    apply Finset.sum_congr rfl
    intro nf hnf
    by_cases hc : g.neigh (i * g.maxfaces + nf) ≠ -1
    · rw [if_pos hc, if_pos hc, if_pos hc, hn nf (Finset.mem_range.mp hnf) hc]; ring
    · rw [if_neg hc, if_neg hc, if_neg hc]; ring
  rw [hsum]
  ring

/-- The update of `x` and `r`: every computational cell moves by `nu*p` and `-nu*z`, the
other cells and the other arrays stay. -/
theorem cgUpdate_spec (g : Grid) (nu : REAL) (z : Nat → REAL) (s : CGState)
    (hinj : ComputationalOnce g) :
    (cgUpdate g nu z s).p = s.p ∧ (cgUpdate g nu z s).coef = s.coef ∧
    (cgUpdate g nu z s).fcoef = s.fcoef ∧ (cgUpdate g nu z s).rtmp = s.rtmp ∧
    (∀ a, g.celldist 0 ≤ a → a < g.celldist 1 →
      (cgUpdate g nu z s).x (g.cellp a) = s.x (g.cellp a) + nu * s.p (g.cellp a) ∧
      (cgUpdate g nu z s).r (g.cellp a) = s.r (g.cellp a) - nu * z (g.cellp a)) ∧
    (∀ j, NotComputational g j → (cgUpdate g nu z s).x j = s.x j) := by
  have key := forLoop_induct
    (fun m (t : CGState) =>
      t.p = s.p ∧ t.coef = s.coef ∧ t.fcoef = s.fcoef ∧ t.rtmp = s.rtmp ∧
      (∀ a, g.celldist 0 ≤ a → a < g.celldist 0 + m →
        t.x (g.cellp a) = s.x (g.cellp a) + nu * s.p (g.cellp a) ∧
        t.r (g.cellp a) = s.r (g.cellp a) - nu * z (g.cellp a)) ∧
      (∀ j, (∀ a, g.celldist 0 ≤ a → a < g.celldist 0 + m → g.cellp a ≠ j) →
        t.x j = s.x j ∧ t.r j = s.r j))
    (fun iptr (t : CGState) =>
      let i := g.cellp iptr
      { t with x := setAt t.x i (t.x i + nu * t.p i), r := setAt t.r i (t.r i - nu * z i) })
    (g.celldist 0) (g.celldist 1 - g.celldist 0) s
    ⟨rfl, rfl, rfl, rfl, by intro a h1 h2; omega, by intro j _; exact ⟨rfl, rfl⟩⟩
    (by
      intro m t hm ih
      obtain ⟨i1, i2, i3, i4, i5, i6⟩ := ih
      refine ⟨i1, i2, i3, i4, ?_, ?_⟩
      · intro a h1 h2
        show setAt t.x (g.cellp (g.celldist 0 + m)) _ (g.cellp a) = _ ∧
          setAt t.r (g.cellp (g.celldist 0 + m)) _ (g.cellp a) = _
        by_cases hc : a = g.celldist 0 + m
        · subst hc
          have hfresh := i6 (g.cellp (g.celldist 0 + m)) (by
            intro b hb1 hb2 hbe
            have := hinj b (g.celldist 0 + m) hb1 (by omega) h1 (by omega) hbe
            omega)
          rw [setAt_same, setAt_same, hfresh.1, hfresh.2, i1]
          exact ⟨rfl, rfl⟩
        · have hne : g.cellp a ≠ g.cellp (g.celldist 0 + m) := by
            intro hbe
            exact hc (hinj a (g.celldist 0 + m) h1 (by omega) (by omega) (by omega) hbe)
          rw [setAt_other _ _ _ _ hne, setAt_other _ _ _ _ hne]
          exact i5 a h1 (by omega)
      · intro j hj
        have hne : j ≠ g.cellp (g.celldist 0 + m) :=
          fun e => hj (g.celldist 0 + m) (by omega) (by omega) e.symm
        show setAt t.x (g.cellp (g.celldist 0 + m)) _ j = _ ∧
          setAt t.r (g.cellp (g.celldist 0 + m)) _ j = _
        rw [setAt_other _ _ _ _ hne, setAt_other _ _ _ _ hne]
        exact i6 j (fun a h1 h2 => hj a h1 (by omega)))
  obtain ⟨k1, k2, k3, k4, k5, k6⟩ := key
  refine ⟨k1, k2, k3, k4, ?_, ?_⟩
  · intro a h1 h2
    exact k5 a h1 (by omega)
  · intro j hj
    exact (k6 j (fun a h1 h2 => hj a h1 (by omega))).1

/-- The loop at lines 4604-4610: in every computational cell `r = p - z` with the entry
`p`; `x`, which is zero there already, `z` and the coefficients stay. -/
theorem boundaryLoop_spec (g : Grid) (hinj : ComputationalOnce g) (s1 : CGState)
    (hx : ∀ a, g.celldist 0 ≤ a → a < g.celldist 1 → s1.x (g.cellp a) = 0) :
    (forLoop (fun iptr (s : CGState) =>
        let i := g.cellp iptr
        let p := setAt s.p i (s.p i - s.z i)
        { s with p := p, r := setAt s.r i (p i), x := setAt s.x i 0 })
      (g.celldist 0) (g.celldist 1 - g.celldist 0) s1).coef = s1.coef ∧
    (forLoop (fun iptr (s : CGState) =>
        let i := g.cellp iptr
        let p := setAt s.p i (s.p i - s.z i)
        { s with p := p, r := setAt s.r i (p i), x := setAt s.x i 0 })
      (g.celldist 0) (g.celldist 1 - g.celldist 0) s1).fcoef = s1.fcoef ∧
    (forLoop (fun iptr (s : CGState) =>
        let i := g.cellp iptr
        let p := setAt s.p i (s.p i - s.z i)
        { s with p := p, r := setAt s.r i (p i), x := setAt s.x i 0 })
      (g.celldist 0) (g.celldist 1 - g.celldist 0) s1).x = s1.x ∧
    (∀ a, g.celldist 0 ≤ a → a < g.celldist 1 →
      (forLoop (fun iptr (s : CGState) =>
          let i := g.cellp iptr
          let p := setAt s.p i (s.p i - s.z i)
          { s with p := p, r := setAt s.r i (p i), x := setAt s.x i 0 })
        (g.celldist 0) (g.celldist 1 - g.celldist 0) s1).r (g.cellp a)
        = s1.p (g.cellp a) - s1.z (g.cellp a)) := by
  have key := forLoop_induct
    (fun m (t : CGState) =>
      t.z = s1.z ∧ t.coef = s1.coef ∧ t.fcoef = s1.fcoef ∧ t.x = s1.x ∧
      (∀ a, g.celldist 0 ≤ a → a < g.celldist 0 + m →
        t.r (g.cellp a) = s1.p (g.cellp a) - s1.z (g.cellp a)) ∧
      (∀ a, g.celldist 0 + m ≤ a → a < g.celldist 1 → t.p (g.cellp a) = s1.p (g.cellp a)))
    (fun iptr (s : CGState) =>
      let i := g.cellp iptr
      let p := setAt s.p i (s.p i - s.z i)
      { s with p := p, r := setAt s.r i (p i), x := setAt s.x i 0 })
    (g.celldist 0) (g.celldist 1 - g.celldist 0) s1
    ⟨rfl, rfl, rfl, rfl, by intro a h1 h2; omega, by intro a _ _; rfl⟩
    (by
      intro m t hm ih
      obtain ⟨i1, i2, i3, i4, i5, i6⟩ := ih
      refine ⟨i1, i2, i3, ?_, ?_, ?_⟩
      · show setAt t.x (g.cellp (g.celldist 0 + m)) 0 = s1.x
        funext j
        by_cases hj : j = g.cellp (g.celldist 0 + m)
        · rw [hj, setAt_same, hx _ (by omega) (by omega)]
        · rw [setAt_other _ _ _ _ hj, i4]
      · intro a h1 h2
        show setAt t.r (g.cellp (g.celldist 0 + m))
          (setAt t.p (g.cellp (g.celldist 0 + m))
            (t.p (g.cellp (g.celldist 0 + m)) - t.z (g.cellp (g.celldist 0 + m)))
            (g.cellp (g.celldist 0 + m))) (g.cellp a) = _
        by_cases hc : a = g.celldist 0 + m
        · subst hc
          rw [setAt_same, setAt_same, i6 _ (le_refl _) (by omega), i1]
        · have hne : g.cellp a ≠ g.cellp (g.celldist 0 + m) := by
            intro hbe
            exact hc (hinj a (g.celldist 0 + m) h1 (by omega) (by omega) (by omega) hbe)
          rw [setAt_other _ _ _ _ hne]
          exact i5 a h1 (by omega)
      · intro a h1 h2
        show setAt t.p (g.cellp (g.celldist 0 + m)) _ (g.cellp a) = _
        have hne : g.cellp a ≠ g.cellp (g.celldist 0 + m) := by
          intro hbe
          have := hinj a (g.celldist 0 + m) (by omega) h2 (by omega) (by omega) hbe
          omega
        rw [setAt_other _ _ _ _ hne]
        exact i6 a (by omega) h2)
  obtain ⟨_, k2, k3, k4, k5, _⟩ := key
  exact ⟨k2, k3, k4, fun a h1 h2 => k5 a h1 (by omega)⟩

/-- After the treatment of the boundary the residual relation holds with `b` the source
left by `HCoefficients`. -/
theorem cgBoundary_residual (g : Grid) (pr : Props) (ph : Phys) (hinj : ComputationalOnce g) :
    ResidualInv g (hcoefOf g pr ph).htmp (hcoefOf g pr ph).coef (hcoefOf g pr ph).fcoef
      (cgBoundary g pr ph) := by
  obtain ⟨z1, _⟩ := zeroCells g (g.celldist 0) (g.celldist 1 - g.celldist 0) ph.h
  obtain ⟨b1, b2, b3, b4⟩ := boundaryLoop_spec g hinj
    { x := forLoop (fun iptr (x : Nat → REAL) => setAt x (g.cellp iptr) 0)
        (g.celldist 0) (g.celldist 1 - g.celldist 0) ph.h,
      r := ph.hold, rtmp := ph.htmp2,
      z := OperatorH g (forLoop (fun iptr (x : Nat → REAL) => setAt x (g.cellp iptr) 0)
        (g.celldist 0) (g.celldist 1 - g.celldist 0) ph.h) ph.htmp3 (hcoefOf g pr ph).coef
        (hcoefOf g pr ph).fcoef,
      p := (hcoefOf g pr ph).htmp, coef := (hcoefOf g pr ph).coef,
      fcoef := (hcoefOf g pr ph).fcoef, mu := 0, nu := 0, eps := 0, eps0 := 0, alpha := 0,
      alpha0 := 0, n := 0, iters := 0 }
    (fun a h1 h2 => z1 a h1 (by omega))
  unfold cgBoundary ResidualInv
  simp only
  refine ⟨b1, b2, ?_, ?_⟩
  · intro iptr h1 h2
    rw [b4 iptr h1 h2, b3]
    simp only
    rw [OperatorH_row g _ _ _ _ iptr h1 h2]
  · intro j _ hj
    obtain ⟨a, a1, a2, rfl⟩ := hj
    exact (zeroCells g (g.celldist 1) (g.celldist 2 - g.celldist 1) _).1 a a1 (by omega)

/-- The set-up of the first search direction leaves `x`, `r` and the coefficients, and
writes `p` in computational cells only. -/
theorem cgDirection_fields (g : Grid) (pr : Props) (s : CGState) :
    (cgDirection g pr s).x = s.x ∧ (cgDirection g pr s).r = s.r ∧
    (cgDirection g pr s).coef = s.coef ∧ (cgDirection g pr s).fcoef = s.fcoef ∧
    (∀ j, NotComputational g j → (cgDirection g pr s).p j = s.p j) := by
  unfold cgDirection
  by_cases h1 : pr.hprecond = 1 <;> by_cases h2 : pr.resnorm = 0
  · simp only [h1, h2, if_true]
    refine ⟨trivial, trivial, trivial, trivial, ?_⟩
    intro j hj
    exact cellLoop_frame g (fun p => p) _
      (by intro iptr t j hne; exact setAt_other _ _ _ _ hne) s.p j hj
  · simp only [h1, h2, if_true, if_false]
    refine ⟨trivial, trivial, trivial, trivial, ?_⟩
    intro j hj
    exact cellLoop_frame g (fun p => p) _
      (by intro iptr t j hne; exact setAt_other _ _ _ _ hne) s.p j hj
  · simp only [h1, h2, if_true, if_false]
    refine ⟨trivial, trivial, trivial, trivial, ?_⟩
    intro j hj
    exact cellLoop_frame g (fun p => p) _
      (by intro iptr t j hne; exact setAt_other _ _ _ _ hne) s.p j hj
  · simp only [h1, h2, if_false]
    refine ⟨trivial, trivial, trivial, trivial, ?_⟩
    intro j hj
    exact cellLoop_frame g (fun p => p) _
      (by intro iptr t j hne; exact setAt_other _ _ _ _ hne) s.p j hj

/-- One pass of the loop body in terms of the update of `x` and `r`. -/
theorem cgBody_fields (g : Grid) (pr : Props) (s : CGState) :
    (cgBody g pr s).x
      = (cgUpdate g (s.alpha / InnerProduct g s.p (OperatorH g s.p s.z s.coef s.fcoef))
          (OperatorH g s.p s.z s.coef s.fcoef)
          { s with z := OperatorH g s.p s.z s.coef s.fcoef, mu := 1 / s.alpha,
                   nu := s.alpha / InnerProduct g s.p (OperatorH g s.p s.z s.coef s.fcoef) }).x ∧
    (cgBody g pr s).r
      = (cgUpdate g (s.alpha / InnerProduct g s.p (OperatorH g s.p s.z s.coef s.fcoef))
          (OperatorH g s.p s.z s.coef s.fcoef)
          { s with z := OperatorH g s.p s.z s.coef s.fcoef, mu := 1 / s.alpha,
                   nu := s.alpha / InnerProduct g s.p (OperatorH g s.p s.z s.coef s.fcoef) }).r ∧
    (cgBody g pr s).coef
      = (cgUpdate g (s.alpha / InnerProduct g s.p (OperatorH g s.p s.z s.coef s.fcoef))
          (OperatorH g s.p s.z s.coef s.fcoef)
          { s with z := OperatorH g s.p s.z s.coef s.fcoef, mu := 1 / s.alpha,
                   nu := s.alpha / InnerProduct g s.p (OperatorH g s.p s.z s.coef s.fcoef) }).coef ∧
    (cgBody g pr s).fcoef
      = (cgUpdate g (s.alpha / InnerProduct g s.p (OperatorH g s.p s.z s.coef s.fcoef))
          (OperatorH g s.p s.z s.coef s.fcoef)
          { s with z := OperatorH g s.p s.z s.coef s.fcoef, mu := 1 / s.alpha,
                   nu := s.alpha / InnerProduct g s.p (OperatorH g s.p s.z s.coef s.fcoef) }).fcoef ∧
    (∀ j, NotComputational g j →
      (cgBody g pr s).p j
        = (cgUpdate g (s.alpha / InnerProduct g s.p (OperatorH g s.p s.z s.coef s.fcoef))
          (OperatorH g s.p s.z s.coef s.fcoef)
          { s with z := OperatorH g s.p s.z s.coef s.fcoef, mu := 1 / s.alpha,
                   nu := s.alpha / InnerProduct g s.p (OperatorH g s.p s.z s.coef s.fcoef) }).p j) := by
  unfold cgBody cgUpdate
  by_cases h1 : pr.hprecond = 1
  · simp only [h1, if_true]
    refine ⟨trivial, trivial, trivial, trivial, ?_⟩
    intro j hj
    exact cellLoop_frame g (fun p => p) _
      (by intro iptr t j hne; exact setAt_other _ _ _ _ hne) _ j hj
  · simp only [h1, if_false]
    refine ⟨trivial, trivial, trivial, trivial, ?_⟩
    intro j hj
    exact cellLoop_frame g (fun p => p) _
      (by intro iptr t j hne; exact setAt_other _ _ _ _ hne) _ j hj

/-- One pass of the loop body keeps the residual relation. -/
theorem cgBody_residual (g : Grid) (pr : Props) (b coef fcoef : Nat → REAL) (s : CGState)
    (hinj : ComputationalOnce g) (hnb : NeighboursListed g)
    (hs : ResidualInv g b coef fcoef s) : ResidualInv g b coef fcoef (cgBody g pr s) := by
  classical
  obtain ⟨i1, i2, i3, i4⟩ := hs
  obtain ⟨f1, f2, f3, f4, f5⟩ := cgBody_fields g pr s
  obtain ⟨u1, u2, u3, _, u5, u6⟩ := cgUpdate_spec g
    (s.alpha / InnerProduct g s.p (OperatorH g s.p s.z s.coef s.fcoef))
    (OperatorH g s.p s.z s.coef s.fcoef)
    { s with z := OperatorH g s.p s.z s.coef s.fcoef, mu := 1 / s.alpha,
             nu := s.alpha / InnerProduct g s.p (OperatorH g s.p s.z s.coef s.fcoef) } hinj
  refine ⟨?_, ?_, ?_, ?_⟩
  · rw [f3, u2]; exact i1
  · rw [f4, u3]; exact i2
  · intro iptr h1 h2
    obtain ⟨ux, ur⟩ := u5 iptr h1 h2
    rw [f2, f1, ur]
    have hlin := operatorRow_axpy g coef fcoef s.x s.p _
      (s.alpha / InnerProduct g s.p (OperatorH g s.p s.z s.coef s.fcoef)) (g.cellp iptr) ux
      (by
        intro nf hnf hne
        obtain ⟨a, a1, a2, a3⟩ := hnb iptr h1 h2 nf hnf hne
        by_cases hcomp : NotComputational g (g.neigh (g.cellp iptr * g.maxfaces + nf)).toNat
        · have ha : g.celldist 1 ≤ a := by
            by_contra hlt
            exact hcomp a a1 (by omega) a3
          have hp0 : s.p (g.neigh (g.cellp iptr * g.maxfaces + nf)).toNat = 0 :=
            i4 _ hcomp ⟨a, ha, a2, a3⟩
          rw [u6 _ hcomp, hp0]
          show s.x _ = s.x _ + _ * 0
          ring
        · unfold NotComputational at hcomp
          push_neg at hcomp
          obtain ⟨c, c1, c2, c3⟩ := hcomp
          rw [← c3]
          exact (u5 c c1 c2).1)
    rw [hlin]
    show s.r (g.cellp iptr) - _ * _ = _
    rw [i3 iptr h1 h2, OperatorH_row g _ _ _ _ iptr h1 h2, i1, i2]
    ring
  · intro j hj hl
    rw [f5 j hj, u1]
    exact i4 j hj hl

/-- Every number of passes of the loop keeps the residual relation. -/
theorem cgLoop_residual (g : Grid) (pr : Props) (b coef fcoef : Nat → REAL)
    (hinj : ComputationalOnce g) (hnb : NeighboursListed g) :
    ∀ (fuel : Nat) (s : CGState), ResidualInv g b coef fcoef s →
      ResidualInv g b coef fcoef (cgLoop g pr fuel s) := by
  intro fuel
  induction fuel with
  | zero => intro s hs; exact hs
  | succ fuel ih =>
    intro s hs
    have hb := cgBody_residual g pr b coef fcoef s hinj hnb hs
    rw [cgLoop]
    by_cases hc : s.eps ≠ 0 ∧ s.alpha ≠ 0
    · rw [if_pos hc]
      dsimp only
      split_ifs
      · exact hb
      · exact ih _ hb
    · rw [if_neg hc]
      exact hs

/-- The residual relation holds after the initialisation and after any number of passes. -/
theorem cgLoop_start_residual (g : Grid) (pr : Props) (ph : Phys)
    (hinj : ComputationalOnce g) (hnb : NeighboursListed g) (fuel : Nat) :
    ResidualInv g (hcoefOf g pr ph).htmp (hcoefOf g pr ph).coef (hcoefOf g pr ph).fcoef
      (cgLoop g pr fuel (cgStart g pr ph)) := by
  apply cgLoop_residual g pr _ _ _ hinj hnb
  obtain ⟨d1, d2, d3, d4, d5⟩ := cgDirection_fields g pr (cgBoundary g pr ph)
  obtain ⟨i1, i2, i3, i4⟩ := cgBoundary_residual g pr ph hinj
  refine ⟨?_, ?_, ?_, ?_⟩
  · show (cgDirection g pr (cgBoundary g pr ph)).coef = _
    rw [d3]; exact i1
  · show (cgDirection g pr (cgBoundary g pr ph)).fcoef = _
    rw [d4]; exact i2
  · intro iptr h1 h2
    show (cgDirection g pr (cgBoundary g pr ph)).r _
      = _ - operatorRow g _ _ (cgDirection g pr (cgBoundary g pr ph)).x _
    rw [d1, d2]
    exact i3 iptr h1 h2
  · intro j hj hl
    show (cgDirection g pr (cgBoundary g pr ph)).p j = 0
    rw [d5 j hj]
    exact i4 j hj hl

/-- C28: in exact arithmetic on a single rank, after the initialisation of `CGSolve` and
after every pass of its loop (`fuel` passes allowed, for every `fuel`), the stored residual
of every computational cell is `r[i] = b[i] - OperatorH(x)[i]`, with `b` the source `htmp` as
left by `HCoefficients` and `x` the current content of `phys->h`, whose cells outside the
computational range hold their entry values; hence where `CGSolve` returns a zero residual
the returned `h` satisfies `OperatorH(h)[i] = b[i]`. -/
theorem CGSolve_residual_invariant (g : Grid) (pr : Props) (ph : Phys)
    (hinj : ComputationalOnce g) (hnb : NeighboursListed g) (fuel : Nat) (y0 : Nat → REAL)
    (iptr : Nat) (h1 : g.celldist 0 ≤ iptr) (h2 : iptr < g.celldist 1) :
    ((cgLoop g pr fuel (cgStart g pr ph)).r (g.cellp iptr)
      = (hcoefOf g pr ph).htmp (g.cellp iptr)
        - OperatorH g (cgLoop g pr fuel (cgStart g pr ph)).x y0 (hcoefOf g pr ph).coef
            (hcoefOf g pr ph).fcoef (g.cellp iptr)) ∧
    (∀ j, NotComputational g j → (cgLoop g pr fuel (cgStart g pr ph)).x j = ph.h j) ∧
    ((CGSolve g pr ph).hold (g.cellp iptr) = 0 →
      OperatorH g (CGSolve g pr ph).h y0 (hcoefOf g pr ph).coef (hcoefOf g pr ph).fcoef
          (g.cellp iptr)
        = (hcoefOf g pr ph).htmp (g.cellp iptr)) := by
  refine ⟨?_, ?_, ?_⟩
  · obtain ⟨_, _, i3, _⟩ := cgLoop_start_residual g pr ph hinj hnb fuel
    rw [i3 iptr h1 h2, OperatorH_row g _ _ _ _ iptr h1 h2]
  · intro j hj
    show (cgLoop g pr fuel (cgDirection g pr (cgBoundary g pr ph))).x j = ph.h j
    rw [cgLoop_frame g pr j hj, cgDirection_frame, cgBoundary_frame g pr ph j hj]
  · intro hz
    obtain ⟨_, _, i3, _⟩ := cgLoop_start_residual g pr ph hinj hnb pr.maxiters
    have hr : (cgLoop g pr pr.maxiters (cgStart g pr ph)).r (g.cellp iptr) = 0 := hz
    rw [i3 iptr h1 h2] at hr
    show OperatorH g (cgLoop g pr pr.maxiters (cgStart g pr ph)).x y0 _ _ _ = _
    rw [OperatorH_row g _ _ _ _ iptr h1 h2]
    linarith

/-- The example mesh lists no computational cell twice. -/
theorem exampleMesh_once : ComputationalOnce exampleMesh := by
  intro a b _ _ _ _ hab
  exact hab

/-- Every neighbour in the example mesh is a listed cell. -/
theorem exampleMesh_neighbours : NeighboursListed exampleMesh := by
  intro iptr _ h2 nf hnf hne
  have hi : iptr < 2 := h2
  have hf : nf < 3 := hnf
  interval_cases iptr <;> interval_cases nf <;> simp [exampleMesh] at hne ⊢

/-- C28 at cell 0 of the example mesh, with the source `(4, 1)`, after up to two passes of
the loop. -/
theorem CGSolve_residual_invariant_witness :
    (ComputationalOnce exampleMesh ∧ NeighboursListed exampleMesh ∧
      exampleMesh.celldist 0 ≤ 0 ∧ 0 < exampleMesh.celldist 1) ∧
    ((cgLoop exampleMesh exampleProps 2 (cgStart exampleMesh exampleProps forcedPhys)).r
        (exampleMesh.cellp 0)
      = (hcoefOf exampleMesh exampleProps forcedPhys).htmp (exampleMesh.cellp 0)
        - OperatorH exampleMesh
            (cgLoop exampleMesh exampleProps 2 (cgStart exampleMesh exampleProps forcedPhys)).x
            (fun _ => 0) (hcoefOf exampleMesh exampleProps forcedPhys).coef
            (hcoefOf exampleMesh exampleProps forcedPhys).fcoef (exampleMesh.cellp 0)) :=
  ⟨⟨exampleMesh_once, exampleMesh_neighbours, by decide, by decide⟩,
   (CGSolve_residual_invariant exampleMesh exampleProps forcedPhys exampleMesh_once
      exampleMesh_neighbours 2 (fun _ => 0) 0 (by decide) (by decide)).1⟩

/-! ## Pressure correction -/

/-- A loop over a list `idx` without repetition that rewrites the row of each listed
index by a function of that row. -/
theorem rowsLoop_spec (idx : Nat → Nat) (lo n : Nat) (F : Nat → (Nat → REAL) → Nat → REAL)
    (u : Nat → Nat → REAL)
    (hinj : ∀ a b, lo ≤ a → a < lo + n → lo ≤ b → b < lo + n → idx a = idx b → a = b) :
    (∀ a, lo ≤ a → a < lo + n →
      forLoop (fun a (u : Nat → Nat → REAL) => setAt u (idx a) (F (idx a) (u (idx a)))) lo n u
        (idx a) = F (idx a) (u (idx a))) ∧
    (∀ j, (∀ a, lo ≤ a → a < lo + n → idx a ≠ j) →
      forLoop (fun a (u : Nat → Nat → REAL) => setAt u (idx a) (F (idx a) (u (idx a)))) lo n u j
        = u j) := by
  have key := forLoop_induct
    (fun m (t : Nat → Nat → REAL) =>
      (∀ a, lo ≤ a → a < lo + m → t (idx a) = F (idx a) (u (idx a))) ∧
      (∀ j, (∀ a, lo ≤ a → a < lo + m → idx a ≠ j) → t j = u j))
    (fun a (u : Nat → Nat → REAL) => setAt u (idx a) (F (idx a) (u (idx a)))) lo n u
    ⟨by intro a h1 h2; omega, by intro j _; rfl⟩
    (by
      intro m t hm ih
      obtain ⟨i1, i2⟩ := ih
      refine ⟨?_, ?_⟩
      · intro a h1 h2
        show setAt t (idx (lo + m)) (F (idx (lo + m)) (t (idx (lo + m)))) (idx a) = _
        by_cases hc : a = lo + m
        · subst hc
          rw [setAt_same, i2 (idx (lo + m)) (by
            intro b hb1 hb2 hbe
            have := hinj b (lo + m) hb1 (by omega) (by omega) (by omega) hbe
            omega)]
        · have hne : idx a ≠ idx (lo + m) := by
            intro hbe
            exact hc (hinj a (lo + m) h1 (by omega) (by omega) (by omega) hbe)
          rw [setAt_other _ _ _ _ hne]
          exact i1 a h1 (by omega)
      · intro j hj
        have hne : j ≠ idx (lo + m) := fun e => hj (lo + m) (by omega) (by omega) e.symm
        show setAt t (idx (lo + m)) _ j = u j
        rw [setAt_other _ _ _ _ hne]
        exact i2 j (fun a h1 h2 => hj a h1 (by omega)))
  exact key

/-- The loop over the faces at lines 3189-3198 adds to `src[i][k]` one term for every face
whose edge is active at `k`. -/
theorem qsourceFaces_val (g : Grid) (pr : Props) (ph : Phys) (i n : Nat) (r : Nat → REAL)
    (k : Nat) :
    forLoop (fun nf (r : Nat → REAL) =>
      let ne := g.face (i * g.maxfaces + nf)
      forLoop (fun k (r : Nat → REAL) => setAt r k
          (r k + (ph.u ne k + pr.imfac2 / pr.imfac1 * ph.u_old ne k
            + pr.imfac3 / pr.imfac1 * ph.u_old2 ne k)
            * g.dzf ne k * g.normal (i * g.maxfaces + nf) * g.df ne))
        (g.ctop i) (g.Nke ne - g.ctop i) r) 0 n r k
    = r k + ∑ nf in Finset.range n,
        if g.ctop i ≤ k ∧ k < g.Nke (g.face (i * g.maxfaces + nf)) then
          (ph.u (g.face (i * g.maxfaces + nf)) k
            + pr.imfac2 / pr.imfac1 * ph.u_old (g.face (i * g.maxfaces + nf)) k
            + pr.imfac3 / pr.imfac1 * ph.u_old2 (g.face (i * g.maxfaces + nf)) k)
            * g.dzf (g.face (i * g.maxfaces + nf)) k * g.normal (i * g.maxfaces + nf)
            * g.df (g.face (i * g.maxfaces + nf))
        else 0 := by
  induction n with
  | zero => simp [forLoop]
  | succ n ih =>
    rw [Finset.sum_range_succ, ← add_assoc]
    simp only [forLoop, Nat.zero_add]
    rw [rowAddLoop (fun k => (ph.u (g.face (i * g.maxfaces + n)) k
        + pr.imfac2 / pr.imfac1 * ph.u_old (g.face (i * g.maxfaces + n)) k
        + pr.imfac3 / pr.imfac1 * ph.u_old2 (g.face (i * g.maxfaces + n)) k)
        * g.dzf (g.face (i * g.maxfaces + n)) k * g.normal (i * g.maxfaces + n)
        * g.df (g.face (i * g.maxfaces + n))), ih]
    congr 1
    by_cases hc : g.ctop i ≤ k ∧ k < g.Nke (g.face (i * g.maxfaces + n))
    · have hc2 : g.ctop i ≤ k ∧
          k < g.ctop i + (g.Nke (g.face (i * g.maxfaces + n)) - g.ctop i) := by omega
      rw [if_pos hc, if_pos hc2]
    · have hc2 : ¬ (g.ctop i ≤ k ∧
          k < g.ctop i + (g.Nke (g.face (i * g.maxfaces + n)) - g.ctop i)) := by omega
      rw [if_neg hc, if_neg hc2]

/-- The value `ComputeQSource` leaves in an active layer of a computational cell, whatever
the row held before. -/
theorem qsourceRow_val (g : Grid) (pr : Props) (ph : Phys) (w : Nat → Nat → REAL) (i : Nat)
    (row : Nat → REAL) (k : Nat) (h1 : g.ctop i ≤ k) (h2 : k < g.Nk i) :
    qsourceRow g pr ph w i row k
      = (g.Ac i * (w i k - w i (k + 1))
          + pr.imfac2 / pr.imfac1 * g.Ac i * (ph.w_old i k - ph.w_old i (k + 1))
          + pr.imfac3 / pr.imfac1 * g.Ac i * (ph.w_old2 i k - ph.w_old2 i (k + 1))
          + ∑ nf in Finset.range (g.nfaces i),
              if g.ctop i ≤ k ∧ k < g.Nke (g.face (i * g.maxfaces + nf)) then
                (ph.u (g.face (i * g.maxfaces + nf)) k
                  + pr.imfac2 / pr.imfac1 * ph.u_old (g.face (i * g.maxfaces + nf)) k
                  + pr.imfac3 / pr.imfac1 * ph.u_old2 (g.face (i * g.maxfaces + nf)) k)
                  * g.dzf (g.face (i * g.maxfaces + nf)) k * g.normal (i * g.maxfaces + nf)
                  * g.df (g.face (i * g.maxfaces + nf))
              else 0) / pr.dt := by
  have hr : g.ctop i ≤ k ∧ k < g.ctop i + (g.Nk i - g.ctop i) := by omega
  unfold qsourceRow
  simp only
  rw [rowMapLoop (fun _ v => v / pr.dt), if_pos hr, qsourceFaces_val,
    rowAssignLoop (fun k => g.Ac i * (w i k - w i (k + 1))
      + pr.imfac2 / pr.imfac1 * g.Ac i * (ph.w_old i k - ph.w_old i (k + 1))
      + pr.imfac3 / pr.imfac1 * g.Ac i * (ph.w_old2 i k - ph.w_old2 i (k + 1))), if_pos hr]

/-- What `ComputeQSource` returns: the source of every active layer of a computational cell
and `D[j] = df[j]/dg[j]` on every edge. -/
theorem ComputeQSource_val (g : Grid) (pr : Props) (ph : Phys) (w src : Nat → Nat → REAL)
    (hinj : ComputationalOnce g) :
    (∀ iptr, g.celldist 0 ≤ iptr → iptr < g.celldist 1 →
      ∀ k, g.ctop (g.cellp iptr) ≤ k → k < g.Nk (g.cellp iptr) →
        (ComputeQSource g pr ph w src).src (g.cellp iptr) k
          = qsourceRow g pr ph w (g.cellp iptr) (fun _ => 0) k) ∧
    (∀ j, j < g.Ne → (ComputeQSource g pr ph w src).D j = g.df j / g.dg j) := by
  refine ⟨?_, ?_⟩
  · intro iptr h1 h2 k hk1 hk2
    unfold ComputeQSource
    simp only
    rw [(rowsLoop_spec g.cellp (g.celldist 0) (g.celldist 1 - g.celldist 0)
      (fun i row => qsourceRow g pr ph w i row) _
      (fun a b a1 a2 b1 b2 hab => hinj a b a1 (by omega) b1 (by omega) hab)).1 iptr h1
      (by omega)]
    rw [qsourceRow_val g pr ph w _ _ k hk1 hk2, qsourceRow_val g pr ph w _ _ k hk1 hk2]
  · intro j hj
    unfold ComputeQSource
    simp only
    rw [rowAssignLoop (fun j => g.df j / g.dg j)]
    have h : 0 ≤ j ∧ j < 0 + g.Ne := by omega
    rw [if_pos h]

/-- The vertical coefficients that `QCoefficients` leaves for a cell of the mesh. -/
theorem QCoefficients_val (g : Grid) (dzz coef0 : Nat → Nat → REAL) (i : Nat) (hi : i < g.Nc) :
    QCoefficients g dzz coef0 i (g.ctop i) = g.Ac i / dzz i (g.ctop i) ∧
    (∀ k, g.ctop i < k → k < g.Nk i →
      QCoefficients g dzz coef0 i k = 2 * g.Ac i / (dzz i k + dzz i (k - 1))) := by
  have hrow : QCoefficients g dzz coef0 i
      = forLoop (fun k (r : Nat → REAL) => setAt r k (2 * g.Ac i / (dzz i k + dzz i (k - 1))))
          (g.ctop i + 1) (g.Nk i - (g.ctop i + 1))
          (setAt (coef0 i) (g.ctop i) (g.Ac i / dzz i (g.ctop i))) := by
    unfold QCoefficients
    exact (rowsLoop_spec (fun a => a) 0 g.Nc
      (fun i row => forLoop (fun k (r : Nat → REAL) =>
          setAt r k (2 * g.Ac i / (dzz i k + dzz i (k - 1))))
        (g.ctop i + 1) (g.Nk i - (g.ctop i + 1))
        (setAt row (g.ctop i) (g.Ac i / dzz i (g.ctop i)))) coef0
      (by intro a b _ _ _ _ h; exact h)).1 i (by omega) (by omega)
  rw [hrow]
  refine ⟨?_, ?_⟩
  · rw [rowAssignLoop (fun k => 2 * g.Ac i / (dzz i k + dzz i (k - 1)))]
    have h : ¬ (g.ctop i + 1 ≤ g.ctop i ∧
        g.ctop i < g.ctop i + 1 + (g.Nk i - (g.ctop i + 1))) := by omega
    rw [if_neg h, setAt_same]
  · intro k hk1 hk2
    rw [rowAssignLoop (fun k => 2 * g.Ac i / (dzz i k + dzz i (k - 1)))]
    have h : g.ctop i + 1 ≤ k ∧ k < g.ctop i + 1 + (g.Nk i - (g.ctop i + 1)) := by omega
    rw [if_pos h]

/-- The row `w[i]` after the correction of lines 3112-3116. -/
theorem correctColumn_val (g : Grid) (pr : Props) (dzz qc : Nat → Nat → REAL) (i : Nat)
    (row : Nat → REAL) :
    (correctColumn g pr dzz qc i row (g.ctop i)
      = row (g.ctop i) + 2 * pr.dt / dzz i (g.ctop i) * qc i (g.ctop i)) ∧
    (∀ k, g.ctop i < k → k < g.Nk i →
      correctColumn g pr dzz qc i row k
        = row k - 2 * pr.dt / (dzz i (k - 1) + dzz i k) * (qc i (k - 1) - qc i k)) ∧
    (∀ k, g.ctop i < k → g.Nk i ≤ k → correctColumn g pr dzz qc i row k = row k) := by
  have hmap := rowMapLoop
    (fun k v => v - 2 * pr.dt / (dzz i (k - 1) + dzz i k) * (qc i (k - 1) - qc i k))
    (g.ctop i + 1) (g.Nk i - (g.ctop i + 1)) row
  unfold correctColumn
  refine ⟨?_, ?_, ?_⟩
  · rw [setAt_same, hmap]
    have h : ¬ (g.ctop i + 1 ≤ g.ctop i ∧
        g.ctop i < g.ctop i + 1 + (g.Nk i - (g.ctop i + 1))) := by omega
    rw [if_neg h]
  · intro k hk1 hk2
    have hne : k ≠ g.ctop i := by omega
    rw [setAt_other _ _ _ _ hne, hmap]
    have h : g.ctop i + 1 ≤ k ∧ k < g.ctop i + 1 + (g.Nk i - (g.ctop i + 1)) := by omega
    rw [if_pos h]
  · intro k hk1 hk2
    have hne : k ≠ g.ctop i := by omega
    rw [setAt_other _ _ _ _ hne, hmap]
    have h : ¬ (g.ctop i + 1 ≤ k ∧ k < g.ctop i + 1 + (g.Nk i - (g.ctop i + 1))) := by omega
    rw [if_neg h]

/-- The row `u[j]` after the correction of lines 3103-3106. -/
theorem correctEdgeRow_val (g : Grid) (pr : Props) (D : Nat → REAL) (qc : Nat → Nat → REAL)
    (j : Nat) (row : Nat → REAL) (hl : g.etop j + 1 < g.Nke j) (k : Nat)
    (hk1 : g.etop j ≤ k) (hk2 : k < g.Nke j) :
    correctEdgeRow g pr D qc j row k
      = if D j ≠ 0 then
          row k - pr.dt / g.dg j
            * (qc (g.grad (2 * j)).toNat k - qc (g.grad (2 * j + 1)).toNat k)
        else row k := by
  have hmap := rowMapLoop
    (fun k v => v - pr.dt / g.dg j
      * (qc (g.grad (2 * j)).toNat k - qc (g.grad (2 * j + 1)).toNat k))
    (g.etop j) (g.Nke j - g.etop j) row
  unfold correctEdgeRow
  by_cases hD : D j ≠ 0
  · have hc : D j ≠ 0 ∧ (g.etop j : Int) < (g.Nke j : Int) - 1 := ⟨hD, by omega⟩
    rw [if_pos hc, if_pos hD, hmap]
    have h : g.etop j ≤ k ∧ k < g.etop j + (g.Nke j - g.etop j) := by omega
    rw [if_pos h]
  · have hc : ¬ (D j ≠ 0 ∧ (g.etop j : Int) < (g.Nke j : Int) - 1) := fun h => hD h.1
    rw [if_neg hc, if_neg hD]

/-- The rows that `Corrector` leaves in `u` for the computational edges and in `w` for the
computational cells. -/
theorem Corrector_val (g : Grid) (pr : Props) (edgedist edgep : Nat → Nat)
    (dzz : Nat → Nat → REAL) (D : Nat → REAL) (qc : Nat → Nat → REAL) (s : FlowState)
    (hinj : ComputationalOnce g) (hedge : EdgesOnce edgedist edgep) :
    (∀ a, edgedist 0 ≤ a → a < edgedist 1 →
      (Corrector g pr edgedist edgep dzz D qc s).u (edgep a)
        = correctEdgeRow g pr D qc (edgep a) (s.u (edgep a))) ∧
    (∀ a, g.celldist 0 ≤ a → a < g.celldist 1 →
      (Corrector g pr edgedist edgep dzz D qc s).w (g.cellp a)
        = correctColumn g pr dzz qc (g.cellp a) (s.w (g.cellp a))) := by
  refine ⟨?_, ?_⟩
  · intro a h1 h2
    unfold Corrector
    simp only
    exact (rowsLoop_spec edgep (edgedist 0) (edgedist 1 - edgedist 0)
      (fun j row => correctEdgeRow g pr D qc j row) s.u
      (fun a b a1 a2 b1 b2 hab => hedge a b a1 (by omega) b1 (by omega) hab)).1 a h1
      (by omega)
  · intro a h1 h2
    unfold Corrector
    simp only
    exact (rowsLoop_spec g.cellp (g.celldist 0) (g.celldist 1 - g.celldist 0)
      (fun i row => correctColumn g pr dzz qc i row) s.w
      (fun a b a1 a2 b1 b2 hab => hinj a b a1 (by omega) b1 (by omega) hab)).1 a h1
      (by omega)

/-- The vertical part of the corrected divergence: the correction of `w` removes `dt` times
the vertical stencil of `OperatorQ` with the coefficients of `QCoefficients`. -/
theorem correction_vertical (g : Grid) (pr : Props) (dzz coef0 qc : Nat → Nat → REAL)
    (row : Nat → REAL) (i : Nat) (hi : i < g.Nc) (hl : g.ctop i + 1 < g.Nk i) (k : Nat)
    (hk1 : g.ctop i ≤ k) (hk2 : k < g.Nk i) :
    g.Ac i * (correctColumn g pr dzz qc i row k - correctColumn g pr dzz qc i row (k + 1))
      = g.Ac i * (row k - row (k + 1))
        - pr.dt * ghostStencil g (QCoefficients g dzz coef0) qc i k := by
  obtain ⟨c1, c2, c3⟩ := correctColumn_val g pr dzz qc i row
  obtain ⟨q1, q2⟩ := QCoefficients_val g dzz coef0 i hi
  unfold ghostStencil ghostX
  by_cases ht : k = g.ctop i
  · subst ht
    have e1 : ((g.ctop i : Int) - 1 = (g.ctop i : Int) - 1) := rfl
    have e3 : ¬ ((g.ctop i : Int) + 1 = (g.ctop i : Int) - 1) := by omega
    have e4 : ¬ ((g.ctop i : Int) + 1 = (g.Nk i : Int)) := by omega
    have e5 : ((g.ctop i : Int) + 1).toNat = g.ctop i + 1 := by omega
    rw [if_pos e1, if_neg e3, if_neg e4, e5, c1, c2 (g.ctop i + 1) (by omega) (by omega), q1,
      q2 (g.ctop i + 1) (by omega) (by omega)]
    simp only [Nat.add_sub_cancel]
    ring
  · by_cases hb : k + 1 = g.Nk i
    · have e1 : ¬ ((k : Int) - 1 = (g.ctop i : Int) - 1) := by omega
      have e2 : ¬ ((k : Int) - 1 = (g.Nk i : Int)) := by omega
      have e3 : ¬ ((k : Int) + 1 = (g.ctop i : Int) - 1) := by omega
      have e4 : ((k : Int) + 1 = (g.Nk i : Int)) := by omega
      have e5 : ((k : Int) - 1).toNat = k - 1 := by omega
      have e6 : g.Nk i - 1 = k := by omega
      rw [if_neg e1, if_neg e2, if_neg e3, if_pos e4, e5, e6, c2 k (by omega) hk2,
        c3 (k + 1) (by omega) (by omega), q2 k (by omega) hk2]
      ring
    · have e1 : ¬ ((k : Int) - 1 = (g.ctop i : Int) - 1) := by omega
      have e2 : ¬ ((k : Int) - 1 = (g.Nk i : Int)) := by omega
      have e3 : ¬ ((k : Int) + 1 = (g.ctop i : Int) - 1) := by omega
      have e4 : ¬ ((k : Int) + 1 = (g.Nk i : Int)) := by omega
      have e5 : ((k : Int) - 1).toNat = k - 1 := by omega
      have e6 : ((k : Int) + 1).toNat = k + 1 := by omega
      rw [if_neg e1, if_neg e2, if_neg e3, if_neg e4, e5, e6, c2 k (by omega) hk2,
        c2 (k + 1) (by omega) (by omega), q2 k (by omega) hk2,
        q2 (k + 1) (by omega) (by omega)]
      simp only [Nat.add_sub_cancel]
      ring

/-- The horizontal part of the corrected divergence: the correction of `u` removes `dt`
times the horizontal part of `OperatorQ` with `D = df/dg`. -/
theorem correction_horizontal (g : Grid) (pr : Props) (edgedist edgep : Nat → Nat)
    (D : Nat → REAL) (qc u : Nat → Nat → REAL) (i : Nat)
    (hset : PressureSetting g pr edgedist edgep i)
    (hD : ∀ nf, nf < g.nfaces i →
      D (g.face (i * g.maxfaces + nf))
        = g.df (g.face (i * g.maxfaces + nf)) / g.dg (g.face (i * g.maxfaces + nf)))
    (k : Nat) (hk1 : g.ctop i ≤ k) (hk2 : k < g.Nk i) :
    ∑ nf in Finset.range (g.nfaces i),
      correctEdgeRow g pr D qc (g.face (i * g.maxfaces + nf)) (u (g.face (i * g.maxfaces + nf))) k
        * g.dzf (g.face (i * g.maxfaces + nf)) k * g.normal (i * g.maxfaces + nf)
        * g.df (g.face (i * g.maxfaces + nf))
    = ∑ nf in Finset.range (g.nfaces i),
        u (g.face (i * g.maxfaces + nf)) k * g.dzf (g.face (i * g.maxfaces + nf)) k
          * g.normal (i * g.maxfaces + nf) * g.df (g.face (i * g.maxfaces + nf))
      - pr.dt * horizontalQ g D qc i k := by
  unfold horizontalQ
  rw [Finset.mul_sum, ← Finset.sum_sub_distrib]
  apply Finset.sum_congr rfl
  intro nf hnf
  have hlt := Finset.mem_range.mp hnf
  obtain ⟨s1, s2⟩ := hset.sameTop nf hlt
  have s3 := hset.sameBottom nf hlt
  have hint := hset.interior nf hlt
  have hcond : g.neigh (i * g.maxfaces + nf) ≠ -1 ∧
      (if g.ctop (g.neigh (i * g.maxfaces + nf)).toNat > g.ctop i
        then g.ctop (g.neigh (i * g.maxfaces + nf)).toNat else g.ctop i) ≤ k ∧
      k < g.Nke (g.face (i * g.maxfaces + nf)) := by
    refine ⟨hint, ?_, by omega⟩
    rw [s1, if_neg (lt_irrefl _)]
    exact hk1
  have hlay := hset.layers
  rw [if_pos hcond, correctEdgeRow_val g pr D qc _ _ (by omega) k (by omega) (by omega)]
  by_cases hD0 : D (g.face (i * g.maxfaces + nf)) ≠ 0
  · rw [if_pos hD0, hD nf hlt]
    rcases hset.orient nf hlt with ⟨o1, o2, o3⟩ | ⟨o1, o2, o3⟩
    · rw [o1, o2, o3]
      simp only [Int.toNat_ofNat]
      ring
    · rw [o1, o2, o3]
      simp only [Int.toNat_ofNat]
      ring
  · rw [if_neg hD0]
    have hz : D (g.face (i * g.maxfaces + nf)) = 0 := not_not.mp hD0
    rw [hz]
    ring

/-- C21: in the setting of `PressureSetting` around the computational cell `i` (z-level
coordinate, subgrid off, `fac1 = 1`, `fac2 = fac3 = 0`, common top layer, every face an
interior computational edge with more than one active layer and `Nke = Nk`, normal `-1`
seen from `grad[2*ne]` and `+1` seen from `grad[2*ne+1]`), with `D = df/dg` and the
source `src` as left by `ComputeQSource` on the predicted `(u, w)`: if `qc` satisfies
`OperatorQ(qc)[i][k] = src[i][k]` on the active layers of `i`, then after `Corrector(qc)`
the divergence `Ac[i]*(w[i][k]-w[i][k+1]) + sum over faces of
u[ne][k]*dzf[ne][k]*normal[i,nf]*df[ne]` is exactly zero on every active layer `k`. -/
theorem Corrector_divergence_free (g : Grid) (pr : Props) (ph : Phys)
    (w src0 coef0 y0 dzz qc q0 : Nat → Nat → REAL) (edgedist edgep : Nat → Nat)
    (hinj : ComputationalOnce g) (hedge : EdgesOnce edgedist edgep)
    (iptr : Nat) (h1 : g.celldist 0 ≤ iptr) (h2 : iptr < g.celldist 1)
    (hi : g.cellp iptr < g.Nc)
    (hset : PressureSetting g pr edgedist edgep (g.cellp iptr))
    (hq : ∀ k, g.ctop (g.cellp iptr) ≤ k → k < g.Nk (g.cellp iptr) →
      OperatorQ g (ComputeQSource g pr ph w src0).D (QCoefficients g dzz coef0) qc y0
          (g.cellp iptr) k
        = (ComputeQSource g pr ph w src0).src (g.cellp iptr) k) :
    ∀ k, g.ctop (g.cellp iptr) ≤ k → k < g.Nk (g.cellp iptr) →
      cellDivergence g
        (Corrector g pr edgedist edgep dzz (ComputeQSource g pr ph w src0).D qc
          { u := ph.u, w := w, q := q0 }).u
        (Corrector g pr edgedist edgep dzz (ComputeQSource g pr ph w src0).D qc
          { u := ph.u, w := w, q := q0 }).w
        (g.cellp iptr) k = 0 := by
  intro k hk1 hk2
  obtain ⟨sv, dv⟩ := ComputeQSource_val g pr ph w src0 hinj
  have hq' := hq k hk1 hk2
  rw [OperatorQ_val g _ _ qc y0 iptr h1 h2 k hk1 hk2, sv iptr h1 h2 k hk1 hk2,
    qsourceRow_val g pr ph w _ _ k hk1 hk2, hset.fac1, hset.fac2, hset.fac3] at hq'
  generalize (ComputeQSource g pr ph w src0).D = D at hq' dv ⊢
  obtain ⟨cu, cw⟩ := Corrector_val g pr edgedist edgep dzz D qc
    { u := ph.u, w := w, q := q0 } hinj hedge
  have hsum : ∑ nf in Finset.range (g.nfaces (g.cellp iptr)),
      (if g.ctop (g.cellp iptr) ≤ k ∧
          k < g.Nke (g.face (g.cellp iptr * g.maxfaces + nf)) then
        (ph.u (g.face (g.cellp iptr * g.maxfaces + nf)) k
          + 0 / 1 * ph.u_old (g.face (g.cellp iptr * g.maxfaces + nf)) k
          + 0 / 1 * ph.u_old2 (g.face (g.cellp iptr * g.maxfaces + nf)) k)
          * g.dzf (g.face (g.cellp iptr * g.maxfaces + nf)) k
          * g.normal (g.cellp iptr * g.maxfaces + nf)
          * g.df (g.face (g.cellp iptr * g.maxfaces + nf))
      else 0)
      = ∑ nf in Finset.range (g.nfaces (g.cellp iptr)),
        ph.u (g.face (g.cellp iptr * g.maxfaces + nf)) k
          * g.dzf (g.face (g.cellp iptr * g.maxfaces + nf)) k
          * g.normal (g.cellp iptr * g.maxfaces + nf)
          * g.df (g.face (g.cellp iptr * g.maxfaces + nf)) := by
    apply Finset.sum_congr rfl
    intro nf hnf
    have hb := hset.sameBottom nf (Finset.mem_range.mp hnf)
    rw [if_pos ⟨hk1, by omega⟩]
    ring
  rw [hsum] at hq'
  have E1 : pr.dt * (horizontalQ g D qc (g.cellp iptr) k
        + ghostStencil g (QCoefficients g dzz coef0) qc (g.cellp iptr) k)
      = g.Ac (g.cellp iptr) * (w (g.cellp iptr) k - w (g.cellp iptr) (k + 1))
        + ∑ nf in Finset.range (g.nfaces (g.cellp iptr)),
          ph.u (g.face (g.cellp iptr * g.maxfaces + nf)) k
            * g.dzf (g.face (g.cellp iptr * g.maxfaces + nf)) k
            * g.normal (g.cellp iptr * g.maxfaces + nf)
            * g.df (g.face (g.cellp iptr * g.maxfaces + nf)) := by
    rw [hq']
    field_simp [hset.step]
  have hU : ∑ nf in Finset.range (g.nfaces (g.cellp iptr)),
      (Corrector g pr edgedist edgep dzz D qc { u := ph.u, w := w, q := q0 }).u
          (g.face (g.cellp iptr * g.maxfaces + nf)) k
        * g.dzf (g.face (g.cellp iptr * g.maxfaces + nf)) k
        * g.normal (g.cellp iptr * g.maxfaces + nf)
        * g.df (g.face (g.cellp iptr * g.maxfaces + nf))
      = ∑ nf in Finset.range (g.nfaces (g.cellp iptr)),
        correctEdgeRow g pr D qc (g.face (g.cellp iptr * g.maxfaces + nf))
            (ph.u (g.face (g.cellp iptr * g.maxfaces + nf))) k
          * g.dzf (g.face (g.cellp iptr * g.maxfaces + nf)) k
          * g.normal (g.cellp iptr * g.maxfaces + nf)
          * g.df (g.face (g.cellp iptr * g.maxfaces + nf)) := by
    apply Finset.sum_congr rfl
    intro nf hnf
    obtain ⟨jptr, j1, j2, j3⟩ := hset.listed nf (Finset.mem_range.mp hnf)
    rw [← j3, cu jptr j1 j2]
  unfold cellDivergence
  rw [hU, cw iptr h1 h2,
    correction_horizontal g pr edgedist edgep D qc ph.u (g.cellp iptr) hset
      (fun nf hnf => dv _ (hset.inMesh nf hnf)) k hk1 hk2,
    correction_vertical g pr dzz coef0 qc _ (g.cellp iptr) hi hset.layers k hk1 hk2]
  linear_combination -E1

/-- The twin mesh lists its two cells once and its edge once. -/
theorem twinMesh_once : ComputationalOnce twinMesh ∧ EdgesOnce oneEdgeRange (fun n => n) :=
  ⟨by intro a b _ _ _ _ hab; exact hab, by intro a b _ _ _ _ hab; exact hab⟩

/-- The setting of claim C21 holds around cell 0 of the twin mesh. -/
theorem twinMesh_setting :
    PressureSetting twinMesh implicitProps oneEdgeRange (fun n => n) (twinMesh.cellp 0) where
  fac1 := rfl
  fac2 := rfl
  fac3 := rfl
  step := by simp [implicitProps]
  layers := by decide
  interior := by
    intro nf hnf
    have h0 : nf = 0 := by
      have : nf < 1 := hnf
      omega
    subst h0
    simp [twinMesh]
  inMesh := by intro nf _; simp [twinMesh]
  listed := by intro nf _; exact ⟨0, by decide, by decide, rfl⟩
  sameTop := by intro nf _; exact ⟨rfl, rfl⟩
  sameBottom := by intro nf _; rfl
  orient := by
    intro nf hnf
    have h0 : nf = 0 := by
      have : nf < 1 := hnf
      omega
    subst h0
    left
    simp [twinMesh]

/-- The pressure correction of the example solves the Poisson equation in cell 0. -/
theorem twinMesh_poisson : ∀ k, twinMesh.ctop (twinMesh.cellp 0) ≤ k →
    k < twinMesh.Nk (twinMesh.cellp 0) →
    OperatorQ twinMesh (ComputeQSource twinMesh implicitProps twinPhys twinW (fun _ _ => 0)).D
        (QCoefficients twinMesh (fun _ _ => 1) (fun _ _ => 0)) twinQ (fun _ _ => 0)
        (twinMesh.cellp 0) k
      = (ComputeQSource twinMesh implicitProps twinPhys twinW (fun _ _ => 0)).src
          (twinMesh.cellp 0) k := by
  intro k _ hk
  have hk2 : k < 2 := hk
  interval_cases k
  · simp [OperatorQ, qColumn, QCoefficients, ComputeQSource, qsourceRow, forLoop, twinMesh,
      twinPhys, twinW, twinQ, implicitProps]
    unfold setAt
    norm_num
  · simp [OperatorQ, qColumn, QCoefficients, ComputeQSource, qsourceRow, forLoop, twinMesh,
      twinPhys, twinW, twinQ, implicitProps]
    unfold setAt
    norm_num

/-- C21 at cell 0 of the twin mesh: the source is `(-2, -3)`, not zero, and the corrected
field has no divergence in either layer. -/
theorem Corrector_divergence_free_witness :
    (ComputationalOnce twinMesh ∧ EdgesOnce oneEdgeRange (fun n => n) ∧
      PressureSetting twinMesh implicitProps oneEdgeRange (fun n => n) (twinMesh.cellp 0)) ∧
    (∀ k, twinMesh.ctop (twinMesh.cellp 0) ≤ k → k < twinMesh.Nk (twinMesh.cellp 0) →
      cellDivergence twinMesh
        (Corrector twinMesh implicitProps oneEdgeRange (fun n => n) (fun _ _ => 1)
          (ComputeQSource twinMesh implicitProps twinPhys twinW (fun _ _ => 0)).D twinQ
          { u := twinPhys.u, w := twinW, q := fun _ _ => 0 }).u
        (Corrector twinMesh implicitProps oneEdgeRange (fun n => n) (fun _ _ => 1)
          (ComputeQSource twinMesh implicitProps twinPhys twinW (fun _ _ => 0)).D twinQ
          { u := twinPhys.u, w := twinW, q := fun _ _ => 0 }).w
        (twinMesh.cellp 0) k = 0) :=
  ⟨⟨twinMesh_once.1, twinMesh_once.2, twinMesh_setting⟩,
   Corrector_divergence_free twinMesh implicitProps twinPhys twinW (fun _ _ => 0)
     (fun _ _ => 0) (fun _ _ => 0) (fun _ _ => 1) twinQ (fun _ _ => 0) oneEdgeRange
     (fun n => n) twinMesh_once.1 twinMesh_once.2 0 (by decide) (by decide) (by decide)
     twinMesh_setting twinMesh_poisson⟩

end Suntans
